import Mathlib

/-!
# servo-hdctools: GPIO multiplexer, interface registry and I2C master

A shallow embedding of `src/ftdigpio.c`, `lib/ftdicommon.c` and `lib/ftdii2c.c`
(with the macros of `include/ftdi_common.h` and `servo/ftdii2c.h`), of `process_client`
with its two parsers in `src/servod.c`, and of the UART pass-through loop of
`lib/ftdiuart.c`.

Conventions.
* `uint8_t` values are natural numbers; a store into a `uint8_t` is written `% 256`.
* `int` return codes are integers.
* A C string is the list of its characters up to the terminating NUL.
* The libftdi transport is external.  Every call made on the `ftdi_context` is
  appended to a trace, and the answer of the device is given by an arbitrary
  function of the trace (so the answer may depend on everything sent so far).
-/

namespace Servo

/-! ## The external transport (libftdi) -/

/-- The libftdi calls issued by the modelled functions, with their arguments. -/
inductive FtdiCall where
  | set_bitmode (bitmask : Nat) (mode : Nat)
  | write_data (buf : List Nat)
  | read_data (size : Nat)
  | read_pins
  | usb_purge_buffers
  deriving DecidableEq, Repr

/-- What the device answers to one call: the `int` the libftdi function returns and,
for the reading calls, the bytes it delivers. -/
structure FtdiReply where
  rv : Int
  data : List Nat
  deriving DecidableEq, Repr

/-- A transport behaviour: the answer to the last call of a trace, given the whole trace. -/
abbrev Transport := List FtdiCall → FtdiReply

/-- Issue one call: extend the trace and obtain the answer. -/
def ftdi_call (tr : Transport) (trace : List FtdiCall) (c : FtdiCall) :
    FtdiReply × List FtdiCall :=
  (tr (trace ++ [c]), trace ++ [c])

/-- The macro `CHECK_FTDI(fx, msg, context)` of `include/ftdi_common.h`:
`prn_dbg("CHECK_FTDI err:%d for %s\n", fx, msg); if (fx < 0) ERROR_FTDI(msg, context);`.
`prn_dbg` is a function, so the macro argument `fx` is evaluated twice: the call is issued
once for the debug print and once for the test.  A negative result is only logged.  The
answer returned here is the one of the second evaluation. -/
def CHECK_FTDI (tr : Transport) (trace : List FtdiCall) (c : FtdiCall) :
    FtdiReply × List FtdiCall :=
  ftdi_call tr (ftdi_call tr trace c).2 c

/-! ## Constants -/

/-- Modelled from the spec: libftdi's `enum ftdi_chip_type` (`ftdi.h` is not under the
sources); `TYPE_R` is the narrow part with the 4-bit CBUS bank. -/
inductive ftdi_chip_type where
  | TYPE_AM | TYPE_BM | TYPE_2232C | TYPE_R | TYPE_2232H | TYPE_4232H
  deriving DecidableEq, Repr

/-- `enum ftdi_interface_type` of `include/ftdi_common.h`. -/
inductive ftdi_interface_type where
  | ANY | GPIO | I2C | JTAG | SPI | UART
  deriving DecidableEq, Repr

/-- Modelled from the spec: libftdi's `BITMODE_BITBANG` mode byte. -/
def BITMODE_BITBANG : Nat := 0x01
/-- Modelled from the spec: libftdi's `BITMODE_CBUS` mode byte. -/
def BITMODE_CBUS : Nat := 0x20
/-- Modelled from the spec: libftdi's MPSSE command `SET_BITS_LOW`, the set-low-bits
command byte `0x80`. -/
def SET_BITS_LOW : Nat := 0x80
/-- Modelled from the spec: libftdi's MPSSE command `TCK_DIVISOR`, the divisor-select
command byte `0x86`. -/
def TCK_DIVISOR : Nat := 0x86
/-- Modelled from the spec: libftdi's MPSSE command `SEND_IMMEDIATE`, byte `0x87`. -/
def SEND_IMMEDIATE : Nat := 0x87

def FGPIO_ERR_NONE : Int := 0
def FGPIO_ERR_WR : Int := 1
def FGPIO_ERR_RD : Int := 2
def FGPIO_ERR_MASK : Int := 3
def FGPIO_ERR_NOIMP : Int := 4

/-! ## GPIO channel (`src/ftdigpio.c`) -/

/-- The record `struct gpio_s` (three `uint8_t`). -/
structure gpio_s where
  value : Nat
  direction : Nat
  mask : Nat
  deriving DecidableEq, Repr

/-- The record `struct fgpio_context`; of `fc` only the chip type is kept, the calls made on
it are recorded in the trace. -/
structure fgpio_context where
  fc_type : ftdi_chip_type
  gpio : gpio_s
  error : Int
  deriving DecidableEq, Repr

/-- All three shadow registers are bytes. -/
def gpio_s.wf (g : gpio_s) : Prop :=
  g.value < 256 ∧ g.direction < 256 ∧ g.mask < 256

instance (g : gpio_s) : Decidable g.wf := by
  unfold gpio_s.wf; exact inferInstance

/-- What `fgpio_wr_rd` leaves behind: the return code, the context, the byte behind `rd_val`
(`none` for a NULL pointer) and the transport trace. -/
structure fgpio_result where
  rv : Int
  fgc : fgpio_context
  rd_val : Option Nat
  trace : List FtdiCall
  deriving DecidableEq, Repr

/-- Lines 61-74 of `fgpio_wr_rd`: the change flags and the merge of the masked bits.
`~m & x` on the promoted `uint8_t` operands is `(0xff ^^^ m) &&& x`; the result is stored
into a `uint8_t`.  Returns `(dir_chg, val_chg, gpio)`. -/
def fgpio_merge (gpio new_gpio : gpio_s) : Bool × Bool × gpio_s :=
  let dir_chg := decide (new_gpio.mask &&& (gpio.direction ^^^ new_gpio.direction) ≠ 0)
  let direction :=
    if dir_chg then
      ((new_gpio.mask &&& new_gpio.direction) ||| ((0xff ^^^ new_gpio.mask) &&& gpio.direction)) % 256
    else gpio.direction
  let val_chg := decide (new_gpio.mask &&& (gpio.value ^^^ new_gpio.value) ≠ 0)
  let value :=
    if val_chg then
      ((new_gpio.mask &&& new_gpio.value) ||| ((0xff ^^^ new_gpio.mask) &&& gpio.value)) % 256
    else gpio.value
  (dir_chg, val_chg, { gpio with direction := direction, value := value })

/-- Lines 76-114 of `fgpio_wr_rd`: the physical write of the merged shadow.  The first
component is `some rv` when the function returns early with `rv`. -/
def fgpio_write (tr : Transport) (trace : List FtdiCall) (fc_type : ftdi_chip_type)
    (gpio : gpio_s) (dir_chg val_chg : Bool) (itype : ftdi_interface_type) :
    Option Int × List FtdiCall :=
  if fc_type = ftdi_chip_type.TYPE_R ∧ (val_chg || dir_chg) = true then
    let buf0 := (((0xf &&& gpio.direction) <<< 4) ||| (0xf &&& gpio.value)) % 256
    (none, (CHECK_FTDI tr trace (FtdiCall.set_bitmode buf0 BITMODE_CBUS)).2)
  else
    if itype = ftdi_interface_type.UART then (some FGPIO_ERR_NOIMP, trace)
    else
      let trace1 :=
        if itype = ftdi_interface_type.GPIO ∧ dir_chg = true then
          (CHECK_FTDI tr trace (FtdiCall.set_bitmode gpio.direction BITMODE_BITBANG)).2
        else trace
      if (val_chg || dir_chg) = true then
        let buf :=
          if itype ≠ ftdi_interface_type.GPIO then [SET_BITS_LOW, gpio.value, gpio.direction]
          else [gpio.value]
        let r := ftdi_call tr trace1 (FtdiCall.write_data buf)
        if r.1.rv ≠ (buf.length : Int) then (some FGPIO_ERR_WR, r.2)
        else (none, r.2)
      else (none, trace1)

/-- One evaluation of `ftdi_read_pins(fc, rd_val)`: on success (a non-negative return) the
byte delivered by the device is stored behind the pointer, otherwise the byte is left
as it was. -/
def ftdi_read_pins (tr : Transport) (trace : List FtdiCall) (pins : Nat) :
    Int × Nat × List FtdiCall :=
  let r := ftdi_call tr trace FtdiCall.read_pins
  (r.1.rv, if r.1.rv < 0 then pins else r.1.data.headD 0 % 256, r.2)

/-- Lines 116-123 of `fgpio_wr_rd`: the pin readback (issued twice by `CHECK_FTDI`) and the
nibble mask for `TYPE_R` parts. -/
def fgpio_read (tr : Transport) (trace : List FtdiCall) (fc_type : ftdi_chip_type)
    (rd_val : Option Nat) : Option Nat × List FtdiCall :=
  match rd_val with
  | none => (none, trace)
  | some p =>
    let r1 := ftdi_read_pins tr trace p
    let r2 := ftdi_read_pins tr r1.2.2 r1.2.1
    let v := if fc_type = ftdi_chip_type.TYPE_R then r2.2.1 &&& 0xf else r2.2.1
    (some v, r2.2.2)

/-- The function `fgpio_wr_rd(fgc, new_gpio, rd_val, itype)`; `new_gpio = none` and
`rd_val = none` stand for NULL pointers. -/
def fgpio_wr_rd (tr : Transport) (trace : List FtdiCall) (fgc : fgpio_context)
    (new_gpio : Option gpio_s) (rd_val : Option Nat) (itype : ftdi_interface_type) :
    fgpio_result :=
  match new_gpio with
  | none =>
    let r := fgpio_read tr trace fgc.fc_type rd_val
    ⟨FGPIO_ERR_NONE, fgc, r.1, r.2⟩
  | some ng =>
    if (fgc.gpio.mask ||| ng.mask) ≠ fgc.gpio.mask then
      ⟨FGPIO_ERR_MASK, fgc, rd_val, trace⟩
    else
      let m := fgpio_merge fgc.gpio ng
      let fgc1 : fgpio_context := { fgc with gpio := m.2.2 }
      let w := fgpio_write tr trace fgc.fc_type m.2.2 m.1 m.2.1 itype
      match w.1 with
      | some rv => ⟨rv, fgc1, rd_val, w.2⟩
      | none =>
        let r := fgpio_read tr w.2 fgc.fc_type rd_val
        ⟨FGPIO_ERR_NONE, fgc1, r.1, r.2⟩

/-! ## Faults -/

/-- Ways in which the C program leaves defined behaviour: a failed `assert`, or a load or
store outside the object pointed to. -/
inductive Fault where
  | assert_failed
  | out_of_bounds
  deriving DecidableEq, Repr

/-! ## Interface registry (`lib/ftdicommon.c`, `src/ftdi_common.c`) -/

/-- The record `struct ftdi_itype`; `context` is the opaque channel handle. -/
structure ftdi_itype where
  type : ftdi_interface_type
  context : Nat
  deriving DecidableEq, Repr

/-- Result of a lookup: `entry` is the index of the array element whose address is returned
(`none` for NULL), `reads` lists the indices of the elements that were read. -/
structure lookup_result where
  entry : Option Nat
  reads : List Nat
  deriving DecidableEq, Repr

/-- The function `fcom_lookup_interface(interfaces, cnt, interface_num, itype)`.
`interface_num` is an `unsigned int`, so `interface_num-1` is computed modulo `2^32`.
Reading an element outside the array is a fault. -/
def fcom_lookup_interface (interfaces : List ftdi_itype) (cnt interface_num : Nat)
    (itype : ftdi_interface_type) : Except Fault lookup_result :=
  if interface_num > cnt then Except.ok ⟨none, []⟩
  else
    let idx := (interface_num + 2 ^ 32 - 1) % 2 ^ 32
    if itype ≠ ftdi_interface_type.ANY then
      match interfaces[idx]? with
      | none => Except.error Fault.out_of_bounds
      | some e =>
        if e.type ≠ itype then Except.ok ⟨none, [idx]⟩
        else Except.ok ⟨some idx, [idx]⟩
    else Except.ok ⟨some idx, []⟩

/-! ## I2C channel (`lib/ftdii2c.c`, `servo/ftdii2c.h`) -/

def FTDI_CLK_MAX_X5 : Nat := 30000000
def FTDI_CLK_MAX_X1 : Nat := 6000000
def FTDI_CLK_MIN : Nat := 100
def FTDI_CMD_X5_OFF : Nat := 0x8a
def FTDI_CMD_3PHASE : Nat := 0x8c
def FTDI_CMD_MFE_CLK_BIT_OUT : Nat := 0x13
def FTDI_CMD_MRE_CLK_BYTE_IN : Nat := 0x20
def FTDI_CMD_LRE_CLK_BIT_IN : Nat := 0x2a

def SCL_POS : Nat := 0x01
def SDA_POS : Nat := 0x02
def SDB_POS : Nat := 0x04
def FI2C_BUF_SIZE : Nat := 256

def FI2C_ERR_NONE : Int := 0
def FI2C_ERR_FTDI : Int := 1
def FI2C_ERR_ACK : Int := 2
def FI2C_ERR_CLK : Int := 3
def FI2C_ERR_READ : Int := 4
def FI2C_ERR_WRITE : Int := 5

/-- Conversion of a floating value to `int` in C: truncation toward zero. -/
def trunc_to_int (x : ℚ) : Int :=
  if 0 ≤ x then ⌊x⌋ else ⌈x⌉

/-- Modelled from the spec: libftdi's macro `DIV_VALUE` is not under the sources; the
divisor is `0` above 6 MHz and otherwise `6000000/rate - 1` capped at `0xffff`, that is
`#define DIV_VALUE(rate) (rate > 6000000)?0:((6000000/rate -1) > 0xffff)? 0xffff: (6000000/rate -1)`
on a `double` argument, computed over the rationals.  A zero rate makes the C quotient
infinite, which exceeds `0xffff`.  For the arguments `clk*1.5` with `clk` a `uint32_t` the
product is exact in binary64 and the correctly rounded quotient has the same integer part
as the exact one (the exact quotient `4000000/clk` is an integer or at least `1/clk` away
from one), so the truncated result is the one computed here. -/
def DIV_VALUE (rate : ℚ) : ℚ :=
  if rate > 6000000 then 0
  else if rate = 0 then 0xffff
  else if 6000000 / rate - 1 > 0xffff then 0xffff
  else 6000000 / rate - 1

/-- The function `fi2c_setclock(fic, clk)`; it uses only `fic->fc`.  Returns the return code
and the transport trace. -/
def fi2c_setclock (tr : Transport) (trace : List FtdiCall) (clk : Nat) :
    Int × List FtdiCall :=
  let t1 := (CHECK_FTDI tr trace (FtdiCall.write_data [FTDI_CMD_3PHASE])).2
  if clk > FTDI_CLK_MAX_X5 ∨ clk < FTDI_CLK_MIN then (FI2C_ERR_CLK, t1)
  else
    let t2 :=
      if clk > FTDI_CLK_MAX_X5 then
        (CHECK_FTDI tr t1 (FtdiCall.write_data [FTDI_CMD_X5_OFF])).2
      else t1
    let divide_result : Int := trunc_to_int (DIV_VALUE ((clk : ℚ) * 1.5))
    if divide_result = 0 then (FI2C_ERR_CLK, t2)
    else
      let buf := [TCK_DIVISOR, (divide_result.toNat >>> 0) &&& 0xFF,
        (divide_result.toNat >>> 8) &&& 0xFF]
      (FI2C_ERR_NONE, (CHECK_FTDI tr t2 (FtdiCall.write_data buf)).2)

/-- The divisor in the words of the specification: `0` when `1.5*hz > 6000000`, otherwise
`min(trunc(6000000/(1.5*hz) - 1), 0xffff)`. -/
def spec_divisor (hz : Nat) : Int :=
  if (1.5 : ℚ) * hz > 6000000 then 0
  else min (trunc_to_int (6000000 / (1.5 * hz) - 1)) 0xffff

/-- The record `struct fi2c_context`.  `buf` is the malloc'ed command array: its length is
the allocated size and `bufcnt` is the cursor into it.  The calls made on `fc` are recorded
in the trace. -/
structure fi2c_context where
  gpio : gpio_s
  clk : Nat
  error : Int
  slv : Nat
  buf : List Nat
  bufcnt : Nat
  bufsize : Nat
  deriving DecidableEq, Repr

/-- The macro `FI2C_WBUF(fic, val)`: `fic->buf[fic->bufcnt++] = val`. -/
def FI2C_WBUF (fic : fi2c_context) (val : Nat) : Except Fault fi2c_context :=
  if fic.bufcnt < fic.buf.length then
    Except.ok { fic with buf := fic.buf.set fic.bufcnt (val % 256), bufcnt := fic.bufcnt + 1 }
  else Except.error Fault.out_of_bounds

/-- The macro `FI2C_CFG_IO(fic, val, dir)`: the three bytes
`SET_BITS_LOW, val | gpio.value, dir | gpio.direction`. -/
def FI2C_CFG_IO (fic : fi2c_context) (val dir : Nat) : Except Fault fi2c_context := do
  let fic1 ← FI2C_WBUF fic SET_BITS_LOW
  let fic2 ← FI2C_WBUF fic1 (val ||| fic.gpio.value)
  FI2C_WBUF fic2 (dir ||| fic.gpio.direction)

/-- The loop `for (i = 0; i < n; i++) FI2C_CFG_IO(fic, val, dir);`. -/
def fi2c_cfg_loop : Nat → fi2c_context → Nat → Nat → Except Fault fi2c_context
  | 0, fic, _, _ => Except.ok fic
  | n + 1, fic, val, dir => do
    let fic1 ← FI2C_CFG_IO fic val dir
    fi2c_cfg_loop n fic1 val dir

/-- The function `fi2c_start_bit_cmds(fic)`. -/
def fi2c_start_bit_cmds (fic : fi2c_context) : Except Fault (Int × fi2c_context) := do
  if fic.bufcnt ≠ 0 then throw Fault.assert_failed
  let fic1 ← fi2c_cfg_loop 4 fic 0 0
  let fic2 ← fi2c_cfg_loop 4 fic1 0 SDA_POS
  let fic3 ← FI2C_CFG_IO fic2 0 (SCL_POS ||| SDA_POS)
  return (FI2C_ERR_NONE, fic3)

/-- The function `fi2c_stop_bit_cmds(fic)`. -/
def fi2c_stop_bit_cmds (fic : fi2c_context) : Except Fault (Int × fi2c_context) := do
  let fic1 ← fi2c_cfg_loop 4 fic 0 SDA_POS
  let fic2 ← fi2c_cfg_loop 4 fic1 0 0
  let fic3 ← FI2C_CFG_IO fic2 0 0
  return (FI2C_ERR_NONE, fic3)

/-- The state the I2C functions work on: the context, the trace of the calls made on
`fic->fc`, and the caller's read buffer (`none` for a NULL `rbuf`). -/
structure fi2c_world where
  fic : fi2c_context
  trace : List FtdiCall
  rbuf : Option (List Nat)
  deriving DecidableEq, Repr

/-- The macro `CHECK_FI2C(fic, fx, ...)` of `servo/ftdii2c.h`: `fic->error = fx` (the codes
are never negative, so nothing is printed). -/
def CHECK_FI2C (w : fi2c_world) (fx : Int) : fi2c_world :=
  { w with fic := { w.fic with error := fx } }

/-- The function `fi2c_write_cmds(fic)`: the cursor is reset first, the assertion is checked,
then the pending bytes `buf[0..bufcnt)` go out in one bulk write. -/
def fi2c_write_cmds (tr : Transport) (w : fi2c_world) : Except Fault (Int × fi2c_world) :=
  let bufcnt := w.fic.bufcnt
  let fic1 : fi2c_context := { w.fic with bufcnt := 0 }
  if bufcnt > FI2C_BUF_SIZE then Except.error Fault.assert_failed
  else
    let r := ftdi_call tr w.trace (FtdiCall.write_data (w.fic.buf.take bufcnt))
    let w1 : fi2c_world := { w with fic := fic1, trace := r.2 }
    if r.1.rv < 0 then Except.ok (FI2C_ERR_FTDI, w1)
    else if r.1.rv ≠ (bufcnt : Int) then Except.ok (FI2C_ERR_WRITE, w1)
    else Except.ok (FI2C_ERR_NONE, w1)

/-- One call `ftdi_read_data(fc, buf, size)`: a negative return delivers nothing; otherwise
the device delivers at most `size` bytes and the return value is their number. -/
def ftdi_read_data (tr : Transport) (trace : List FtdiCall) (size : Nat) :
    Int × List Nat × List FtdiCall :=
  let r := ftdi_call tr trace (FtdiCall.read_data size)
  if r.1.rv < 0 then (r.1.rv, [], r.2)
  else
    let bytes := (r.1.data.take size).map (fun b => b % 256)
    ((bytes.length : Int), bytes, r.2)

/-- Store `bytes` into the array `mem` from index `off` on; a store past the end of the
array is a fault. -/
def store_bytes (mem : List Nat) (off : Nat) (bytes : List Nat) : Except Fault (List Nat) :=
  if off + bytes.length ≤ mem.length then
    Except.ok (mem.take off ++ bytes ++ mem.drop (off + bytes.length))
  else Except.error Fault.out_of_bounds

/-- The loop and the final test of `fi2c_read_from_ftdi(fc, rdbuf, rdcnt)`; the first
argument is the number of attempts left, `FI2C_READ_ATTEMPTS - read_attempts`. -/
def fi2c_read_loop (tr : Transport) (rdcnt : Nat) :
    Nat → List FtdiCall → List Nat → Nat → Except Fault (Int × List Nat × List FtdiCall)
  | 0, trace, rdbuf, bytes_read =>
    Except.ok (if bytes_read ≠ rdcnt then FI2C_ERR_READ else FI2C_ERR_NONE, rdbuf, trace)
  | n + 1, trace, rdbuf, bytes_read =>
    if bytes_read < rdcnt then
      let r := ftdi_read_data tr trace (rdcnt - bytes_read)
      if r.1 < 0 then Except.ok (FI2C_ERR_FTDI, rdbuf, r.2.2)
      else do
        let rdbuf1 ← store_bytes rdbuf bytes_read r.2.1
        fi2c_read_loop tr rdcnt n r.2.2 rdbuf1 (bytes_read + r.2.1.length)
    else
      Except.ok (if bytes_read ≠ rdcnt then FI2C_ERR_READ else FI2C_ERR_NONE, rdbuf, trace)

/-- The function `fi2c_read_from_ftdi(fc, rdbuf, rdcnt)`.  The constant `FI2C_READ_ATTEMPTS`
is a parameter. -/
def fi2c_read_from_ftdi (tr : Transport) (FI2C_READ_ATTEMPTS : Nat) (trace : List FtdiCall)
    (rdbuf : List Nat) (rdcnt : Nat) : Except Fault (Int × List Nat × List FtdiCall) :=
  fi2c_read_loop tr rdcnt FI2C_READ_ATTEMPTS trace rdbuf 0

/-- The function `fi2c_send_byte_and_check(fic, data)`. -/
def fi2c_send_byte_and_check (tr : Transport) (FI2C_READ_ATTEMPTS : Nat) (w : fi2c_world)
    (data : Nat) : Except Fault (Int × fi2c_world) := do
  let f ← FI2C_WBUF w.fic FTDI_CMD_MFE_CLK_BIT_OUT
  let f ← FI2C_WBUF f 0x07
  let f ← FI2C_WBUF f data
  let f ← FI2C_CFG_IO f 0 SCL_POS
  let f ← FI2C_WBUF f FTDI_CMD_LRE_CLK_BIT_IN
  let f ← FI2C_WBUF f 0x00
  let f ← FI2C_WBUF f SEND_IMMEDIATE
  let c ← fi2c_write_cmds tr { w with fic := f }
  let w1 := CHECK_FI2C c.2 c.1
  let r ← fi2c_read_from_ftdi tr FI2C_READ_ATTEMPTS w1.trace [0] 1
  let w2 : fi2c_world := { w1 with trace := r.2.2 }
  if r.1 ≠ 0 then return (FI2C_ERR_FTDI, w2)
  if (r.2.1.headD 0) &&& 0x80 ≠ 0 then return (FI2C_ERR_ACK, w2)
  let f ← FI2C_CFG_IO w2.fic SDA_POS (SCL_POS ||| SDA_POS)
  return (FI2C_ERR_NONE, { w2 with fic := f })

/-- The function `fi2c_send_slave(fic, rd)`; the argument is converted to `uint8_t`. -/
def fi2c_send_slave (tr : Transport) (FI2C_READ_ATTEMPTS : Nat) (w : fi2c_world)
    (rd : Nat) : Except Fault (Int × fi2c_world) :=
  fi2c_send_byte_and_check tr FI2C_READ_ATTEMPTS w
    (((w.fic.slv <<< 1) ||| (if rd ≠ 0 then 0x1 else 0x0)) % 256)

/-- The loop of `fi2c_wr(fic, wbuf, wcnt)` from index `i` on, with `wcnt - i` iterations
left. -/
def fi2c_wr_loop (tr : Transport) (FI2C_READ_ATTEMPTS : Nat) (wbuf : List Nat) :
    Nat → Nat → fi2c_world → Except Fault (Int × fi2c_world)
  | 0, _, w => Except.ok (FI2C_ERR_NONE, w)
  | n + 1, i, w =>
    match wbuf[i]? with
    | none => Except.error Fault.out_of_bounds
    | some b => do
      let r ← fi2c_send_byte_and_check tr FI2C_READ_ATTEMPTS w b
      let w1 := CHECK_FI2C r.2 r.1
      if w1.fic.error ≠ 0 then return (w1.fic.error, w1)
      fi2c_wr_loop tr FI2C_READ_ATTEMPTS wbuf n (i + 1) w1

/-- The function `fi2c_wr(fic, wbuf, wcnt)`. -/
def fi2c_wr (tr : Transport) (FI2C_READ_ATTEMPTS : Nat) (w : fi2c_world)
    (wbuf : List Nat) (wcnt : Nat) : Except Fault (Int × fi2c_world) :=
  fi2c_wr_loop tr FI2C_READ_ATTEMPTS wbuf wcnt 0 w

/-- The command loop of `fi2c_rd(fic, rbuf, rcnt)` from index `i` on, with `rcnt - i`
iterations left: per byte a clock-low setting, a byte-in command, and the master ACK, or
NACK for the last byte. -/
def fi2c_rd_cmds (rcnt : Nat) : Nat → Nat → fi2c_context → Except Fault fi2c_context
  | 0, _, fic => Except.ok fic
  | n + 1, i, fic => do
    let f ← FI2C_CFG_IO fic 0 SCL_POS
    let f ← FI2C_WBUF f FTDI_CMD_MRE_CLK_BYTE_IN
    let f ← FI2C_WBUF f 0x00
    let f ← FI2C_WBUF f 0x00
    let f ← if i = rcnt - 1 then FI2C_CFG_IO f 0 SCL_POS
      else FI2C_CFG_IO f 0 (SCL_POS ||| SDA_POS)
    let f ← FI2C_WBUF f FTDI_CMD_MFE_CLK_BIT_OUT
    let f ← FI2C_WBUF f 0x0
    let f ← FI2C_WBUF f (if i = rcnt - 1 then 0xff else 0x0)
    fi2c_rd_cmds rcnt n (i + 1) f

/-- The function `fi2c_rd(fic, rbuf, rcnt)` for a non-NULL `rbuf`. -/
def fi2c_rd (tr : Transport) (FI2C_READ_ATTEMPTS : Nat) (w : fi2c_world)
    (rbuf : List Nat) (rcnt : Nat) : Except Fault (Int × fi2c_world) := do
  let f ← fi2c_rd_cmds rcnt rcnt 0 w.fic
  let f ← FI2C_WBUF f SEND_IMMEDIATE
  let c ← fi2c_write_cmds tr { w with fic := f }
  let w1 := CHECK_FI2C c.2 c.1
  if w1.fic.error ≠ 0 then return (w1.fic.error, w1)
  let r ← fi2c_read_from_ftdi tr FI2C_READ_ATTEMPTS w1.trace rbuf rcnt
  let w2 : fi2c_world := { w1 with trace := r.2.2, rbuf := some r.2.1 }
  if r.1 ≠ 0 then return (FI2C_ERR_READ, w2)
  return (FI2C_ERR_NONE, w2)

/-- The function `fi2c_reset(fic)`. -/
def fi2c_reset (tr : Transport) (w : fi2c_world) : Except Fault (Int × fi2c_world) := do
  let s ← fi2c_start_bit_cmds w.fic
  let w1 := CHECK_FI2C { w with fic := s.2 } s.1
  let c ← fi2c_write_cmds tr w1
  let w2 := CHECK_FI2C c.2 c.1
  let w3 := CHECK_FI2C w2 FI2C_ERR_NONE
  return (w3.fic.error, w3)

/-- How one pass through the body of `fi2c_wr_rd` ends: with `goto retry` (after
`retry_count++`) or by going on to the next statement, each with the current state and the
local `err`. -/
inductive fi2c_attempt where
  | retry (w : fi2c_world) (err : Int)
  | done (w : fi2c_world) (err : Int)
  deriving DecidableEq, Repr

/-- Lines 294-317 of `fi2c_wr_rd`: the write phase. -/
def fi2c_wr_phase (tr : Transport) (FI2C_READ_ATTEMPTS : Nat) (wbuf : Option (List Nat))
    (wcnt : Nat) (w : fi2c_world) (err : Int) : Except Fault fi2c_attempt :=
  match wbuf with
  | none => Except.ok (fi2c_attempt.done w err)
  | some wb =>
    if wcnt = 0 then Except.ok (fi2c_attempt.done w err)
    else do
      let s ← fi2c_start_bit_cmds w.fic
      let w1 := CHECK_FI2C { w with fic := s.2 } s.1
      let r ← fi2c_send_slave tr FI2C_READ_ATTEMPTS w1 0
      if r.1 = FI2C_ERR_ACK ∨ r.1 = FI2C_ERR_READ then return fi2c_attempt.retry r.2 r.1
      if r.2.fic.error = 0 ∧ r.1 = 0 then
        let x ← fi2c_wr tr FI2C_READ_ATTEMPTS r.2 wb wcnt
        if x.1 = FI2C_ERR_READ then return fi2c_attempt.retry x.2 x.1
        let p ← fi2c_stop_bit_cmds x.2.fic
        let w2 := CHECK_FI2C { x.2 with fic := p.2 } p.1
        let c ← fi2c_write_cmds tr w2
        return fi2c_attempt.done (CHECK_FI2C c.2 c.1) x.1
      return fi2c_attempt.done r.2 r.1

/-- Lines 318-340 of `fi2c_wr_rd`: the read phase. -/
def fi2c_rd_phase (tr : Transport) (FI2C_READ_ATTEMPTS : Nat) (rcnt : Nat)
    (w : fi2c_world) (err : Int) : Except Fault fi2c_attempt :=
  match w.rbuf with
  | none => Except.ok (fi2c_attempt.done w err)
  | some rb =>
    if rcnt ≠ 0 ∧ w.fic.error = 0 ∧ err = 0 then do
      let s ← fi2c_start_bit_cmds w.fic
      let w1 := CHECK_FI2C { w with fic := s.2 } s.1
      let r ← fi2c_send_slave tr FI2C_READ_ATTEMPTS w1 1
      if r.1 = FI2C_ERR_ACK ∨ r.1 = FI2C_ERR_READ then return fi2c_attempt.retry r.2 r.1
      if r.2.fic.error = 0 ∧ r.1 = 0 then
        let x ← fi2c_rd tr FI2C_READ_ATTEMPTS r.2 rb rcnt
        let w2 := CHECK_FI2C x.2 x.1
        if w2.fic.error = FI2C_ERR_READ then return fi2c_attempt.retry w2 r.1
        return fi2c_attempt.done w2 r.1
      return fi2c_attempt.done r.2 r.1
    else Except.ok (fi2c_attempt.done w err)

/-- Lines 288-340 of `fi2c_wr_rd`: one pass from behind the retry-ceiling test to the label
`WR_RD_DONE`.  On a retry pass the stored error and `err` are cleared and both transport
buffers are purged (through `CHECK_FTDI`). -/
def fi2c_wr_rd_attempt (tr : Transport) (FI2C_READ_ATTEMPTS : Nat)
    (wbuf : Option (List Nat)) (wcnt rcnt : Nat) (retry_count : Nat)
    (w : fi2c_world) (err : Int) : Except Fault fi2c_attempt := do
  let w0 : fi2c_world :=
    if retry_count ≠ 0 then
      { CHECK_FI2C w 0 with trace := (CHECK_FTDI tr w.trace FtdiCall.usb_purge_buffers).2 }
    else w
  let err0 : Int := if retry_count ≠ 0 then 0 else err
  match ← fi2c_wr_phase tr FI2C_READ_ATTEMPTS wbuf wcnt w0 err0 with
  | fi2c_attempt.retry w1 err1 => return fi2c_attempt.retry w1 err1
  | fi2c_attempt.done w1 err1 => fi2c_rd_phase tr FI2C_READ_ATTEMPTS rcnt w1 err1

/-- The label `retry` of `fi2c_wr_rd`.  The first argument is
`FI2C_ACK_RETRY_MAX - retry_count`, so that it is zero exactly when
`retry_count >= FI2C_ACK_RETRY_MAX` sends control to `WR_RD_DONE`.  Returns the state, the
local `err` and `retry_count` at `WR_RD_DONE`. -/
def fi2c_wr_rd_loop (tr : Transport) (FI2C_READ_ATTEMPTS : Nat)
    (wbuf : Option (List Nat)) (wcnt rcnt : Nat) :
    Nat → Nat → fi2c_world → Int → Except Fault (fi2c_world × Int × Nat)
  | 0, retry_count, w, err => Except.ok (w, err, retry_count)
  | n + 1, retry_count, w, err => do
    match ← fi2c_wr_rd_attempt tr FI2C_READ_ATTEMPTS wbuf wcnt rcnt retry_count w err with
    | fi2c_attempt.retry w1 err1 =>
      fi2c_wr_rd_loop tr FI2C_READ_ATTEMPTS wbuf wcnt rcnt n (retry_count + 1) w1 err1
    | fi2c_attempt.done w1 err1 => Except.ok (w1, err1, retry_count)

/-- What `fi2c_wr_rd` leaves behind: the return value `fic->error || err`, the state, the
number of retries and the static `tot_retry_count`. -/
structure fi2c_wr_rd_result where
  rv : Int
  w : fi2c_world
  retry_count : Nat
  tot_retry_count : Nat
  deriving DecidableEq, Repr

/-- The function `fi2c_wr_rd(fic, wbuf, wcnt, rbuf, rcnt)`, with `rbuf` inside the state.
The constants `FI2C_READ_ATTEMPTS` and `FI2C_ACK_RETRY_MAX` and the value of the static
`tot_retry_count` on entry are parameters.  The counts are the non-negative `int`s. -/
def fi2c_wr_rd (tr : Transport) (FI2C_READ_ATTEMPTS FI2C_ACK_RETRY_MAX : Nat)
    (tot_retry_count : Nat) (w : fi2c_world) (wbuf : Option (List Nat)) (wcnt rcnt : Nat) :
    Except Fault fi2c_wr_rd_result := do
  let r ← fi2c_wr_rd_loop tr FI2C_READ_ATTEMPTS wbuf wcnt rcnt FI2C_ACK_RETRY_MAX 0 w 0
  return ⟨if r.1.fic.error ≠ 0 ∨ r.2.1 ≠ 0 then 1 else 0, r.1, r.2.2, tot_retry_count + r.2.2⟩

/-! ## Auxiliary definitions for the statements -/

/-- The context after the bytes `bytes` have been stored at the cursor and the cursor has
moved past them; every other field is unchanged. -/
def fi2c_context.append_cmds (fic : fi2c_context) (bytes : List Nat) : fi2c_context :=
  { fic with
    buf := fic.buf.take fic.bufcnt ++ bytes ++ fic.buf.drop (fic.bufcnt + bytes.length),
    bufcnt := fic.bufcnt + bytes.length }

/-- The nine set-low-bits commands of an I2C start for shadow value `v` and direction `d`:
four with SCL and SDA released, four with SDA driven low, one with both driven low. -/
def start_bytes (v d : Nat) : List Nat :=
  [0x80, v, d, 0x80, v, d, 0x80, v, d, 0x80, v, d,
   0x80, v, d ||| 0x02, 0x80, v, d ||| 0x02, 0x80, v, d ||| 0x02, 0x80, v, d ||| 0x02,
   0x80, v, d ||| 0x03]

/-- A fresh channel as `fi2c_init` leaves it, with a zeroed command array. -/
def fi2c_init : fi2c_context :=
  { gpio := ⟨0, 0, 0xf8⟩, clk := 0, error := FI2C_ERR_NONE, slv := 0,
    buf := List.replicate FI2C_BUF_SIZE 0, bufcnt := 0, bufsize := FI2C_BUF_SIZE }

/-- A device that accepts every bulk write in full, answers a one-byte read with an
acknowledge (`0x00`) and delivers nothing on any longer read. -/
def short_read_transport : Transport := fun trace =>
  match trace.getLast? with
  | some (FtdiCall.write_data buf) => ⟨(buf.length : Int), []⟩
  | some (FtdiCall.read_data 1) => ⟨1, [0x00]⟩
  | _ => ⟨0, []⟩

/-- The nine set-low-bits commands of an I2C stop for shadow value `v` and direction `d`:
four with SDA driven low and SCL released, four with both released, one idle release. -/
def stop_bytes (v d : Nat) : List Nat :=
  [0x80, v, d ||| 0x02, 0x80, v, d ||| 0x02, 0x80, v, d ||| 0x02, 0x80, v, d ||| 0x02,
   0x80, v, d, 0x80, v, d, 0x80, v, d, 0x80, v, d,
   0x80, v, d]

/-- The commands that clock the byte `x` out and sample the acknowledge bit, for shadow
value `v` and direction `d`. -/
def send_bytes (x v d : Nat) : List Nat :=
  [0x13, 0x07, x, 0x80, v, d ||| 0x01, 0x2a, 0x00, 0x87]

/-- The return code of `fi2c_write_cmds` for a bulk write of `n` bytes that the device
answers with `rv`. -/
def write_code (rv : Int) (n : Nat) : Int :=
  if rv < 0 then FI2C_ERR_FTDI else if rv ≠ (n : Int) then FI2C_ERR_WRITE else FI2C_ERR_NONE

/-- The context `fi2c_send_byte_and_check` works on after its flush: the nine command bytes
for `x` stored behind the pending ones, the cursor back at zero and the code of the bulk
write in the error field. -/
def sent_context (fic : fi2c_context) (x : Nat) (code : Int) : fi2c_context :=
  { fic.append_cmds (send_bytes x fic.gpio.value fic.gpio.direction) with
    bufcnt := 0, error := code }

/-- The trace after the flush of `fi2c_send_byte_and_check`: one bulk write of the pending
bytes followed by the nine command bytes for `x`. -/
def sent_trace (w : fi2c_world) (x : Nat) : List FtdiCall :=
  w.trace ++ [FtdiCall.write_data
    (w.fic.buf.take w.fic.bufcnt ++ send_bytes x w.fic.gpio.value w.fic.gpio.direction)]

/-- Partial correctness of a computation that may fault: every value it produces
satisfies `P`. -/
def returns {α : Type} (x : Except Fault α) (P : α → Prop) : Prop :=
  ∀ a, x = Except.ok a → P a

/-- None of the calls is a purge of the transport buffers. -/
def no_purge (added : List FtdiCall) : Prop :=
  ∀ c ∈ added, c ≠ FtdiCall.usb_purge_buffers

/-- The number of purge calls in a trace. -/
def count_purge (trace : List FtdiCall) : Nat :=
  trace.count FtdiCall.usb_purge_buffers

/-- The caller's read buffer keeps its size and every byte from index `rcnt` on. -/
def rbuf_frame (rcnt : Nat) : Option (List Nat) → Option (List Nat) → Prop
  | none, none => True
  | some a, some b => b.length = a.length ∧ b.drop rcnt = a.drop rcnt
  | _, _ => False

/-- The state `w1` comes from `w` by transport calls that are not purges and by stores
into the first `rcnt` bytes of the read buffer. -/
def fi2c_step (rcnt : Nat) (w w1 : fi2c_world) : Prop :=
  (∃ added, w1.trace = w.trace ++ added ∧ no_purge added) ∧ rbuf_frame rcnt w.rbuf w1.rbuf

/-- The bytes delivered to `fi2c_read_from_ftdi`: the concatenation of the chunks returned
by its successive `ftdi_read_data` calls, in the order of delivery. -/
def read_chunks (tr : Transport) (rdcnt : Nat) : Nat → List FtdiCall → Nat → List Nat
  | 0, _, _ => []
  | n + 1, trace, bytes_read =>
    if bytes_read < rdcnt then
      if (ftdi_read_data tr trace (rdcnt - bytes_read)).1 < 0 then []
      else (ftdi_read_data tr trace (rdcnt - bytes_read)).2.1 ++
        read_chunks tr rdcnt n (ftdi_read_data tr trace (rdcnt - bytes_read)).2.2
          (bytes_read + (ftdi_read_data tr trace (rdcnt - bytes_read)).2.1.length)
    else []

/-- A device that accepts every bulk write in full and never delivers a byte. -/
def no_data_transport : Transport := fun trace =>
  match trace.getLast? with
  | some (FtdiCall.write_data buf) => ⟨(buf.length : Int), []⟩
  | _ => ⟨0, []⟩

/-- A device that accepts every bulk write in full and answers every acknowledge read
with bit 7 set (no acknowledge). -/
def nack_transport : Transport := fun trace =>
  match trace.getLast? with
  | some (FtdiCall.write_data buf) => ⟨(buf.length : Int), []⟩
  | some (FtdiCall.read_data 1) => ⟨1, [0x80]⟩
  | _ => ⟨0, []⟩

/-- A device that accepts every bulk write in full, acknowledges the first byte sent (the
slave address) and answers every later acknowledge read with bit 7 set. -/
def data_nack_transport : Transport := fun trace =>
  match trace.getLast? with
  | some (FtdiCall.write_data buf) => ⟨(buf.length : Int), []⟩
  | some (FtdiCall.read_data 1) =>
    if trace.count (FtdiCall.read_data 1) = 1 then ⟨1, [0x00]⟩ else ⟨1, [0x80]⟩
  | _ => ⟨0, []⟩

/-- A responsive device: it accepts every bulk write in full, acknowledges every byte and
delivers `0xa5` for every payload byte asked for. -/
def ack_transport : Transport := fun trace =>
  match trace.getLast? with
  | some (FtdiCall.write_data buf) => ⟨(buf.length : Int), []⟩
  | some (FtdiCall.read_data 1) => ⟨1, [0x00]⟩
  | some (FtdiCall.read_data n) => ⟨(n : Int), List.replicate n 0xa5⟩
  | _ => ⟨0, []⟩

/-- The state `w1` ends with a completed payload read: its trace is some trace `t0` that
ends with a bulk write, followed by reads only; the first `rcnt` bytes of the read buffer
are the chunks delivered by those reads, in order, and the rest of the buffer is `tail`. -/
def payload_read (tr : Transport) (FI2C_READ_ATTEMPTS rcnt : Nat) (tail : List Nat)
    (w1 : fi2c_world) : Prop :=
  ∃ t0 reads cmds, w1.trace = t0 ++ reads ∧
    t0.getLast? = some (FtdiCall.write_data cmds) ∧
    (∀ c ∈ reads, ∃ k, c = FtdiCall.read_data k) ∧
    w1.rbuf = some (read_chunks tr rcnt FI2C_READ_ATTEMPTS t0 0 ++ tail) ∧
    (read_chunks tr rcnt FI2C_READ_ATTEMPTS t0 0).length = rcnt

/-- The number of passes of `fi2c_wr_rd` that begin with a purge, when the loop is entered
with `n` passes left and `retry_count = rc` and is left with `retry_count = rc1`: every
pass but the one with `retry_count = 0`. -/
def purge_passes (n rc rc1 : Nat) : Nat :=
  if rc = 0 then (if rc1 < n then rc1 else n - 1)
  else (if rc1 < rc + n then rc1 - rc + 1 else n)

/-- Total correctness of a computation that may fault: it produces a value, and the value
satisfies `P`. -/
def succeeds {α : Type} (x : Except Fault α) (P : α → Prop) : Prop :=
  ∃ a, x = Except.ok a ∧ P a

/-- The command array of the context has `L` bytes, `n` of them pending. -/
def pending (L n : Nat) (fic : fi2c_context) : Prop :=
  fic.buf.length = L ∧ fic.bufcnt = n

/-- The twelve command bytes `fi2c_rd` queues for one payload byte, for shadow value `v` and
direction `d`: clock low, clock a byte in, then the master acknowledge (SDA driven, bit value
`0x00`), or for the last byte the master NACK (SDA released, bit value `0xff`). -/
def rd_bytes (v d : Nat) (nack : Bool) : List Nat :=
  [0x80, v, d ||| 0x01, 0x20, 0x00, 0x00,
   0x80, v, d ||| (if nack then 0x01 else 0x03), 0x13, 0x00, if nack then 0xff else 0x00]

/-- The command bytes of the loop of `fi2c_rd` from index `i` on, with `n` iterations left:
the NACK form is used exactly for `i = rcnt - 1`. -/
def rd_cmd_bytes (v d rcnt : Nat) : Nat → Nat → List Nat
  | 0, _ => []
  | n + 1, i => rd_bytes v d (decide (i = rcnt - 1)) ++ rd_cmd_bytes v d rcnt n (i + 1)

/-! ## Command parsing of the server (`src/servod.c`) -/

/-- Modelled from the spec: the value of a character as a digit for the C library function
`strtoul` (`'0'..'9'` are 0..9, letters of either case are 10..35); `none` for every other
character. -/
def digit_value (c : Char) : Option Nat :=
  if 48 ≤ c.toNat ∧ c.toNat ≤ 57 then some (c.toNat - 48)
  else if 97 ≤ c.toNat ∧ c.toNat ≤ 122 then some (c.toNat - 97 + 10)
  else if 65 ≤ c.toNat ∧ c.toNat ≤ 90 then some (c.toNat - 65 + 10)
  else none

/-- Modelled from the spec: the largest `unsigned long` (64 bits on the Linux hosts the
server runs on). -/
def ULONG_MAX : Nat := 2 ^ 64 - 1

/-- Modelled from the spec: the C library predicate `isspace` in the "C" locale. -/
def isspace (c : Char) : Bool :=
  c.toNat = 32 || (9 ≤ c.toNat && c.toNat ≤ 13)

/-- Modelled from the spec: the digit loop of `strtoul`: consume the longest run of digits
valid in `base`.  Returns the accumulated value (unbounded), the number of characters
consumed and the unconsumed rest. -/
def strtoul_digits (base : Nat) : List Char → Nat → Nat → Nat × Nat × List Char
  | [], acc, n => (acc, n, [])
  | c :: cs, acc, n =>
    match digit_value c with
    | some d =>
      if d < base then strtoul_digits base cs (acc * base + d) (n + 1)
      else (acc, n, c :: cs)
    | none => (acc, n, c :: cs)

/-- Modelled from the spec: the C library call `strtoul(nptr, &eptr, 0)` (the C library is
not under the sources).  Leading white space and an optional sign are skipped; `0x`/`0X`
selects base 16, another leading `0` base 8, anything else base 10; the longest run of
digits is converted.  Without any digit the value is 0 and `eptr` is `nptr` (or points at
the `x` when only the `0` of a `0x` could be converted).  A value above `ULONG_MAX` is
replaced by `ULONG_MAX`, and a value below it is negated modulo `ULONG_MAX + 1` after a
minus sign.  Returns the value and the string `eptr` points to. -/
def strtoul0 (nptr : List Char) : Nat × List Char :=
  let s1 := nptr.dropWhile isspace
  let neg := decide (s1.head? = some '-')
  let s2 := if s1.head? = some '-' ∨ s1.head? = some '+' then s1.tail else s1
  let hex := decide (s2.head? = some '0' ∧
    (s2.tail.head? = some 'x' ∨ s2.tail.head? = some 'X'))
  let base := if hex then 16 else if s2.head? = some '0' then 8 else 10
  let s3 := if hex then s2.tail.tail else s2
  let r := strtoul_digits base s3 0 0
  if r.2.1 = 0 then (0, if hex then s2.tail else nptr)
  else
    (if r.1 > ULONG_MAX then ULONG_MAX
     else if neg then (ULONG_MAX + 1 - r.1) % (ULONG_MAX + 1) else r.1, r.2.2)

/-- The function `parse_ul_element(&value, buf, delim)`; a C string is the list of its
characters up to the terminating NUL, and `delim = none` stands for the delimiter `0`.
Returns the value stored and the pointer returned (`none` for NULL). -/
def parse_ul_element (buf : List Char) (delim : Option Char) : Nat × Option (List Char) :=
  let r := strtoul0 buf
  match delim with
  | none => (r.1, some r.2)
  | some d =>
    if r.2.head? ≠ some d then (r.1, none)
    else (r.1, some r.2.tail)

/-- What `parse_buffer_gpio` leaves behind: the return value, the request record behind
`gpio` and the number behind `interface`. -/
structure parse_result where
  rv : Int
  gpio : gpio_s
  interface_num : Nat
  deriving DecidableEq, Repr

/-- The function `parse_buffer_gpio(buf, gpio, interface)`; `gpio` and `interface_num` are
the contents of the two destinations on entry. -/
def parse_buffer_gpio (buf : List Char) (gpio : gpio_s) (interface_num : Nat) :
    parse_result :=
  let e1 := parse_ul_element buf (some ',')
  match e1.2 with
  | none => ⟨1, gpio, interface_num⟩
  | some b1 =>
    if e1.1 = 0 ∨ e1.1 > 4 then ⟨1, gpio, interface_num⟩
    else
      let interface1 := e1.1 % 2 ^ 32
      let e2 := parse_ul_element b1 (some ',')
      match e2.2 with
      | none => ⟨1, gpio, interface1⟩
      | some b2 =>
        if e2.1 > 0xff then ⟨1, gpio, interface1⟩
        else
          let gpio1 : gpio_s := { gpio with direction := e2.1 % 256 }
          let e3 := parse_ul_element b2 none
          match e3.2 with
          | none => ⟨1, gpio1, interface1⟩
          | some b3 =>
            if e3.1 > 0xff then ⟨1, gpio1, interface1⟩
            else
              let gpio2 : gpio_s := { gpio1 with value := e3.1 % 256 }
              if b3.head? = some ',' then
                let e4 := parse_ul_element b3.tail none
                match e4.2 with
                | none => ⟨1, gpio2, interface1⟩
                | some _ =>
                  if e4.1 > 0xff then ⟨1, gpio2, interface1⟩
                  else ⟨0, { gpio2 with mask := e4.1 % 256 }, interface1⟩
              else ⟨0, { gpio2 with mask := 0xff }, interface1⟩

/-- One lower-case hexadecimal digit. -/
def hex_digit (n : Nat) : Char :=
  if n < 10 then Char.ofNat (48 + n) else Char.ofNat (87 + n)

/-- The conversion `%02x` of `snprintf` for a `uint8_t` argument. -/
def hex02 (n : Nat) : String :=
  String.mk [hex_digit (n / 16 % 16), hex_digit (n % 16)]

/-- The channels the server multiplexes.  Every context record begins with the fields `fc`
and `gpio`, which is all `fgpio_wr_rd` touches; `heap` gives that part of the record behind
each `context` handle (handle 0 is the NULL pointer). -/
structure servod_state where
  heap : Nat → fgpio_context
  trace : List FtdiCall

/-- Lines 145-172 of `process_client`: the handling of a request `g,...`; `buf` is the text
behind `g,`, and `new_gpio`, `interface_num` and `rd_val` are the contents of the
uninitialised locals.  Returns the reply written to the client and the new state. -/
def process_client_gpio (tr : Transport) (interfaces : List ftdi_itype) (int_cnt : Nat)
    (st : servod_state) (buf : List Char) (new_gpio : gpio_s) (interface_num rd_val : Nat) :
    Except Fault (String × servod_state) :=
  let p := parse_buffer_gpio buf new_gpio interface_num
  if p.rv ≠ 0 then
    Except.ok ("E:parsing client request.  Should be\n\t<interface>,<dir>,<val>[,<mask>]\n", st)
  else do
    let l ← fcom_lookup_interface interfaces int_cnt p.interface_num ftdi_interface_type.ANY
    match l.entry with
    | none =>
      Except.ok ("E:No gpio at interface " ++ toString p.interface_num ++ "\n", st)
    | some idx =>
      match interfaces[idx]? with
      | none => Except.error Fault.out_of_bounds
      | some e =>
        if e.context = 0 then Except.error Fault.assert_failed
        else
          let r := fgpio_wr_rd tr st.trace (st.heap e.context) (some p.gpio) (some rd_val) e.type
          let st1 : servod_state :=
            { heap := Function.update st.heap e.context r.fgc, trace := r.trace }
          if r.rv ≠ 0 then
            if r.rv = FGPIO_ERR_MASK then
              Except.ok ("E:Illegal gpio mask.  Bits avail are 0x" ++
                hex02 r.fgc.gpio.mask ++ "\n", st1)
            else Except.ok ("E:writing/reading gpio\n", st1)
          else
            Except.ok ("I:0x" ++ hex02 (r.rd_val.getD rd_val) ++ "\nA:\n", st1)

/-- The digits of a numeral in `base`, most significant first, added to `acc`; `none` when
a character is not a digit of the base. -/
def digits_value (base : Nat) : List Char → Nat → Option Nat
  | [], acc => some acc
  | c :: cs, acc =>
    match digit_value c with
    | some d => if d < base then digits_value base cs (acc * base + d) else none
    | none => none

/-- The value of a numeral as a request writes it: `0x` or `0X` followed by at least
one hexadecimal digit, or `0` followed by octal digits, or a decimal numeral that does not
begin with `0`; `none` for every other text. -/
def numeral_value (s : List Char) : Option Nat :=
  match s with
  | [] => none
  | c :: cs =>
    if c = '0' then
      match cs with
      | [] => some 0
      | x :: ds =>
        if x = 'x' ∨ x = 'X' then (if ds = [] then none else digits_value 16 ds 0)
        else digits_value 8 cs 0
    else digits_value 10 (c :: cs) 0

/-- A device that answers every call with success and reads the pins as `0x5a`. -/
def gpio_transport : Transport := fun trace =>
  match trace.getLast? with
  | some (FtdiCall.write_data buf) => ⟨(buf.length : Int), []⟩
  | some FtdiCall.read_pins => ⟨0, [0x5a]⟩
  | _ => ⟨0, []⟩

/-- A device on which every mode-set call fails (`-1`) and every other call succeeds. -/
def failed_bitmode_transport : Transport := fun trace =>
  match trace.getLast? with
  | some (FtdiCall.set_bitmode _ _) => ⟨-1, []⟩
  | some (FtdiCall.write_data buf) => ⟨(buf.length : Int), []⟩
  | some FtdiCall.read_pins => ⟨0, [0x5a]⟩
  | _ => ⟨0, []⟩

/-- A device on which every pin readback fails (`-1`) and every other call succeeds. -/
def failed_pins_transport : Transport := fun trace =>
  match trace.getLast? with
  | some (FtdiCall.write_data buf) => ⟨(buf.length : Int), []⟩
  | some FtdiCall.read_pins => ⟨-1, []⟩
  | _ => ⟨0, []⟩

/-- The calls of the readback step: none for a NULL destination, else the two evaluations
of `ftdi_read_pins` made by `CHECK_FTDI`. -/
def readback_calls (rd_val : Option Nat) : List FtdiCall :=
  match rd_val with
  | none => []
  | some _ => [FtdiCall.read_pins, FtdiCall.read_pins]

/-- The registry `main` of `servod.c` builds: GPIO on interface 1, the I2C master on 2, the
console UART on 3, GPIO on 4; the `context` handles are numbered like the interfaces. -/
def servod_interfaces : List ftdi_itype :=
  [⟨ftdi_interface_type.GPIO, 1⟩, ⟨ftdi_interface_type.I2C, 2⟩,
   ⟨ftdi_interface_type.UART, 3⟩, ⟨ftdi_interface_type.GPIO, 4⟩]

/-- The state `main` of `servod.c` leaves on an FT4232H (product id `0x6011`): every channel
with shadow value 0 and direction 0; the mask is `0xf8` on the I2C channel behind handle 2
(`fi2c_init`), `0xfc` on the UART channel behind handle 3 (`fuart_init`) and `0xff` on the
GPIO channels (`fgpio_init`); nothing sent yet. -/
def servod_start : servod_state :=
  { heap := fun h =>
      if h = 2 then ⟨ftdi_chip_type.TYPE_4232H, ⟨0, 0, 0xf8⟩, 0⟩
      else if h = 3 then ⟨ftdi_chip_type.TYPE_4232H, ⟨0, 0, 0xfc⟩, 0⟩
      else ⟨ftdi_chip_type.TYPE_4232H, ⟨0, 0, 0xff⟩, 0⟩,
    trace := [] }

/-- The requests `parse_buffer_gpio` accepts, in terms of the `strtoul` conversions it
makes: a comma behind the first and the second number, the first in 1..4, the second and
third at most `0xff`, and, when a comma follows the third, a fourth at most `0xff`. -/
def gpio_request_accepted (buf : List Char) : Prop :=
  (strtoul0 buf).2.head? = some ',' ∧
  ¬ ((strtoul0 buf).1 = 0 ∨ (strtoul0 buf).1 > 4) ∧
  (strtoul0 (strtoul0 buf).2.tail).2.head? = some ',' ∧
  ¬ (strtoul0 (strtoul0 buf).2.tail).1 > 0xff ∧
  ¬ (strtoul0 (strtoul0 (strtoul0 buf).2.tail).2.tail).1 > 0xff ∧
  ((strtoul0 (strtoul0 (strtoul0 buf).2.tail).2.tail).2.head? = some ',' →
    ¬ (strtoul0 (strtoul0 (strtoul0 (strtoul0 buf).2.tail).2.tail).2.tail).1 > 0xff)

/-- A device whose bulk writes all come back short (0 bytes accepted) and that answers every
acknowledge read with an acknowledge (`0x00`). -/
def short_write_transport : Transport := fun trace =>
  match trace.getLast? with
  | some (FtdiCall.write_data _) => ⟨0, []⟩
  | some (FtdiCall.read_data 1) => ⟨1, [0x00]⟩
  | _ => ⟨0, []⟩

/-- A device on which every bulk write fails (`-1`). -/
def failed_write_transport : Transport := fun trace =>
  match trace.getLast? with
  | some (FtdiCall.write_data _) => ⟨-1, []⟩
  | some (FtdiCall.read_data 1) => ⟨1, [0x00]⟩
  | _ => ⟨0, []⟩

/-- A device that acknowledges every byte and accepts every bulk write in full, except the
12-byte write that carries a data byte behind the three pending bytes: that one comes back
short (0 bytes accepted). -/
def short_data_write_transport : Transport := fun trace =>
  match trace.getLast? with
  | some (FtdiCall.write_data buf) => if buf.length = 12 then ⟨0, []⟩ else ⟨(buf.length : Int), []⟩
  | some (FtdiCall.read_data 1) => ⟨1, [0x00]⟩
  | _ => ⟨0, []⟩

/-- A device that accepts every bulk write in full and on which every read fails (`-1`). -/
def failed_read_transport : Transport := fun trace =>
  match trace.getLast? with
  | some (FtdiCall.write_data buf) => ⟨(buf.length : Int), []⟩
  | _ => ⟨-1, []⟩

/-- The command buffer as `fi2c_wr_rd` can leave it: empty, or with the three bytes queued
behind an acknowledge while an error is stored. -/
def exit_state (L : Nat) (fic : fi2c_context) : Prop :=
  pending L 0 fic ∨ (pending L 3 fic ∧ fic.error ≠ 0)

/-! ## I2C requests and the dispatch of the server (`src/servod.c`) -/

def MAX_BUF : Nat := 512

/-- Modelled from the spec: the tokens the C library function `strtok` cuts out of a string
for the delimiter set `","`, in order: the maximal non-empty runs of characters other than
`,`.  `cur` is the token collected so far. -/
def strtok_loop : List Char → List Char → List (List Char)
  | [], cur => if cur = [] then [] else [cur]
  | c :: cs, cur =>
    if c = ',' then (if cur = [] then strtok_loop cs [] else cur :: strtok_loop cs [])
    else strtok_loop cs (cur ++ [c])

/-- Modelled from the spec: the fields delivered by `strtok(buf, ",")` and the calls
`strtok(NULL, ",")` that follow it, up to the first NULL. -/
def strtok_fields (buf : List Char) : List (List Char) :=
  strtok_loop buf []

/-- The loop of `parse_buffer_i2c` over the fields still to come:
`argv[argcnt++] = strtoul(field, NULL, 0)`, a store into a `uint8_t`; a store behind the end
of `argv` is a fault. -/
def parse_i2c_loop : List (List Char) → Nat → List Nat → Except Fault (Nat × List Nat)
  | [], argcnt, argv => Except.ok (argcnt, argv)
  | field :: fields, argcnt, argv =>
    if argcnt < argv.length then
      parse_i2c_loop fields (argcnt + 1) (argv.set argcnt ((strtoul0 field).1 % 256))
    else Except.error Fault.out_of_bounds

/-- What `parse_buffer_i2c` leaves behind: the return value, the number behind `argc` and
the array `argv`. -/
structure parse_i2c_result where
  rv : Int
  argc : Nat
  argv : List Nat
  deriving DecidableEq, Repr

/-- The function `parse_buffer_i2c(buf, argc, argv)`; `argc` and `argv` are the contents of
the caller's variables on entry. -/
def parse_buffer_i2c (buf : List Char) (argc : Nat) (argv : List Nat) :
    Except Fault parse_i2c_result :=
  match parse_i2c_loop (strtok_fields buf) 0 argv with
  | Except.error e => Except.error e
  | Except.ok r =>
    if r.1 > 2 then
      match r.2[1]? with
      | none => Except.error Fault.out_of_bounds
      | some a1 =>
        if r.1 < a1 + 2 then Except.ok ⟨-1, argc, r.2⟩
        else Except.ok ⟨0, r.1, r.2⟩
    else if r.1 < 2 then Except.ok ⟨-1, argc, r.2⟩
    else Except.ok ⟨0, r.1, r.2⟩

/-- The arguments `process_client` hands to `fi2c_wr_rd`: the slave address stored into
`fic->slv`, the pointer `wbuf` (`none` for NULL, else the part of `args` it points to), and
the counts. -/
structure i2c_request where
  slv : Nat
  wbuf : Option (List Nat)
  wcnt : Nat
  rcnt : Nat
  deriving DecidableEq, Repr

/-- Lines 193-205 of `process_client`: the request computed from the parsed fields. -/
def process_client_i2c_args (argcnt : Nat) (args : List Nat) : Except Fault i2c_request :=
  if argcnt = 0 then Except.error Fault.out_of_bounds
  else
    match args[argcnt - 1]?, args[0]? with
    | some last, some a0 =>
      if argcnt > 2 then
        match args[1]? with
        | none => Except.error Fault.out_of_bounds
        | some a1 =>
          Except.ok ⟨a0, some (args.drop 2), a1, if argcnt ≠ a1 + 3 then 0 else last⟩
      else Except.ok ⟨a0, none, 0, last⟩
    | _, _ => Except.error Fault.out_of_bounds

/-- The reply under construction in `buf`: the characters in front of the first NUL, and
whether a conversion was cut short, so that `rsp` has moved past that NUL and what is
stored from then on lies behind it. -/
structure rsp_text where
  text : String
  cut : Bool
  deriving DecidableEq, Repr

/-- One call `snprintf(rsp, size, ...)` that produces the characters `t`, for `rsp` at the
end of the text so far and `size = bytes_remaining`: at most `size - 1` characters and a NUL
are stored.  A negative size means `rsp` is behind the end of `buf`. -/
def snprintf_rsp (s : rsp_text) (size : Int) (t : String) : Except Fault rsp_text :=
  if size < 0 then Except.error Fault.out_of_bounds
  else if s.cut = true ∨ size = 0 then Except.ok { s with cut := true }
  else if (t.length : Int) < size then Except.ok { s with text := s.text ++ t }
  else Except.ok ⟨s.text ++ String.mk (t.data.take (size.toNat - 1)), true⟩

/-- The loop of lines 217-229 of `process_client` from index `i` on, with `rcnt - i`
iterations left and `bytes_remaining = r`; `none` stands for the jump to the reply
`E: i2c request too large`. -/
def i2c_rsp_loop (rbuf : List Nat) :
    Nat → Nat → rsp_text → Int → Except Fault (Option (rsp_text × Int))
  | 0, _, s, r => Except.ok (some (s, r))
  | n + 1, i, s, r => do
    let a ← if i ≠ 0 ∧ i % 4 = 0 then (snprintf_rsp s r "\nI:0x").map (fun s1 => (s1, r - 5))
      else Except.ok (s, r)
    match rbuf[i]? with
    | none => Except.error Fault.out_of_bounds
    | some b =>
      let s2 ← snprintf_rsp a.1 a.2 (hex02 b)
      if a.2 - 2 < 5 then Except.ok none
      else i2c_rsp_loop rbuf n (i + 1) s2 (a.2 - 2)

/-- Lines 210-231 of `process_client`: the reply to a successful I2C transaction that read
`rcnt` bytes into `rbuf`. -/
def process_client_i2c_rsp (rbuf : List Nat) (rcnt : Nat) : Except Fault String :=
  if rcnt ≠ 0 then do
    let s ← snprintf_rsp ⟨"", false⟩ MAX_BUF "I:0x"
    match ← i2c_rsp_loop rbuf rcnt 0 s ((MAX_BUF : Int) - 4) with
    | none => Except.ok "E: i2c request too large.  See developer\n"
    | some x => do
      let s2 ← snprintf_rsp x.1 x.2 "\nA:\n"
      Except.ok s2.text
  else do
    let s ← snprintf_rsp ⟨"", false⟩ MAX_BUF "\nA:\n"
    Except.ok s.text

/-- The state of the server: the part of every context record `fgpio_wr_rd` works on (with
the trace of the transport), the I2C records behind the `context` handles and the static
`tot_retry_count` of `fi2c_wr_rd`.  The field `gpio` of an I2C record is the one kept in
`st.heap`, since both views are the same memory. -/
structure servod_world where
  st : servod_state
  i2c : Nat → fi2c_context
  tot_retry_count : Nat

/-- Lines 173-231 of `process_client`: the handling of a request `i,...`; `buf` is the text
behind `i,`, and `args` and `rbuf` are the contents of the uninitialised local arrays.  The
constants `FI2C_READ_ATTEMPTS` and `FI2C_ACK_RETRY_MAX` are parameters.  Returns the reply
written to the client and the new state. -/
def process_client_i2c (tr : Transport) (FI2C_READ_ATTEMPTS FI2C_ACK_RETRY_MAX : Nat)
    (interfaces : List ftdi_itype) (int_cnt : Nat) (w : servod_world) (buf : List Char)
    (args rbuf : List Nat) : Except Fault (String × servod_world) := do
  let p ← parse_buffer_i2c buf 0 args
  if p.rv ≠ 0 then
    Except.ok ("E:parsing client request.  Should be\n\t<slv>,[<bytes to Wr>,<Wr0>,<Wr1>,<WrN>],[<bytes to Rd>]\n", w)
  else do
    let l ← fcom_lookup_interface interfaces int_cnt 2 ftdi_interface_type.I2C
    match l.entry with
    | none => Except.ok ("E:No i2c at interface 2\n", w)
    | some idx =>
      match interfaces[idx]? with
      | none => Except.error Fault.out_of_bounds
      | some e =>
        if e.context = 0 then Except.error Fault.assert_failed
        else do
          let q ← process_client_i2c_args p.argc p.argv
          let fic : fi2c_context :=
            { (w.i2c e.context) with gpio := (w.st.heap e.context).gpio, slv := q.slv }
          let r ← fi2c_wr_rd tr FI2C_READ_ATTEMPTS FI2C_ACK_RETRY_MAX w.tot_retry_count
            ⟨fic, w.st.trace, some rbuf⟩ q.wbuf q.wcnt q.rcnt
          let w1 : servod_world :=
            { st := { heap := w.st.heap, trace := r.w.trace },
              i2c := Function.update w.i2c e.context r.w.fic,
              tot_retry_count := r.tot_retry_count }
          if r.rv ≠ 0 then Except.ok ("E:writing/reading i2c\n", w1)
          else do
            let text ← process_client_i2c_rsp (r.w.rbuf.getD rbuf) q.rcnt
            Except.ok (text, w1)

/-- The contents of the uninitialised locals of `process_client` on entry. -/
structure client_locals where
  new_gpio : gpio_s
  interface_num : Nat
  rd_val : Nat
  args : List Nat
  rbuf : List Nat

/-- Lines 144-237 of `process_client`: the reply to the request in `buf` (the string read
from the client) and the new state. -/
def process_client_rsp (tr : Transport) (FI2C_READ_ATTEMPTS FI2C_ACK_RETRY_MAX : Nat)
    (interfaces : List ftdi_itype) (int_cnt : Nat) (w : servod_world) (buf : List Char)
    (l : client_locals) : Except Fault (String × servod_world) :=
  if buf[0]? = some 'g' ∧ buf[1]? = some ',' then
    (process_client_gpio tr interfaces int_cnt w.st (buf.drop 2) l.new_gpio l.interface_num
      l.rd_val).map (fun r => (r.1, { w with st := r.2 }))
  else if buf[0]? = some 'i' ∧ buf[1]? = some ',' then
    process_client_i2c tr FI2C_READ_ATTEMPTS FI2C_ACK_RETRY_MAX interfaces int_cnt w
      (buf.drop 2) l.args l.rbuf
  else
    Except.ok ("E:parsing client request.  Should be\n\tg,<interface>,<dir>,<val>\n\ti,<slv>,<bytes to write(4max)>,<write word>,<bytes to read>\n", w)

/-- What one call of `process_client` does: its return value, the reply handed to `write`
(`none` when nothing is written), whether `perror("writing to client")` was called, and
the new state. -/
structure client_result where
  rv : Int
  rsp : Option String
  write_error_logged : Bool
  w : servod_world

/-- The function `process_client(interfaces, int_cnt, client)`: `blen` is what `read`
returned, `buf` the string it delivered, and `bcnt` what `write` returns for the reply. -/
def process_client (tr : Transport) (FI2C_READ_ATTEMPTS FI2C_ACK_RETRY_MAX : Nat)
    (interfaces : List ftdi_itype) (int_cnt : Nat) (w : servod_world) (blen : Int)
    (buf : List Char) (l : client_locals) (bcnt : Int) : Except Fault client_result :=
  if blen ≤ 0 then Except.ok ⟨1, none, false, w⟩
  else
    match process_client_rsp tr FI2C_READ_ATTEMPTS FI2C_ACK_RETRY_MAX interfaces int_cnt w
        buf l with
    | Except.error e => Except.error e
    | Except.ok r => Except.ok ⟨0, some r.1, decide (bcnt ≠ (r.1.length : Int)), r.2⟩

/-- The two states of a client connection in `run_server`. -/
inductive connection where
  | Connected
  | Closed
  deriving DecidableEq, Repr

/-- Lines 321-327 of `run_server`: a connected client is closed and dropped from the
descriptor set when `process_client` returns non-zero. -/
def run_server_client (rv : Int) : connection :=
  if rv ≠ 0 then connection.Closed else connection.Connected

/-- The state of the server behind `servod_start`, with the I2C record behind handle 2 as
`fi2c_init` leaves it. -/
def servod_world_start : servod_world :=
  { st := servod_start,
    i2c := fun _ => fi2c_init,
    tot_retry_count := 0 }

/-- Uninitialised locals of `process_client`, all zero, with the two 128-byte arrays. -/
def zero_locals : client_locals :=
  { new_gpio := ⟨0, 0, 0⟩, interface_num := 0, rd_val := 0,
    args := List.replicate 128 0, rbuf := List.replicate 128 0 }

/-- The bytes of a reply from index `i` on, as text: two lower-case hexadecimal digits per
byte, with `\nI:0x` in front of every byte whose index is a positive multiple of 4. -/
def i2c_reply_bytes : List Nat → Nat → String
  | [], _ => ""
  | b :: bs, i =>
    (if i ≠ 0 ∧ i % 4 = 0 then "\nI:0x" else "") ++ hex02 b ++ i2c_reply_bytes bs (i + 1)

/-- The reply the interface description gives for a successful I2C transaction that read
the bytes `bytes` (at least one). -/
def spec_i2c_reply (bytes : List Nat) : String :=
  "I:0x" ++ i2c_reply_bytes bytes 0 ++ "\nA:\n"

/-- The bytes `bs` as text, two lower-case hexadecimal digits each. -/
def hex_text : List Nat → String
  | [] => ""
  | b :: bs => hex02 b ++ hex_text bs

/-- One `I:` line of a reply, without its newline: `I:0x` and the bytes of the line. -/
def hex_line (c : List Nat) : String :=
  "I:0x" ++ hex_text c

/-- The bytes `bs` cut into groups of four, the last group with what is left; the first
argument bounds the number of groups. -/
def chunks4 : Nat → List Nat → List (List Nat)
  | 0, _ => []
  | n + 1, bs =>
    match bs with
    | [] => []
    | b :: rest => (b :: rest).take 4 :: chunks4 n ((b :: rest).drop 4)

/-- The text made of the given lines, each ended by a newline. -/
def lines_text : List String → String
  | [] => ""
  | l :: ls => l ++ "\n" ++ lines_text ls

/-- The value of `bytes_remaining` in front of iteration `i` of the reply loop. -/
def rsp_remaining (i : Nat) : Int :=
  508 - 2 * (i : Int) - 5 * (((i - 1) / 4 : Nat) : Int)

/-- The values of the fields of an I2C request, each reduced modulo 256. -/
def i2c_field_values (buf : List Char) : List Nat :=
  (strtok_fields buf).map (fun t => (strtoul0 t).1 % 256)

/-- The requests the interface description has `parse_buffer_i2c` reject, for the field
values `f`: fewer than two fields, or more than two and fewer than `f1 + 2`. -/
def spec_i2c_rejects (f : List Nat) : Prop :=
  f.length < 2 ∨ (2 < f.length ∧ f.length < f.getD 1 0 + 2)

instance (f : List Nat) : Decidable (spec_i2c_rejects f) := by
  unfold spec_i2c_rejects; infer_instance

/-- The request the interface description derives from the field values `f` of an accepted
I2C command: the slave address, the number of bytes to write, the bytes to write and the
number of bytes to read. -/
def spec_i2c_request (f : List Nat) : Nat × Nat × List Nat × Nat :=
  if f.length = 2 then (f.getD 0 0, 0, [], f.getD 1 0)
  else
    (f.getD 0 0, f.getD 1 0, (f.drop 2).take (f.getD 1 0),
     if f.length = f.getD 1 0 + 3 then f.getD (f.length - 1) 0 else 0)

/-- The GPIO requests the interface description has answered with an error: the request
fails to parse, the registry lookup finds no interface, or `fgpio_wr_rd` returns non-zero. -/
def client_gpio_fails (tr : Transport) (interfaces : List ftdi_itype) (int_cnt : Nat)
    (st : servod_state) (buf : List Char) (new_gpio : gpio_s) (interface_num rd_val : Nat) :
    Prop :=
  (parse_buffer_gpio buf new_gpio interface_num).rv ≠ 0 ∨
  ∃ l, fcom_lookup_interface interfaces int_cnt
      (parse_buffer_gpio buf new_gpio interface_num).interface_num ftdi_interface_type.ANY
        = Except.ok l ∧
    (l.entry = none ∨
     ∃ idx e, l.entry = some idx ∧ interfaces[idx]? = some e ∧
      (fgpio_wr_rd tr st.trace (st.heap e.context)
        (some (parse_buffer_gpio buf new_gpio interface_num).gpio) (some rd_val) e.type).rv ≠ 0)

/-- The I2C requests the interface description has answered with an error: the request
fails to parse, the registry lookup finds no I2C interface, or `fi2c_wr_rd` returns
non-zero. -/
def client_i2c_fails (tr : Transport) (FI2C_READ_ATTEMPTS FI2C_ACK_RETRY_MAX : Nat)
    (interfaces : List ftdi_itype) (int_cnt : Nat) (w : servod_world) (buf : List Char)
    (args rbuf : List Nat) : Prop :=
  ∃ p, parse_buffer_i2c buf 0 args = Except.ok p ∧
    (p.rv ≠ 0 ∨
     ∃ l, fcom_lookup_interface interfaces int_cnt 2 ftdi_interface_type.I2C = Except.ok l ∧
      (l.entry = none ∨
       ∃ idx e q r, l.entry = some idx ∧ interfaces[idx]? = some e ∧
        process_client_i2c_args p.argc p.argv = Except.ok q ∧
        fi2c_wr_rd tr FI2C_READ_ATTEMPTS FI2C_ACK_RETRY_MAX w.tot_retry_count
          ⟨{ (w.i2c e.context) with gpio := (w.st.heap e.context).gpio, slv := q.slv },
            w.st.trace, some rbuf⟩ q.wbuf q.wcnt q.rcnt = Except.ok r ∧
        r.rv ≠ 0))

/-- The requests the interface description has answered with an error: a line that starts
with neither `g,` nor `i,`, and the failing GPIO and I2C requests. -/
def client_request_fails (tr : Transport) (FI2C_READ_ATTEMPTS FI2C_ACK_RETRY_MAX : Nat)
    (interfaces : List ftdi_itype) (int_cnt : Nat) (w : servod_world) (buf : List Char)
    (l : client_locals) : Prop :=
  if buf[0]? = some 'g' ∧ buf[1]? = some ',' then
    client_gpio_fails tr interfaces int_cnt w.st (buf.drop 2) l.new_gpio l.interface_num
      l.rd_val
  else if buf[0]? = some 'i' ∧ buf[1]? = some ',' then
    client_i2c_fails tr FI2C_READ_ATTEMPTS FI2C_ACK_RETRY_MAX interfaces int_cnt w
      (buf.drop 2) l.args l.rbuf
  else True

/-! ## Sequences of GPIO requests -/

/-- One call of `fgpio_wr_rd`: its arguments `new_gpio`, `rd_val` and `itype`. -/
structure fgpio_request where
  new_gpio : Option gpio_s
  rd_val : Option Nat
  itype : ftdi_interface_type

/-- The context and the trace after the requests have been served by `fgpio_wr_rd`, one
after the other. -/
def fgpio_wr_rd_seq (tr : Transport) :
    List fgpio_request → List FtdiCall → fgpio_context → fgpio_context × List FtdiCall
  | [], trace, fgc => (fgc, trace)
  | q :: qs, trace, fgc =>
    fgpio_wr_rd_seq tr qs (fgpio_wr_rd tr trace fgc q.new_gpio q.rd_val q.itype).trace
      (fgpio_wr_rd tr trace fgc q.new_gpio q.rd_val q.itype).fgc

/-- The shadow of an I2C channel between GPIO requests: the mask `fi2c_init` configures,
bytes in value and direction, and the three I2C lines (bits 0..2) clear in both. -/
def i2c_shadow (g : gpio_s) : Prop :=
  g.mask = 0xf8 ∧ g.value < 256 ∧ g.direction < 256 ∧ g.value &&& 7 = 0 ∧ g.direction &&& 7 = 0

/-! ## UART pass-through (`lib/ftdiuart.c`) -/

def FUART_BUF_SIZE : Nat := 128
def FUART_ERR_NONE : Int := 0
def FUART_ERR_WR : Int := -3
def FUART_ERR_RD : Int := -4

/-- Modelled from the spec: the `errno` value `EBUSY` of the C library on Linux. -/
def EBUSY : Int := 16

/-- What the world outside the transport does during one pass of `fuart_wr_rd_locked`: the
result of the `read` on the pty (return value and bytes delivered), the value of `errno`
after `ftdi_read_data`, and the results of the successive `write` calls on the pty. -/
structure fuart_env where
  pty_read : Int × List Nat
  errno : Int
  pty_write : List Int

/-- The loop `while ((bytes = write(fd, buf, bytes_remaining)) > 0) bytes_remaining -= bytes;`
over the results of the successive `write` calls (a call without a listed result returns
0).  Returns the last `bytes` and `bytes_remaining`. -/
def fuart_pty_write_loop : List Int → Int → Int × Int
  | [], bytes_remaining => (0, bytes_remaining)
  | b :: bs, bytes_remaining =>
    if b > 0 then fuart_pty_write_loop bs (bytes_remaining - b) else (b, bytes_remaining)

/-- Lines 237-243 of `fuart_wr_rd_locked`: what the pty has to send goes out in one bulk
write; returns the value of `rv` behind the block and the trace. -/
def fuart_write_block (tr : Transport) (trace : List FtdiCall) (env : fuart_env) :
    Int × List FtdiCall :=
  let bytes := env.pty_read.1
  if bytes > 0 then
    let c := ftdi_call tr trace (FtdiCall.write_data (env.pty_read.2.take bytes.toNat))
    (if c.1.rv ≠ bytes then FUART_ERR_WR else FUART_ERR_NONE, c.2)
  else (FUART_ERR_NONE, trace)

/-- The function `fuart_wr_rd_locked(fuartc)`: the return value, the trace, and what is
left of the bytes to copy to the pty.  The value of `rv` behind the write block is
overwritten by the assignment `rv = FUART_ERR_NONE` that follows it. -/
def fuart_wr_rd_locked (tr : Transport) (trace : List FtdiCall) (env : fuart_env) :
    Int × List FtdiCall × Int :=
  let wr := fuart_write_block tr trace env
  let rv : Int := FUART_ERR_NONE
  let rd := ftdi_read_data tr wr.2 FUART_BUF_SIZE
  if rd.1 > 0 then
    (rv, rd.2.2, (fuart_pty_write_loop env.pty_write rd.1).2)
  else if rd.1 < 0 ∧ env.errno ≠ EBUSY then (FUART_ERR_RD, rd.2.2, 0)
  else (rv, rd.2.2, 0)

/-- The function `fuart_wr_rd(fuartc)`: `fuart_wr_rd_locked` under the lock. -/
def fuart_wr_rd (tr : Transport) (trace : List FtdiCall) (env : fuart_env) :
    Int × List FtdiCall × Int :=
  fuart_wr_rd_locked tr trace env

/-- The loop of `_fuart_run` for as many passes as `envs` describes: the number of passes
made, whether the loop was left by `break`, and the trace. -/
def _fuart_run (tr : Transport) : List fuart_env → List FtdiCall → Nat × Bool × List FtdiCall
  | [], trace => (0, false, trace)
  | env :: envs, trace =>
    if (fuart_wr_rd tr trace env).1 ≠ 0 then (1, true, (fuart_wr_rd tr trace env).2.1)
    else
      ((_fuart_run tr envs (fuart_wr_rd tr trace env).2.1).1 + 1,
       (_fuart_run tr envs (fuart_wr_rd tr trace env).2.1).2)

/-- A device that takes no byte of any bulk write and has nothing to deliver. -/
def uart_short_write_transport : Transport := fun trace =>
  match trace.getLast? with
  | some (FtdiCall.write_data _) => ⟨0, []⟩
  | _ => ⟨0, []⟩

/-! # Theorems -/

/-! ## Bytes and masks -/

theorem testBit_0xff (i : Nat) : (0xff : Nat).testBit i = decide (i < 8) := by
  have h : (0xff : Nat) = 2 ^ 8 - 1 := by norm_num
  rw [h, Nat.testBit_two_pow_sub_one]

theorem testBit_byte_high (d i : Nat) (hd : d < 256) (hi : 8 ≤ i) : d.testBit i = false := by
  apply Nat.testBit_lt_two_pow
  calc d < 2 ^ 8 := by simpa using hd
    _ ≤ 2 ^ i := Nat.pow_le_pow_right (by norm_num) hi

/-- When no masked bit differs, merging the masked bits gives back the old byte. -/
theorem merge_unchanged (m d nd : Nat) (hd : d < 256) (h : m &&& (d ^^^ nd) = 0) :
    (m &&& nd) ||| ((0xff ^^^ m) &&& d) = d := by
  apply Nat.eq_of_testBit_eq
  intro i
  have hi := congrArg (fun x => x.testBit i) h
  simp only [Nat.testBit_and, Nat.testBit_xor, Nat.zero_testBit] at hi
  simp only [Nat.testBit_or, Nat.testBit_and, Nat.testBit_xor, testBit_0xff]
  by_cases h8 : i < 8
  · cases hm : m.testBit i <;> cases hdd : d.testBit i <;> cases hn : nd.testBit i <;> simp_all
  · have := testBit_byte_high d i hd (by omega)
    cases hm : m.testBit i <;> cases hn : nd.testBit i <;> simp_all

theorem merge_lt (m d nd : Nat) (hm : m < 256) (hd : d < 256) :
    (m &&& nd) ||| ((0xff ^^^ m) &&& d) < 256 := by
  have h1 : m &&& nd < 2 ^ 8 := lt_of_le_of_lt Nat.and_le_left (by simpa using hm)
  have h2 : (0xff ^^^ m) &&& d < 2 ^ 8 := Nat.and_lt_two_pow _ (by simpa using hd)
  simpa using Nat.or_lt_two_pow h1 h2

theorem mask_subset_testBit (c m i : Nat) (h : (c ||| m) = c) (hc : c.testBit i = false) :
    m.testBit i = false := by
  have hi := congrArg (fun x => x.testBit i) h
  simp only [Nat.testBit_or] at hi
  cases hm : m.testBit i <;> simp_all

theorem mask_subset_le (c m : Nat) (h : (c ||| m) = c) : m ≤ c := by
  rw [← h]; exact Nat.le_of_testBit (by simp +contextual)

/-- The byte stored by the merge, whether or not the change flag is set. -/
theorem merge_byte (m d nd : Nat) (hm : m < 256) (hd : d < 256) :
    (if decide (m &&& (d ^^^ nd) ≠ 0) = true then
      ((m &&& nd) ||| ((0xff ^^^ m) &&& d)) % 256 else d)
      = (m &&& nd) ||| ((0xff ^^^ m) &&& d) := by
  by_cases h : m &&& (d ^^^ nd) = 0
  · simp [h, merge_unchanged m d nd hd h]
  · simp [h, Nat.mod_eq_of_lt (merge_lt m d nd hm hd)]

/-! ## GPIO channel -/

theorem fgpio_merge_direction (g ng : gpio_s) (hm : ng.mask < 256) (hd : g.direction < 256) :
    (fgpio_merge g ng).2.2.direction
      = (ng.mask &&& ng.direction) ||| ((0xff ^^^ ng.mask) &&& g.direction) := by
  simp only [fgpio_merge]
  exact merge_byte ng.mask g.direction ng.direction hm hd

theorem fgpio_merge_value (g ng : gpio_s) (hm : ng.mask < 256) (hv : g.value < 256) :
    (fgpio_merge g ng).2.2.value
      = (ng.mask &&& ng.value) ||| ((0xff ^^^ ng.mask) &&& g.value) := by
  simp only [fgpio_merge]
  exact merge_byte ng.mask g.value ng.value hm hv

theorem fgpio_merge_mask (g ng : gpio_s) : (fgpio_merge g ng).2.2.mask = g.mask := by
  simp [fgpio_merge]

/-- Once the mask check has passed, every return path leaves the merged shadow behind. -/
theorem fgpio_wr_rd_fgc (tr : Transport) (trace : List FtdiCall) (fgc : fgpio_context)
    (ng : gpio_s) (rd_val : Option Nat) (itype : ftdi_interface_type)
    (h : (fgc.gpio.mask ||| ng.mask) = fgc.gpio.mask) :
    (fgpio_wr_rd tr trace fgc (some ng) rd_val itype).fgc
      = { fgc with gpio := (fgpio_merge fgc.gpio ng).2.2 } := by
  simp only [fgpio_wr_rd, h, ne_eq, not_true_eq_false, if_false]
  split <;> rfl

/-- A rejected request leaves the whole result as it found it. -/
theorem fgpio_wr_rd_mask_unchanged (tr : Transport) (trace : List FtdiCall)
    (fgc : fgpio_context) (ng : gpio_s) (rd_val : Option Nat) (itype : ftdi_interface_type)
    (h : ¬ (fgc.gpio.mask ||| ng.mask) = fgc.gpio.mask) :
    (fgpio_wr_rd tr trace fgc (some ng) rd_val itype).fgc = fgc := by
  simp [fgpio_wr_rd, h]

/-- C1: a request whose mask is not a subset of the configured mask is rejected with
`FGPIO_ERR_MASK`; the context (shadow value, direction and mask) is unchanged, no call is
added to the transport trace (no mode-set, no bulk write, no pin readback), and the byte
behind `rd_val` is untouched even when a readback was requested. -/
theorem fgpio_wr_rd_mask_rejected (tr : Transport) (trace : List FtdiCall)
    (fgc : fgpio_context) (ng : gpio_s) (rd_val : Option Nat) (itype : ftdi_interface_type)
    (h : (fgc.gpio.mask ||| ng.mask) ≠ fgc.gpio.mask) :
    (fgpio_wr_rd tr trace fgc (some ng) rd_val itype).rv = FGPIO_ERR_MASK ∧
    (fgpio_wr_rd tr trace fgc (some ng) rd_val itype).fgc = fgc ∧
    (fgpio_wr_rd tr trace fgc (some ng) rd_val itype).trace = trace ∧
    (fgpio_wr_rd tr trace fgc (some ng) rd_val itype).rd_val = rd_val := by
  simp [fgpio_wr_rd, h]

theorem fgpio_wr_rd_mask_rejected_witness :
    (0x0f ||| 0x10 : Nat) ≠ 0x0f ∧
    (fgpio_wr_rd (fun _ => ⟨0, [0xaa]⟩) [] ⟨ftdi_chip_type.TYPE_R, ⟨0x05, 0x03, 0x0f⟩, 0⟩
      (some ⟨0x10, 0x10, 0x10⟩) (some 0x77) ftdi_interface_type.GPIO).rv = FGPIO_ERR_MASK ∧
    (fgpio_wr_rd (fun _ => ⟨0, [0xaa]⟩) [] ⟨ftdi_chip_type.TYPE_R, ⟨0x05, 0x03, 0x0f⟩, 0⟩
      (some ⟨0x10, 0x10, 0x10⟩) (some 0x77) ftdi_interface_type.GPIO).trace = [] :=
  ⟨by decide,
   (fgpio_wr_rd_mask_rejected (fun _ => ⟨0, [0xaa]⟩) [] ⟨ftdi_chip_type.TYPE_R, ⟨0x05, 0x03, 0x0f⟩, 0⟩
      ⟨0x10, 0x10, 0x10⟩ (some 0x77) ftdi_interface_type.GPIO (by decide)).1,
   (fgpio_wr_rd_mask_rejected (fun _ => ⟨0, [0xaa]⟩) [] ⟨ftdi_chip_type.TYPE_R, ⟨0x05, 0x03, 0x0f⟩, 0⟩
      ⟨0x10, 0x10, 0x10⟩ (some 0x77) ftdi_interface_type.GPIO (by decide)).2.2.1⟩

/-- C2: whatever the request (also a NULL one), the channel type, the chip and the transport
behaviour, and whatever `fgpio_wr_rd` returns, the configured mask is unchanged and the
shadow direction and value keep every bit that is not set in the configured mask. -/
theorem fgpio_wr_rd_frame (tr : Transport) (trace : List FtdiCall) (fgc : fgpio_context)
    (new_gpio : Option gpio_s) (rd_val : Option Nat) (itype : ftdi_interface_type)
    (hv : fgc.gpio.value < 256) (hd : fgc.gpio.direction < 256) :
    (fgpio_wr_rd tr trace fgc new_gpio rd_val itype).fgc.gpio.mask = fgc.gpio.mask ∧
    ∀ i, fgc.gpio.mask.testBit i = false →
      (fgpio_wr_rd tr trace fgc new_gpio rd_val itype).fgc.gpio.direction.testBit i
        = fgc.gpio.direction.testBit i ∧
      (fgpio_wr_rd tr trace fgc new_gpio rd_val itype).fgc.gpio.value.testBit i
        = fgc.gpio.value.testBit i := by
  cases new_gpio with
  | none => simp [fgpio_wr_rd]
  | some ng =>
    by_cases h : (fgc.gpio.mask ||| ng.mask) = fgc.gpio.mask
    · rw [fgpio_wr_rd_fgc tr trace fgc ng rd_val itype h]
      refine ⟨fgpio_merge_mask _ _, ?_⟩
      intro i hi
      have hm := mask_subset_testBit _ _ i h hi
      simp only [fgpio_merge]
      constructor
      · split
        · simp only [Nat.testBit_mod_two_pow, Nat.testBit_or, Nat.testBit_and,
            Nat.testBit_xor, testBit_0xff, hm, show (256 : Nat) = 2 ^ 8 from rfl]
          by_cases h8 : i < 8
          · simp [h8]
          · simp [h8, testBit_byte_high _ i hd (by omega)]
        · rfl
      · split
        · simp only [Nat.testBit_mod_two_pow, Nat.testBit_or, Nat.testBit_and,
            Nat.testBit_xor, testBit_0xff, hm, show (256 : Nat) = 2 ^ 8 from rfl]
          by_cases h8 : i < 8
          · simp [h8]
          · simp [h8, testBit_byte_high _ i hv (by omega)]
        · rfl
    · have r := fgpio_wr_rd_mask_unchanged tr trace fgc ng rd_val itype h
      rw [r]
      exact ⟨rfl, fun _ _ => ⟨rfl, rfl⟩⟩

theorem fgpio_wr_rd_frame_witness :
    (0x05 : Nat) < 256 ∧ (0x03 : Nat) < 256 ∧
    ∀ i, (0x0f : Nat).testBit i = false →
      (fgpio_wr_rd (fun _ => ⟨0, [0xaa]⟩) []
        ⟨ftdi_chip_type.TYPE_R, ⟨0x05, 0x03, 0x0f⟩, 0⟩
        (some ⟨0x0a, 0x0c, 0x0f⟩) (some 0) ftdi_interface_type.GPIO).fgc.gpio.direction.testBit i
        = (0x03 : Nat).testBit i ∧
      (fgpio_wr_rd (fun _ => ⟨0, [0xaa]⟩) []
        ⟨ftdi_chip_type.TYPE_R, ⟨0x05, 0x03, 0x0f⟩, 0⟩
        (some ⟨0x0a, 0x0c, 0x0f⟩) (some 0) ftdi_interface_type.GPIO).fgc.gpio.value.testBit i
        = (0x05 : Nat).testBit i :=
  ⟨by decide, by decide,
   (fgpio_wr_rd_frame (fun _ => ⟨0, [0xaa]⟩) []
      ⟨ftdi_chip_type.TYPE_R, ⟨0x05, 0x03, 0x0f⟩, 0⟩
      (some ⟨0x0a, 0x0c, 0x0f⟩) (some 0) ftdi_interface_type.GPIO (by decide) (by decide)).2⟩

/-- C3: for a request that passes the mask check, `fgpio_wr_rd` leaves
`direction = (mask & new.direction) | (~mask & old.direction)` and
`value = (mask & new.value) | (~mask & old.value)` in the shadow on every return path,
whether or not a masked bit changed; the flag `dir_chg` is set exactly when
`mask & (old.direction ^ new.direction)` is non-zero and `val_chg` exactly when
`mask & (old.value ^ new.value)` is non-zero. -/
theorem fgpio_wr_rd_merge (tr : Transport) (trace : List FtdiCall) (fgc : fgpio_context)
    (ng : gpio_s) (rd_val : Option Nat) (itype : ftdi_interface_type)
    (hwf : fgc.gpio.wf) (h : (fgc.gpio.mask ||| ng.mask) = fgc.gpio.mask) :
    (fgpio_wr_rd tr trace fgc (some ng) rd_val itype).fgc.gpio.direction
      = (ng.mask &&& ng.direction) ||| ((0xff ^^^ ng.mask) &&& fgc.gpio.direction) ∧
    (fgpio_wr_rd tr trace fgc (some ng) rd_val itype).fgc.gpio.value
      = (ng.mask &&& ng.value) ||| ((0xff ^^^ ng.mask) &&& fgc.gpio.value) ∧
    ((fgpio_merge fgc.gpio ng).1 = true
      ↔ ng.mask &&& (fgc.gpio.direction ^^^ ng.direction) ≠ 0) ∧
    ((fgpio_merge fgc.gpio ng).2.1 = true
      ↔ ng.mask &&& (fgc.gpio.value ^^^ ng.value) ≠ 0) := by
  obtain ⟨hv, hd, hmask⟩ := hwf
  have hm : ng.mask < 256 := lt_of_le_of_lt (mask_subset_le _ _ h) hmask
  rw [fgpio_wr_rd_fgc tr trace fgc ng rd_val itype h]
  refine ⟨fgpio_merge_direction _ _ hm hd, fgpio_merge_value _ _ hm hv, ?_, ?_⟩
  · simp [fgpio_merge]
  · simp [fgpio_merge]

theorem fgpio_wr_rd_merge_witness :
    (fgpio_wr_rd (fun _ => ⟨1, [0xaa]⟩) []
      ⟨ftdi_chip_type.TYPE_2232H, ⟨0x55, 0x33, 0xf8⟩, 0⟩
      (some ⟨0xa0, 0xc8, 0x38⟩) none ftdi_interface_type.GPIO).fgc.gpio.direction
      = (0x38 &&& 0xc8) ||| ((0xff ^^^ 0x38) &&& 0x33) ∧
    (fgpio_wr_rd (fun _ => ⟨1, [0xaa]⟩) []
      ⟨ftdi_chip_type.TYPE_2232H, ⟨0x55, 0x33, 0xf8⟩, 0⟩
      (some ⟨0xa0, 0xc8, 0x38⟩) none ftdi_interface_type.GPIO).fgc.gpio.value
      = (0x38 &&& 0xa0) ||| ((0xff ^^^ 0x38) &&& 0x55) :=
  ⟨(fgpio_wr_rd_merge (fun _ => ⟨1, [0xaa]⟩) []
      ⟨ftdi_chip_type.TYPE_2232H, ⟨0x55, 0x33, 0xf8⟩, 0⟩
      ⟨0xa0, 0xc8, 0x38⟩ none ftdi_interface_type.GPIO (by decide) (by decide)).1,
   (fgpio_wr_rd_merge (fun _ => ⟨1, [0xaa]⟩) []
      ⟨ftdi_chip_type.TYPE_2232H, ⟨0x55, 0x33, 0xf8⟩, 0⟩
      ⟨0xa0, 0xc8, 0x38⟩ none ftdi_interface_type.GPIO (by decide) (by decide)).2.1⟩

/-! ## Interface registry -/

/-- C4: for an interface number above the count the lookup returns NULL and reads no
registry entry, whatever the registry holds and whatever type is expected. -/
theorem fcom_lookup_interface_above_cnt (interfaces : List ftdi_itype)
    (cnt interface_num : Nat) (itype : ftdi_interface_type) (h : interface_num > cnt) :
    fcom_lookup_interface interfaces cnt interface_num itype = Except.ok ⟨none, []⟩ := by
  simp [fcom_lookup_interface, h]

theorem fcom_lookup_interface_above_cnt_witness :
    (3 : Nat) > 2 ∧
    fcom_lookup_interface [⟨ftdi_interface_type.GPIO, 11⟩, ⟨ftdi_interface_type.I2C, 22⟩]
      2 3 ftdi_interface_type.ANY = Except.ok ⟨none, []⟩ :=
  ⟨by decide,
   fcom_lookup_interface_above_cnt
     [⟨ftdi_interface_type.GPIO, 11⟩, ⟨ftdi_interface_type.I2C, 22⟩]
     2 3 ftdi_interface_type.ANY (by decide)⟩

theorem lookup_index (n : Nat) (h1 : 1 ≤ n) (h32 : n < 2 ^ 32) :
    (n + 2 ^ 32 - 1) % 2 ^ 32 = n - 1 := by
  have e : n + 2 ^ 32 - 1 = (n - 1) + 2 ^ 32 := by omega
  rw [e, Nat.add_mod_right, Nat.mod_eq_of_lt (by omega)]

/-- C5: in a registry of `cnt` entries, for `1 <= n <= cnt` the lookup returns entry `n-1`
when the expected type is `ANY` or equals the type stored in that entry, and NULL
otherwise; so an entry returned for an expected type other than `ANY` has that type. -/
theorem fcom_lookup_interface_in_range (interfaces : List ftdi_itype) (n : Nat)
    (itype : ftdi_interface_type) (h1 : 1 ≤ n) (h2 : n ≤ interfaces.length)
    (h32 : interfaces.length < 2 ^ 32) :
    ∃ e, interfaces[n - 1]? = some e ∧
      fcom_lookup_interface interfaces interfaces.length n itype
        = Except.ok ⟨if itype = ftdi_interface_type.ANY ∨ e.type = itype then some (n - 1)
            else none,
          if itype = ftdi_interface_type.ANY then [] else [n - 1]⟩ ∧
      (itype ≠ ftdi_interface_type.ANY →
        ∀ r, fcom_lookup_interface interfaces interfaces.length n itype = Except.ok r →
          r.entry ≠ none → e.type = itype) := by
  have hlt : n - 1 < interfaces.length := by omega
  have hidx := lookup_index n h1 (by omega)
  refine ⟨interfaces[n - 1], List.getElem?_eq_getElem hlt, ?_, ?_⟩
  · have hn : ¬ n > interfaces.length := by omega
    simp only [fcom_lookup_interface, hn, if_false, hidx, List.getElem?_eq_getElem hlt]
    by_cases ha : itype = ftdi_interface_type.ANY
    · simp [ha]
    · by_cases ht : interfaces[n - 1].type = itype
      · simp [ha, ht]
      · simp [ha, ht]
  · intro ha r hr hne
    have hn : ¬ n > interfaces.length := by omega
    simp only [fcom_lookup_interface, hn, if_false, hidx, List.getElem?_eq_getElem hlt] at hr
    by_cases ht : interfaces[n - 1].type = itype
    · exact ht
    · simp [ha, ht] at hr
      rw [← hr] at hne
      simp at hne

theorem fcom_lookup_interface_in_range_witness :
    fcom_lookup_interface [⟨ftdi_interface_type.GPIO, 11⟩, ⟨ftdi_interface_type.I2C, 22⟩]
      2 2 ftdi_interface_type.I2C = Except.ok ⟨some 1, [1]⟩ := by
  obtain ⟨e, h1, h2, _⟩ := fcom_lookup_interface_in_range
    [⟨ftdi_interface_type.GPIO, 11⟩, ⟨ftdi_interface_type.I2C, 22⟩] 2
    ftdi_interface_type.I2C (by decide) (by decide) (by simp)
  simp at h1
  subst h1
  simpa using h2

/-! ## I2C clock -/

theorem trunc_to_int_zero : trunc_to_int 0 = 0 := by simp [trunc_to_int]

theorem quotient_eq (hz : Nat) (h : 0 < hz) :
    (6000000 : ℚ) / ((hz : ℚ) * 1.5) - 1 = ((4000000 : ℕ) : ℚ) / (hz : ℚ) - 1 := by
  have : (hz : ℚ) ≠ 0 := by positivity
  field_simp
  ring

theorem trunc_quotient (hz : Nat) (h1 : 0 < hz) (h2 : hz ≤ 4000000) :
    trunc_to_int (((4000000 : ℕ) : ℚ) / (hz : ℚ) - 1) = ((4000000 / hz - 1 : ℕ) : ℤ) := by
  have hq : (1 : ℚ) ≤ ((4000000 : ℕ) : ℚ) / (hz : ℚ) := by
    rw [le_div_iff₀ (by positivity)]
    simpa using (show (hz : ℚ) ≤ ((4000000 : ℕ) : ℚ) by exact_mod_cast h2)
  have hpos : 1 ≤ 4000000 / hz := (Nat.one_le_div_iff h1).mpr h2
  rw [trunc_to_int, if_pos (by linarith), Int.floor_sub_one, Rat.floor_natCast_div_natCast]
  omega

/-- The divisor `fi2c_setclock` computes, in closed form over the naturals. -/
theorem div_value_closed (hz : Nat) (h1 : 100 ≤ hz) :
    trunc_to_int (DIV_VALUE ((hz : ℚ) * 1.5))
      = if hz > 4000000 then 0 else ((4000000 / hz - 1 : ℕ) : ℤ) := by
  have hz0 : (0 : ℚ) < hz := by exact_mod_cast (show 0 < hz by omega)
  by_cases hbig : hz > 4000000
  · have : (hz : ℚ) * 1.5 > 6000000 := by
      have : (4000000 : ℚ) < hz := by exact_mod_cast hbig
      norm_num; linarith
    simp [DIV_VALUE, this, hbig, trunc_to_int_zero]
  · have hle : hz ≤ 4000000 := by omega
    have hr : ¬ (hz : ℚ) * 1.5 > 6000000 := by
      have : (hz : ℚ) ≤ 4000000 := by exact_mod_cast hle
      norm_num; linarith
    have hne : ¬ (hz : ℚ) * 1.5 = 0 := by
      have : (0:ℚ) < (hz : ℚ) * 1.5 := by positivity
      exact ne_of_gt this
    have hsmall : ¬ (6000000 : ℚ) / ((hz : ℚ) * 1.5) - 1 > 0xffff := by
      rw [quotient_eq hz (by omega)]
      have h100 : (100 : ℚ) ≤ hz := by exact_mod_cast h1
      have : ((4000000 : ℕ) : ℚ) / (hz : ℚ) ≤ 40000 := by
        rw [div_le_iff₀ hz0]; push_cast; linarith
      norm_num at this ⊢; linarith
    rw [DIV_VALUE, if_neg hr, if_neg hne, if_neg hsmall, if_neg hbig, quotient_eq hz (by omega),
      trunc_quotient hz (by omega) hle]

/-- The divisor of the specification's wording, in the same closed form. -/
theorem spec_divisor_closed (hz : Nat) (h1 : 100 ≤ hz) :
    spec_divisor hz = if hz > 4000000 then 0 else ((4000000 / hz - 1 : ℕ) : ℤ) := by
  by_cases hbig : hz > 4000000
  · have : (1.5 : ℚ) * hz > 6000000 := by
      have : (4000000 : ℚ) < hz := by exact_mod_cast hbig
      norm_num; linarith
    simp [spec_divisor, this, hbig]
  · have hle : hz ≤ 4000000 := by omega
    have hr : ¬ (1.5 : ℚ) * hz > 6000000 := by
      have : (hz : ℚ) ≤ 4000000 := by exact_mod_cast hle
      norm_num; linarith
    have hq : (6000000 : ℚ) / (1.5 * hz) - 1 = ((4000000 : ℕ) : ℚ) / (hz : ℚ) - 1 := by
      rw [mul_comm]; exact quotient_eq hz (by omega)
    have hdiv : 4000000 / hz ≤ 40000 := by
      calc 4000000 / hz ≤ 4000000 / 100 := Nat.div_le_div_left h1 (by norm_num)
        _ = 40000 := by norm_num
    rw [spec_divisor, if_neg hr, if_neg hbig, hq, trunc_quotient hz (by omega) hle]
    apply min_eq_left
    omega

theorem spec_divisor_eq (hz : Nat) (h1 : 100 ≤ hz) :
    trunc_to_int (DIV_VALUE ((hz : ℚ) * 1.5)) = spec_divisor hz := by
  rw [div_value_closed hz h1, spec_divisor_closed hz h1]

theorem CHECK_FTDI_trace (tr : Transport) (trace : List FtdiCall) (c : FtdiCall) :
    (CHECK_FTDI tr trace c).2 = trace ++ [c, c] := by
  simp [CHECK_FTDI, ftdi_call]

theorem and_0xFF (x : Nat) : x &&& 0xFF = x % 256 := by
  have h := Nat.and_pow_two_sub_one_eq_mod x 8
  norm_num at h
  exact h

/-- Outside `[FTDI_CLK_MIN, FTDI_CLK_MAX_X5]` only the 3-phase command goes out (twice,
through `CHECK_FTDI`) and `FI2C_ERR_CLK` is returned. -/
theorem fi2c_setclock_out_of_range (tr : Transport) (trace : List FtdiCall) (hz : Nat)
    (h : hz < 100 ∨ 30000000 < hz) :
    fi2c_setclock tr trace hz
      = (FI2C_ERR_CLK, trace ++ [FtdiCall.write_data [0x8c], FtdiCall.write_data [0x8c]]) := by
  have hc : hz > FTDI_CLK_MAX_X5 ∨ hz < FTDI_CLK_MIN := by
    simp only [FTDI_CLK_MAX_X5, FTDI_CLK_MIN]; omega
  simp only [fi2c_setclock, hc, if_true, CHECK_FTDI_trace, FTDI_CMD_3PHASE]

/-- Inside the range the outcome is decided by the divisor: zero gives `FI2C_ERR_CLK` after
the 3-phase command alone, a non-zero divisor is sent (twice, through `CHECK_FTDI`) low
byte first behind `TCK_DIVISOR`. -/
theorem fi2c_setclock_in_range (tr : Transport) (trace : List FtdiCall) (hz : Nat)
    (h1 : 100 ≤ hz) (h2 : hz ≤ 30000000) :
    fi2c_setclock tr trace hz
      = if spec_divisor hz = 0 then
          (FI2C_ERR_CLK, trace ++ [FtdiCall.write_data [0x8c], FtdiCall.write_data [0x8c]])
        else
          (FI2C_ERR_NONE, trace ++ [FtdiCall.write_data [0x8c], FtdiCall.write_data [0x8c],
            FtdiCall.write_data
              [0x86, (spec_divisor hz).toNat % 256, (spec_divisor hz).toNat / 256 % 256],
            FtdiCall.write_data
              [0x86, (spec_divisor hz).toNat % 256, (spec_divisor hz).toNat / 256 % 256]]) := by
  have hc : ¬ (hz > FTDI_CLK_MAX_X5 ∨ hz < FTDI_CLK_MIN) := by
    simp only [FTDI_CLK_MAX_X5, FTDI_CLK_MIN]; omega
  have hx : ¬ hz > FTDI_CLK_MAX_X5 := by
    simp only [FTDI_CLK_MAX_X5]; omega
  unfold fi2c_setclock
  simp only []
  rw [if_neg hc, if_neg hx, spec_divisor_eq hz h1]
  by_cases hd : spec_divisor hz = 0
  · simp only [hd, if_true, CHECK_FTDI_trace, FTDI_CMD_3PHASE]
  · simp only [hd, if_false, CHECK_FTDI_trace, FTDI_CMD_3PHASE, TCK_DIVISOR,
      Nat.shiftRight_zero, and_0xFF, Nat.shiftRight_eq_div_pow]
    simp

theorem spec_divisor_zero_iff (hz : Nat) (h1 : 100 ≤ hz) :
    spec_divisor hz = 0 ↔ 2000000 < hz := by
  rw [spec_divisor_closed hz h1]
  by_cases hbig : hz > 4000000
  · simp only [hbig, if_true, true_iff]; omega
  · simp only [hbig, if_false]
    have hq : 4000000 / hz ≤ 1 ↔ 2000000 < hz := by
      rw [show (1 : Nat) = 2 - 1 from rfl, ← Nat.lt_iff_le_pred (by norm_num),
        Nat.div_lt_iff_lt_mul (by omega)]
      omega
    omega

theorem spec_divisor_bounds (hz : Nat) (h1 : 100 ≤ hz) :
    0 ≤ spec_divisor hz ∧ (spec_divisor hz).toNat < 65536 := by
  rw [spec_divisor_closed hz h1]
  have hdiv : 4000000 / hz ≤ 40000 := by
    calc 4000000 / hz ≤ 4000000 / 100 := Nat.div_le_div_left h1 (by norm_num)
      _ = 40000 := by norm_num
  split
  · simp
  · constructor
    · omega
    · simp only [Int.toNat_ofNat]; omega

theorem drop_added (trace added : List FtdiCall) :
    (trace ++ added).drop trace.length = added := by
  simp

/-- C6: for `hz < 100` and for `hz > 30000000`, `fi2c_setclock` returns `FI2C_ERR_CLK`; the
calls it adds to the trace are the one-byte 3-phase command `0x8c` (issued twice, since
`CHECK_FTDI` evaluates its argument twice) and nothing else, so no bulk write beginning
with `TCK_DIVISOR` (`0x86`) is made. -/
theorem fi2c_setclock_rejects_out_of_range (tr : Transport) (trace : List FtdiCall)
    (hz : Nat) (h : hz < 100 ∨ 30000000 < hz) :
    (fi2c_setclock tr trace hz).1 = FI2C_ERR_CLK ∧
    (fi2c_setclock tr trace hz).2
      = trace ++ [FtdiCall.write_data [FTDI_CMD_3PHASE], FtdiCall.write_data [FTDI_CMD_3PHASE]] ∧
    ∀ c ∈ (fi2c_setclock tr trace hz).2.drop trace.length,
      c = FtdiCall.write_data [0x8c] ∧ ∀ rest, c ≠ FtdiCall.write_data (TCK_DIVISOR :: rest) := by
  rw [fi2c_setclock_out_of_range tr trace hz h]
  refine ⟨rfl, rfl, ?_⟩
  intro c hc
  rw [drop_added] at hc
  simp only [List.mem_cons, List.mem_singleton, or_self, List.not_mem_nil, or_false] at hc
  subst hc
  exact ⟨rfl, fun rest => by simp [TCK_DIVISOR]⟩

theorem fi2c_setclock_rejects_out_of_range_witness :
    ((99 : Nat) < 100 ∨ 30000000 < (99 : Nat)) ∧
    (fi2c_setclock (fun _ => ⟨1, []⟩) [] 99).1 = FI2C_ERR_CLK ∧
    (fi2c_setclock (fun _ => ⟨1, []⟩) [] 99).2
      = [] ++ [FtdiCall.write_data [FTDI_CMD_3PHASE], FtdiCall.write_data [FTDI_CMD_3PHASE]] :=
  ⟨by decide,
   (fi2c_setclock_rejects_out_of_range (fun _ => ⟨1, []⟩) [] 99 (by decide)).1,
   (fi2c_setclock_rejects_out_of_range (fun _ => ⟨1, []⟩) [] 99 (by decide)).2.1⟩

/-- C7: for `hz` in `[100, 30000000]` let `d` be the divisor in the specification's words.
If `d = 0`, `fi2c_setclock` returns `FI2C_ERR_CLK` and none of the calls it makes is a write
beginning with `TCK_DIVISOR`.  If `d != 0`, it returns `FI2C_ERR_NONE`, its last transport
call is the write of exactly `[0x86, d mod 256, (d div 256) mod 256]`, and the two data
bytes give back `d` little-endian. -/
theorem fi2c_setclock_divisor (tr : Transport) (trace : List FtdiCall) (hz : Nat)
    (h1 : 100 ≤ hz) (h2 : hz ≤ 30000000) :
    (spec_divisor hz = 0 →
      (fi2c_setclock tr trace hz).1 = FI2C_ERR_CLK ∧
      ∀ c ∈ (fi2c_setclock tr trace hz).2.drop trace.length,
        ∀ rest, c ≠ FtdiCall.write_data (TCK_DIVISOR :: rest)) ∧
    (spec_divisor hz ≠ 0 →
      (fi2c_setclock tr trace hz).1 = FI2C_ERR_NONE ∧
      (fi2c_setclock tr trace hz).2.getLast?
        = some (FtdiCall.write_data
            [0x86, (spec_divisor hz).toNat % 256, (spec_divisor hz).toNat / 256 % 256]) ∧
      (spec_divisor hz).toNat % 256 + 256 * ((spec_divisor hz).toNat / 256 % 256)
        = (spec_divisor hz).toNat) := by
  rw [fi2c_setclock_in_range tr trace hz h1 h2]
  constructor
  · intro hd
    rw [if_pos hd]
    refine ⟨rfl, ?_⟩
    intro c hc rest
    rw [drop_added] at hc
    simp only [List.mem_cons, List.mem_singleton, or_self, List.not_mem_nil, or_false] at hc
    subst hc
    simp [TCK_DIVISOR]
  · intro hd
    rw [if_neg hd]
    refine ⟨rfl, ?_, ?_⟩
    · simp [List.getLast?_append]
    · have hb := (spec_divisor_bounds hz h1).2
      omega

theorem fi2c_setclock_divisor_witness :
    spec_divisor 100000 = 39 ∧
    (fi2c_setclock (fun _ => ⟨3, []⟩) [] 100000).1 = FI2C_ERR_NONE ∧
    (fi2c_setclock (fun _ => ⟨3, []⟩) [] 100000).2.getLast?
      = some (FtdiCall.write_data [0x86, 0x27, 0x00]) := by
  have hd : spec_divisor 100000 = 39 := by
    rw [spec_divisor_closed 100000 (by norm_num)]; norm_num
  have h := (fi2c_setclock_divisor (fun _ => ⟨3, []⟩) [] 100000 (by norm_num) (by norm_num)).2
    (by rw [hd]; norm_num)
  rw [hd] at h
  exact ⟨hd, h.1, by simpa using h.2.1⟩

/-- C8, counterexample: at 6 MHz, inside the documented range, the computed divisor is
zero: the call returns `FI2C_ERR_CLK`, not `FI2C_ERR_NONE`, and only the 3-phase command
has gone out. -/
theorem fi2c_setclock_6mhz_rejected :
    (100 ≤ (6000000 : Nat) ∧ (6000000 : Nat) ≤ 30000000) ∧
    (fi2c_setclock (fun _ => ⟨1, []⟩) [] 6000000).1 = FI2C_ERR_CLK ∧
    (fi2c_setclock (fun _ => ⟨1, []⟩) [] 6000000).1 ≠ FI2C_ERR_NONE ∧
    (fi2c_setclock (fun _ => ⟨1, []⟩) [] 6000000).2
      = [FtdiCall.write_data [0x8c], FtdiCall.write_data [0x8c]] := by
  have hd : spec_divisor 6000000 = 0 :=
    (spec_divisor_zero_iff 6000000 (by norm_num)).mpr (by norm_num)
  rw [fi2c_setclock_in_range _ _ 6000000 (by norm_num) (by norm_num), if_pos hd]
  exact ⟨⟨by norm_num, by norm_num⟩, rfl, by decide, rfl⟩

/-- C8 (amended): within `[FTDI_CLK_MIN, FTDI_CLK_MAX_X5]` a frequency is accepted exactly
when it is at most 2 MHz.  For `100 <= hz <= 2000000` the call returns `FI2C_ERR_NONE` and
ends with a divisor-select command carrying the non-zero divisor `4000000 / hz - 1`; for
`2000000 < hz <= 30000000` the computed divisor is zero and the call returns
`FI2C_ERR_CLK`. -/
theorem fi2c_setclock_accepts_iff (tr : Transport) (trace : List FtdiCall) (hz : Nat)
    (h1 : 100 ≤ hz) (h2 : hz ≤ 30000000) :
    ((fi2c_setclock tr trace hz).1 = FI2C_ERR_NONE ↔ hz ≤ 2000000) ∧
    (hz ≤ 2000000 →
      4000000 / hz - 1 ≠ 0 ∧
      (fi2c_setclock tr trace hz).2.getLast?
        = some (FtdiCall.write_data
            [TCK_DIVISOR, (4000000 / hz - 1) % 256, (4000000 / hz - 1) / 256 % 256])) ∧
    (2000000 < hz → (fi2c_setclock tr trace hz).1 = FI2C_ERR_CLK) := by
  have hz0 := spec_divisor_zero_iff hz h1
  rw [fi2c_setclock_in_range tr trace hz h1 h2]
  refine ⟨?_, ?_, ?_⟩
  · by_cases hd : spec_divisor hz = 0
    · rw [if_pos hd]
      have : 2000000 < hz := hz0.mp hd
      simp only [FI2C_ERR_CLK, FI2C_ERR_NONE]
      constructor
      · intro h; norm_num at h
      · intro h; omega
    · rw [if_neg hd]
      have : ¬ 2000000 < hz := fun h => hd (hz0.mpr h)
      simp only [true_iff]
      omega
  · intro hle
    have hd : ¬ spec_divisor hz = 0 := fun h => by have := hz0.mp h; omega
    have hcl : spec_divisor hz = ((4000000 / hz - 1 : ℕ) : ℤ) := by
      rw [spec_divisor_closed hz h1, if_neg (by omega)]
    rw [if_neg hd]
    have hn : (spec_divisor hz).toNat = 4000000 / hz - 1 := by rw [hcl]; simp
    constructor
    · intro h0
      apply hd
      rw [hcl, h0]
      rfl
    · simp [List.getLast?_append, hn, TCK_DIVISOR]
  · intro hgt
    rw [if_pos (hz0.mpr hgt)]

theorem fi2c_setclock_accepts_iff_witness :
    (fi2c_setclock (fun _ => ⟨3, []⟩) [] 400000).1 = FI2C_ERR_NONE ∧
    (fi2c_setclock (fun _ => ⟨3, []⟩) [] 400000).2.getLast?
      = some (FtdiCall.write_data [0x86, 9, 0]) := by
  have h := fi2c_setclock_accepts_iff (fun _ => ⟨3, []⟩) [] 400000 (by norm_num) (by norm_num)
  exact ⟨h.1.mpr (by norm_num), by simpa [TCK_DIVISOR] using (h.2.1 (by norm_num)).2⟩

/-! ## I2C command buffer -/

theorem FI2C_WBUF_eq (fic : fi2c_context) (val : Nat) (h : fic.bufcnt < fic.buf.length) :
    FI2C_WBUF fic val = Except.ok (fic.append_cmds [val % 256]) := by
  simp only [FI2C_WBUF, h, if_true, fi2c_context.append_cmds, List.length_singleton]
  congr 2
  rw [List.set_eq_take_append_cons_drop, if_pos h]
  simp

theorem append_cmds_bufcnt (fic : fi2c_context) (bytes : List Nat) :
    (fic.append_cmds bytes).bufcnt = fic.bufcnt + bytes.length := rfl

theorem append_cmds_gpio (fic : fi2c_context) (bytes : List Nat) :
    (fic.append_cmds bytes).gpio = fic.gpio := rfl

theorem append_cmds_length (fic : fi2c_context) (bytes : List Nat)
    (h : fic.bufcnt + bytes.length ≤ fic.buf.length) :
    (fic.append_cmds bytes).buf.length = fic.buf.length := by
  simp only [fi2c_context.append_cmds, List.length_append, List.length_take, List.length_drop]
  omega

theorem append_cmds_take (fic : fi2c_context) (bytes : List Nat)
    (h : fic.bufcnt ≤ fic.buf.length) :
    (fic.append_cmds bytes).buf.take (fic.bufcnt + bytes.length)
      = fic.buf.take fic.bufcnt ++ bytes := by
  have hl : (fic.buf.take fic.bufcnt ++ bytes).length = fic.bufcnt + bytes.length := by
    simp [List.length_take, h]
  simp only [fi2c_context.append_cmds]
  rw [← hl, List.take_left]

theorem append_cmds_append (fic : fi2c_context) (a b : List Nat)
    (h : fic.bufcnt + a.length ≤ fic.buf.length) :
    (fic.append_cmds a).append_cmds b = fic.append_cmds (a ++ b) := by
  have h0 : fic.bufcnt ≤ fic.buf.length := by omega
  have hl : (fic.buf.take fic.bufcnt ++ a).length = fic.bufcnt + a.length := by
    simp [List.length_take, h0]
  simp only [fi2c_context.append_cmds, fi2c_context.mk.injEq, true_and, List.length_append]
  refine ⟨?_, by omega, trivial⟩
  rw [List.take_left' hl]
  have hd : List.drop (fic.bufcnt + a.length + b.length)
      (fic.buf.take fic.bufcnt ++ a ++ fic.buf.drop (fic.bufcnt + a.length))
      = fic.buf.drop (fic.bufcnt + (a.length + b.length)) := by
    rw [← hl, List.drop_append, List.drop_drop, hl]
    congr 1
    omega
  rw [hd]
  simp

theorem append_cmds_nil (fic : fi2c_context) (h : fic.bufcnt ≤ fic.buf.length) :
    fic.append_cmds [] = fic := by
  cases fic
  simp [fi2c_context.append_cmds]

theorem FI2C_WBUF_append (fic : fi2c_context) (bytes : List Nat) (val : Nat)
    (h : fic.bufcnt + bytes.length < fic.buf.length) :
    FI2C_WBUF (fic.append_cmds bytes) val = Except.ok (fic.append_cmds (bytes ++ [val % 256])) := by
  have hl := append_cmds_length fic bytes (by omega)
  rw [FI2C_WBUF_eq _ _ (by rw [hl, append_cmds_bufcnt]; exact h),
    append_cmds_append fic bytes _ (by omega)]

theorem FI2C_CFG_IO_append (fic : fi2c_context) (bytes : List Nat) (val dir : Nat)
    (h : fic.bufcnt + bytes.length + 3 ≤ fic.buf.length) :
    FI2C_CFG_IO (fic.append_cmds bytes) val dir
      = Except.ok (fic.append_cmds (bytes ++
          [0x80, (val ||| fic.gpio.value) % 256, (dir ||| fic.gpio.direction) % 256])) := by
  have e1 := FI2C_WBUF_append fic bytes SET_BITS_LOW (by omega)
  have e2 := FI2C_WBUF_append fic (bytes ++ [SET_BITS_LOW % 256])
    (val ||| fic.gpio.value) (by simp; omega)
  have e3 := FI2C_WBUF_append fic
    (bytes ++ [SET_BITS_LOW % 256] ++ [(val ||| fic.gpio.value) % 256])
    (dir ||| fic.gpio.direction) (by simp; omega)
  simp only [ FI2C_CFG_IO, bind, Except.bind, e1, append_cmds_gpio, e2, e3]
  simp [SET_BITS_LOW]

/-- The start sequence as the macros store it, before the bytes are simplified. -/
theorem fi2c_start_bit_cmds_eq (fic : fi2c_context) (h0 : fic.bufcnt = 0)
    (hlen : 27 ≤ fic.buf.length) :
    fi2c_start_bit_cmds fic
      = Except.ok (FI2C_ERR_NONE, fic.append_cmds
          [0x80, (0 ||| fic.gpio.value) % 256, (0 ||| fic.gpio.direction) % 256,
           0x80, (0 ||| fic.gpio.value) % 256, (0 ||| fic.gpio.direction) % 256,
           0x80, (0 ||| fic.gpio.value) % 256, (0 ||| fic.gpio.direction) % 256,
           0x80, (0 ||| fic.gpio.value) % 256, (0 ||| fic.gpio.direction) % 256,
           0x80, (0 ||| fic.gpio.value) % 256, (SDA_POS ||| fic.gpio.direction) % 256,
           0x80, (0 ||| fic.gpio.value) % 256, (SDA_POS ||| fic.gpio.direction) % 256,
           0x80, (0 ||| fic.gpio.value) % 256, (SDA_POS ||| fic.gpio.direction) % 256,
           0x80, (0 ||| fic.gpio.value) % 256, (SDA_POS ||| fic.gpio.direction) % 256,
           0x80, (0 ||| fic.gpio.value) % 256,
           ((SCL_POS ||| SDA_POS) ||| fic.gpio.direction) % 256]) := by
  have hn := append_cmds_nil fic (by omega)
  have c1 := FI2C_CFG_IO_append fic [] 0 0 (by simp; omega)
  rw [hn] at c1
  simp only [fi2c_start_bit_cmds, fi2c_cfg_loop, bind, Except.bind, h0, ne_eq,
    not_true_eq_false, if_false, c1, pure, Except.pure]
  simp only [List.nil_append]
  rw [FI2C_CFG_IO_append fic _ 0 0 (by simp; omega)]
  simp only [List.cons_append, List.nil_append]
  rw [FI2C_CFG_IO_append fic _ 0 0 (by simp; omega)]
  simp only [List.cons_append, List.nil_append]
  rw [FI2C_CFG_IO_append fic _ 0 0 (by simp; omega)]
  simp only [List.cons_append, List.nil_append]
  rw [FI2C_CFG_IO_append fic _ 0 SDA_POS (by simp; omega)]
  simp only [List.cons_append, List.nil_append]
  rw [FI2C_CFG_IO_append fic _ 0 SDA_POS (by simp; omega)]
  simp only [List.cons_append, List.nil_append]
  rw [FI2C_CFG_IO_append fic _ 0 SDA_POS (by simp; omega)]
  simp only [List.cons_append, List.nil_append]
  rw [FI2C_CFG_IO_append fic _ 0 SDA_POS (by simp; omega)]
  simp only [List.cons_append, List.nil_append]
  rw [FI2C_CFG_IO_append fic _ 0 (SCL_POS ||| SDA_POS) (by simp; omega)]
  simp only [List.cons_append, List.nil_append]

/-- C10: with an empty command buffer (cursor 0 in the 256-byte array) and shadow value `v`
and direction `d`, `fi2c_start_bit_cmds` returns `FI2C_ERR_NONE`, leaves `bufcnt = 27`, and
the 27 bytes stored are four copies of `[0x80, v, d]`, four copies of `[0x80, v, d | 0x02]`
and one `[0x80, v, d | 0x03]`; the other fields of the context are untouched. -/
theorem fi2c_start_bit_cmds_bytes (fic : fi2c_context) (h0 : fic.bufcnt = 0)
    (hlen : fic.buf.length = FI2C_BUF_SIZE)
    (hv : fic.gpio.value < 256) (hd : fic.gpio.direction < 256) :
    ∃ fic1, fi2c_start_bit_cmds fic = Except.ok (FI2C_ERR_NONE, fic1) ∧
      fic1.bufcnt = 27 ∧
      fic1.buf.take 27 = start_bytes fic.gpio.value fic.gpio.direction ∧
      (start_bytes fic.gpio.value fic.gpio.direction).length = 27 ∧
      fic1.buf.length = fic.buf.length ∧
      fic1.gpio = fic.gpio ∧ fic1.error = fic.error ∧ fic1.slv = fic.slv := by
  have hl : 27 ≤ fic.buf.length := by rw [hlen]; simp [FI2C_BUF_SIZE]
  have hv0 : (0 ||| fic.gpio.value) % 256 = fic.gpio.value := by
    rw [Nat.zero_or, Nat.mod_eq_of_lt hv]
  have hd0 : (0 ||| fic.gpio.direction) % 256 = fic.gpio.direction := by
    rw [Nat.zero_or, Nat.mod_eq_of_lt hd]
  have hd8 : fic.gpio.direction < 2 ^ 8 := by simpa using hd
  have hd2 : (SDA_POS ||| fic.gpio.direction) % 256 = fic.gpio.direction ||| 0x02 := by
    have hlt : fic.gpio.direction ||| 0x02 < 2 ^ 8 :=
      Nat.or_lt_two_pow hd8 (by norm_num)
    rw [Nat.or_comm, Nat.mod_eq_of_lt (by simpa [SDA_POS] using hlt)]
    rfl
  have hd3 : ((SCL_POS ||| SDA_POS) ||| fic.gpio.direction) % 256
      = fic.gpio.direction ||| 0x03 := by
    have hlt : fic.gpio.direction ||| 0x03 < 2 ^ 8 :=
      Nat.or_lt_two_pow hd8 (by norm_num)
    have e3 : SCL_POS ||| SDA_POS = 0x03 := by decide
    rw [e3, Nat.or_comm, Nat.mod_eq_of_lt (by simpa using hlt)]
  have e := fi2c_start_bit_cmds_eq fic h0 hl
  rw [hv0, hd0, hd2, hd3] at e
  refine ⟨_, e, ?_, ?_, rfl, ?_, rfl, rfl, rfl⟩
  · rw [append_cmds_bufcnt, h0]; rfl
  · have t := append_cmds_take fic (start_bytes fic.gpio.value fic.gpio.direction) (by omega)
    rw [h0] at t
    simpa [start_bytes] using t
  · exact append_cmds_length fic _ (by rw [h0]; simpa using hl)

theorem fi2c_start_bit_cmds_bytes_witness :
    ∃ fic1, fi2c_start_bit_cmds fi2c_init = Except.ok (FI2C_ERR_NONE, fic1) ∧
      fic1.bufcnt = 27 ∧
      fic1.buf.take 27 = [0x80, 0, 0, 0x80, 0, 0, 0x80, 0, 0, 0x80, 0, 0,
        0x80, 0, 2, 0x80, 0, 2, 0x80, 0, 2, 0x80, 0, 2, 0x80, 0, 3] := by
  obtain ⟨fic1, h1, h2, h3, _⟩ := fi2c_start_bit_cmds_bytes fi2c_init rfl
    (by simp [fi2c_init]) (by decide) (by decide)
  exact ⟨fic1, h1, h2, h3⟩

/-! ## I2C transactions -/

/-- With `wcnt = 0` and `rcnt = 0` no phase of `fi2c_wr_rd` runs: the state and the trace
are returned as they were, and the return value is `fic->error || err` with `err = 0`,
that is 1 exactly when an error is already stored in the context. -/
theorem fi2c_wr_rd_nothing_to_do (tr : Transport) (FI2C_READ_ATTEMPTS FI2C_ACK_RETRY_MAX : Nat)
    (tot_retry_count : Nat) (w : fi2c_world) (wbuf : Option (List Nat)) :
    fi2c_wr_rd tr FI2C_READ_ATTEMPTS FI2C_ACK_RETRY_MAX tot_retry_count w wbuf 0 0
      = Except.ok ⟨if w.fic.error ≠ 0 then 1 else 0, w, 0, tot_retry_count⟩ := by
  have hwr : ∀ err, fi2c_wr_phase tr FI2C_READ_ATTEMPTS wbuf 0 w err
      = Except.ok (fi2c_attempt.done w err) := by
    intro err
    cases wbuf <;> simp [fi2c_wr_phase]
  have hrd : ∀ err, fi2c_rd_phase tr FI2C_READ_ATTEMPTS 0 w err
      = Except.ok (fi2c_attempt.done w err) := by
    intro err
    unfold fi2c_rd_phase
    cases w.rbuf <;> simp
  cases FI2C_ACK_RETRY_MAX with
  | zero => simp [fi2c_wr_rd, fi2c_wr_rd_loop, bind, Except.bind, pure, Except.pure]
  | succ n =>
    simp [fi2c_wr_rd, fi2c_wr_rd_loop, fi2c_wr_rd_attempt, hwr, hrd, bind, Except.bind,
      pure, Except.pure]

/-- On a channel whose stored error is `FI2C_ERR_READ`, `fi2c_wr_rd` with `wcnt = 0` and
`rcnt = 0` makes no transport call and changes nothing, but returns 1. -/
theorem fi2c_wr_rd_noop_stale_error :
    fi2c_wr_rd short_read_transport 1 3 0
        ⟨{ fi2c_init with error := FI2C_ERR_READ }, [], some []⟩ none 0 0
      = Except.ok ⟨1, ⟨{ fi2c_init with error := FI2C_ERR_READ }, [], some []⟩, 0, 0⟩ := by
  rw [fi2c_wr_rd_nothing_to_do]
  rfl

set_option maxRecDepth 100000

/-- C9, the code at the failing input: on a fresh channel a two-byte read from a device
that delivers no payload exhausts its three attempts, returns 1 and leaves
`FI2C_ERR_READ` stored with an empty command buffer after 16 transport calls; the call
with `wcnt = 0` and `rcnt = 0` that follows makes no transport call (the trace still has
16 entries) and leaves the context as it is, but returns 1 instead of 0. -/
theorem fi2c_wr_rd_noop_after_failed_read :
    (fi2c_wr_rd short_read_transport 1 3 0 ⟨fi2c_init, [], some [0, 0]⟩ none 0 2).map
        (fun r => (r.rv, r.w.fic.error, r.w.fic.bufcnt, r.w.trace.length))
      = Except.ok (1, FI2C_ERR_READ, 0, 16) ∧
    ((fi2c_wr_rd short_read_transport 1 3 0 ⟨fi2c_init, [], some [0, 0]⟩ none 0 2).bind
        (fun r => fi2c_wr_rd short_read_transport 1 3 r.tot_retry_count r.w none 0 0)).map
        (fun r => (r.rv, r.w.fic.error, r.w.fic.bufcnt, r.w.trace.length))
      = Except.ok (1, FI2C_ERR_READ, 0, 16) := by
  constructor
  · rfl
  · rfl

/-! ## Stop sequence and byte transfer -/

theorem or_byte (d k : Nat) (hd : d < 256) (hk : k < 256) : (k ||| d) % 256 = d ||| k := by
  have hd8 : d < 2 ^ 8 := by simpa using hd
  have hk8 : k < 2 ^ 8 := by simpa using hk
  have hlt : d ||| k < 2 ^ 8 := Nat.or_lt_two_pow hd8 hk8
  rw [Nat.or_comm, Nat.mod_eq_of_lt (by simpa using hlt)]

theorem zero_or_byte (d : Nat) (hd : d < 256) : (0 ||| d) % 256 = d := by
  rw [Nat.zero_or, Nat.mod_eq_of_lt hd]

/-- The stop sequence as the macros store it. -/
theorem fi2c_stop_bit_cmds_eq (fic : fi2c_context) (hcap : fic.bufcnt + 27 ≤ fic.buf.length)
    (hv : fic.gpio.value < 256) (hd : fic.gpio.direction < 256) :
    fi2c_stop_bit_cmds fic
      = Except.ok (FI2C_ERR_NONE,
          fic.append_cmds (stop_bytes fic.gpio.value fic.gpio.direction)) := by
  have hn := append_cmds_nil fic (by omega)
  have c1 := FI2C_CFG_IO_append fic [] 0 SDA_POS (by simp; omega)
  rw [hn] at c1
  simp only [fi2c_stop_bit_cmds, fi2c_cfg_loop, bind, Except.bind, c1, pure, Except.pure]
  simp only [List.nil_append]
  rw [FI2C_CFG_IO_append fic _ 0 SDA_POS (by simp; omega)]
  simp only [List.cons_append, List.nil_append]
  rw [FI2C_CFG_IO_append fic _ 0 SDA_POS (by simp; omega)]
  simp only [List.cons_append, List.nil_append]
  rw [FI2C_CFG_IO_append fic _ 0 SDA_POS (by simp; omega)]
  simp only [List.cons_append, List.nil_append]
  rw [FI2C_CFG_IO_append fic _ 0 0 (by simp; omega)]
  simp only [List.cons_append, List.nil_append]
  rw [FI2C_CFG_IO_append fic _ 0 0 (by simp; omega)]
  simp only [List.cons_append, List.nil_append]
  rw [FI2C_CFG_IO_append fic _ 0 0 (by simp; omega)]
  simp only [List.cons_append, List.nil_append]
  rw [FI2C_CFG_IO_append fic _ 0 0 (by simp; omega)]
  simp only [List.cons_append, List.nil_append]
  rw [FI2C_CFG_IO_append fic _ 0 0 (by simp; omega)]
  have h2 : (SDA_POS ||| fic.gpio.direction) % 256 = fic.gpio.direction ||| 2 :=
    or_byte _ 2 hd (by decide)
  simp only [List.cons_append, List.nil_append, zero_or_byte _ hv, zero_or_byte _ hd,
    h2, stop_bytes]

/-- C11: with shadow value `v` and direction `d` and room for 27 more bytes in the command
array, `fi2c_stop_bit_cmds` appends behind the pending bytes exactly the 27 bytes made of
four copies of `[0x80, v, d | 0x02]`, four copies of `[0x80, v, d]` and one more
`[0x80, v, d]`; `bufcnt` grows by exactly 27, the pending bytes and the other fields are
untouched, and the function returns `FI2C_ERR_NONE`. -/
theorem fi2c_stop_bit_cmds_bytes (fic : fi2c_context)
    (hcap : fic.bufcnt + 27 ≤ fic.buf.length)
    (hv : fic.gpio.value < 256) (hd : fic.gpio.direction < 256) :
    ∃ fic1, fi2c_stop_bit_cmds fic = Except.ok (FI2C_ERR_NONE, fic1) ∧
      fic1.bufcnt = fic.bufcnt + 27 ∧
      fic1.buf.take (fic.bufcnt + 27)
        = fic.buf.take fic.bufcnt ++ stop_bytes fic.gpio.value fic.gpio.direction ∧
      (stop_bytes fic.gpio.value fic.gpio.direction).length = 27 ∧
      fic1.buf.length = fic.buf.length ∧
      fic1.gpio = fic.gpio ∧ fic1.error = fic.error ∧ fic1.slv = fic.slv := by
  refine ⟨_, fi2c_stop_bit_cmds_eq fic hcap hv hd, rfl, ?_, rfl, ?_, rfl, rfl, rfl⟩
  · exact append_cmds_take fic (stop_bytes fic.gpio.value fic.gpio.direction) (by omega)
  · exact append_cmds_length fic _ (by simpa [stop_bytes] using hcap)

theorem fi2c_stop_bit_cmds_bytes_witness :
    ∃ fic1, fi2c_stop_bit_cmds fi2c_init = Except.ok (FI2C_ERR_NONE, fic1) ∧
      fic1.bufcnt = 27 ∧
      fic1.buf.take 27 = [0x80, 0, 2, 0x80, 0, 2, 0x80, 0, 2, 0x80, 0, 2,
        0x80, 0, 0, 0x80, 0, 0, 0x80, 0, 0, 0x80, 0, 0, 0x80, 0, 0] := by
  obtain ⟨fic1, h1, h2, h3, _⟩ := fi2c_stop_bit_cmds_bytes fi2c_init
    (by simp [fi2c_init, FI2C_BUF_SIZE]) (by decide) (by decide)
  exact ⟨fic1, h1, h2, h3⟩

theorem ftdi_read_data_trace (tr : Transport) (trace : List FtdiCall) (size : Nat) :
    (ftdi_read_data tr trace size).2.2 = trace ++ [FtdiCall.read_data size] := by
  unfold ftdi_read_data
  simp only [ftdi_call]
  split <;> rfl

/-- The calls of `fi2c_read_from_ftdi` are reads, at most one per attempt. -/
theorem fi2c_read_loop_trace (tr : Transport) (rdcnt : Nat) :
    ∀ (n : Nat) (trace : List FtdiCall) (rdbuf : List Nat) (bytes_read : Nat)
      (rv : Int) (rb : List Nat) (t : List FtdiCall),
      fi2c_read_loop tr rdcnt n trace rdbuf bytes_read = Except.ok (rv, rb, t) →
      ∃ reads, t = trace ++ reads ∧ reads.length ≤ n ∧
        ∀ c ∈ reads, ∃ k, c = FtdiCall.read_data k := by
  intro n
  induction n with
  | zero =>
    intro trace rdbuf bytes_read rv rb t h
    simp only [fi2c_read_loop, Except.ok.injEq, Prod.mk.injEq] at h
    exact ⟨[], by simp [h.2.2], by simp, by simp⟩
  | succ n ih =>
    intro trace rdbuf bytes_read rv rb t h
    simp only [fi2c_read_loop] at h
    split at h
    · split at h
      · simp only [Except.ok.injEq, Prod.mk.injEq] at h
        refine ⟨[FtdiCall.read_data (rdcnt - bytes_read)], ?_, by simp, by simp⟩
        rw [← h.2.2, ftdi_read_data_trace]
      · simp only [bind, Except.bind] at h
        split at h
        · exact absurd h (by simp)
        · obtain ⟨reads, h1, h2, h3⟩ := ih _ _ _ _ _ _ h
          refine ⟨FtdiCall.read_data (rdcnt - bytes_read) :: reads, ?_, by simp; omega, ?_⟩
          · rw [h1, ftdi_read_data_trace]; simp
          · intro c hc
            rcases List.mem_cons.mp hc with hc | hc
            · exact ⟨_, hc⟩
            · exact h3 c hc
    · simp only [Except.ok.injEq, Prod.mk.injEq] at h
      exact ⟨[], by simp [h.2.2], by simp, by simp⟩

/-- With the cursor inside the array, `fi2c_write_cmds` sends the pending bytes in one bulk
write, resets the cursor and returns the code of the write. -/
theorem fi2c_write_cmds_eq (tr : Transport) (w : fi2c_world)
    (h : w.fic.bufcnt ≤ FI2C_BUF_SIZE) :
    fi2c_write_cmds tr w
      = Except.ok (write_code
          (tr (w.trace ++ [FtdiCall.write_data (w.fic.buf.take w.fic.bufcnt)])).rv w.fic.bufcnt,
          { w with fic := { w.fic with bufcnt := 0 },
                   trace := w.trace ++ [FtdiCall.write_data (w.fic.buf.take w.fic.bufcnt)] }) := by
  have hn : ¬ w.fic.bufcnt > FI2C_BUF_SIZE := by omega
  simp only [fi2c_write_cmds, hn, if_false, ftdi_call, write_code]
  split
  · rfl
  · split <;> rfl

theorem sent_context_length (fic : fi2c_context) (x : Nat) (code : Int)
    (hcap : fic.bufcnt + 9 ≤ fic.buf.length) :
    (sent_context fic x code).buf.length = fic.buf.length :=
  append_cmds_length fic _ (by simpa [send_bytes] using hcap)

/-- After the flush the cursor is at zero, so the bus-release command of the acknowledged
case lands at the start of the array. -/
theorem sent_context_cfg (fic : fi2c_context) (x : Nat) (code : Int)
    (hv : fic.gpio.value < 256) (hd : fic.gpio.direction < 256)
    (hcap : fic.bufcnt + 9 ≤ fic.buf.length) :
    FI2C_CFG_IO (sent_context fic x code) SDA_POS (SCL_POS ||| SDA_POS)
      = Except.ok ((sent_context fic x code).append_cmds
          [0x80, fic.gpio.value ||| 0x02, fic.gpio.direction ||| 0x03]) := by
  have hl := sent_context_length fic x code hcap
  have hb : (sent_context fic x code).bufcnt = 0 := rfl
  have hn := append_cmds_nil (sent_context fic x code) (by rw [hb]; omega)
  have c := FI2C_CFG_IO_append (sent_context fic x code) [] SDA_POS (SCL_POS ||| SDA_POS)
    (by rw [hb, hl]; simp; omega)
  rw [hn] at c
  rw [c]
  have g : (sent_context fic x code).gpio = fic.gpio := rfl
  have e3 : SCL_POS ||| SDA_POS = 3 := by decide
  have h2 : (SDA_POS ||| fic.gpio.value) % 256 = fic.gpio.value ||| 2 :=
    or_byte _ 2 hv (by decide)
  have h3 : (3 ||| fic.gpio.direction) % 256 = fic.gpio.direction ||| 3 :=
    or_byte _ 3 hd (by decide)
  simp only [g, e3, h2, h3, List.nil_append]

/-- What `fi2c_send_byte_and_check` computes when the nine command bytes fit: one bulk
write of everything pending, then the acknowledge read, whose outcome selects the return
code; only on an acknowledge are three more bytes queued. -/
theorem fi2c_send_byte_and_check_eq (tr : Transport) (FI2C_READ_ATTEMPTS : Nat)
    (w : fi2c_world) (x : Nat) (hx : x < 256)
    (hv : w.fic.gpio.value < 256) (hd : w.fic.gpio.direction < 256)
    (hlen : w.fic.buf.length = FI2C_BUF_SIZE) (hcap : w.fic.bufcnt + 9 ≤ FI2C_BUF_SIZE) :
    fi2c_send_byte_and_check tr FI2C_READ_ATTEMPTS w x
      = match fi2c_read_from_ftdi tr FI2C_READ_ATTEMPTS (sent_trace w x) [0] 1 with
        | Except.error e => Except.error e
        | Except.ok r =>
          if r.1 ≠ 0 then
            Except.ok (FI2C_ERR_FTDI,
              ⟨sent_context w.fic x (write_code (tr (sent_trace w x)).rv (w.fic.bufcnt + 9)),
               r.2.2, w.rbuf⟩)
          else if r.2.1.headD 0 &&& 0x80 ≠ 0 then
            Except.ok (FI2C_ERR_ACK,
              ⟨sent_context w.fic x (write_code (tr (sent_trace w x)).rv (w.fic.bufcnt + 9)),
               r.2.2, w.rbuf⟩)
          else
            Except.ok (FI2C_ERR_NONE,
              ⟨(sent_context w.fic x
                  (write_code (tr (sent_trace w x)).rv (w.fic.bufcnt + 9))).append_cmds
                  [0x80, w.fic.gpio.value ||| 0x02, w.fic.gpio.direction ||| 0x03],
               r.2.2, w.rbuf⟩) := by
  have hcap2 : w.fic.bufcnt + 9 ≤ w.fic.buf.length := by rw [hlen]; exact hcap
  have hn := append_cmds_nil w.fic (by omega)
  have c1 := FI2C_WBUF_append w.fic [] FTDI_CMD_MFE_CLK_BIT_OUT (by simp; omega)
  rw [hn] at c1
  simp only [fi2c_send_byte_and_check, bind, Except.bind, c1]
  simp only [List.nil_append]
  rw [FI2C_WBUF_append w.fic _ 0x07 (by simp; omega)]
  simp only [List.cons_append, List.nil_append]
  rw [FI2C_WBUF_append w.fic _ x (by simp; omega)]
  simp only [List.cons_append, List.nil_append]
  rw [FI2C_CFG_IO_append w.fic _ 0 SCL_POS (by simp; omega)]
  simp only [List.cons_append, List.nil_append]
  rw [FI2C_WBUF_append w.fic _ FTDI_CMD_LRE_CLK_BIT_IN (by simp; omega)]
  simp only [List.cons_append, List.nil_append]
  rw [FI2C_WBUF_append w.fic _ 0x00 (by simp; omega)]
  simp only [List.cons_append, List.nil_append]
  rw [FI2C_WBUF_append w.fic _ SEND_IMMEDIATE (by simp; omega)]
  have h1 : (SCL_POS ||| w.fic.gpio.direction) % 256 = w.fic.gpio.direction ||| 1 :=
    or_byte _ 1 hd (by decide)
  have hb : [FTDI_CMD_MFE_CLK_BIT_OUT % 256, 7 % 256, x % 256, 128,
      (0 ||| w.fic.gpio.value) % 256, (SCL_POS ||| w.fic.gpio.direction) % 256,
      FTDI_CMD_LRE_CLK_BIT_IN % 256, 0 % 256] ++ [SEND_IMMEDIATE % 256]
      = send_bytes x w.fic.gpio.value w.fic.gpio.direction := by
    simp only [List.cons_append, List.nil_append, zero_or_byte _ hv, h1, send_bytes,
      Nat.mod_eq_of_lt hx, FTDI_CMD_MFE_CLK_BIT_OUT, FTDI_CMD_LRE_CLK_BIT_IN, SEND_IMMEDIATE]
  rw [hb]
  have hw := fi2c_write_cmds_eq tr
    { w with fic := w.fic.append_cmds (send_bytes x w.fic.gpio.value w.fic.gpio.direction) }
    (by simp only [append_cmds_bufcnt, send_bytes, List.length_cons, List.length_nil]; omega)
  simp only [append_cmds_bufcnt, append_cmds_take w.fic _ (show w.fic.bufcnt ≤ w.fic.buf.length
    by omega)] at hw
  have hl9 : (send_bytes x w.fic.gpio.value w.fic.gpio.direction).length = 9 := rfl
  rw [hl9] at hw
  dsimp only
  rw [hw]
  dsimp only [CHECK_FI2C]
  have ht : w.trace ++ [FtdiCall.write_data (w.fic.buf.take w.fic.bufcnt
      ++ send_bytes x w.fic.gpio.value w.fic.gpio.direction)] = sent_trace w x := rfl
  rw [ht]
  cases hr : fi2c_read_from_ftdi tr FI2C_READ_ATTEMPTS (sent_trace w x) [0] 1 with
  | error e => rfl
  | ok r =>
    dsimp only
    by_cases h0 : r.1 ≠ 0
    · rw [if_pos h0, if_pos h0]
      rfl
    · rw [if_neg h0, if_neg h0]
      by_cases hb7 : r.2.1.headD 0 &&& 0x80 ≠ 0
      · dsimp only [pure, Except.pure]
        rw [if_pos hb7, if_pos hb7]
        rfl
      · dsimp only [pure, Except.pure]
        rw [if_neg hb7, if_neg hb7]
        have hc := sent_context_cfg w.fic x
          (write_code (tr (sent_trace w x)).rv (w.fic.bufcnt + 9)) hv hd hcap2
        have hc2 : FI2C_CFG_IO
            { w.fic.append_cmds (send_bytes x w.fic.gpio.value w.fic.gpio.direction) with
              bufcnt := 0,
              error := write_code (tr (sent_trace w x)).rv (w.fic.bufcnt + 9) }
            SDA_POS (SCL_POS ||| SDA_POS) = _ := hc
        dsimp only at hc2
        rw [hc2]

/-- C12: for a data byte `x`, with room for nine bytes in the 256-byte command array,
`fi2c_send_byte_and_check` queues `[0x13, 0x07, x, 0x80, v, d | 0x01, 0x2a, 0x00, 0x87]`
behind the pending bytes, sends everything in one bulk write and then only reads.  When
the read delivers one byte `r`, the return code is `FI2C_ERR_ACK` iff `r & 0x80` is
non-zero and `FI2C_ERR_NONE` iff it is zero; in the acknowledged case
`[0x80, v | 0x02, d | 0x03]` is left pending (cursor 3), otherwise nothing is pending.
`fi2c_send_slave` sends `((slv << 1) | rd) mod 256` with `rd = 0` or `rd = 1`. -/
theorem fi2c_send_byte_and_check_ack (tr : Transport) (FI2C_READ_ATTEMPTS : Nat)
    (w : fi2c_world) (x r : Nat) (t2 : List FtdiCall) (hx : x < 256)
    (hv : w.fic.gpio.value < 256) (hd : w.fic.gpio.direction < 256)
    (hlen : w.fic.buf.length = FI2C_BUF_SIZE) (hcap : w.fic.bufcnt + 9 ≤ FI2C_BUF_SIZE)
    (hread : fi2c_read_from_ftdi tr FI2C_READ_ATTEMPTS (sent_trace w x) [0] 1
      = Except.ok (FI2C_ERR_NONE, [r], t2)) :
    ∃ rv w1, fi2c_send_byte_and_check tr FI2C_READ_ATTEMPTS w x = Except.ok (rv, w1) ∧
      (rv = FI2C_ERR_ACK ↔ r &&& 0x80 ≠ 0) ∧
      (rv = FI2C_ERR_NONE ↔ r &&& 0x80 = 0) ∧
      (∃ reads, w1.trace = w.trace ++ [FtdiCall.write_data (w.fic.buf.take w.fic.bufcnt ++
            [0x13, 0x07, x, 0x80, w.fic.gpio.value, w.fic.gpio.direction ||| 0x01,
             0x2a, 0x00, 0x87])] ++ reads ∧
          ∀ c ∈ reads, ∃ k, c = FtdiCall.read_data k) ∧
      (r &&& 0x80 = 0 → w1.fic.bufcnt = 3 ∧
        w1.fic.buf.take 3 = [0x80, w.fic.gpio.value ||| 0x02, w.fic.gpio.direction ||| 0x03]) ∧
      (r &&& 0x80 ≠ 0 → w1.fic.bufcnt = 0) ∧
      fi2c_send_slave tr FI2C_READ_ATTEMPTS w 0
        = fi2c_send_byte_and_check tr FI2C_READ_ATTEMPTS w (((w.fic.slv <<< 1) ||| 0) % 256) ∧
      fi2c_send_slave tr FI2C_READ_ATTEMPTS w 1
        = fi2c_send_byte_and_check tr FI2C_READ_ATTEMPTS w (((w.fic.slv <<< 1) ||| 1) % 256) := by
  have hcap2 : w.fic.bufcnt + 9 ≤ w.fic.buf.length := by rw [hlen]; exact hcap
  have e := fi2c_send_byte_and_check_eq tr FI2C_READ_ATTEMPTS w x hx hv hd hlen hcap
  rw [hread] at e
  obtain ⟨reads, hreads, _, hall⟩ :=
    fi2c_read_loop_trace tr 1 FI2C_READ_ATTEMPTS _ _ _ _ _ _ hread
  have hhead : ([r] : List Nat).headD 0 = r := rfl
  have h00 : ¬ (FI2C_ERR_NONE ≠ 0) := by simp [FI2C_ERR_NONE]
  dsimp only at e
  rw [if_neg h00, hhead] at e
  by_cases hb : r &&& 0x80 ≠ 0
  · rw [if_pos hb] at e
    refine ⟨_, _, e, ?_, ?_, ⟨reads, hreads, hall⟩, ?_, ?_, rfl, rfl⟩
    · simp [hb]
    · simp [hb, FI2C_ERR_ACK, FI2C_ERR_NONE]
    · intro h0; exact absurd h0 hb
    · intro _; rfl
  · rw [if_neg hb] at e
    refine ⟨_, _, e, ?_, ?_, ⟨reads, hreads, hall⟩, ?_, ?_, rfl, rfl⟩
    · simp [hb, FI2C_ERR_ACK, FI2C_ERR_NONE]
    · simp only [true_iff]; exact not_not.mp hb
    · intro _
      refine ⟨rfl, ?_⟩
      have hl := sent_context_length w.fic x
        (write_code (tr (sent_trace w x)).rv (w.fic.bufcnt + 9)) hcap2
      have t := append_cmds_take
        (sent_context w.fic x (write_code (tr (sent_trace w x)).rv (w.fic.bufcnt + 9)))
        [0x80, w.fic.gpio.value ||| 0x02, w.fic.gpio.direction ||| 0x03]
        (Nat.zero_le _)
      simpa [sent_context] using t
    · intro h; exact absurd h hb

theorem fi2c_send_byte_and_check_ack_witness :
    ∃ w1, fi2c_send_byte_and_check short_read_transport 1 ⟨fi2c_init, [], none⟩ 0xa0
        = Except.ok (FI2C_ERR_NONE, w1) ∧
      w1.fic.bufcnt = 3 ∧ w1.fic.buf.take 3 = [0x80, 0x02, 0x03] := by
  obtain ⟨rv, w1, h1, _, h3, _, h5, _⟩ :=
    fi2c_send_byte_and_check_ack short_read_transport 1 ⟨fi2c_init, [], none⟩ 0xa0 0x00
      (sent_trace ⟨fi2c_init, [], none⟩ 0xa0 ++ [FtdiCall.read_data 1])
      (by decide) (by decide) (by decide) (by simp [fi2c_init]) (by decide) (by rfl)
  have hrv : rv = FI2C_ERR_NONE := h3.mpr (by decide)
  subst hrv
  exact ⟨w1, h1, (h5 (by decide)).1, (h5 (by decide)).2⟩

/-- The only codes `fi2c_send_byte_and_check` returns are `FI2C_ERR_NONE`, `FI2C_ERR_FTDI`
and `FI2C_ERR_ACK`: every failure of the acknowledge read, a short read included, comes
back as `FI2C_ERR_FTDI`. -/
theorem fi2c_send_byte_and_check_codes (tr : Transport) (FI2C_READ_ATTEMPTS : Nat)
    (w : fi2c_world) (x : Nat) (rv : Int) (w1 : fi2c_world)
    (h : fi2c_send_byte_and_check tr FI2C_READ_ATTEMPTS w x = Except.ok (rv, w1)) :
    rv = FI2C_ERR_NONE ∨ rv = FI2C_ERR_FTDI ∨ rv = FI2C_ERR_ACK := by
  simp only [fi2c_send_byte_and_check, bind, Except.bind, pure, Except.pure] at h
  repeat' split at h
  all_goals
    cases h <;> first
      | exact Or.inl rfl
      | exact Or.inr (Or.inl rfl)
      | exact Or.inr (Or.inr rfl)

/-! ## Partial correctness -/

theorem returns_ok {α : Type} {P : α → Prop} (a : α) (h : P a) :
    returns (Except.ok a) P := by
  intro b hb
  cases hb
  exact h

theorem returns_pure {α : Type} {P : α → Prop} (a : α) (h : P a) :
    returns (pure a : Except Fault α) P :=
  returns_ok a h

theorem returns_error {α : Type} {P : α → Prop} (e : Fault) :
    returns (Except.error e : Except Fault α) P := by
  intro b hb
  cases hb

theorem returns_bind {α β : Type} {x : Except Fault α} {f : α → Except Fault β}
    {P : α → Prop} {Q : β → Prop} (hx : returns x P) (hf : ∀ a, P a → returns (f a) Q) :
    returns (x >>= f) Q := by
  intro b hb
  cases x with
  | error e => cases hb
  | ok a => exact hf a (hx a rfl) b hb

theorem returns_imp {α : Type} {x : Except Fault α} {P Q : α → Prop}
    (hx : returns x P) (h : ∀ a, P a → Q a) : returns x Q :=
  fun a ha => h a (hx a ha)

theorem returns_true {α : Type} (x : Except Fault α) : returns x (fun _ => True) :=
  fun _ _ => trivial

theorem returns_eq {α : Type} (x : Except Fault α) : returns x (fun a => x = Except.ok a) :=
  fun _ h => h

theorem no_purge_nil : no_purge [] := by
  intro c hc
  cases hc

theorem no_purge_append {a b : List FtdiCall} (ha : no_purge a) (hb : no_purge b) :
    no_purge (a ++ b) := by
  intro c hc
  rcases List.mem_append.mp hc with h | h
  · exact ha c h
  · exact hb c h

theorem no_purge_write (cmds : List Nat) : no_purge [FtdiCall.write_data cmds] := by
  intro c hc
  rw [List.mem_singleton.mp hc]
  simp

theorem no_purge_reads {reads : List FtdiCall}
    (h : ∀ c ∈ reads, ∃ k, c = FtdiCall.read_data k) : no_purge reads := by
  intro c hc
  obtain ⟨k, hk⟩ := h c hc
  rw [hk]
  simp

theorem count_purge_append (a b : List FtdiCall) :
    count_purge (a ++ b) = count_purge a + count_purge b := by
  simp [count_purge]

theorem count_purge_no_purge {added : List FtdiCall} (h : no_purge added) :
    count_purge added = 0 := by
  simp only [count_purge, List.count_eq_zero]
  intro hm
  exact h _ hm rfl

theorem rbuf_frame_refl (rcnt : Nat) (a : Option (List Nat)) : rbuf_frame rcnt a a := by
  cases a <;> simp [rbuf_frame]

theorem rbuf_frame_trans {rcnt : Nat} {a b c : Option (List Nat)}
    (h1 : rbuf_frame rcnt a b) (h2 : rbuf_frame rcnt b c) : rbuf_frame rcnt a c := by
  cases a <;> cases b <;> cases c <;> simp_all [rbuf_frame]

theorem fi2c_step_refl (rcnt : Nat) (w : fi2c_world) : fi2c_step rcnt w w :=
  ⟨⟨[], by simp, no_purge_nil⟩, rbuf_frame_refl _ _⟩

theorem fi2c_step_trans {rcnt : Nat} {a b c : fi2c_world}
    (h1 : fi2c_step rcnt a b) (h2 : fi2c_step rcnt b c) : fi2c_step rcnt a c := by
  obtain ⟨⟨x, hx, px⟩, f1⟩ := h1
  obtain ⟨⟨y, hy, py⟩, f2⟩ := h2
  refine ⟨⟨x ++ y, ?_, no_purge_append px py⟩, rbuf_frame_trans f1 f2⟩
  rw [hy, hx, List.append_assoc]

/-- A change of the context alone is a step. -/
theorem fi2c_step_of_eq {rcnt : Nat} {w w1 : fi2c_world}
    (ht : w1.trace = w.trace) (hr : w1.rbuf = w.rbuf) : fi2c_step rcnt w w1 :=
  ⟨⟨[], by simp [ht], no_purge_nil⟩, by rw [hr]; exact rbuf_frame_refl _ _⟩

theorem fi2c_step_count {rcnt : Nat} {w w1 : fi2c_world} (h : fi2c_step rcnt w w1) :
    count_purge w1.trace = count_purge w.trace := by
  obtain ⟨⟨x, hx, px⟩, _⟩ := h
  rw [hx, count_purge_append, count_purge_no_purge px, Nat.add_zero]

/-! ## Steps of the I2C functions -/

theorem fi2c_write_cmds_step (tr : Transport) (w : fi2c_world) :
    returns (fi2c_write_cmds tr w)
      (fun c => c.2.rbuf = w.rbuf ∧ c.2.fic.bufcnt = 0 ∧
        ∃ cmds, c.2.trace = w.trace ++ [FtdiCall.write_data cmds]) := by
  intro c hc
  simp only [fi2c_write_cmds, ftdi_call] at hc
  repeat' split at hc
  all_goals
    cases hc <;> exact ⟨rfl, rfl, _, rfl⟩

theorem fi2c_send_byte_and_check_step (tr : Transport) (FI2C_READ_ATTEMPTS : Nat)
    (w : fi2c_world) (x : Nat) :
    returns (fi2c_send_byte_and_check tr FI2C_READ_ATTEMPTS w x)
      (fun r => r.2.rbuf = w.rbuf ∧ ∃ added, r.2.trace = w.trace ++ added ∧ no_purge added) := by
  unfold fi2c_send_byte_and_check
  refine returns_bind (returns_true _) (fun f1 _ => ?_)
  refine returns_bind (returns_true _) (fun f2 _ => ?_)
  refine returns_bind (returns_true _) (fun f3 _ => ?_)
  refine returns_bind (returns_true _) (fun f4 _ => ?_)
  refine returns_bind (returns_true _) (fun f5 _ => ?_)
  refine returns_bind (returns_true _) (fun f6 _ => ?_)
  refine returns_bind (returns_true _) (fun f7 _ => ?_)
  refine returns_bind (fi2c_write_cmds_step tr _) (fun c hc => ?_)
  refine returns_bind (returns_eq _) (fun r hr => ?_)
  obtain ⟨hrb, _, cmds, hcm⟩ := hc
  obtain ⟨reads, hreads, _, hall⟩ :=
    fi2c_read_loop_trace tr 1 FI2C_READ_ATTEMPTS _ _ _ _ _ _ hr
  have htr : r.2.2 = w.trace ++ ([FtdiCall.write_data cmds] ++ reads) := by
    rw [hreads]
    simp only [CHECK_FI2C, hcm, List.append_assoc]
  have hnp : no_purge ([FtdiCall.write_data cmds] ++ reads) :=
    no_purge_append (no_purge_write _) (no_purge_reads hall)
  have hrb2 : (CHECK_FI2C c.2 c.1).rbuf = w.rbuf := hrb
  dsimp only
  split
  · exact returns_pure _ ⟨hrb2, _, htr, hnp⟩
  · refine returns_bind (returns_true _) (fun _ _ => ?_)
    split
    · exact returns_pure _ ⟨hrb2, _, htr, hnp⟩
    · refine returns_bind (returns_true _) (fun _ _ => ?_)
      refine returns_bind (returns_true _) (fun f8 _ => ?_)
      exact returns_pure _ ⟨hrb2, _, htr, hnp⟩

theorem ftdi_read_data_length (tr : Transport) (trace : List FtdiCall) (size : Nat) :
    (ftdi_read_data tr trace size).2.1.length ≤ size := by
  unfold ftdi_read_data
  dsimp only
  split
  · simp
  · simp only [List.length_map, List.length_take]
    omega

theorem store_bytes_eq {mem : List Nat} {off : Nat} {bytes mem1 : List Nat}
    (h : store_bytes mem off bytes = Except.ok mem1) :
    off + bytes.length ≤ mem.length ∧
    mem1 = mem.take off ++ bytes ++ mem.drop (off + bytes.length) := by
  unfold store_bytes at h
  split at h
  · cases h
    exact ⟨by assumption, rfl⟩
  · cases h

theorem store_bytes_length {mem : List Nat} {off : Nat} {bytes mem1 : List Nat}
    (h : store_bytes mem off bytes = Except.ok mem1) : mem1.length = mem.length := by
  obtain ⟨hle, he⟩ := store_bytes_eq h
  rw [he]
  simp only [List.length_append, List.length_take, List.length_drop]
  omega

theorem store_bytes_drop {mem : List Nat} {off : Nat} {bytes mem1 : List Nat} (k : Nat)
    (h : store_bytes mem off bytes = Except.ok mem1) (hk : off + bytes.length ≤ k) :
    mem1.drop k = mem.drop k := by
  obtain ⟨hle, he⟩ := store_bytes_eq h
  have hl : (mem.take off ++ bytes).length = off + bytes.length := by
    simp only [List.length_append, List.length_take]
    omega
  obtain ⟨j, rfl⟩ : ∃ j, k = (mem.take off ++ bytes).length + j := ⟨k - (off + bytes.length), by omega⟩
  rw [he, List.drop_append, List.drop_drop, hl]

theorem store_bytes_take {mem : List Nat} {off : Nat} {bytes mem1 : List Nat}
    (h : store_bytes mem off bytes = Except.ok mem1) :
    mem1.take (off + bytes.length) = mem.take off ++ bytes := by
  obtain ⟨hle, he⟩ := store_bytes_eq h
  have hl : (mem.take off ++ bytes).length = off + bytes.length := by
    simp only [List.length_append, List.length_take]
    omega
  rw [he, ← hl, List.take_left]

/-- Whatever `fi2c_read_from_ftdi` returns, the destination keeps its size and every byte
from index `rdcnt` on. -/
theorem fi2c_read_loop_frame (tr : Transport) (rdcnt : Nat) :
    ∀ (n : Nat) (trace : List FtdiCall) (rdbuf : List Nat) (bytes_read : Nat)
      (rv : Int) (rb : List Nat) (t : List FtdiCall),
      bytes_read ≤ rdcnt →
      fi2c_read_loop tr rdcnt n trace rdbuf bytes_read = Except.ok (rv, rb, t) →
      rb.length = rdbuf.length ∧ rb.drop rdcnt = rdbuf.drop rdcnt := by
  intro n
  induction n with
  | zero =>
    intro trace rdbuf bytes_read rv rb t _ h
    simp only [fi2c_read_loop, Except.ok.injEq, Prod.mk.injEq] at h
    rw [← h.2.1]
    exact ⟨rfl, rfl⟩
  | succ n ih =>
    intro trace rdbuf bytes_read rv rb t hbr h
    simp only [fi2c_read_loop] at h
    split at h
    · split at h
      · simp only [Except.ok.injEq, Prod.mk.injEq] at h
        rw [← h.2.1]
        exact ⟨rfl, rfl⟩
      · simp only [bind, Except.bind] at h
        split at h
        · cases h
        · rename_i rdbuf1 hst
          have hlen := ftdi_read_data_length tr trace (rdcnt - bytes_read)
          obtain ⟨h1, h2⟩ := ih _ _ _ _ _ _ (by omega) h
          rw [h1, h2, store_bytes_length hst, store_bytes_drop rdcnt hst (by omega)]
          exact ⟨rfl, rfl⟩
    · simp only [Except.ok.injEq, Prod.mk.injEq] at h
      rw [← h.2.1]
      exact ⟨rfl, rfl⟩

/-- When `fi2c_read_from_ftdi` succeeds, the destination holds behind its first
`bytes_read` bytes the chunks delivered, in order, up to index `rdcnt`. -/
theorem fi2c_read_loop_chunks (tr : Transport) (rdcnt : Nat) :
    ∀ (n : Nat) (trace : List FtdiCall) (rdbuf : List Nat) (bytes_read : Nat)
      (rb : List Nat) (t : List FtdiCall),
      bytes_read ≤ rdbuf.length →
      fi2c_read_loop tr rdcnt n trace rdbuf bytes_read = Except.ok (FI2C_ERR_NONE, rb, t) →
      rb = rdbuf.take bytes_read ++ read_chunks tr rdcnt n trace bytes_read
            ++ rdbuf.drop rdcnt ∧
      bytes_read + (read_chunks tr rdcnt n trace bytes_read).length = rdcnt := by
  intro n
  induction n with
  | zero =>
    intro trace rdbuf bytes_read rb t _ h
    simp only [fi2c_read_loop, Except.ok.injEq, Prod.mk.injEq] at h
    obtain ⟨h1, h2, _⟩ := h
    have he : bytes_read = rdcnt := by
      by_contra hne
      rw [if_pos hne] at h1
      simp [FI2C_ERR_READ, FI2C_ERR_NONE] at h1
    subst he
    simp [read_chunks, ← h2]
  | succ n ih =>
    intro trace rdbuf bytes_read rb t hbl h
    simp only [fi2c_read_loop] at h
    split at h
    · rename_i hlt
      split at h
      · simp [FI2C_ERR_FTDI, FI2C_ERR_NONE] at h
      · rename_i hneg
        simp only [bind, Except.bind] at h
        split at h
        · cases h
        · rename_i rdbuf1 hst
          have hl1 := store_bytes_length hst
          have hle := (store_bytes_eq hst).1
          obtain ⟨h1, h2⟩ := ih _ _ _ _ _ (by rw [hl1]; exact hle) h
          have hch : read_chunks tr rdcnt (n + 1) trace bytes_read
              = (ftdi_read_data tr trace (rdcnt - bytes_read)).2.1 ++
                read_chunks tr rdcnt n (ftdi_read_data tr trace (rdcnt - bytes_read)).2.2
                  (bytes_read + (ftdi_read_data tr trace (rdcnt - bytes_read)).2.1.length) := by
            simp only [read_chunks, hlt, if_true, hneg, if_false]
          constructor
          · rw [h1, hch, store_bytes_take hst, store_bytes_drop rdcnt hst (by omega)]
            simp only [List.append_assoc]
          · rw [hch, List.length_append]
            omega
    · rename_i hge
      simp only [Except.ok.injEq, Prod.mk.injEq] at h
      obtain ⟨h1, h2, _⟩ := h
      have he : bytes_read = rdcnt := by
        by_contra hne
        rw [if_pos hne] at h1
        simp [FI2C_ERR_READ, FI2C_ERR_NONE] at h1
      subst he
      simp [read_chunks, ← h2]

theorem fi2c_send_byte_and_check_post (tr : Transport) (FI2C_READ_ATTEMPTS rcnt : Nat)
    (w : fi2c_world) (x : Nat) :
    returns (fi2c_send_byte_and_check tr FI2C_READ_ATTEMPTS w x)
      (fun r => fi2c_step rcnt w r.2 ∧ r.2.rbuf = w.rbuf ∧
        (r.1 = FI2C_ERR_NONE ∨ r.1 = FI2C_ERR_FTDI ∨ r.1 = FI2C_ERR_ACK)) := by
  intro r hr
  obtain ⟨h1, h2⟩ := fi2c_send_byte_and_check_step tr FI2C_READ_ATTEMPTS w x r hr
  refine ⟨⟨h2, by rw [h1]; exact rbuf_frame_refl _ _⟩, h1, ?_⟩
  exact fi2c_send_byte_and_check_codes tr FI2C_READ_ATTEMPTS w x r.1 r.2 hr

theorem fi2c_send_slave_post (tr : Transport) (FI2C_READ_ATTEMPTS rcnt : Nat)
    (w : fi2c_world) (rd : Nat) :
    returns (fi2c_send_slave tr FI2C_READ_ATTEMPTS w rd)
      (fun r => fi2c_step rcnt w r.2 ∧ r.2.rbuf = w.rbuf ∧
        (r.1 = FI2C_ERR_NONE ∨ r.1 = FI2C_ERR_FTDI ∨ r.1 = FI2C_ERR_ACK)) :=
  fi2c_send_byte_and_check_post tr FI2C_READ_ATTEMPTS rcnt w _

theorem code_ne_read {rv : Int}
    (h : rv = FI2C_ERR_NONE ∨ rv = FI2C_ERR_FTDI ∨ rv = FI2C_ERR_ACK) : rv ≠ FI2C_ERR_READ := by
  rcases h with h | h | h <;> rw [h] <;> decide

/-- The write loop only sends bytes and never returns `FI2C_ERR_READ`. -/
theorem fi2c_wr_loop_post (tr : Transport) (FI2C_READ_ATTEMPTS rcnt : Nat) (wbuf : List Nat) :
    ∀ (n i : Nat) (w : fi2c_world),
      returns (fi2c_wr_loop tr FI2C_READ_ATTEMPTS wbuf n i w)
        (fun r => fi2c_step rcnt w r.2 ∧ r.2.rbuf = w.rbuf ∧ r.1 ≠ FI2C_ERR_READ) := by
  intro n
  induction n with
  | zero =>
    intro i w
    exact returns_ok _ ⟨fi2c_step_refl _ _, rfl, by simp [FI2C_ERR_NONE, FI2C_ERR_READ]⟩
  | succ n ih =>
    intro i w
    unfold fi2c_wr_loop
    split
    · exact returns_error _
    · refine returns_bind (fi2c_send_byte_and_check_post tr FI2C_READ_ATTEMPTS rcnt w _)
        (fun r hr => ?_)
      obtain ⟨hs, hrb, hc⟩ := hr
      have hs1 : fi2c_step rcnt w (CHECK_FI2C r.2 r.1) :=
        fi2c_step_trans hs (fi2c_step_of_eq rfl rfl)
      dsimp only
      split
      · exact returns_pure _ ⟨hs1, hrb, code_ne_read hc⟩
      · refine returns_bind (returns_true _) (fun _ _ => ?_)
        refine returns_imp (ih (i + 1) (CHECK_FI2C r.2 r.1)) (fun a ha => ?_)
        exact ⟨fi2c_step_trans hs1 ha.1, ha.2.1.trans hrb, ha.2.2⟩

theorem fi2c_wr_post (tr : Transport) (FI2C_READ_ATTEMPTS rcnt : Nat)
    (w : fi2c_world) (wbuf : List Nat) (wcnt : Nat) :
    returns (fi2c_wr tr FI2C_READ_ATTEMPTS w wbuf wcnt)
      (fun r => fi2c_step rcnt w r.2 ∧ r.2.rbuf = w.rbuf ∧ r.1 ≠ FI2C_ERR_READ) :=
  fi2c_wr_loop_post tr FI2C_READ_ATTEMPTS rcnt wbuf wcnt 0 w

/-- The payload read: a step, and on success the read buffer holds the delivered chunks in
front of its untouched rest. -/
theorem fi2c_rd_post (tr : Transport) (FI2C_READ_ATTEMPTS rcnt : Nat)
    (w : fi2c_world) (rb : List Nat) (hrb : w.rbuf = some rb) :
    returns (fi2c_rd tr FI2C_READ_ATTEMPTS w rb rcnt)
      (fun x => fi2c_step rcnt w x.2 ∧
        (x.1 = FI2C_ERR_NONE →
          payload_read tr FI2C_READ_ATTEMPTS rcnt (rb.drop rcnt) x.2)) := by
  unfold fi2c_rd
  refine returns_bind (returns_true _) (fun f1 _ => ?_)
  refine returns_bind (returns_true _) (fun f2 _ => ?_)
  refine returns_bind (fi2c_write_cmds_step tr _) (fun c hc => ?_)
  obtain ⟨hcrb, _, cmds, hcm⟩ := hc
  have hs1 : fi2c_step rcnt w (CHECK_FI2C c.2 c.1) :=
    ⟨⟨[FtdiCall.write_data cmds], hcm, no_purge_write _⟩,
     by rw [show (CHECK_FI2C c.2 c.1).rbuf = w.rbuf from hcrb]; exact rbuf_frame_refl _ _⟩
  dsimp only
  split
  · rename_i hne
    refine returns_pure _ ⟨hs1, fun h0 => ?_⟩
    exact absurd h0 hne
  · refine returns_bind (returns_true _) (fun _ _ => ?_)
    refine returns_bind (returns_eq _) (fun r hr => ?_)
    obtain ⟨reads, hreads, _, hall⟩ :=
      fi2c_read_loop_trace tr rcnt FI2C_READ_ATTEMPTS _ _ _ _ _ _ hr
    obtain ⟨hfl, hfd⟩ :=
      fi2c_read_loop_frame tr rcnt FI2C_READ_ATTEMPTS _ _ _ _ _ _ (Nat.zero_le _) hr
    have hs2 : fi2c_step rcnt w
        { CHECK_FI2C c.2 c.1 with trace := r.2.2, rbuf := some r.2.1 } := by
      refine ⟨⟨[FtdiCall.write_data cmds] ++ reads, ?_,
        no_purge_append (no_purge_write _) (no_purge_reads hall)⟩, ?_⟩
      · show r.2.2 = _
        rw [hreads]
        simp only [CHECK_FI2C, hcm, List.append_assoc]
      · rw [hrb]
        exact ⟨hfl, hfd⟩
    split
    · refine returns_pure _ ⟨hs2, fun h0 => ?_⟩
      simp [FI2C_ERR_READ, FI2C_ERR_NONE] at h0
    · rename_i hz
      refine returns_bind (returns_true _) (fun _ _ => ?_)
      refine returns_pure _ ⟨hs2, fun _ => ?_⟩
      have hr0 : r.1 = FI2C_ERR_NONE := not_not.mp hz
      have hr' : fi2c_read_loop tr rcnt FI2C_READ_ATTEMPTS (CHECK_FI2C c.2 c.1).trace rb 0
          = Except.ok (FI2C_ERR_NONE, r.2.1, r.2.2) := by
        rw [← hr0]; exact hr
      obtain ⟨hch, hcl⟩ :=
        fi2c_read_loop_chunks tr rcnt FI2C_READ_ATTEMPTS _ _ _ _ _ (Nat.zero_le _) hr'
      refine ⟨(CHECK_FI2C c.2 c.1).trace, reads, cmds, hreads, ?_, hall, ?_, ?_⟩
      · show c.2.trace.getLast? = _
        rw [hcm]
        simp
      · show some r.2.1 = _
        rw [hch]
        simp
      · simpa using hcl

theorem fi2c_step_fic {rcnt : Nat} (w : fi2c_world) (fic : fi2c_context) (e : Int) :
    fi2c_step rcnt w (CHECK_FI2C { w with fic := fic } e) :=
  fi2c_step_of_eq rfl rfl

/-- The write phase: a step; a restart is asked for only with a non-zero `err`. -/
theorem fi2c_wr_phase_post (tr : Transport) (FI2C_READ_ATTEMPTS rcnt : Nat)
    (wbuf : Option (List Nat)) (wcnt : Nat) (w : fi2c_world) (err : Int) :
    returns (fi2c_wr_phase tr FI2C_READ_ATTEMPTS wbuf wcnt w err)
      (fun o => match o with
        | fi2c_attempt.retry w1 err1 => fi2c_step rcnt w w1 ∧ err1 ≠ 0
        | fi2c_attempt.done w1 _ => fi2c_step rcnt w w1) := by
  unfold fi2c_wr_phase
  split
  · exact returns_ok _ (fi2c_step_refl _ _)
  · split
    · exact returns_ok _ (fi2c_step_refl _ _)
    · refine returns_bind (returns_true _) (fun s _ => ?_)
      refine returns_bind (fi2c_send_slave_post tr FI2C_READ_ATTEMPTS rcnt _ 0) (fun r hr => ?_)
      obtain ⟨hs, _, _⟩ := hr
      have hs1 : fi2c_step rcnt w r.2 := fi2c_step_trans (fi2c_step_fic w s.2 s.1) hs
      dsimp only
      split
      · rename_i hc
        refine returns_pure _ ⟨hs1, ?_⟩
        rcases hc with hc | hc <;> rw [hc] <;> decide
      · refine returns_bind (returns_true _) (fun _ _ => ?_)
        split
        · refine returns_bind (fi2c_wr_post tr FI2C_READ_ATTEMPTS rcnt r.2 _ wcnt)
            (fun x hx => ?_)
          obtain ⟨hxs, _, _⟩ := hx
          have hs2 : fi2c_step rcnt w x.2 := fi2c_step_trans hs1 hxs
          split
          · rename_i hc
            refine returns_pure _ ⟨hs2, ?_⟩
            rw [hc]; decide
          · refine returns_bind (returns_true _) (fun _ _ => ?_)
            refine returns_bind (returns_true _) (fun p _ => ?_)
            refine returns_bind (fi2c_write_cmds_step tr _) (fun c hc => ?_)
            obtain ⟨hcrb, _, cmds, hcm⟩ := hc
            refine returns_pure _ ?_
            refine fi2c_step_trans hs2 ⟨⟨[FtdiCall.write_data cmds], hcm, no_purge_write _⟩, ?_⟩
            rw [show (CHECK_FI2C c.2 c.1).rbuf = x.2.rbuf from hcrb]
            exact rbuf_frame_refl _ _
        · refine returns_bind (returns_true _) (fun _ _ => ?_)
          exact returns_pure _ hs1

/-- The read phase: a step; a restart is asked for only with an error stored or a non-zero
`err`; and when it ends with no error stored and `err = 0` for `rcnt != 0`, the state ends
with a completed payload read into the caller's buffer. -/
theorem fi2c_rd_phase_post (tr : Transport) (FI2C_READ_ATTEMPTS rcnt : Nat)
    (w : fi2c_world) (err : Int) :
    returns (fi2c_rd_phase tr FI2C_READ_ATTEMPTS rcnt w err)
      (fun o => match o with
        | fi2c_attempt.retry w1 err1 =>
          fi2c_step rcnt w w1 ∧ (w1.fic.error ≠ 0 ∨ err1 ≠ 0)
        | fi2c_attempt.done w1 err1 =>
          fi2c_step rcnt w w1 ∧
          (w1.fic.error = 0 → err1 = 0 → rcnt ≠ 0 → ∀ rb, w.rbuf = some rb →
            payload_read tr FI2C_READ_ATTEMPTS rcnt (rb.drop rcnt) w1)) := by
  unfold fi2c_rd_phase
  split
  · rename_i hnone
    refine returns_ok _ ⟨fi2c_step_refl _ _, fun _ _ _ rb hrb => ?_⟩
    rw [hnone] at hrb
    cases hrb
  · rename_i rb0 hsome
    split
    · refine returns_bind (returns_true _) (fun s _ => ?_)
      refine returns_bind (fi2c_send_slave_post tr FI2C_READ_ATTEMPTS rcnt _ 1) (fun r hr => ?_)
      obtain ⟨hs, hrrb, _⟩ := hr
      have hs1 : fi2c_step rcnt w r.2 := fi2c_step_trans (fi2c_step_fic w s.2 s.1) hs
      have hrb1 : r.2.rbuf = some rb0 := by rw [hrrb]; exact hsome
      dsimp only
      split
      · rename_i hc
        refine returns_pure _ ⟨hs1, Or.inr ?_⟩
        rcases hc with hc | hc <;> rw [hc] <;> decide
      · refine returns_bind (returns_true _) (fun _ _ => ?_)
        split
        · rename_i hz
          refine returns_bind (fi2c_rd_post tr FI2C_READ_ATTEMPTS rcnt r.2 rb0 hrb1)
            (fun x hx => ?_)
          obtain ⟨hxs, hxp⟩ := hx
          have hs2 : fi2c_step rcnt w (CHECK_FI2C x.2 x.1) :=
            fi2c_step_trans hs1 (fi2c_step_trans hxs (fi2c_step_of_eq rfl rfl))
          split
          · rename_i hc
            refine returns_pure _ ⟨hs2, Or.inl ?_⟩
            rw [hc]; decide
          · refine returns_bind (returns_true _) (fun _ _ => ?_)
            refine returns_pure _ ⟨hs2, fun he _ _ rb hrb => ?_⟩
            have hx0 : x.1 = FI2C_ERR_NONE := he
            have hrbe : rb = rb0 := by
              rw [hsome] at hrb
              exact (Option.some.inj hrb).symm
            rw [hrbe]
            exact hxp hx0
        · rename_i hnz
          refine returns_bind (returns_true _) (fun _ _ => ?_)
          refine returns_pure _ ⟨hs1, fun he h0 _ _ _ => ?_⟩
          exact absurd ⟨he, h0⟩ hnz
    · rename_i hgate
      refine returns_ok _ ⟨fi2c_step_refl _ _, fun he h0 hr _ _ => ?_⟩
      exact absurd ⟨hr, he, h0⟩ hgate

theorem rbuf_frame_some {rcnt : Nat} {rb : List Nat} {x : Option (List Nat)}
    (h : rbuf_frame rcnt (some rb) x) :
    ∃ rb1, x = some rb1 ∧ rb1.length = rb.length ∧ rb1.drop rcnt = rb.drop rcnt := by
  cases x with
  | none => simp [rbuf_frame] at h
  | some rb1 => exact ⟨rb1, rfl, h.1, h.2⟩

/-- One pass of `fi2c_wr_rd`: a retry pass begins with two purge calls, no other purge is
issued; a restart is asked for only with an error stored or a non-zero `err`; a pass that
ends with no error and `err = 0` for `rcnt != 0` ends with a completed payload read. -/
theorem fi2c_wr_rd_attempt_post (tr : Transport) (FI2C_READ_ATTEMPTS : Nat)
    (wbuf : Option (List Nat)) (wcnt rcnt retry_count : Nat) (w : fi2c_world) (err : Int) :
    returns (fi2c_wr_rd_attempt tr FI2C_READ_ATTEMPTS wbuf wcnt rcnt retry_count w err)
      (fun o => match o with
        | fi2c_attempt.retry w1 err1 =>
          count_purge w1.trace = count_purge w.trace + (if retry_count ≠ 0 then 2 else 0) ∧
          rbuf_frame rcnt w.rbuf w1.rbuf ∧ (w1.fic.error ≠ 0 ∨ err1 ≠ 0)
        | fi2c_attempt.done w1 err1 =>
          count_purge w1.trace = count_purge w.trace + (if retry_count ≠ 0 then 2 else 0) ∧
          rbuf_frame rcnt w.rbuf w1.rbuf ∧
          (w1.fic.error = 0 → err1 = 0 → rcnt ≠ 0 → ∀ rb, w.rbuf = some rb →
            payload_read tr FI2C_READ_ATTEMPTS rcnt (rb.drop rcnt) w1)) := by
  unfold fi2c_wr_rd_attempt
  have hcnt : ∀ w1 : fi2c_world,
      fi2c_step rcnt (if retry_count ≠ 0 then
          { CHECK_FI2C w 0 with
            trace := (CHECK_FTDI tr w.trace FtdiCall.usb_purge_buffers).2 } else w) w1 →
      count_purge w1.trace = count_purge w.trace + (if retry_count ≠ 0 then 2 else 0) ∧
      rbuf_frame rcnt w.rbuf w1.rbuf := by
    intro w1 hs
    have hc := fi2c_step_count hs
    have hf := hs.2
    by_cases hrc : retry_count ≠ 0
    · rw [if_pos hrc] at hc hf
      rw [if_pos hrc]
      refine ⟨?_, hf⟩
      rw [hc]
      show count_purge (CHECK_FTDI tr w.trace FtdiCall.usb_purge_buffers).2 = _
      rw [CHECK_FTDI_trace, count_purge_append]
      rfl
    · rw [if_neg hrc] at hc hf
      rw [if_neg hrc]
      exact ⟨hc, hf⟩
  dsimp only
  refine returns_bind (fi2c_wr_phase_post tr FI2C_READ_ATTEMPTS rcnt wbuf wcnt _ _)
    (fun o ho => ?_)
  cases o with
  | retry w1 err1 =>
    obtain ⟨hs, hne⟩ := ho
    exact returns_pure _ ⟨(hcnt w1 hs).1, (hcnt w1 hs).2, Or.inr hne⟩
  | done w1 err1 =>
    have hs : fi2c_step rcnt _ w1 := ho
    refine returns_imp (fi2c_rd_phase_post tr FI2C_READ_ATTEMPTS rcnt w1 err1) (fun o2 ho2 => ?_)
    cases o2 with
    | retry w2 err2 =>
      obtain ⟨hs2, hne⟩ := ho2
      have h := hcnt w2 (fi2c_step_trans hs hs2)
      exact ⟨h.1, h.2, hne⟩
    | done w2 err2 =>
      obtain ⟨hs2, hp⟩ := ho2
      have h := hcnt w2 (fi2c_step_trans hs hs2)
      refine ⟨h.1, h.2, fun he h0 hr rb hrb => ?_⟩
      have hf1 := (hcnt w1 hs).2
      rw [hrb] at hf1
      obtain ⟨rb1, hrb1, _, hd⟩ := rbuf_frame_some hf1
      rw [← hd]
      exact hp he h0 hr rb1 hrb1

/-- The retry loop of `fi2c_wr_rd`, entered with `n` passes left: the retry counter ends
between `rc` and `rc + n`; two purge calls are issued per pass that is not the first pass
of the call; when all `n` passes asked for a restart an error is stored or `err` is
non-zero; otherwise, with nothing wrong and `rcnt != 0`, the state ends with a completed
payload read. -/
theorem fi2c_wr_rd_loop_post (tr : Transport) (FI2C_READ_ATTEMPTS : Nat)
    (wbuf : Option (List Nat)) (wcnt rcnt : Nat) :
    ∀ (n rc : Nat) (w : fi2c_world) (err : Int),
      returns (fi2c_wr_rd_loop tr FI2C_READ_ATTEMPTS wbuf wcnt rcnt n rc w err)
        (fun a =>
          rc ≤ a.2.2 ∧ a.2.2 ≤ rc + n ∧
          rbuf_frame rcnt w.rbuf a.1.rbuf ∧
          count_purge a.1.trace = count_purge w.trace + 2 * purge_passes n rc a.2.2 ∧
          (0 < n → a.2.2 = rc + n → (a.1.fic.error ≠ 0 ∨ a.2.1 ≠ 0)) ∧
          (0 < n → a.1.fic.error = 0 → a.2.1 = 0 → rcnt ≠ 0 → ∀ rb, w.rbuf = some rb →
            payload_read tr FI2C_READ_ATTEMPTS rcnt (rb.drop rcnt) a.1)) := by
  intro n
  induction n with
  | zero =>
    intro rc w err
    refine returns_ok _ ⟨le_refl _, le_refl _, rbuf_frame_refl _ _, ?_, ?_, ?_⟩
    · simp only [purge_passes]
      split <;> simp
    · intro h; exact absurd h (lt_irrefl 0)
    · intro h; exact absurd h (lt_irrefl 0)
  | succ n ih =>
    intro rc w err
    unfold fi2c_wr_rd_loop
    refine returns_bind
      (fi2c_wr_rd_attempt_post tr FI2C_READ_ATTEMPTS wbuf wcnt rcnt rc w err) (fun o ho => ?_)
    cases o with
    | retry w1 err1 =>
      obtain ⟨hc, hf, hne⟩ := ho
      refine fun a hq => ?_
      have hq1 : fi2c_wr_rd_loop tr FI2C_READ_ATTEMPTS wbuf wcnt rcnt n (rc + 1) w1 err1
          = Except.ok a := hq
      obtain ⟨h1, h2, h3, h4, h5, h6⟩ := ih (rc + 1) w1 err1 a hq1
      have hlast : n = 0 → a = (w1, err1, rc + 1) := by
        intro hn0
        subst hn0
        simp only [fi2c_wr_rd_loop, Except.ok.injEq] at hq1
        exact hq1.symm
      refine ⟨by omega, by omega, rbuf_frame_trans hf h3, ?_, ?_, ?_⟩
      · rw [h4, hc]
        simp only [purge_passes]
        by_cases hrc : rc = 0
        · subst hrc
          simp only [ne_eq, not_true_eq_false, if_false, Nat.add_zero, if_true,
            Nat.add_eq_zero, one_ne_zero, and_false]
          split <;> split <;> omega
        · simp only [hrc, ne_eq, not_false_eq_true, if_true, if_false, Nat.add_eq_zero,
            one_ne_zero, and_false]
          split <;> split <;> omega
      · intro _ he
        by_cases hn : 0 < n
        · exact h5 hn (by omega)
        · rw [hlast (by omega)]
          exact hne
      · intro _ he h0 hr rb hrb
        by_cases hn : 0 < n
        · rw [hrb] at hf
          obtain ⟨rb1, hrb1, _, hd⟩ := rbuf_frame_some hf
          rw [← hd]
          exact h6 hn he h0 hr rb1 hrb1
        · rw [hlast (by omega)] at he h0
          rcases hne with hne | hne
          · exact absurd he hne
          · exact absurd h0 hne
    | done w1 err1 =>
      obtain ⟨hc, hf, hp⟩ := ho
      refine returns_ok _ ⟨le_refl _, Nat.le_add_right rc (n + 1), hf, ?_, ?_, ?_⟩
      · show count_purge w1.trace = count_purge w.trace + 2 * purge_passes (n + 1) rc rc
        rw [hc]
        simp only [purge_passes]
        by_cases hrc : rc = 0
        · subst hrc
          simp
        · simp only [hrc, ne_eq, not_false_eq_true, if_true, if_false]
          split <;> omega
      · intro _ he
        have he1 : rc = rc + (n + 1) := he
        omega
      · intro _ he h0 hr rb hrb
        exact hp he h0 hr rb hrb

/-- What a result of `fi2c_wr_rd` says about the loop it ran. -/
theorem fi2c_wr_rd_ok {tr : Transport} {FI2C_READ_ATTEMPTS FI2C_ACK_RETRY_MAX : Nat}
    {tot_retry_count : Nat} {w : fi2c_world} {wbuf : Option (List Nat)} {wcnt rcnt : Nat}
    {r : fi2c_wr_rd_result}
    (h : fi2c_wr_rd tr FI2C_READ_ATTEMPTS FI2C_ACK_RETRY_MAX tot_retry_count w wbuf wcnt rcnt
      = Except.ok r) :
    ∃ err, fi2c_wr_rd_loop tr FI2C_READ_ATTEMPTS wbuf wcnt rcnt FI2C_ACK_RETRY_MAX 0 w 0
        = Except.ok (r.w, err, r.retry_count) ∧
      r.rv = (if r.w.fic.error ≠ 0 ∨ err ≠ 0 then 1 else 0) ∧
      r.tot_retry_count = tot_retry_count + r.retry_count := by
  simp only [fi2c_wr_rd, bind, Except.bind, pure, Except.pure] at h
  split at h
  · cases h
  · rename_i a ha
    cases h
    exact ⟨a.2.1, ha, rfl, rfl⟩

/-- C15: whenever `fi2c_wr_rd` with `rcnt > 0` and a non-NULL `rbuf` returns 0 (with a
retry ceiling above zero), the trace ends with a bulk write followed by reads only, the
payload reads of the last read phase; `rbuf[0..rcnt-1]` holds exactly the `rcnt` bytes these
reads delivered, chunk after chunk in the order of delivery, and every byte of `rbuf` from
index `rcnt` on is as it was before the call. -/
theorem fi2c_wr_rd_rbuf (tr : Transport) (FI2C_READ_ATTEMPTS FI2C_ACK_RETRY_MAX : Nat)
    (tot_retry_count : Nat) (w : fi2c_world) (wbuf : Option (List Nat)) (wcnt rcnt : Nat)
    (rb : List Nat) (r : fi2c_wr_rd_result)
    (hmax : 0 < FI2C_ACK_RETRY_MAX) (hrcnt : 0 < rcnt) (hrb : w.rbuf = some rb)
    (h : fi2c_wr_rd tr FI2C_READ_ATTEMPTS FI2C_ACK_RETRY_MAX tot_retry_count w wbuf wcnt rcnt
      = Except.ok r)
    (h0 : r.rv = 0) :
    ∃ t0 reads cmds, r.w.trace = t0 ++ reads ∧
      t0.getLast? = some (FtdiCall.write_data cmds) ∧
      (∀ c ∈ reads, ∃ k, c = FtdiCall.read_data k) ∧
      r.w.rbuf = some (read_chunks tr rcnt FI2C_READ_ATTEMPTS t0 0 ++ rb.drop rcnt) ∧
      (read_chunks tr rcnt FI2C_READ_ATTEMPTS t0 0).length = rcnt := by
  obtain ⟨err, hl, hrv, _⟩ := fi2c_wr_rd_ok h
  have hp := fi2c_wr_rd_loop_post tr FI2C_READ_ATTEMPTS wbuf wcnt rcnt
    FI2C_ACK_RETRY_MAX 0 w 0 _ hl
  obtain ⟨_, _, _, _, _, h6⟩ := hp
  rw [h0] at hrv
  have hz : ¬ (r.w.fic.error ≠ 0 ∨ err ≠ 0) := by
    intro hc
    rw [if_pos hc] at hrv
    exact absurd hrv (by decide)
  have he : r.w.fic.error = 0 := by
    by_contra hc
    exact hz (Or.inl hc)
  have herr : err = 0 := by
    by_contra hc
    exact hz (Or.inr hc)
  exact h6 hmax he herr (by omega) rb hrb

theorem fi2c_wr_rd_rbuf_witness :
    ∃ r, fi2c_wr_rd ack_transport 1 3 0 ⟨fi2c_init, [], some [0, 0, 0, 0]⟩ none 0 2
        = Except.ok r ∧ r.rv = 0 ∧
      ∃ t0 reads cmds, r.w.trace = t0 ++ reads ∧
        t0.getLast? = some (FtdiCall.write_data cmds) ∧
        (∀ c ∈ reads, ∃ k, c = FtdiCall.read_data k) ∧
        r.w.rbuf = some (read_chunks ack_transport 2 1 t0 0 ++ [0, 0]) ∧
        (read_chunks ack_transport 2 1 t0 0).length = 2 := by
  have hv : (fi2c_wr_rd ack_transport 1 3 0 ⟨fi2c_init, [], some [0, 0, 0, 0]⟩ none 0 2).map
      (fun r => (r.rv, r.w.rbuf)) = Except.ok (0, some [0xa5, 0xa5, 0, 0]) := by rfl
  cases hres : fi2c_wr_rd ack_transport 1 3 0 ⟨fi2c_init, [], some [0, 0, 0, 0]⟩ none 0 2 with
  | error e =>
    rw [hres] at hv
    cases hv
  | ok r =>
    rw [hres] at hv
    have hrv : r.rv = 0 := by
      simp only [Except.map, Except.ok.injEq, Prod.mk.injEq] at hv
      exact hv.1
    exact ⟨r, rfl, hrv,
      fi2c_wr_rd_rbuf ack_transport 1 3 0 ⟨fi2c_init, [], some [0, 0, 0, 0]⟩ none 0 2
        [0, 0, 0, 0] r (by decide) (by decide) rfl hres hrv⟩

/-! ## Absence of faults -/

theorem succeeds_ok {α : Type} (a : α) {P : α → Prop} (h : P a) :
    succeeds (Except.ok a) P :=
  ⟨a, rfl, h⟩

theorem succeeds_pure {α : Type} (a : α) {P : α → Prop} (h : P a) :
    succeeds (pure a : Except Fault α) P :=
  ⟨a, rfl, h⟩

theorem succeeds_bind {α β : Type} {x : Except Fault α} {f : α → Except Fault β}
    {P : α → Prop} {Q : β → Prop}
    (hx : succeeds x P) (hf : ∀ a, P a → succeeds (f a) Q) : succeeds (x >>= f) Q := by
  obtain ⟨a, rfl, ha⟩ := hx
  exact hf a ha

theorem succeeds_imp {α : Type} {x : Except Fault α} {P Q : α → Prop}
    (hx : succeeds x P) (h : ∀ a, P a → Q a) : succeeds x Q := by
  obtain ⟨a, ha, hp⟩ := hx
  exact ⟨a, ha, h a hp⟩

theorem succeeds_and {α : Type} {x : Except Fault α} {P Q : α → Prop}
    (hx : succeeds x P) (hr : returns x Q) : succeeds x (fun a => P a ∧ Q a) := by
  obtain ⟨a, ha, hp⟩ := hx
  exact ⟨a, ha, hp, hr a ha⟩

theorem FI2C_WBUF_ok {L n : Nat} {fic : fi2c_context} (val : Nat)
    (h : pending L n fic) (hn : n < L) : succeeds (FI2C_WBUF fic val) (pending L (n + 1)) := by
  unfold FI2C_WBUF
  rw [if_pos (by rw [h.1, h.2]; exact hn)]
  refine succeeds_ok _ ⟨?_, ?_⟩
  · simp only [List.length_set]
    exact h.1
  · show fic.bufcnt + 1 = n + 1
    rw [h.2]

theorem FI2C_CFG_IO_ok {L n : Nat} {fic : fi2c_context} (val dir : Nat)
    (h : pending L n fic) (hn : n + 3 ≤ L) :
    succeeds ( FI2C_CFG_IO fic val dir) (pending L (n + 3)) := by
  unfold FI2C_CFG_IO
  refine succeeds_bind (FI2C_WBUF_ok _ h (by omega)) (fun f1 h1 => ?_)
  refine succeeds_bind (FI2C_WBUF_ok _ h1 (by omega)) (fun f2 h2 => ?_)
  exact FI2C_WBUF_ok _ h2 (by omega)

theorem fi2c_cfg_loop_ok {L : Nat} (val dir : Nat) :
    ∀ (k n : Nat) (fic : fi2c_context), pending L n fic → n + 3 * k ≤ L →
      succeeds (fi2c_cfg_loop k fic val dir) (pending L (n + 3 * k)) := by
  intro k
  induction k with
  | zero =>
    intro n fic h _
    exact succeeds_ok _ h
  | succ k ih =>
    intro n fic h hn
    unfold fi2c_cfg_loop
    refine succeeds_bind (FI2C_CFG_IO_ok _ _ h (by omega)) (fun f1 h1 => ?_)
    have h2 := ih (n + 3) f1 h1 (by omega)
    have he : n + 3 + 3 * k = n + 3 * (k + 1) := by omega
    rw [he] at h2
    exact h2

theorem fi2c_start_bit_cmds_ok {L : Nat} {fic : fi2c_context}
    (h : pending L 0 fic) (hL : 27 ≤ L) :
    succeeds (fi2c_start_bit_cmds fic) (fun s => pending L 27 s.2) := by
  unfold fi2c_start_bit_cmds
  have h0 : ¬ fic.bufcnt ≠ 0 := not_not.mpr h.2
  rw [if_neg h0]
  have hu : succeeds (pure PUnit.unit : Except Fault PUnit) (fun _ => True) :=
    ⟨_, rfl, trivial⟩
  refine succeeds_bind hu (fun _ _ => ?_)
  refine succeeds_bind (fi2c_cfg_loop_ok 0 0 4 0 fic h (by omega)) (fun f1 h1 => ?_)
  refine succeeds_bind (fi2c_cfg_loop_ok 0 SDA_POS 4 _ f1 h1 (by omega)) (fun f2 h2 => ?_)
  refine succeeds_bind (FI2C_CFG_IO_ok 0 (SCL_POS ||| SDA_POS) h2 (by omega)) (fun f3 h3 => ?_)
  exact succeeds_pure _ h3

theorem fi2c_stop_bit_cmds_ok {L n : Nat} {fic : fi2c_context}
    (h : pending L n fic) (hL : n + 27 ≤ L) :
    succeeds (fi2c_stop_bit_cmds fic) (fun s => pending L (n + 27) s.2) := by
  unfold fi2c_stop_bit_cmds
  refine succeeds_bind (fi2c_cfg_loop_ok 0 SDA_POS 4 n fic h (by omega)) (fun f1 h1 => ?_)
  refine succeeds_bind (fi2c_cfg_loop_ok 0 0 4 _ f1 h1 (by omega)) (fun f2 h2 => ?_)
  refine succeeds_bind (FI2C_CFG_IO_ok 0 0 h2 (by omega)) (fun f3 h3 => ?_)
  exact succeeds_pure _ h3

theorem fi2c_write_cmds_ok {L n : Nat} (tr : Transport) {w : fi2c_world}
    (h : pending L n w.fic) (hn : n ≤ FI2C_BUF_SIZE) :
    succeeds (fi2c_write_cmds tr w) (fun c => pending L 0 c.2.fic) := by
  unfold fi2c_write_cmds
  have hle : ¬ w.fic.bufcnt > FI2C_BUF_SIZE := by rw [h.2]; omega
  simp only [hle, if_false]
  split
  · exact succeeds_ok _ ⟨h.1, rfl⟩
  · split
    · exact succeeds_ok _ ⟨h.1, rfl⟩
    · exact succeeds_ok _ ⟨h.1, rfl⟩

theorem store_bytes_ok {mem : List Nat} {off : Nat} {bytes : List Nat}
    (h : off + bytes.length ≤ mem.length) :
    succeeds (store_bytes mem off bytes) (fun m => m.length = mem.length) := by
  have he : store_bytes mem off bytes
      = Except.ok (mem.take off ++ bytes ++ mem.drop (off + bytes.length)) := by
    unfold store_bytes
    rw [if_pos h]
  exact ⟨_, he, store_bytes_length he⟩

/-- With room for `rdcnt` bytes in the destination, `fi2c_read_from_ftdi` returns. -/
theorem fi2c_read_loop_ok (tr : Transport) (rdcnt : Nat) :
    ∀ (n : Nat) (trace : List FtdiCall) (rdbuf : List Nat) (bytes_read : Nat),
      bytes_read ≤ rdcnt → rdcnt ≤ rdbuf.length →
      succeeds (fi2c_read_loop tr rdcnt n trace rdbuf bytes_read) (fun _ => True) := by
  intro n
  induction n with
  | zero =>
    intro trace rdbuf bytes_read _ _
    exact succeeds_ok _ trivial
  | succ n ih =>
    intro trace rdbuf bytes_read hbr hlen
    unfold fi2c_read_loop
    split
    · dsimp only
      split
      · exact succeeds_ok _ trivial
      · have hl := ftdi_read_data_length tr trace (rdcnt - bytes_read)
        refine succeeds_bind (store_bytes_ok (by omega)) (fun m hm => ?_)
        exact ih _ _ _ (by omega) (by rw [hm]; exact hlen)
    · exact succeeds_ok _ trivial

theorem succeeds_unit : succeeds (pure PUnit.unit : Except Fault PUnit) (fun _ => True) :=
  ⟨_, rfl, trivial⟩

/-- With room for nine more bytes in a command array of at most `FI2C_BUF_SIZE` bytes,
`fi2c_send_byte_and_check` returns: with three bytes pending when it returns 0, with none
otherwise. -/
theorem fi2c_send_byte_and_check_ok {L n : Nat} (tr : Transport) (FI2C_READ_ATTEMPTS : Nat)
    {w : fi2c_world} (x : Nat)
    (h : pending L n w.fic) (hn : n + 9 ≤ L) (hL : L ≤ FI2C_BUF_SIZE) :
    succeeds (fi2c_send_byte_and_check tr FI2C_READ_ATTEMPTS w x)
      (fun r => (r.1 = 0 → pending L 3 r.2.fic) ∧ (r.1 ≠ 0 → pending L 0 r.2.fic)) := by
  unfold fi2c_send_byte_and_check
  refine succeeds_bind (FI2C_WBUF_ok _ h (by omega)) (fun f1 h1 => ?_)
  refine succeeds_bind (FI2C_WBUF_ok _ h1 (by omega)) (fun f2 h2 => ?_)
  refine succeeds_bind (FI2C_WBUF_ok _ h2 (by omega)) (fun f3 h3 => ?_)
  refine succeeds_bind (FI2C_CFG_IO_ok _ _ h3 (by omega)) (fun f4 h4 => ?_)
  refine succeeds_bind (FI2C_WBUF_ok _ h4 (by omega)) (fun f5 h5 => ?_)
  refine succeeds_bind (FI2C_WBUF_ok _ h5 (by omega)) (fun f6 h6 => ?_)
  refine succeeds_bind (FI2C_WBUF_ok _ h6 (by omega)) (fun f7 h7 => ?_)
  have h7w : pending L (n + 1 + 1 + 1 + 3 + 1 + 1 + 1) ({ w with fic := f7 } : fi2c_world).fic :=
    h7
  refine succeeds_bind (fi2c_write_cmds_ok tr h7w (by omega)) (fun c hc => ?_)
  have hc1 : pending L 0 (CHECK_FI2C c.2 c.1).fic := hc
  have hrd : succeeds
      (fi2c_read_from_ftdi tr FI2C_READ_ATTEMPTS (CHECK_FI2C c.2 c.1).trace [0] 1)
      (fun _ => True) :=
    fi2c_read_loop_ok tr 1 FI2C_READ_ATTEMPTS _ [0] 0 (by omega) (by simp)
  refine succeeds_bind hrd (fun r _ => ?_)
  dsimp only
  split
  · refine succeeds_pure _ ⟨fun h0 => ?_, fun _ => hc1⟩
    simp [FI2C_ERR_FTDI] at h0
  · refine succeeds_bind succeeds_unit (fun _ _ => ?_)
    split
    · refine succeeds_pure _ ⟨fun h0 => ?_, fun _ => hc1⟩
      simp [FI2C_ERR_ACK] at h0
    · refine succeeds_bind succeeds_unit (fun _ _ => ?_)
      have hc2 : pending L 0
          ({ CHECK_FI2C c.2 c.1 with trace := r.2.2 } : fi2c_world).fic := hc
      refine succeeds_bind (FI2C_CFG_IO_ok SDA_POS (SCL_POS ||| SDA_POS) hc2 (by omega))
        (fun f8 h8 => ?_)
      refine succeeds_pure _ ⟨fun _ => h8, fun hne => ?_⟩
      exact absurd rfl hne

theorem fi2c_send_slave_ok {L n : Nat} (tr : Transport) (FI2C_READ_ATTEMPTS : Nat)
    {w : fi2c_world} (rd : Nat)
    (h : pending L n w.fic) (hn : n + 9 ≤ L) (hL : L ≤ FI2C_BUF_SIZE) :
    succeeds (fi2c_send_slave tr FI2C_READ_ATTEMPTS w rd)
      (fun r => (r.1 = 0 → pending L 3 r.2.fic) ∧ (r.1 ≠ 0 → pending L 0 r.2.fic)) :=
  fi2c_send_byte_and_check_ok tr FI2C_READ_ATTEMPTS _ h hn hL

/-- With `wcnt` bytes in `wbuf` and three bytes pending, the write loop returns: with three
bytes pending when it returns 0, with none otherwise. -/
theorem fi2c_wr_loop_ok {L : Nat} (tr : Transport) (FI2C_READ_ATTEMPTS : Nat)
    (wbuf : List Nat) (h12 : 12 ≤ L) (hL : L ≤ FI2C_BUF_SIZE) :
    ∀ (n i : Nat) (w : fi2c_world), i + n ≤ wbuf.length → pending L 3 w.fic →
      succeeds (fi2c_wr_loop tr FI2C_READ_ATTEMPTS wbuf n i w)
        (fun r => (r.1 = 0 → pending L 3 r.2.fic) ∧ (r.1 ≠ 0 → pending L 0 r.2.fic)) := by
  intro n
  induction n with
  | zero =>
    intro i w _ h
    exact succeeds_ok _ ⟨fun _ => h, fun hne => absurd rfl hne⟩
  | succ n ih =>
    intro i w hi h
    unfold fi2c_wr_loop
    have hlt : i < wbuf.length := by omega
    rw [List.getElem?_eq_getElem hlt]
    dsimp only
    refine succeeds_bind
      (fi2c_send_byte_and_check_ok tr FI2C_READ_ATTEMPTS _ h (by omega) hL) (fun r hr => ?_)
    dsimp only
    split
    · rename_i hne
      have hne1 : r.1 ≠ 0 := hne
      refine succeeds_pure _ ⟨fun h0 => absurd h0 hne, fun _ => hr.2 hne1⟩
    · rename_i hz
      have hz1 : r.1 = 0 := not_not.mp hz
      refine succeeds_bind succeeds_unit (fun _ _ => ?_)
      exact ih (i + 1) (CHECK_FI2C r.2 r.1) (by omega) (hr.1 hz1)

theorem fi2c_rd_cmds_ok {L : Nat} (rcnt : Nat) :
    ∀ (k i n : Nat) (fic : fi2c_context), pending L n fic → n + 12 * k ≤ L →
      succeeds (fi2c_rd_cmds rcnt k i fic) (pending L (n + 12 * k)) := by
  intro k
  induction k with
  | zero =>
    intro i n fic h _
    exact succeeds_ok _ h
  | succ k ih =>
    intro i n fic h hn
    unfold fi2c_rd_cmds
    refine succeeds_bind (FI2C_CFG_IO_ok _ _ h (by omega)) (fun f1 h1 => ?_)
    refine succeeds_bind (FI2C_WBUF_ok _ h1 (by omega)) (fun f2 h2 => ?_)
    refine succeeds_bind (FI2C_WBUF_ok _ h2 (by omega)) (fun f3 h3 => ?_)
    refine succeeds_bind (FI2C_WBUF_ok _ h3 (by omega)) (fun f4 h4 => ?_)
    have he : n + 3 + 1 + 1 + 1 + 3 + 1 + 1 + 1 + 12 * k = n + 12 * (k + 1) := by omega
    dsimp only
    split
    all_goals
      refine succeeds_bind (FI2C_CFG_IO_ok _ _ h4 (by omega)) (fun f5 h5 => ?_)
      refine succeeds_bind (FI2C_WBUF_ok _ h5 (by omega)) (fun f6 h6 => ?_)
      refine succeeds_bind (FI2C_WBUF_ok _ h6 (by omega)) (fun f7 h7 => ?_)
      refine succeeds_bind (FI2C_WBUF_ok _ h7 (by omega)) (fun f8 h8 => ?_)
      have h9 := ih (i + 1) _ f8 h8 (by omega)
      rw [he] at h9
      exact h9

/-- With room for the `12 * rcnt + 1` command bytes and for `rcnt` bytes in `rbuf`,
`fi2c_rd` returns, with nothing pending. -/
theorem fi2c_rd_ok {L n : Nat} (tr : Transport) (FI2C_READ_ATTEMPTS : Nat)
    {w : fi2c_world} (rb : List Nat) (rcnt : Nat)
    (h : pending L n w.fic) (hn : n + 12 * rcnt + 1 ≤ L) (hL : L ≤ FI2C_BUF_SIZE)
    (hrb : rcnt ≤ rb.length) :
    succeeds (fi2c_rd tr FI2C_READ_ATTEMPTS w rb rcnt) (fun x => pending L 0 x.2.fic) := by
  unfold fi2c_rd
  refine succeeds_bind (fi2c_rd_cmds_ok rcnt rcnt 0 n _ h (by omega)) (fun f1 h1 => ?_)
  refine succeeds_bind (FI2C_WBUF_ok _ h1 (by omega)) (fun f2 h2 => ?_)
  have h2w : pending L (n + 12 * rcnt + 1) ({ w with fic := f2 } : fi2c_world).fic := h2
  refine succeeds_bind (fi2c_write_cmds_ok tr h2w (by omega)) (fun c hc => ?_)
  have hc1 : pending L 0 (CHECK_FI2C c.2 c.1).fic := hc
  dsimp only
  split
  · exact succeeds_pure _ hc1
  · refine succeeds_bind succeeds_unit (fun _ _ => ?_)
    have hrd : succeeds
        (fi2c_read_from_ftdi tr FI2C_READ_ATTEMPTS (CHECK_FI2C c.2 c.1).trace rb rcnt)
        (fun _ => True) :=
      fi2c_read_loop_ok tr rcnt FI2C_READ_ATTEMPTS _ rb 0 (by omega) hrb
    refine succeeds_bind hrd (fun r _ => ?_)
    split
    · exact succeeds_pure _ hc1
    · refine succeeds_bind succeeds_unit (fun _ _ => ?_)
      exact succeeds_pure _ hc1

/-- The write phase returns when it is entered with nothing pending and `wbuf` holds
`wcnt` bytes; a restart is asked for with nothing pending, and so is the read phase
reached when no error is stored and `err = 0`. -/
theorem fi2c_wr_phase_ok {L : Nat} (tr : Transport) (FI2C_READ_ATTEMPTS : Nat)
    (wbuf : Option (List Nat)) (wcnt : Nat) (w : fi2c_world) (err : Int)
    (h : pending L 0 w.fic) (h36 : 36 ≤ L) (hL : L ≤ FI2C_BUF_SIZE)
    (hw : ∀ wb, wbuf = some wb → wcnt ≤ wb.length) :
    succeeds (fi2c_wr_phase tr FI2C_READ_ATTEMPTS wbuf wcnt w err)
      (fun o => match o with
        | fi2c_attempt.retry w1 _ => pending L 0 w1.fic
        | fi2c_attempt.done w1 err1 =>
          w1.fic.buf.length = L ∧ (w1.fic.error = 0 → err1 = 0 → w1.fic.bufcnt = 0)) := by
  unfold fi2c_wr_phase
  split
  · exact succeeds_ok _ ⟨h.1, fun _ _ => h.2⟩
  · rename_i wb
    split
    · exact succeeds_ok _ ⟨h.1, fun _ _ => h.2⟩
    · refine succeeds_bind (fi2c_start_bit_cmds_ok h (by omega)) (fun s hs => ?_)
      have hs1 : pending L 27 (CHECK_FI2C { w with fic := s.2 } s.1).fic := hs
      refine succeeds_bind
        (fi2c_send_slave_ok tr FI2C_READ_ATTEMPTS 0 hs1 (by omega) hL) (fun r hr => ?_)
      dsimp only
      split
      · rename_i hc
        refine succeeds_pure _ (hr.2 ?_)
        rcases hc with hc | hc <;> rw [hc] <;> decide
      · refine succeeds_bind succeeds_unit (fun _ _ => ?_)
        split
        · rename_i hz
          have hwr : succeeds (fi2c_wr tr FI2C_READ_ATTEMPTS r.2 wb wcnt)
              (fun x => (x.1 = 0 → pending L 3 x.2.fic) ∧ (x.1 ≠ 0 → pending L 0 x.2.fic)) :=
            fi2c_wr_loop_ok tr FI2C_READ_ATTEMPTS wb (by omega) hL wcnt 0 r.2
              (by have := hw wb rfl; omega) (hr.1 hz.2)
          refine succeeds_bind hwr (fun x hx => ?_)
          split
          · rename_i hc
            refine succeeds_pure _ (hx.2 ?_)
            rw [hc]; decide
          · refine succeeds_bind succeeds_unit (fun _ _ => ?_)
            have hx3 : ∃ m, m ≤ 3 ∧ pending L m x.2.fic := by
              by_cases hx0 : x.1 = 0
              · exact ⟨3, le_refl _, hx.1 hx0⟩
              · exact ⟨0, Nat.zero_le _, hx.2 hx0⟩
            obtain ⟨m, hm, hpm⟩ := hx3
            refine succeeds_bind (fi2c_stop_bit_cmds_ok hpm (by omega)) (fun p hp => ?_)
            have hp1 : pending L (m + 27) (CHECK_FI2C { x.2 with fic := p.2 } p.1).fic := hp
            refine succeeds_bind (fi2c_write_cmds_ok tr hp1 (by omega)) (fun c hc => ?_)
            exact succeeds_pure _ ⟨hc.1, fun _ _ => hc.2⟩
        · rename_i hnz
          refine succeeds_bind succeeds_unit (fun _ _ => ?_)
          refine succeeds_pure _ ⟨?_, fun he h0 => absurd ⟨he, h0⟩ hnz⟩
          by_cases hr0 : r.1 = 0
          · exact (hr.1 hr0).1
          · exact (hr.2 hr0).1

/-- The read phase returns when it is entered with nothing pending (once it has something
to do), the command array has room for the `12 * rcnt + 4` bytes of the payload read and
`rbuf` has room for `rcnt` bytes; a restart is asked for with nothing pending. -/
theorem fi2c_rd_phase_ok {L : Nat} (tr : Transport) (FI2C_READ_ATTEMPTS rcnt : Nat)
    (w : fi2c_world) (err : Int)
    (hlen : w.fic.buf.length = L) (h0 : w.fic.error = 0 → err = 0 → w.fic.bufcnt = 0)
    (h36 : 36 ≤ L) (hL : L ≤ FI2C_BUF_SIZE) (hr : 12 * rcnt + 4 ≤ L)
    (hrb : ∀ rb, w.rbuf = some rb → rcnt ≤ rb.length) :
    succeeds (fi2c_rd_phase tr FI2C_READ_ATTEMPTS rcnt w err)
      (fun o => match o with
        | fi2c_attempt.retry w1 _ => pending L 0 w1.fic
        | fi2c_attempt.done _ _ => True) := by
  unfold fi2c_rd_phase
  split
  · exact succeeds_ok _ trivial
  · rename_i rb0 hsome
    split
    · rename_i hgate
      have hp : pending L 0 w.fic := ⟨hlen, h0 hgate.2.1 hgate.2.2⟩
      refine succeeds_bind (fi2c_start_bit_cmds_ok hp (by omega)) (fun s hs => ?_)
      have hs1 : pending L 27 (CHECK_FI2C { w with fic := s.2 } s.1).fic := hs
      refine succeeds_bind
        (fi2c_send_slave_ok tr FI2C_READ_ATTEMPTS 1 hs1 (by omega) hL) (fun r hr1 => ?_)
      dsimp only
      split
      · rename_i hc
        refine succeeds_pure _ (hr1.2 ?_)
        rcases hc with hc | hc <;> rw [hc] <;> decide
      · refine succeeds_bind succeeds_unit (fun _ _ => ?_)
        split
        · rename_i hz
          refine succeeds_bind
            (fi2c_rd_ok tr FI2C_READ_ATTEMPTS rb0 rcnt (hr1.1 hz.2) (by omega) hL
              (hrb rb0 hsome)) (fun x hx => ?_)
          have hx1 : pending L 0 (CHECK_FI2C x.2 x.1).fic := hx
          split
          · exact succeeds_pure _ hx1
          · refine succeeds_bind succeeds_unit (fun _ _ => ?_)
            exact succeeds_pure _ trivial
        · refine succeeds_bind succeeds_unit (fun _ _ => ?_)
          exact succeeds_pure _ trivial
    · exact succeeds_ok _ trivial

theorem rbuf_frame_room {rcnt k : Nat} {a b : Option (List Nat)}
    (h : rbuf_frame rcnt a b) (ha : ∀ rb, a = some rb → k ≤ rb.length) :
    ∀ rb, b = some rb → k ≤ rb.length := by
  intro rb hb
  subst hb
  cases a with
  | none => simp [rbuf_frame] at h
  | some ra =>
    have h1 : rb.length = ra.length := h.1
    rw [h1]
    exact ha ra rfl

/-- One pass of `fi2c_wr_rd` returns when it is entered with nothing pending; a restart is
asked for with nothing pending. -/
theorem fi2c_wr_rd_attempt_ok {L : Nat} (tr : Transport) (FI2C_READ_ATTEMPTS : Nat)
    (wbuf : Option (List Nat)) (wcnt rcnt retry_count : Nat) (w : fi2c_world) (err : Int)
    (h : pending L 0 w.fic) (h36 : 36 ≤ L) (hL : L ≤ FI2C_BUF_SIZE) (hr : 12 * rcnt + 4 ≤ L)
    (hw : ∀ wb, wbuf = some wb → wcnt ≤ wb.length)
    (hrb : ∀ rb, w.rbuf = some rb → rcnt ≤ rb.length) :
    succeeds (fi2c_wr_rd_attempt tr FI2C_READ_ATTEMPTS wbuf wcnt rcnt retry_count w err)
      (fun o => match o with
        | fi2c_attempt.retry w1 _ => pending L 0 w1.fic
        | fi2c_attempt.done _ _ => True) := by
  unfold fi2c_wr_rd_attempt
  dsimp only
  have hp0 : pending L 0 (if retry_count ≠ 0 then
      ({ CHECK_FI2C w 0 with
        trace := (CHECK_FTDI tr w.trace FtdiCall.usb_purge_buffers).2 } : fi2c_world)
      else w).fic := by
    split
    · exact h
    · exact h
  have hrb0 : (if retry_count ≠ 0 then
      ({ CHECK_FI2C w 0 with
        trace := (CHECK_FTDI tr w.trace FtdiCall.usb_purge_buffers).2 } : fi2c_world)
      else w).rbuf = w.rbuf := by
    split
    · rfl
    · rfl
  refine succeeds_bind
    (succeeds_and (fi2c_wr_phase_ok tr FI2C_READ_ATTEMPTS wbuf wcnt _ _ hp0 h36 hL hw)
      (fi2c_wr_phase_post tr FI2C_READ_ATTEMPTS rcnt wbuf wcnt _ _)) (fun o ho => ?_)
  cases o with
  | retry w1 err1 => exact succeeds_pure _ ho.1
  | done w1 err1 =>
    obtain ⟨⟨hlen, hcnt⟩, hstep⟩ := ho
    have hs : fi2c_step rcnt _ w1 := hstep
    have hf := hs.2
    rw [hrb0] at hf
    exact fi2c_rd_phase_ok tr FI2C_READ_ATTEMPTS rcnt w1 err1 hlen hcnt h36 hL hr
      (rbuf_frame_room hf hrb)

/-- The retry loop of `fi2c_wr_rd` returns when it is entered with nothing pending. -/
theorem fi2c_wr_rd_loop_ok {L : Nat} (tr : Transport) (FI2C_READ_ATTEMPTS : Nat)
    (wbuf : Option (List Nat)) (wcnt rcnt : Nat)
    (h36 : 36 ≤ L) (hL : L ≤ FI2C_BUF_SIZE) (hr : 12 * rcnt + 4 ≤ L)
    (hw : ∀ wb, wbuf = some wb → wcnt ≤ wb.length) :
    ∀ (n rc : Nat) (w : fi2c_world) (err : Int), pending L 0 w.fic →
      (∀ rb, w.rbuf = some rb → rcnt ≤ rb.length) →
      succeeds (fi2c_wr_rd_loop tr FI2C_READ_ATTEMPTS wbuf wcnt rcnt n rc w err)
        (fun _ => True) := by
  intro n
  induction n with
  | zero =>
    intro rc w err _ _
    exact succeeds_ok _ trivial
  | succ n ih =>
    intro rc w err h hrb
    unfold fi2c_wr_rd_loop
    refine succeeds_bind
      (succeeds_and
        (fi2c_wr_rd_attempt_ok tr FI2C_READ_ATTEMPTS wbuf wcnt rcnt rc w err h h36 hL hr hw hrb)
        (fi2c_wr_rd_attempt_post tr FI2C_READ_ATTEMPTS wbuf wcnt rcnt rc w err))
      (fun o ho => ?_)
    cases o with
    | retry w1 err1 =>
      obtain ⟨hp, _, hf, _⟩ := ho
      exact ih (rc + 1) w1 err1 hp (rbuf_frame_room hf hrb)
    | done w1 err1 => exact succeeds_ok _ trivial

/-- C16: `fi2c_wr_rd` terminates whatever the transport does.  Entered with an empty command
buffer of `FI2C_BUF_SIZE` bytes, with `wcnt` bytes in `wbuf`, room for `rcnt` bytes in `rbuf`
and `rcnt <= 21` (so that the commands of the payload read fit), and with
`R = FI2C_ACK_RETRY_MAX > 0`, the call returns a result: its retry counter is at most `R` and
is added to the running total; the purge pair that begins every pass but the first was
issued once per restart and at most `R - 1` times, so at most `R` passes were made; and when
the counter reached `R` the return value is non-zero.  At the ceiling the loop hands back
the state as it is, without a transport call.  Likewise `fi2c_read_from_ftdi` returns after
at most `FI2C_READ_ATTEMPTS` calls, all of them reads. -/
theorem fi2c_wr_rd_terminates (tr : Transport) (FI2C_READ_ATTEMPTS FI2C_ACK_RETRY_MAX : Nat)
    (tot_retry_count : Nat) (w : fi2c_world) (wbuf : Option (List Nat)) (wcnt rcnt : Nat)
    (hmax : 0 < FI2C_ACK_RETRY_MAX)
    (hlen : w.fic.buf.length = FI2C_BUF_SIZE) (hcnt : w.fic.bufcnt = 0)
    (hw : ∀ wb, wbuf = some wb → wcnt ≤ wb.length)
    (hrb : ∀ rb, w.rbuf = some rb → rcnt ≤ rb.length) (hr : rcnt ≤ 21) :
    (∃ r, fi2c_wr_rd tr FI2C_READ_ATTEMPTS FI2C_ACK_RETRY_MAX tot_retry_count w wbuf wcnt rcnt
        = Except.ok r ∧
      r.retry_count ≤ FI2C_ACK_RETRY_MAX ∧
      r.tot_retry_count = tot_retry_count + r.retry_count ∧
      count_purge r.w.trace = count_purge w.trace +
        2 * (if r.retry_count < FI2C_ACK_RETRY_MAX then r.retry_count
             else FI2C_ACK_RETRY_MAX - 1) ∧
      (r.retry_count = FI2C_ACK_RETRY_MAX → r.rv ≠ 0)) ∧
    (∀ (retry_count : Nat) (w1 : fi2c_world) (err : Int),
      fi2c_wr_rd_loop tr FI2C_READ_ATTEMPTS wbuf wcnt rcnt 0 retry_count w1 err
        = Except.ok (w1, err, retry_count)) ∧
    (∀ (trace : List FtdiCall) (rdbuf : List Nat) (rdcnt : Nat), rdcnt ≤ rdbuf.length →
      ∃ r reads, fi2c_read_from_ftdi tr FI2C_READ_ATTEMPTS trace rdbuf rdcnt = Except.ok r ∧
        r.2.2 = trace ++ reads ∧ reads.length ≤ FI2C_READ_ATTEMPTS ∧
        ∀ c ∈ reads, ∃ k, c = FtdiCall.read_data k) := by
  have hp : pending FI2C_BUF_SIZE 0 w.fic := ⟨hlen, hcnt⟩
  have h256 : FI2C_BUF_SIZE = 256 := rfl
  obtain ⟨a, ha, _⟩ := fi2c_wr_rd_loop_ok tr FI2C_READ_ATTEMPTS wbuf wcnt rcnt
    (by rw [h256]; omega) (le_refl _) (by rw [h256]; omega) hw FI2C_ACK_RETRY_MAX 0 w 0 hp hrb
  obtain ⟨_, h2, _, h4, h5, _⟩ :=
    fi2c_wr_rd_loop_post tr FI2C_READ_ATTEMPTS wbuf wcnt rcnt FI2C_ACK_RETRY_MAX 0 w 0 a ha
  refine ⟨⟨⟨if a.1.fic.error ≠ 0 ∨ a.2.1 ≠ 0 then 1 else 0, a.1, a.2.2,
    tot_retry_count + a.2.2⟩, ?_, ?_, rfl, ?_, ?_⟩, ?_, ?_⟩
  · unfold fi2c_wr_rd
    rw [ha]
    rfl
  · show a.2.2 ≤ FI2C_ACK_RETRY_MAX
    omega
  · show count_purge a.1.trace = _
    rw [h4]
    simp only [purge_passes, if_true]
  · intro he
    have he1 : a.2.2 = 0 + FI2C_ACK_RETRY_MAX := by
      rw [Nat.zero_add]
      exact he
    have hne := h5 hmax he1
    show (if a.1.fic.error ≠ 0 ∨ a.2.1 ≠ 0 then (1 : Int) else 0) ≠ 0
    rw [if_pos hne]
    decide
  · intro retry_count w1 err
    rfl
  · intro trace rdbuf rdcnt hle
    obtain ⟨r, hr1, _⟩ :=
      fi2c_read_loop_ok tr rdcnt FI2C_READ_ATTEMPTS trace rdbuf 0 (Nat.zero_le _) hle
    obtain ⟨reads, h1, h2, h3⟩ :=
      fi2c_read_loop_trace tr rdcnt FI2C_READ_ATTEMPTS trace rdbuf 0 r.1 r.2.1 r.2.2 hr1
    exact ⟨r, reads, hr1, h1, h2, h3⟩

theorem fi2c_wr_rd_terminates_witness :
    (∃ r, fi2c_wr_rd nack_transport 1 3 0 ⟨fi2c_init, [], some [0, 0]⟩ none 0 2
        = Except.ok r ∧
      r.retry_count ≤ 3 ∧
      r.tot_retry_count = 0 + r.retry_count ∧
      count_purge r.w.trace = count_purge [] +
        2 * (if r.retry_count < 3 then r.retry_count else 3 - 1) ∧
      (r.retry_count = 3 → r.rv ≠ 0)) ∧
    (∀ (retry_count : Nat) (w1 : fi2c_world) (err : Int),
      fi2c_wr_rd_loop nack_transport 1 none 0 2 0 retry_count w1 err
        = Except.ok (w1, err, retry_count)) ∧
    (∀ (trace : List FtdiCall) (rdbuf : List Nat) (rdcnt : Nat), rdcnt ≤ rdbuf.length →
      ∃ r reads, fi2c_read_from_ftdi nack_transport 1 trace rdbuf rdcnt = Except.ok r ∧
        r.2.2 = trace ++ reads ∧ reads.length ≤ 1 ∧
        ∀ c ∈ reads, ∃ k, c = FtdiCall.read_data k) :=
  fi2c_wr_rd_terminates nack_transport 1 3 0 ⟨fi2c_init, [], some [0, 0]⟩ none 0 2
    (by decide) (by simp [fi2c_init]) rfl (fun _ h => nomatch h)
    (fun rb h => by cases h; decide) (by decide)

/-! ## The commands of the payload read -/

theorem rd_cmd_bytes_length (v d rcnt : Nat) :
    ∀ (n i : Nat), (rd_cmd_bytes v d rcnt n i).length = 12 * n := by
  intro n
  induction n with
  | zero => intro i; rfl
  | succ n ih =>
    intro i
    simp only [rd_cmd_bytes, List.length_append, ih, rd_bytes, List.length_cons,
      List.length_nil]
    omega

/-- When they fit, the commands `fi2c_rd` queues for the bytes `i, i+1, ...` are twelve per
byte, the master NACK form for index `rcnt - 1` and the master ACK form for every other. -/
theorem fi2c_rd_cmds_eq (fic : fi2c_context) (rcnt : Nat)
    (hv : fic.gpio.value < 256) (hd : fic.gpio.direction < 256) :
    ∀ (n i : Nat) (bytes : List Nat),
      fic.bufcnt + bytes.length + 12 * n ≤ fic.buf.length →
      fi2c_rd_cmds rcnt n i (fic.append_cmds bytes)
        = Except.ok (fic.append_cmds
            (bytes ++ rd_cmd_bytes fic.gpio.value fic.gpio.direction rcnt n i)) := by
  intro n
  induction n with
  | zero =>
    intro i bytes _
    simp [fi2c_rd_cmds, rd_cmd_bytes]
  | succ n ih =>
    intro i bytes hcap
    have h1 : (SCL_POS ||| fic.gpio.direction) % 256 = fic.gpio.direction ||| 1 :=
      or_byte _ 1 hd (by decide)
    have h3 : ((SCL_POS ||| SDA_POS) ||| fic.gpio.direction) % 256
        = fic.gpio.direction ||| 3 := or_byte _ 3 hd (by decide)
    have h0 := zero_or_byte _ hv
    unfold fi2c_rd_cmds
    simp only [bind, Except.bind]
    rw [FI2C_CFG_IO_append fic bytes 0 SCL_POS (by omega)]
    simp only []
    rw [FI2C_WBUF_append fic _ FTDI_CMD_MRE_CLK_BYTE_IN (by simp; omega)]
    simp only []
    rw [FI2C_WBUF_append fic _ 0x00 (by simp; omega)]
    simp only []
    rw [FI2C_WBUF_append fic _ 0x00 (by simp; omega)]
    simp only []
    by_cases hi : i = rcnt - 1
    · simp only [hi, if_true]
      rw [FI2C_CFG_IO_append fic _ 0 SCL_POS (by simp; omega)]
      simp only []
      rw [FI2C_WBUF_append fic _ FTDI_CMD_MFE_CLK_BIT_OUT (by simp; omega)]
      simp only []
      rw [FI2C_WBUF_append fic _ 0x0 (by simp; omega)]
      simp only []
      rw [FI2C_WBUF_append fic _ 0xff (by simp; omega)]
      simp only []
      rw [← hi, ih (i + 1) _ (by simp; omega)]
      simp only [rd_cmd_bytes, rd_bytes, hi, decide_True, if_true, h0, h1, List.append_assoc,
        List.cons_append, List.nil_append, FTDI_CMD_MRE_CLK_BYTE_IN, FTDI_CMD_MFE_CLK_BIT_OUT]
    · simp only [hi, if_false]
      rw [FI2C_CFG_IO_append fic _ 0 (SCL_POS ||| SDA_POS) (by simp; omega)]
      simp only []
      rw [FI2C_WBUF_append fic _ FTDI_CMD_MFE_CLK_BIT_OUT (by simp; omega)]
      simp only []
      rw [FI2C_WBUF_append fic _ 0x0 (by simp; omega)]
      simp only []
      rw [FI2C_WBUF_append fic _ 0x0 (by simp; omega)]
      simp only []
      rw [ih (i + 1) _ (by simp; omega)]
      simp only [rd_cmd_bytes, rd_bytes, hi, decide_False, if_false, h0, h1, h3,
        List.append_assoc, List.cons_append, List.nil_append, FTDI_CMD_MRE_CLK_BYTE_IN,
        FTDI_CMD_MFE_CLK_BIT_OUT]
      rfl

/-- When the `12 * rcnt + 1` command bytes fit behind the pending ones, `fi2c_rd` queues the
twelve bytes per payload byte and one `0x87`, sends everything pending in one bulk write and
then only reads. -/
theorem fi2c_rd_flush (tr : Transport) (FI2C_READ_ATTEMPTS : Nat) (w : fi2c_world)
    (rb : List Nat) (rcnt : Nat)
    (hv : w.fic.gpio.value < 256) (hd : w.fic.gpio.direction < 256)
    (hlen : w.fic.buf.length = FI2C_BUF_SIZE)
    (hcap : w.fic.bufcnt + 12 * rcnt + 1 ≤ FI2C_BUF_SIZE) :
    returns (fi2c_rd tr FI2C_READ_ATTEMPTS w rb rcnt)
      (fun x => x.2.fic.bufcnt = 0 ∧ ∃ reads,
        x.2.trace = w.trace ++ [FtdiCall.write_data (w.fic.buf.take w.fic.bufcnt ++
            rd_cmd_bytes w.fic.gpio.value w.fic.gpio.direction rcnt rcnt 0 ++ [0x87])] ++ reads ∧
        ∀ c ∈ reads, ∃ k, c = FtdiCall.read_data k) := by
  have hcap2 : w.fic.bufcnt + 12 * rcnt + 1 ≤ w.fic.buf.length := by rw [hlen]; exact hcap
  have hl := rd_cmd_bytes_length w.fic.gpio.value w.fic.gpio.direction rcnt rcnt 0
  have e1 := fi2c_rd_cmds_eq w.fic rcnt hv hd rcnt 0 [] (by simp; omega)
  rw [append_cmds_nil w.fic (by omega), List.nil_append] at e1
  have e2 := FI2C_WBUF_append w.fic
    (rd_cmd_bytes w.fic.gpio.value w.fic.gpio.direction rcnt rcnt 0) SEND_IMMEDIATE
    (by rw [hl]; omega)
  have e3 := fi2c_write_cmds_eq tr
    { w with fic := (w.fic.append_cmds
        (rd_cmd_bytes w.fic.gpio.value w.fic.gpio.direction rcnt rcnt 0 ++
          [SEND_IMMEDIATE % 256])) }
    (by simp only [append_cmds_bufcnt, List.length_append, hl, List.length_singleton]; omega)
  simp only [append_cmds_bufcnt, append_cmds_take w.fic _ (show w.fic.bufcnt ≤ w.fic.buf.length
    by omega)] at e3
  unfold fi2c_rd
  refine returns_bind (returns_eq _) (fun f1 hf1 => ?_)
  rw [e1] at hf1
  cases hf1
  refine returns_bind (returns_eq _) (fun f2 hf2 => ?_)
  rw [e2] at hf2
  cases hf2
  refine returns_bind (returns_eq _) (fun c hc => ?_)
  rw [e3] at hc
  cases hc
  have ht : ∀ reads : List FtdiCall,
      (w.trace ++ [FtdiCall.write_data (w.fic.buf.take w.fic.bufcnt ++
        (rd_cmd_bytes w.fic.gpio.value w.fic.gpio.direction rcnt rcnt 0 ++
          [SEND_IMMEDIATE % 256]))]) ++ reads
      = w.trace ++ [FtdiCall.write_data (w.fic.buf.take w.fic.bufcnt ++
            rd_cmd_bytes w.fic.gpio.value w.fic.gpio.direction rcnt rcnt 0 ++ [0x87])]
          ++ reads := by
    intro reads
    simp only [List.append_assoc, SEND_IMMEDIATE]
  dsimp only
  split
  · refine returns_pure _ ⟨rfl, [], ?_, by simp⟩
    rw [← ht []]
    simp only [List.append_nil]
    rfl
  · refine returns_bind (returns_true _) (fun _ _ => ?_)
    refine returns_bind (returns_eq _) (fun r hr => ?_)
    obtain ⟨reads, hreads, _, hall⟩ :=
      fi2c_read_loop_trace tr rcnt FI2C_READ_ATTEMPTS _ _ _ _ _ _ hr
    have hres : r.2.2 = w.trace ++ [FtdiCall.write_data (w.fic.buf.take w.fic.bufcnt ++
            rd_cmd_bytes w.fic.gpio.value w.fic.gpio.direction rcnt rcnt 0 ++ [0x87])]
          ++ reads := by
      rw [← ht reads, hreads]
      rfl
    split
    · exact returns_pure _ ⟨rfl, reads, hres, hall⟩
    · refine returns_bind (returns_true _) (fun _ _ => ?_)
      exact returns_pure _ ⟨rfl, reads, hres, hall⟩

/-! ## Runs that depart from the specification -/

/-- Whenever the acknowledge read fails, on a short read as on a transport error,
`fi2c_send_byte_and_check` returns `FI2C_ERR_FTDI` with nothing pending. -/
theorem fi2c_send_byte_and_check_read_failure (tr : Transport) (FI2C_READ_ATTEMPTS : Nat)
    (w : fi2c_world) (x : Nat) (rv : Int) (r : List Nat) (t2 : List FtdiCall) (hx : x < 256)
    (hv : w.fic.gpio.value < 256) (hd : w.fic.gpio.direction < 256)
    (hlen : w.fic.buf.length = FI2C_BUF_SIZE) (hcap : w.fic.bufcnt + 9 ≤ FI2C_BUF_SIZE)
    (hread : fi2c_read_from_ftdi tr FI2C_READ_ATTEMPTS (sent_trace w x) [0] 1
      = Except.ok (rv, r, t2)) (hrv : rv ≠ 0) :
    ∃ w1, fi2c_send_byte_and_check tr FI2C_READ_ATTEMPTS w x = Except.ok (FI2C_ERR_FTDI, w1) ∧
      w1.trace = t2 ∧ w1.fic.bufcnt = 0 := by
  have e := fi2c_send_byte_and_check_eq tr FI2C_READ_ATTEMPTS w x hx hv hd hlen hcap
  rw [hread] at e
  dsimp only at e
  rw [if_pos hrv] at e
  exact ⟨_, e, rfl, rfl⟩

/-- C13: a NACK comes back as `FI2C_ERR_ACK`, but a short acknowledge read does not come
back as `FI2C_ERR_READ`.  Against a device that accepts the nine command bytes and then
delivers nothing, `fi2c_read_from_ftdi` (three attempts) reports `FI2C_ERR_READ`, and
`fi2c_send_byte_and_check`, after one bulk write and three reads, returns `FI2C_ERR_FTDI`,
the code of a transport failure. -/
theorem fi2c_send_byte_and_check_short_read :
    (fi2c_read_from_ftdi no_data_transport 3 (sent_trace ⟨fi2c_init, [], none⟩ 0xa0) [0] 1).map
        (fun r => r.1) = Except.ok FI2C_ERR_READ ∧
    (fi2c_send_byte_and_check no_data_transport 3 ⟨fi2c_init, [], none⟩ 0xa0).map
        (fun r => (r.1, r.2.trace)) =
      Except.ok (FI2C_ERR_FTDI,
        [FtdiCall.write_data (send_bytes 0xa0 0 0), FtdiCall.read_data 1,
         FtdiCall.read_data 1, FtdiCall.read_data 1]) ∧
    (fi2c_send_byte_and_check nack_transport 3 ⟨fi2c_init, [], none⟩ 0xa0).map
        (fun r => r.1) = Except.ok FI2C_ERR_ACK ∧
    FI2C_ERR_FTDI ≠ FI2C_ERR_READ :=
  ⟨by rfl, by rfl, by rfl, by decide⟩

/-- C14: the commands of a 22-byte payload read do not fit the command array.  On a fresh
channel `fi2c_rd` with `rcnt = 22` stores past the 256 bytes of `buf` (`12 * 22 + 1 = 265`)
before anything is flushed; with `rcnt = 21` it sends the `12 * 21 + 1` bytes of the pattern
in one bulk write and reads the 21 bytes. -/
theorem fi2c_rd_overflow :
    fi2c_rd ack_transport 1 ⟨fi2c_init, [], some (List.replicate 22 0)⟩ (List.replicate 22 0) 22
      = Except.error Fault.out_of_bounds ∧
    FI2C_BUF_SIZE < 12 * 22 + 1 ∧
    (fi2c_rd ack_transport 1 ⟨fi2c_init, [], some (List.replicate 21 0)⟩
        (List.replicate 21 0) 21).map (fun x => (x.1, x.2.trace)) =
      Except.ok (FI2C_ERR_NONE,
        [FtdiCall.write_data (rd_cmd_bytes 0 0 21 21 0 ++ [0x87]), FtdiCall.read_data 21]) :=
  ⟨by rfl, by decide, by rfl⟩

/-- A retry pass of `fi2c_wr_rd` is the first pass run on the state with the stored error
cleared, `err = 0`, and two purge calls added to the trace. -/
theorem fi2c_wr_rd_attempt_retry (tr : Transport) (FI2C_READ_ATTEMPTS : Nat)
    (wbuf : Option (List Nat)) (wcnt rcnt retry_count : Nat) (w : fi2c_world) (err : Int)
    (hrc : retry_count ≠ 0) :
    fi2c_wr_rd_attempt tr FI2C_READ_ATTEMPTS wbuf wcnt rcnt retry_count w err
      = fi2c_wr_rd_attempt tr FI2C_READ_ATTEMPTS wbuf wcnt rcnt 0
          { CHECK_FI2C w 0 with
            trace := w.trace ++ [FtdiCall.usb_purge_buffers, FtdiCall.usb_purge_buffers] }
          0 := by
  unfold fi2c_wr_rd_attempt
  simp only [hrc, ne_eq, not_false_eq_true, if_true, not_true_eq_false, if_false,
    CHECK_FTDI_trace]

/-- C17: a retry restarts the transaction from the beginning, but with two purge calls, not
one.  Against a device that acknowledges every byte and delivers no payload, a write of
`[0x55]` followed by a read of two bytes with a retry ceiling of 2 makes the pass (start,
address+W, data byte, stop, start, address+R, payload commands, short read) twice, and
between the two passes `ftdi_usb_purge_buffers` is called twice. -/
theorem fi2c_wr_rd_retry_purges_twice :
    (fi2c_wr_rd short_read_transport 1 2 0 ⟨fi2c_init, [], some [0, 0]⟩ (some [0x55]) 1 2).map
        (fun r => (r.rv, r.retry_count, count_purge r.w.trace, r.w.trace)) =
      Except.ok (1, 2, 2,
        [FtdiCall.write_data (start_bytes 0 0 ++ send_bytes 0x00 0 0), FtdiCall.read_data 1,
         FtdiCall.write_data ([0x80, 0x02, 0x03] ++ send_bytes 0x55 0 0), FtdiCall.read_data 1,
         FtdiCall.write_data ([0x80, 0x02, 0x03] ++ stop_bytes 0 0),
         FtdiCall.write_data (start_bytes 0 0 ++ send_bytes 0x01 0 0), FtdiCall.read_data 1,
         FtdiCall.write_data ([0x80, 0x02, 0x03] ++ rd_cmd_bytes 0 0 2 2 0 ++ [0x87]),
         FtdiCall.read_data 2,
         FtdiCall.usb_purge_buffers, FtdiCall.usb_purge_buffers,
         FtdiCall.write_data (start_bytes 0 0 ++ send_bytes 0x00 0 0), FtdiCall.read_data 1,
         FtdiCall.write_data ([0x80, 0x02, 0x03] ++ send_bytes 0x55 0 0), FtdiCall.read_data 1,
         FtdiCall.write_data ([0x80, 0x02, 0x03] ++ stop_bytes 0 0),
         FtdiCall.write_data (start_bytes 0 0 ++ send_bytes 0x01 0 0), FtdiCall.read_data 1,
         FtdiCall.write_data ([0x80, 0x02, 0x03] ++ rd_cmd_bytes 0 0 2 2 0 ++ [0x87]),
         FtdiCall.read_data 2]) := by
  rfl

/-- The calls of `fi2c_send_byte_and_check`: one bulk write, then reads. -/
theorem fi2c_send_byte_and_check_calls (tr : Transport) (FI2C_READ_ATTEMPTS : Nat)
    (w : fi2c_world) (x : Nat) :
    returns (fi2c_send_byte_and_check tr FI2C_READ_ATTEMPTS w x)
      (fun r => ∃ cmds reads, r.2.trace = w.trace ++ [FtdiCall.write_data cmds] ++ reads ∧
        ∀ c ∈ reads, ∃ k, c = FtdiCall.read_data k) := by
  unfold fi2c_send_byte_and_check
  refine returns_bind (returns_true _) (fun f1 _ => ?_)
  refine returns_bind (returns_true _) (fun f2 _ => ?_)
  refine returns_bind (returns_true _) (fun f3 _ => ?_)
  refine returns_bind (returns_true _) (fun f4 _ => ?_)
  refine returns_bind (returns_true _) (fun f5 _ => ?_)
  refine returns_bind (returns_true _) (fun f6 _ => ?_)
  refine returns_bind (returns_true _) (fun f7 _ => ?_)
  refine returns_bind (fi2c_write_cmds_step tr _) (fun c hc => ?_)
  refine returns_bind (returns_eq _) (fun r hr => ?_)
  obtain ⟨_, _, cmds, hcm⟩ := hc
  obtain ⟨reads, hreads, _, hall⟩ :=
    fi2c_read_loop_trace tr 1 FI2C_READ_ATTEMPTS _ _ _ _ _ _ hr
  have htr : r.2.2 = w.trace ++ [FtdiCall.write_data cmds] ++ reads := by
    rw [hreads]
    simp only [CHECK_FI2C, hcm]
  dsimp only
  split
  · exact returns_pure _ ⟨cmds, reads, htr, hall⟩
  · refine returns_bind (returns_true _) (fun _ _ => ?_)
    split
    · exact returns_pure _ ⟨cmds, reads, htr, hall⟩
    · refine returns_bind (returns_true _) (fun _ _ => ?_)
      refine returns_bind (returns_true _) (fun f8 _ => ?_)
      exact returns_pure _ ⟨cmds, reads, htr, hall⟩

/-- The write phase asks for a restart only after the slave address was not acknowledged:
`err` is then `FI2C_ERR_ACK` and the phase has made a single bulk write (start sequence and
address) followed by reads.  A data byte that is not acknowledged never leads to a
restart. -/
theorem fi2c_wr_phase_restart (tr : Transport) (FI2C_READ_ATTEMPTS : Nat)
    (wbuf : Option (List Nat)) (wcnt : Nat) (w : fi2c_world) (err : Int) :
    returns (fi2c_wr_phase tr FI2C_READ_ATTEMPTS wbuf wcnt w err)
      (fun o => ∀ w1 err1, o = fi2c_attempt.retry w1 err1 →
        err1 = FI2C_ERR_ACK ∧
        ∃ cmds reads, w1.trace = w.trace ++ [FtdiCall.write_data cmds] ++ reads ∧
          ∀ c ∈ reads, ∃ k, c = FtdiCall.read_data k) := by
  unfold fi2c_wr_phase
  split
  · exact returns_ok _ (fun _ _ h => by cases h)
  · split
    · exact returns_ok _ (fun _ _ h => by cases h)
    · refine returns_bind (returns_true _) (fun s _ => ?_)
      refine returns_bind
        (fun r hr => (⟨fi2c_send_slave_post tr FI2C_READ_ATTEMPTS 0 _ 0 r hr,
          fi2c_send_byte_and_check_calls tr FI2C_READ_ATTEMPTS _ _ r hr⟩ :
            (fi2c_step 0 _ r.2 ∧ r.2.rbuf = _ ∧
              (r.1 = FI2C_ERR_NONE ∨ r.1 = FI2C_ERR_FTDI ∨ r.1 = FI2C_ERR_ACK)) ∧
            ∃ cmds reads, r.2.trace = _ ++ [FtdiCall.write_data cmds] ++ reads ∧
              ∀ c ∈ reads, ∃ k, c = FtdiCall.read_data k))
        (fun r hr => ?_)
      obtain ⟨⟨_, _, hcodes⟩, hcalls⟩ := hr
      dsimp only
      split
      · rename_i hc
        refine returns_pure _ (fun w1 err1 h => ?_)
        cases h
        refine ⟨?_, hcalls⟩
        rcases hc with hc | hc
        · exact hc
        · exact absurd hc (code_ne_read hcodes)
      · refine returns_bind (returns_true _) (fun _ _ => ?_)
        split
        · refine returns_bind (fi2c_wr_post tr FI2C_READ_ATTEMPTS 0 r.2 _ wcnt)
            (fun x hx => ?_)
          split
          · rename_i hc
            exact absurd hc hx.2.2
          · refine returns_bind (returns_true _) (fun _ _ => ?_)
            refine returns_bind (returns_true _) (fun p _ => ?_)
            refine returns_bind (returns_true _) (fun c _ => ?_)
            exact returns_pure _ (fun _ _ h => by cases h)
        · refine returns_bind (returns_true _) (fun _ _ => ?_)
          exact returns_pure _ (fun _ _ h => by cases h)

/-- C18: a data byte that is not acknowledged is not retried.  Against a device that
acknowledges the address and answers the acknowledge read of data byte 0 with bit 7 set,
a write of `[0x55]` with a retry ceiling of 3 sends the start sequence and the address, the
data byte, then the stop sequence, and returns 1 with `retry_count = 0`: no purge and no
second start sequence.  When the address itself is not acknowledged the same call restarts
until the ceiling (`retry_count = 3`, two purge pairs). -/
theorem fi2c_wr_rd_data_nack_no_retry :
    (fi2c_wr_rd data_nack_transport 1 3 0 ⟨fi2c_init, [], none⟩ (some [0x55]) 1 0).map
        (fun r => (r.rv, r.retry_count, count_purge r.w.trace, r.w.trace)) =
      Except.ok (1, 0, 0,
        [FtdiCall.write_data (start_bytes 0 0 ++ send_bytes 0x00 0 0), FtdiCall.read_data 1,
         FtdiCall.write_data ([0x80, 0x02, 0x03] ++ send_bytes 0x55 0 0), FtdiCall.read_data 1,
         FtdiCall.write_data (stop_bytes 0 0)]) ∧
    (fi2c_wr_rd nack_transport 1 3 0 ⟨fi2c_init, [], none⟩ (some [0x55]) 1 0).map
        (fun r => (r.rv, r.retry_count, count_purge r.w.trace)) = Except.ok (1, 3, 4) :=
  ⟨by rfl, by rfl⟩

/-- The return value of `fi2c_wr_rd` is the truth value of `fic->error || err`. -/
theorem fi2c_wr_rd_rv_flag {tr : Transport} {FI2C_READ_ATTEMPTS FI2C_ACK_RETRY_MAX : Nat}
    {tot_retry_count : Nat} {w : fi2c_world} {wbuf : Option (List Nat)} {wcnt rcnt : Nat}
    {r : fi2c_wr_rd_result}
    (h : fi2c_wr_rd tr FI2C_READ_ATTEMPTS FI2C_ACK_RETRY_MAX tot_retry_count w wbuf wcnt rcnt
      = Except.ok r) :
    r.rv = 0 ∨ r.rv = 1 := by
  obtain ⟨err, _, hrv, _⟩ := fi2c_wr_rd_ok h
  rw [hrv]
  split
  · exact Or.inr rfl
  · exact Or.inl rfl

/-- C19: the value returned after the retry ceiling is 1, not the code of the failure.
With a ceiling of 3, when every attempt ends on a NACK of the address the local `err` is
`FI2C_ERR_ACK` (2) at `WR_RD_DONE` and the call returns 1; when every attempt ends on a
short payload read the stored error is `FI2C_ERR_READ` (4) and the call returns 1, which is
the value of `FI2C_ERR_FTDI`. -/
theorem fi2c_wr_rd_returns_flag :
    (fi2c_wr_rd_loop nack_transport 1 none 0 2 3 0 ⟨fi2c_init, [], some [0, 0]⟩ 0).map
        (fun a => (a.1.fic.error, a.2.1, a.2.2)) = Except.ok (0, FI2C_ERR_ACK, 3) ∧
    (fi2c_wr_rd nack_transport 1 3 0 ⟨fi2c_init, [], some [0, 0]⟩ none 0 2).map
        (fun r => (r.rv, r.retry_count)) = Except.ok (1, 3) ∧
    (fi2c_wr_rd short_read_transport 1 3 0 ⟨fi2c_init, [], some [0, 0]⟩ none 0 2).map
        (fun r => (r.rv, r.retry_count, r.w.fic.error)) = Except.ok (1, 3, FI2C_ERR_READ) ∧
    (1 : Int) = FI2C_ERR_FTDI ∧ (1 : Int) ≠ FI2C_ERR_ACK ∧ (1 : Int) ≠ FI2C_ERR_READ :=
  ⟨by rfl, by rfl, by rfl, by rfl, by decide, by decide⟩

/-- C20: the command-buffer count does not stay within `FI2C_BUF_SIZE`.  On a fresh channel
and a device that acknowledges, `fi2c_wr_rd` reading 22 bytes queues behind the three
pending bytes twelve bytes per payload byte; the store of the 257th byte is at index 256,
past the end of the array.  Reading 21 bytes fills the array exactly (one bulk write of 256
bytes) and returns 0; `fi2c_reset` on the fresh channel flushes 27 bytes. -/
theorem fi2c_wr_rd_overflow :
    fi2c_wr_rd ack_transport 1 3 0 ⟨fi2c_init, [], some (List.replicate 128 0)⟩ none 0 22
      = Except.error Fault.out_of_bounds ∧
    (fi2c_wr_rd ack_transport 1 3 0 ⟨fi2c_init, [], some (List.replicate 128 0)⟩ none 0
        21).map (fun r => (r.rv, r.w.fic.bufcnt, r.w.trace.drop 2)) =
      Except.ok (0, 0,
        [FtdiCall.write_data ([0x80, 0x02, 0x03] ++ rd_cmd_bytes 0 0 21 21 0 ++ [0x87]),
         FtdiCall.read_data 21]) ∧
    ([0x80, 0x02, 0x03] ++ rd_cmd_bytes 0 0 21 21 0 ++ [0x87]).length = FI2C_BUF_SIZE ∧
    (fi2c_reset ack_transport ⟨fi2c_init, [], none⟩).map
        (fun r => (r.1, r.2.fic.bufcnt, r.2.trace)) =
      Except.ok (FI2C_ERR_NONE, 0, [FtdiCall.write_data (start_bytes 0 0)]) :=
  ⟨by rfl, by rfl, by rfl, by rfl⟩

/-! ## The physical write and the readback of a GPIO request -/

theorem getLast_snoc {α : Type} (l : List α) (a : α) : (l ++ [a]).getLast? = some a := by
  simp

theorem fgpio_read_trace (tr : Transport) (trace : List FtdiCall) (fc_type : ftdi_chip_type)
    (rd_val : Option Nat) :
    (fgpio_read tr trace fc_type rd_val).2 = trace ++ readback_calls rd_val := by
  cases rd_val with
  | none => simp [fgpio_read, readback_calls]
  | some p => simp [fgpio_read, readback_calls, ftdi_read_pins, ftdi_call]

/-- The byte the readback step stores for the caller: the byte delivered with the second
evaluation of `ftdi_read_pins` (or, when that fails, what the first evaluation left), and
on a `TYPE_R` part only its low nibble. -/
theorem fgpio_read_value (tr : Transport) (trace : List FtdiCall) (fc_type : ftdi_chip_type)
    (p : Nat) :
    (fgpio_read tr trace fc_type (some p)).1
      = some (if fc_type = ftdi_chip_type.TYPE_R then
          (ftdi_read_pins tr (trace ++ [FtdiCall.read_pins])
            (ftdi_read_pins tr trace p).2.1).2.1 &&& 0xf
        else (ftdi_read_pins tr (trace ++ [FtdiCall.read_pins])
            (ftdi_read_pins tr trace p).2.1).2.1) := by
  simp [fgpio_read, ftdi_read_pins, ftdi_call]

/-- The outcomes of the physical write: it goes on to the readback, or returns
`FGPIO_ERR_NOIMP`, or returns `FGPIO_ERR_WR` right after a bulk write. -/
theorem fgpio_write_codes (tr : Transport) (trace : List FtdiCall) (fc_type : ftdi_chip_type)
    (gpio : gpio_s) (dir_chg val_chg : Bool) (itype : ftdi_interface_type) :
    (fgpio_write tr trace fc_type gpio dir_chg val_chg itype).1 = none ∨
    (fgpio_write tr trace fc_type gpio dir_chg val_chg itype).1 = some FGPIO_ERR_NOIMP ∨
    ((fgpio_write tr trace fc_type gpio dir_chg val_chg itype).1 = some FGPIO_ERR_WR ∧
      ∃ buf, (fgpio_write tr trace fc_type gpio dir_chg val_chg itype).2.getLast?
        = some (FtdiCall.write_data buf)) := by
  unfold fgpio_write
  dsimp only
  split_ifs
  all_goals first
    | exact Or.inl rfl
    | exact Or.inr (Or.inl rfl)
    | exact Or.inr (Or.inr ⟨rfl, _, getLast_snoc _ _⟩)

/-- The return codes of `fgpio_wr_rd`: `FGPIO_ERR_RD` is never returned, and
`FGPIO_ERR_WR` only right after a bulk write. -/
theorem fgpio_wr_rd_codes (tr : Transport) (trace : List FtdiCall) (fgc : fgpio_context)
    (new_gpio : Option gpio_s) (rd_val : Option Nat) (itype : ftdi_interface_type) :
    (fgpio_wr_rd tr trace fgc new_gpio rd_val itype).rv = FGPIO_ERR_NONE ∨
    (fgpio_wr_rd tr trace fgc new_gpio rd_val itype).rv = FGPIO_ERR_MASK ∨
    (fgpio_wr_rd tr trace fgc new_gpio rd_val itype).rv = FGPIO_ERR_NOIMP ∨
    ((fgpio_wr_rd tr trace fgc new_gpio rd_val itype).rv = FGPIO_ERR_WR ∧
      ∃ buf, (fgpio_wr_rd tr trace fgc new_gpio rd_val itype).trace.getLast?
        = some (FtdiCall.write_data buf)) := by
  cases new_gpio with
  | none => exact Or.inl rfl
  | some ng =>
    by_cases hm : (fgc.gpio.mask ||| ng.mask) = fgc.gpio.mask
    · simp only [fgpio_wr_rd, hm, ne_eq, not_true_eq_false, if_false]
      rcases fgpio_write_codes tr trace fgc.fc_type (fgpio_merge fgc.gpio ng).2.2
        (fgpio_merge fgc.gpio ng).1 (fgpio_merge fgc.gpio ng).2.1 itype with h | h | h
      · rw [h]
        exact Or.inl rfl
      · rw [h]
        exact Or.inr (Or.inr (Or.inl rfl))
      · rw [h.1]
        exact Or.inr (Or.inr (Or.inr ⟨rfl, h.2⟩))
    · simp [fgpio_wr_rd, hm]

/-- A request that passes the mask check: the merged shadow is stored, the physical write
is made, and unless it returns early the readback follows. -/
theorem fgpio_wr_rd_accepted (tr : Transport) (trace : List FtdiCall) (fgc : fgpio_context)
    (ng : gpio_s) (rd_val : Option Nat) (itype : ftdi_interface_type)
    (h : (fgc.gpio.mask ||| ng.mask) = fgc.gpio.mask) :
    fgpio_wr_rd tr trace fgc (some ng) rd_val itype
      = match (fgpio_write tr trace fgc.fc_type (fgpio_merge fgc.gpio ng).2.2
            (fgpio_merge fgc.gpio ng).1 (fgpio_merge fgc.gpio ng).2.1 itype).1 with
        | some rv =>
          ⟨rv, { fgc with gpio := (fgpio_merge fgc.gpio ng).2.2 }, rd_val,
            (fgpio_write tr trace fgc.fc_type (fgpio_merge fgc.gpio ng).2.2
              (fgpio_merge fgc.gpio ng).1 (fgpio_merge fgc.gpio ng).2.1 itype).2⟩
        | none =>
          ⟨FGPIO_ERR_NONE, { fgc with gpio := (fgpio_merge fgc.gpio ng).2.2 },
            (fgpio_read tr (fgpio_write tr trace fgc.fc_type (fgpio_merge fgc.gpio ng).2.2
              (fgpio_merge fgc.gpio ng).1 (fgpio_merge fgc.gpio ng).2.1 itype).2
              fgc.fc_type rd_val).1,
            (fgpio_write tr trace fgc.fc_type (fgpio_merge fgc.gpio ng).2.2
              (fgpio_merge fgc.gpio ng).1 (fgpio_merge fgc.gpio ng).2.1 itype).2
              ++ readback_calls rd_val⟩ := by
  simp only [fgpio_wr_rd, h, ne_eq, not_true_eq_false, if_false, fgpio_read_trace]

/-- The physical write on a `TYPE_R` part when a masked bit changed: the mode-set call in
CBUS mode with the packed nibbles, evaluated twice by `CHECK_FTDI`, and nothing else. -/
theorem fgpio_write_cbus (tr : Transport) (trace : List FtdiCall) (gpio : gpio_s)
    (dir_chg val_chg : Bool) (itype : ftdi_interface_type)
    (hchg : (val_chg || dir_chg) = true) :
    fgpio_write tr trace ftdi_chip_type.TYPE_R gpio dir_chg val_chg itype
      = (none, trace ++
          [FtdiCall.set_bitmode
            ((((0xf &&& gpio.direction) <<< 4) ||| (0xf &&& gpio.value)) % 256) BITMODE_CBUS,
           FtdiCall.set_bitmode
            ((((0xf &&& gpio.direction) <<< 4) ||| (0xf &&& gpio.value)) % 256) BITMODE_CBUS]) := by
  simp [fgpio_write, hchg, CHECK_FTDI_trace]

/-- The byte of the CBUS mode-set call: the direction nibble above the value nibble. -/
theorem cbus_byte (d v : Nat) :
    (((0xf &&& d) <<< 4) ||| (0xf &&& v)) % 256 = ((0xf &&& d) <<< 4) ||| (0xf &&& v) ∧
    (((0xf &&& d) <<< 4) ||| (0xf &&& v)) / 16 = d % 16 ∧
    (((0xf &&& d) <<< 4) ||| (0xf &&& v)) % 16 = v % 16 := by
  have hd : 0xf &&& d = d % 16 := by
    rw [Nat.and_comm]
    exact Nat.and_pow_two_sub_one_eq_mod d 4
  have hv : 0xf &&& v = v % 16 := by
    rw [Nat.and_comm]
    exact Nat.and_pow_two_sub_one_eq_mod v 4
  have key : ∀ a < 16, ∀ c < 16,
      ((a <<< 4) ||| c) % 256 = (a <<< 4) ||| c ∧ ((a <<< 4) ||| c) / 16 = a ∧
      ((a <<< 4) ||| c) % 16 = c := by decide
  rw [hd, hv]
  exact key (d % 16) (Nat.mod_lt _ (by decide)) (v % 16) (Nat.mod_lt _ (by decide))

/-- The physical write on a part that is not `TYPE_R`, for a channel of type GPIO: when a
masked direction bit changed the bit-bang mode-set call with the merged direction
(evaluated twice by `CHECK_FTDI`), then when anything changed one bulk write of the value
byte. -/
theorem fgpio_write_bitbang (tr : Transport) (trace : List FtdiCall)
    (fc_type : ftdi_chip_type) (gpio : gpio_s) (dir_chg val_chg : Bool)
    (hwide : fc_type ≠ ftdi_chip_type.TYPE_R) :
    (fgpio_write tr trace fc_type gpio dir_chg val_chg ftdi_interface_type.GPIO).2
      = trace ++
        (if dir_chg = true then
          [FtdiCall.set_bitmode gpio.direction BITMODE_BITBANG,
           FtdiCall.set_bitmode gpio.direction BITMODE_BITBANG] else []) ++
        (if (val_chg || dir_chg) = true then [FtdiCall.write_data [gpio.value]] else []) := by
  cases dir_chg <;> cases val_chg <;>
    simp [fgpio_write, hwide, CHECK_FTDI_trace, ftdi_call] <;> split <;> rfl

/-- The physical write on a part that is not `TYPE_R`, for a channel of type I2C, SPI or
JTAG: when anything changed one bulk write of the set-low-bits command with the merged
value and direction, and never a mode-set call. -/
theorem fgpio_write_mpsse (tr : Transport) (trace : List FtdiCall)
    (fc_type : ftdi_chip_type) (gpio : gpio_s) (dir_chg val_chg : Bool)
    (itype : ftdi_interface_type) (hwide : fc_type ≠ ftdi_chip_type.TYPE_R)
    (hit : itype = ftdi_interface_type.I2C ∨ itype = ftdi_interface_type.SPI ∨
      itype = ftdi_interface_type.JTAG) :
    (fgpio_write tr trace fc_type gpio dir_chg val_chg itype).2
      = trace ++
        (if (val_chg || dir_chg) = true then
          [FtdiCall.write_data [0x80, gpio.value, gpio.direction]] else []) := by
  rcases hit with h | h | h <;> subst h <;> cases dir_chg <;> cases val_chg <;>
    simp [fgpio_write, hwide, ftdi_call, SET_BITS_LOW] <;> split <;> rfl

/-- The physical write on a part that is not `TYPE_R` for a channel of type UART: nothing is
sent and `FGPIO_ERR_NOIMP` is returned. -/
theorem fgpio_write_uart (tr : Transport) (trace : List FtdiCall)
    (fc_type : ftdi_chip_type) (gpio : gpio_s) (dir_chg val_chg : Bool)
    (hwide : fc_type ≠ ftdi_chip_type.TYPE_R) :
    fgpio_write tr trace fc_type gpio dir_chg val_chg ftdi_interface_type.UART
      = (some FGPIO_ERR_NOIMP, trace) := by
  simp [fgpio_write, hwide]

theorem ite_iff {α : Type} {p q : Prop} [Decidable p] [Decidable q] (h : p ↔ q) (a b : α) :
    (if p then a else b) = (if q then a else b) := by
  by_cases hq : q
  · rw [if_pos hq, if_pos (h.mpr hq)]
  · rw [if_neg hq, if_neg (fun hp => hq (h.mp hp))]

theorem readback_calls_pins (rd_val : Option Nat) :
    ∀ c ∈ readback_calls rd_val, c = FtdiCall.read_pins := by
  cases rd_val with
  | none => simp [readback_calls]
  | some p => simp [readback_calls]

/-- The change flags of the merge, as one condition. -/
theorem fgpio_merge_changed (g ng : gpio_s) :
    (((fgpio_merge g ng).2.1 || (fgpio_merge g ng).1) = true) ↔
      (ng.mask &&& (g.direction ^^^ ng.direction) ≠ 0 ∨
        ng.mask &&& (g.value ^^^ ng.value) ≠ 0) := by
  simp only [fgpio_merge, Bool.or_eq_true, decide_eq_true_eq]
  exact Or.comm

/-- A call without a request only reads the pins back. -/
theorem fgpio_wr_rd_readback (tr : Transport) (trace : List FtdiCall) (fgc : fgpio_context)
    (rd_val : Option Nat) (itype : ftdi_interface_type) :
    (fgpio_wr_rd tr trace fgc none rd_val itype).rv = FGPIO_ERR_NONE ∧
    (fgpio_wr_rd tr trace fgc none rd_val itype).trace = trace ++ readback_calls rd_val := by
  refine ⟨rfl, ?_⟩
  simp only [fgpio_wr_rd, fgpio_read_trace]

/-- An accepted request on a `TYPE_R` part that changes a masked bit: the CBUS mode-set call
carries the direction nibble of the merged shadow above its value nibble, the call is made
twice, no bulk write is made, the readback follows and the return value is
`FGPIO_ERR_NONE` whatever the device answers. -/
theorem fgpio_wr_rd_cbus (tr : Transport) (trace : List FtdiCall) (fgc : fgpio_context)
    (ng : gpio_s) (rd_val : Option Nat) (itype : ftdi_interface_type)
    (hnarrow : fgc.fc_type = ftdi_chip_type.TYPE_R)
    (h : (fgc.gpio.mask ||| ng.mask) = fgc.gpio.mask)
    (hchg : ng.mask &&& (fgc.gpio.direction ^^^ ng.direction) ≠ 0 ∨
      ng.mask &&& (fgc.gpio.value ^^^ ng.value) ≠ 0) :
    ∃ b, (fgpio_wr_rd tr trace fgc (some ng) rd_val itype).rv = FGPIO_ERR_NONE ∧
      (fgpio_wr_rd tr trace fgc (some ng) rd_val itype).trace
        = trace ++ [FtdiCall.set_bitmode b BITMODE_CBUS, FtdiCall.set_bitmode b BITMODE_CBUS]
            ++ readback_calls rd_val ∧
      b = (((0xf &&& (fgpio_wr_rd tr trace fgc (some ng) rd_val itype).fgc.gpio.direction) <<< 4)
            ||| (0xf &&& (fgpio_wr_rd tr trace fgc (some ng) rd_val itype).fgc.gpio.value)) ∧
      b / 16 = (fgpio_wr_rd tr trace fgc (some ng) rd_val itype).fgc.gpio.direction % 16 ∧
      b % 16 = (fgpio_wr_rd tr trace fgc (some ng) rd_val itype).fgc.gpio.value % 16 := by
  have hc := (fgpio_merge_changed fgc.gpio ng).mpr hchg
  have hw := fgpio_write_cbus tr trace (fgpio_merge fgc.gpio ng).2.2
    (fgpio_merge fgc.gpio ng).1 (fgpio_merge fgc.gpio ng).2.1 itype hc
  have hb := cbus_byte (fgpio_merge fgc.gpio ng).2.2.direction (fgpio_merge fgc.gpio ng).2.2.value
  rw [fgpio_wr_rd_accepted tr trace fgc ng rd_val itype h, hnarrow, hw, hb.1]
  exact ⟨_, rfl, rfl, rfl, hb.2.1, hb.2.2⟩

/-- An accepted request on a part that is not `TYPE_R`, for a channel of type GPIO: the
calls are the bit-bang mode-set with the merged direction when a masked direction bit
changed (made twice), then one bulk write of the merged value byte when anything changed,
then (unless the write came back short) the readback. -/
theorem fgpio_wr_rd_bitbang (tr : Transport) (trace : List FtdiCall) (fgc : fgpio_context)
    (ng : gpio_s) (rd_val : Option Nat)
    (hwide : fgc.fc_type ≠ ftdi_chip_type.TYPE_R)
    (h : (fgc.gpio.mask ||| ng.mask) = fgc.gpio.mask) :
    ∃ reads, (∀ c ∈ reads, c = FtdiCall.read_pins) ∧
      (fgpio_wr_rd tr trace fgc (some ng) rd_val ftdi_interface_type.GPIO).trace
        = trace ++
          (if ng.mask &&& (fgc.gpio.direction ^^^ ng.direction) ≠ 0 then
            [FtdiCall.set_bitmode
              (fgpio_wr_rd tr trace fgc (some ng) rd_val
                ftdi_interface_type.GPIO).fgc.gpio.direction BITMODE_BITBANG,
             FtdiCall.set_bitmode
              (fgpio_wr_rd tr trace fgc (some ng) rd_val
                ftdi_interface_type.GPIO).fgc.gpio.direction BITMODE_BITBANG]
           else []) ++
          (if ng.mask &&& (fgc.gpio.direction ^^^ ng.direction) ≠ 0 ∨
              ng.mask &&& (fgc.gpio.value ^^^ ng.value) ≠ 0 then
            [FtdiCall.write_data
              [(fgpio_wr_rd tr trace fgc (some ng) rd_val
                ftdi_interface_type.GPIO).fgc.gpio.value]]
           else []) ++ reads := by
  have hw := fgpio_write_bitbang tr trace fgc.fc_type (fgpio_merge fgc.gpio ng).2.2
    (fgpio_merge fgc.gpio ng).1 (fgpio_merge fgc.gpio ng).2.1 hwide
  have hd : ((fgpio_merge fgc.gpio ng).1 = true) ↔
      ng.mask &&& (fgc.gpio.direction ^^^ ng.direction) ≠ 0 := by
    simp [fgpio_merge]
  rw [ite_iff hd, ite_iff (fgpio_merge_changed fgc.gpio ng)] at hw
  rw [fgpio_wr_rd_accepted tr trace fgc ng rd_val ftdi_interface_type.GPIO h]
  cases hw1 : (fgpio_write tr trace fgc.fc_type (fgpio_merge fgc.gpio ng).2.2
      (fgpio_merge fgc.gpio ng).1 (fgpio_merge fgc.gpio ng).2.1 ftdi_interface_type.GPIO).1 with
  | some rv =>
    refine ⟨[], by simp, ?_⟩
    dsimp only
    rw [hw, List.append_nil]
  | none =>
    refine ⟨readback_calls rd_val, readback_calls_pins rd_val, ?_⟩
    dsimp only
    rw [hw]

/-- C26: on a part that is not `TYPE_R`, for a channel of type I2C, SPI or JTAG and a
request that passes the mask check, the calls of `fgpio_wr_rd` are: when a masked direction
or value bit changes, one bulk write of the three bytes `[0x80, value, direction]` of the
merged shadow it leaves behind, and when none changes no write; after that only pin
readbacks.  No mode-set call and no one-byte write is made. -/
theorem fgpio_wr_rd_mpsse (tr : Transport) (trace : List FtdiCall) (fgc : fgpio_context)
    (ng : gpio_s) (rd_val : Option Nat) (itype : ftdi_interface_type)
    (hwide : fgc.fc_type ≠ ftdi_chip_type.TYPE_R)
    (hit : itype = ftdi_interface_type.I2C ∨ itype = ftdi_interface_type.SPI ∨
      itype = ftdi_interface_type.JTAG)
    (h : (fgc.gpio.mask ||| ng.mask) = fgc.gpio.mask) :
    ∃ reads, (∀ c ∈ reads, c = FtdiCall.read_pins) ∧
      (fgpio_wr_rd tr trace fgc (some ng) rd_val itype).trace
        = trace ++
          (if ng.mask &&& (fgc.gpio.direction ^^^ ng.direction) ≠ 0 ∨
              ng.mask &&& (fgc.gpio.value ^^^ ng.value) ≠ 0 then
            [FtdiCall.write_data
              [0x80, (fgpio_wr_rd tr trace fgc (some ng) rd_val itype).fgc.gpio.value,
               (fgpio_wr_rd tr trace fgc (some ng) rd_val itype).fgc.gpio.direction]]
           else []) ++ reads := by
  have hw := fgpio_write_mpsse tr trace fgc.fc_type (fgpio_merge fgc.gpio ng).2.2
    (fgpio_merge fgc.gpio ng).1 (fgpio_merge fgc.gpio ng).2.1 itype hwide hit
  rw [ite_iff (fgpio_merge_changed fgc.gpio ng)] at hw
  rw [fgpio_wr_rd_accepted tr trace fgc ng rd_val itype h]
  cases hw1 : (fgpio_write tr trace fgc.fc_type (fgpio_merge fgc.gpio ng).2.2
      (fgpio_merge fgc.gpio ng).1 (fgpio_merge fgc.gpio ng).2.1 itype).1 with
  | some rv =>
    refine ⟨[], by simp, ?_⟩
    dsimp only
    rw [hw, List.append_nil]
  | none =>
    refine ⟨readback_calls rd_val, readback_calls_pins rd_val, ?_⟩
    dsimp only
    rw [hw]

theorem fgpio_wr_rd_mpsse_witness :
    ∃ reads, (∀ c ∈ reads, c = FtdiCall.read_pins) ∧
      (fgpio_wr_rd gpio_transport []
          ⟨ftdi_chip_type.TYPE_4232H, ⟨0x00, 0x00, 0xf8⟩, 0⟩
          (some ⟨0x50, 0xf0, 0xf0⟩) (some 0) ftdi_interface_type.I2C).trace
        = [FtdiCall.write_data [0x80, 0x50, 0xf0]] ++ reads := by
  obtain ⟨reads, h1, h2⟩ := fgpio_wr_rd_mpsse gpio_transport []
    ⟨ftdi_chip_type.TYPE_4232H, ⟨0x00, 0x00, 0xf8⟩, 0⟩ ⟨0x50, 0xf0, 0xf0⟩ (some 0)
    ftdi_interface_type.I2C (by decide) (Or.inl rfl) (by decide)
  exact ⟨reads, h1, h2⟩

/-- A successful parse leaves an interface number between 1 and 4. -/
theorem parse_buffer_gpio_interface (buf : List Char) (gpio : gpio_s) (interface_num : Nat)
    (h : (parse_buffer_gpio buf gpio interface_num).rv = 0) :
    1 ≤ (parse_buffer_gpio buf gpio interface_num).interface_num ∧
      (parse_buffer_gpio buf gpio interface_num).interface_num ≤ 4 := by
  revert h
  unfold parse_buffer_gpio
  dsimp only
  repeat' split
  all_goals
    intro h
    first
      | (dsimp only; omega)
      | simp at h

/-- The lookup with type `ANY` of an interface number between 1 and the count. -/
theorem fcom_lookup_interface_any (interfaces : List ftdi_itype) (cnt n : Nat)
    (h1 : 1 ≤ n) (h4 : n ≤ 4) (hcnt : n ≤ cnt) :
    fcom_lookup_interface interfaces cnt n ftdi_interface_type.ANY
      = Except.ok ⟨some (n - 1), []⟩ := by
  have hn : ¬ n > cnt := by omega
  have hidx : (n + 2 ^ 32 - 1) % 2 ^ 32 = n - 1 := by omega
  have hidx2 : (n + 4294967295) % 4294967296 = n - 1 := by omega
  simp [fcom_lookup_interface, hn, hidx2]

/-- C28: on a part that is not `TYPE_R`, a request that passes the mask check and is
addressed to a channel of type UART makes `fgpio_wr_rd` return `FGPIO_ERR_NOIMP` without
any transport call (the trace and the byte behind `rd_val` are as before); and when such a
request arrives as a line `g,...`, parsed without error and looked up in the registry, the
reply of the server is `E:writing/reading gpio`, again without any transport call. -/
theorem fgpio_wr_rd_uart_noimp (tr : Transport) (trace : List FtdiCall) (fgc : fgpio_context)
    (ng : gpio_s) (rd_val : Option Nat)
    (interfaces : List ftdi_itype) (int_cnt : Nat) (st : servod_state) (buf : List Char)
    (new_gpio : gpio_s) (interface_num rd : Nat) (e : ftdi_itype)
    (hwide : fgc.fc_type ≠ ftdi_chip_type.TYPE_R)
    (hmask : (fgc.gpio.mask ||| ng.mask) = fgc.gpio.mask)
    (hp : (parse_buffer_gpio buf new_gpio interface_num).rv = 0)
    (hcnt : (parse_buffer_gpio buf new_gpio interface_num).interface_num ≤ int_cnt)
    (he : interfaces[(parse_buffer_gpio buf new_gpio interface_num).interface_num - 1]?
      = some e)
    (hty : e.type = ftdi_interface_type.UART) (hctx : e.context ≠ 0)
    (hwide2 : (st.heap e.context).fc_type ≠ ftdi_chip_type.TYPE_R)
    (hmask2 : ((st.heap e.context).gpio.mask |||
        (parse_buffer_gpio buf new_gpio interface_num).gpio.mask)
      = (st.heap e.context).gpio.mask) :
    fgpio_wr_rd tr trace fgc (some ng) rd_val ftdi_interface_type.UART
      = ⟨FGPIO_ERR_NOIMP, { fgc with gpio := (fgpio_merge fgc.gpio ng).2.2 }, rd_val, trace⟩ ∧
    ∃ st1 rest,
      process_client_gpio tr interfaces int_cnt st buf new_gpio interface_num rd
        = Except.ok ("E:" ++ rest, st1) ∧
      st1.trace = st.trace := by
  have huart : ∀ (t : List FtdiCall) (c : fgpio_context) (g : gpio_s) (r : Option Nat),
      c.fc_type ≠ ftdi_chip_type.TYPE_R → (c.gpio.mask ||| g.mask) = c.gpio.mask →
      fgpio_wr_rd tr t c (some g) r ftdi_interface_type.UART
        = ⟨FGPIO_ERR_NOIMP, { c with gpio := (fgpio_merge c.gpio g).2.2 }, r, t⟩ := by
    intro t c g r hw hm
    rw [fgpio_wr_rd_accepted tr t c g r ftdi_interface_type.UART hm,
      fgpio_write_uart tr t c.fc_type _ _ _ hw]
  refine ⟨huart trace fgc ng rd_val hwide hmask, ?_⟩
  obtain ⟨h1, h4⟩ := parse_buffer_gpio_interface buf new_gpio interface_num hp
  have hl := fcom_lookup_interface_any interfaces int_cnt _ h1 h4 hcnt
  have hr := huart st.trace (st.heap e.context)
    (parse_buffer_gpio buf new_gpio interface_num).gpio (some rd) hwide2 hmask2
  refine ⟨⟨Function.update st.heap e.context
      ⟨(st.heap e.context).fc_type,
        (fgpio_merge (st.heap e.context).gpio
          (parse_buffer_gpio buf new_gpio interface_num).gpio).2.2,
        (st.heap e.context).error⟩,
    st.trace⟩, "writing/reading gpio\n", ?_, ?_⟩
  · unfold process_client_gpio
    simp only [hp, ne_eq, not_true_eq_false, if_false, hl, bind, Except.bind, he, hctx, hty, hr]
    rfl
  · rfl

theorem fgpio_wr_rd_uart_noimp_witness :
    (servod_start.heap 3).gpio = ⟨0, 0, 0xfc⟩ ∧
    parse_buffer_gpio "3,0xfc,0xa8,0xfc\n".toList ⟨0, 0, 0⟩ 0 = ⟨0, ⟨0xa8, 0xfc, 0xfc⟩, 3⟩ ∧
    fgpio_wr_rd gpio_transport [] ⟨ftdi_chip_type.TYPE_4232H, ⟨0, 0, 0xfc⟩, 0⟩
        (some ⟨0xa8, 0xfc, 0xfc⟩) (some 0) ftdi_interface_type.UART
      = ⟨FGPIO_ERR_NOIMP, ⟨ftdi_chip_type.TYPE_4232H, ⟨0xa8, 0xfc, 0xfc⟩, 0⟩, some 0, []⟩ ∧
    ∃ st1 rest,
      process_client_gpio gpio_transport servod_interfaces 4 servod_start
          "3,0xfc,0xa8,0xfc\n".toList ⟨0, 0, 0⟩ 0 0
        = Except.ok ("E:" ++ rest, st1) ∧
      st1.trace = [] :=
  ⟨rfl, by rfl,
   fgpio_wr_rd_uart_noimp gpio_transport [] ⟨ftdi_chip_type.TYPE_4232H, ⟨0, 0, 0xfc⟩, 0⟩
    ⟨0xa8, 0xfc, 0xfc⟩ (some 0) servod_interfaces 4 servod_start "3,0xfc,0xa8,0xfc\n".toList
    ⟨0, 0, 0⟩ 0 0 ⟨ftdi_interface_type.UART, 3⟩
    (by decide) (by decide) (by rfl) (by decide) (by rfl) rfl (by decide) (by decide)
    (by decide)⟩

/-- C23: a failing transport call does not make `fgpio_wr_rd` return an error unless it is
the bulk write.  On a wide part with a GPIO channel and a device on which every mode-set
call fails (`-1`), a request changing direction and value makes the mode-set call a second
time, goes on to the bulk write and the readback, and returns `FGPIO_ERR_NONE`; the same
holds for the CBUS mode-set call of a `TYPE_R` part; and when the pin readback fails the
call returns `FGPIO_ERR_NONE` with the caller's byte unchanged, after a second readback. -/
theorem fgpio_wr_rd_ignores_failures :
    (failed_bitmode_transport [FtdiCall.set_bitmode 0xff BITMODE_BITBANG]).rv = -1 ∧
    fgpio_wr_rd failed_bitmode_transport [] ⟨ftdi_chip_type.TYPE_4232H, ⟨0, 0, 0xff⟩, 0⟩
        (some ⟨0xaa, 0xff, 0xff⟩) (some 0) ftdi_interface_type.GPIO
      = ⟨FGPIO_ERR_NONE, ⟨ftdi_chip_type.TYPE_4232H, ⟨0xaa, 0xff, 0xff⟩, 0⟩, some 0x5a,
          [FtdiCall.set_bitmode 0xff BITMODE_BITBANG, FtdiCall.set_bitmode 0xff BITMODE_BITBANG,
           FtdiCall.write_data [0xaa], FtdiCall.read_pins, FtdiCall.read_pins]⟩ ∧
    fgpio_wr_rd failed_bitmode_transport [] ⟨ftdi_chip_type.TYPE_R, ⟨0, 0, 0x0f⟩, 0⟩
        (some ⟨0x05, 0x0f, 0x0f⟩) none ftdi_interface_type.GPIO
      = ⟨FGPIO_ERR_NONE, ⟨ftdi_chip_type.TYPE_R, ⟨0x05, 0x0f, 0x0f⟩, 0⟩, none,
          [FtdiCall.set_bitmode 0xf5 BITMODE_CBUS, FtdiCall.set_bitmode 0xf5 BITMODE_CBUS]⟩ ∧
    (failed_pins_transport [FtdiCall.read_pins]).rv = -1 ∧
    fgpio_wr_rd failed_pins_transport [] ⟨ftdi_chip_type.TYPE_4232H, ⟨0, 0, 0xff⟩, 0⟩
        none (some 0x77) ftdi_interface_type.GPIO
      = ⟨FGPIO_ERR_NONE, ⟨ftdi_chip_type.TYPE_4232H, ⟨0, 0, 0xff⟩, 0⟩, some 0x77,
          [FtdiCall.read_pins, FtdiCall.read_pins]⟩ :=
  ⟨by rfl, by rfl, by rfl, by rfl, by rfl⟩

/-- C24: on a `TYPE_R` part the CBUS mode-set call is made twice, not once.  From shadow
value 0 and direction 0 with mask `0x0f`, the request value `0x05`, direction `0x0f`, mask
`0x0f` stores the merged shadow and issues `ftdi_set_bitmode(0xf5, BITMODE_CBUS)` two times
(direction nibble `f` above value nibble `5`), and no bulk write. -/
theorem fgpio_wr_rd_cbus_twice :
    fgpio_wr_rd gpio_transport [] ⟨ftdi_chip_type.TYPE_R, ⟨0, 0, 0x0f⟩, 0⟩
        (some ⟨0x05, 0x0f, 0x0f⟩) none ftdi_interface_type.GPIO
      = ⟨FGPIO_ERR_NONE, ⟨ftdi_chip_type.TYPE_R, ⟨0x05, 0x0f, 0x0f⟩, 0⟩, none,
          [FtdiCall.set_bitmode 0xf5 BITMODE_CBUS, FtdiCall.set_bitmode 0xf5 BITMODE_CBUS]⟩ ∧
    (0xf5 : Nat) = ((0x0f &&& 0x0f) <<< 4) ||| (0x0f &&& 0x05) :=
  ⟨by rfl, by decide⟩

/-- C25: on a wide part with a GPIO channel the bit-bang mode-set call is made twice, not
once.  The request parsed from `1,0xff,0xaa` (interface 1, direction `0xff`, value `0xaa`,
mask `0xff`), applied to shadow value 0, direction 0, mask `0xff`, issues
`ftdi_set_bitmode(0xff, BITMODE_BITBANG)` two times, then the one-byte bulk write `[0xaa]`,
then the readback; a request that changes nothing issues only the readback. -/
theorem fgpio_wr_rd_bitbang_twice :
    parse_buffer_gpio "1,0xff,0xaa\n".toList ⟨0, 0, 0⟩ 0 = ⟨0, ⟨0xaa, 0xff, 0xff⟩, 1⟩ ∧
    fgpio_wr_rd gpio_transport [] ⟨ftdi_chip_type.TYPE_4232H, ⟨0, 0, 0xff⟩, 0⟩
        (some (parse_buffer_gpio "1,0xff,0xaa\n".toList ⟨0, 0, 0⟩ 0).gpio) (some 0)
        ftdi_interface_type.GPIO
      = ⟨FGPIO_ERR_NONE, ⟨ftdi_chip_type.TYPE_4232H, ⟨0xaa, 0xff, 0xff⟩, 0⟩, some 0x5a,
          [FtdiCall.set_bitmode 0xff BITMODE_BITBANG, FtdiCall.set_bitmode 0xff BITMODE_BITBANG,
           FtdiCall.write_data [0xaa], FtdiCall.read_pins, FtdiCall.read_pins]⟩ ∧
    (fgpio_wr_rd gpio_transport [] ⟨ftdi_chip_type.TYPE_4232H, ⟨0xaa, 0xff, 0xff⟩, 0⟩
        (some ⟨0xaa, 0xff, 0xff⟩) (some 0) ftdi_interface_type.GPIO).trace
      = [FtdiCall.read_pins, FtdiCall.read_pins] :=
  ⟨by rfl, by rfl, by rfl⟩

/-- C27: the pin readback is made twice, not once.  A call with only a readback destination
issues `ftdi_read_pins` two times; the byte stored for the caller is the byte delivered
(`0x5a`) on a wide part and its low nibble (`0x0a`) on a `TYPE_R` part. -/
theorem fgpio_wr_rd_reads_pins_twice :
    fgpio_wr_rd gpio_transport [] ⟨ftdi_chip_type.TYPE_4232H, ⟨0, 0, 0xff⟩, 0⟩
        none (some 0) ftdi_interface_type.GPIO
      = ⟨FGPIO_ERR_NONE, ⟨ftdi_chip_type.TYPE_4232H, ⟨0, 0, 0xff⟩, 0⟩, some 0x5a,
          [FtdiCall.read_pins, FtdiCall.read_pins]⟩ ∧
    fgpio_wr_rd gpio_transport [] ⟨ftdi_chip_type.TYPE_R, ⟨0, 0, 0x0f⟩, 0⟩
        none (some 0) ftdi_interface_type.GPIO
      = ⟨FGPIO_ERR_NONE, ⟨ftdi_chip_type.TYPE_R, ⟨0, 0, 0x0f⟩, 0⟩, some 0x0a,
          [FtdiCall.read_pins, FtdiCall.read_pins]⟩ :=
  ⟨by rfl, by rfl⟩

/-! ## Parsing of a GPIO request -/

theorem digit_value_range {c : Char} {d : Nat} (h : digit_value c = some d) :
    (48 ≤ c.toNat ∧ c.toNat ≤ 57) ∨ (97 ≤ c.toNat ∧ c.toNat ≤ 122) ∨
      (65 ≤ c.toNat ∧ c.toNat ≤ 90) := by
  unfold digit_value at h
  split_ifs at h with h1 h2 h3
  · exact Or.inl h1
  · exact Or.inr (Or.inl h2)
  · exact Or.inr (Or.inr h3)

/-- A digit is neither white space nor a sign. -/
theorem digit_plain {c : Char} {d : Nat} (h : digit_value c = some d) :
    isspace c = false ∧ c ≠ '-' ∧ c ≠ '+' := by
  have hr := digit_value_range h
  refine ⟨?_, ?_, ?_⟩
  · simp only [isspace, Bool.or_eq_false_iff, decide_eq_false_iff_not, Bool.and_eq_false_imp,
      decide_eq_true_eq]
    omega
  · rintro rfl
    have h45 : ('-' : Char).toNat = 45 := by decide
    omega
  · rintro rfl
    have h43 : ('+' : Char).toNat = 43 := by decide
    omega

/-- The digit loop of `strtoul` on a run of digits of the base followed by something that
is not a digit: the run is converted and consumed, the rest is left. -/
theorem strtoul_digits_append (base : Nat) (rest : List Char)
    (hrest : ∀ c, rest.head? = some c → digit_value c = none) :
    ∀ (ds : List Char) (acc n v : Nat), digits_value base ds acc = some v →
      strtoul_digits base (ds ++ rest) acc n = (v, n + ds.length, rest) := by
  intro ds
  induction ds with
  | nil =>
    intro acc n v h
    simp only [digits_value, Option.some.injEq] at h
    subst h
    cases rest with
    | nil => rfl
    | cons c t =>
      have hc := hrest c rfl
      simp only [List.nil_append, strtoul_digits, hc, List.length_nil, Nat.add_zero]
  | cons c cs ih =>
    intro acc n v h
    cases hc : digit_value c with
    | none => simp [digits_value, hc] at h
    | some d =>
      by_cases hd : d < base
      · simp only [digits_value, hc, hd, if_true] at h
        simp only [List.cons_append, strtoul_digits, hc, hd, if_true]
        have e := ih _ (n + 1) v h
        have hl : n + 1 + cs.length = n + (c :: cs).length := by
          simp only [List.length_cons]
          omega
        rw [hl] at e
        exact e
      · simp [digits_value, hc, hd] at h

/-- The function `strtoul` on a text that begins with a digit: there is no white space and
no sign to skip. -/
theorem strtoul0_digit (c : Char) (t : List Char) (d : Nat) (hc : digit_value c = some d) :
    strtoul0 (c :: t)
      = if (strtoul_digits
            (if c = '0' ∧ (t.head? = some 'x' ∨ t.head? = some 'X') then 16
              else if c = '0' then 8 else 10)
            (if c = '0' ∧ (t.head? = some 'x' ∨ t.head? = some 'X') then t.tail else c :: t)
            0 0).2.1 = 0
        then (0, if c = '0' ∧ (t.head? = some 'x' ∨ t.head? = some 'X') then t else c :: t)
        else
          (if (strtoul_digits
              (if c = '0' ∧ (t.head? = some 'x' ∨ t.head? = some 'X') then 16
                else if c = '0' then 8 else 10)
              (if c = '0' ∧ (t.head? = some 'x' ∨ t.head? = some 'X') then t.tail else c :: t)
              0 0).1 > ULONG_MAX then ULONG_MAX
           else (strtoul_digits
              (if c = '0' ∧ (t.head? = some 'x' ∨ t.head? = some 'X') then 16
                else if c = '0' then 8 else 10)
              (if c = '0' ∧ (t.head? = some 'x' ∨ t.head? = some 'X') then t.tail else c :: t)
              0 0).1,
           (strtoul_digits
              (if c = '0' ∧ (t.head? = some 'x' ∨ t.head? = some 'X') then 16
                else if c = '0' then 8 else 10)
              (if c = '0' ∧ (t.head? = some 'x' ∨ t.head? = some 'X') then t.tail else c :: t)
              0 0).2.2) := by
  obtain ⟨hsp, hm, hp⟩ := digit_plain hc
  have hdw : (c :: t).dropWhile isspace = c :: t := by
    simp [List.dropWhile, hsp]
  unfold strtoul0
  simp only [hdw, List.head?_cons, Option.some.injEq, hm, hp, or_self, if_false,
    List.tail_cons, decide_eq_true_eq, decide_False, Bool.false_eq_true]

/-- The function `strtoul` (base 0) on a numeral followed by something that is not a digit
or letter: the value is the value of the numeral and `eptr` points behind it. -/
theorem strtoul0_numeral (s rest : List Char) (v : Nat)
    (hs : numeral_value s = some v) (hv : v ≤ ULONG_MAX)
    (hrest : ∀ c, rest.head? = some c → digit_value c = none) :
    strtoul0 (s ++ rest) = (v, rest) := by
  have hx : digit_value 'x' = some 33 := by decide
  have hX : digit_value 'X' = some 33 := by decide
  have h0 : digit_value '0' = some 0 := by decide
  have hnx : ¬ (rest.head? = some 'x' ∨ rest.head? = some 'X') := by
    rintro (h | h)
    · have := hrest _ h
      rw [hx] at this
      cases this
    · have := hrest _ h
      rw [hX] at this
      cases this
  have hgt : ¬ v > ULONG_MAX := by omega
  cases s with
  | nil => simp [numeral_value] at hs
  | cons c cs =>
    by_cases hc0 : c = '0'
    · subst hc0
      cases cs with
      | nil =>
        simp only [numeral_value, if_true, Option.some.injEq] at hs
        subst hs
        have e := strtoul_digits_append 8 rest hrest ['0'] 0 0 0 (by simp [digits_value, h0])
        rw [List.cons_append, List.nil_append, strtoul0_digit _ _ _ h0]
        simp only [true_and, hnx, if_false, if_true]
        have e2 : strtoul_digits 8 ('0' :: rest) 0 0 = (0, 1, rest) := e
        rw [e2]
        simp
      | cons x ds =>
        by_cases hxx : x = 'x' ∨ x = 'X'
        · simp only [numeral_value, if_true, hxx] at hs
          by_cases hds : ds = []
          · simp [hds] at hs
          · simp only [hds, if_false] at hs
            have e := strtoul_digits_append 16 rest hrest ds 0 0 v hs
            rw [List.cons_append, List.cons_append, strtoul0_digit _ _ _ h0]
            have hh : (x :: (ds ++ rest)).head? = some 'x' ∨
                (x :: (ds ++ rest)).head? = some 'X' := by
              rcases hxx with h | h
              · exact Or.inl (by rw [h]; rfl)
              · exact Or.inr (by rw [h]; rfl)
            simp only [true_and, hh, if_true, List.tail_cons]
            rw [e]
            have hl : ¬ (0 + ds.length = 0) := by
              cases ds with
              | nil => exact absurd rfl hds
              | cons _ _ => simp
            simp only [hl, if_false, hgt]
        · simp only [numeral_value, if_true, hxx, if_false] at hs
          have hs2 : digits_value 8 ('0' :: x :: ds) 0 = some v := by
            simp only [digits_value, h0, Nat.zero_mul, Nat.add_zero]
            simpa [digits_value] using hs
          have e := strtoul_digits_append 8 rest hrest ('0' :: x :: ds) 0 0 v hs2
          rw [List.cons_append, List.cons_append, strtoul0_digit _ _ _ h0]
          have hh : ¬ ((x :: (ds ++ rest)).head? = some 'x' ∨
              (x :: (ds ++ rest)).head? = some 'X') := by
            simpa using hxx
          simp only [true_and, hh, if_false, if_true]
          have e2 : strtoul_digits 8 ('0' :: x :: (ds ++ rest)) 0 0
              = (v, 0 + ('0' :: x :: ds).length, rest) := e
          rw [e2]
          simp [hgt]
    · simp only [numeral_value, hc0, if_false] at hs
      cases hcd : digit_value c with
      | none => simp [digits_value, hcd] at hs
      | some d =>
        have e := strtoul_digits_append 10 rest hrest (c :: cs) 0 0 v hs
        rw [List.cons_append, strtoul0_digit _ _ _ hcd]
        simp only [hc0, false_and, if_false]
        have e2 : strtoul_digits 10 (c :: (cs ++ rest)) 0 0
            = (v, 0 + (c :: cs).length, rest) := e
        rw [e2]
        simp [hgt]

/-- A numeral field that ends at a comma: `parse_ul_element` with delimiter `,` yields its
value and the text behind the comma. -/
theorem parse_ul_element_field (s rest : List Char) (v : Nat)
    (hs : numeral_value s = some v) (hv : v ≤ ULONG_MAX) :
    parse_ul_element (s ++ ',' :: rest) (some ',') = (v, some rest) := by
  have hc : ∀ c, (',' :: rest).head? = some c → digit_value c = none := by
    intro c h
    simp only [List.head?_cons, Option.some.injEq] at h
    subst h
    decide
  simp [parse_ul_element, strtoul0_numeral s (',' :: rest) v hs hv hc]

/-- The last numeral field: `parse_ul_element` without a delimiter yields its value and the
text behind the numeral. -/
theorem parse_ul_element_last (s rest : List Char) (v : Nat)
    (hs : numeral_value s = some v) (hv : v ≤ ULONG_MAX)
    (hrest : ∀ c, rest.head? = some c → digit_value c = none) :
    parse_ul_element (s ++ rest) none = (v, some rest) := by
  simp [parse_ul_element, strtoul0_numeral s rest v hs hv hrest]

/-- C29: for numerals `si`, `sd`, `sv`, `sm` (decimal, `0x`-hexadecimal or `0`-octal) with
values `1 <= i <= 4` and `d, v, m <= 0xff`, and a rest of the line that is empty or begins
with a character that is neither a digit, a letter nor a comma (such as the newline),
`parse_buffer_gpio` returns 0 on `si,sd,sv` with interface `i`, direction `d`, value `v` and
mask `0xff`, and returns 0 on `si,sd,sv,sm` with interface `i`, direction `d`, value `v` and
mask `m`; the values are stored unchanged. -/
theorem parse_buffer_gpio_numerals (si sd sv sm rest : List Char) (i d v m : Nat)
    (gpio : gpio_s) (interface_num : Nat)
    (hsi : numeral_value si = some i) (hsd : numeral_value sd = some d)
    (hsv : numeral_value sv = some v) (hsm : numeral_value sm = some m)
    (hi1 : 1 ≤ i) (hi4 : i ≤ 4) (hd : d ≤ 0xff) (hv : v ≤ 0xff) (hm : m ≤ 0xff)
    (hrest : ∀ c, rest.head? = some c → digit_value c = none ∧ c ≠ ',') :
    parse_buffer_gpio (si ++ ',' :: (sd ++ ',' :: (sv ++ rest))) gpio interface_num
      = ⟨0, ⟨v, d, 0xff⟩, i⟩ ∧
    parse_buffer_gpio (si ++ ',' :: (sd ++ ',' :: (sv ++ ',' :: (sm ++ rest)))) gpio
        interface_num
      = ⟨0, ⟨v, d, m⟩, i⟩ := by
  have hU : (0xff : Nat) ≤ ULONG_MAX := by decide
  have hr1 : ∀ c, rest.head? = some c → digit_value c = none := fun c h => (hrest c h).1
  have hcomma : ∀ c, (',' :: (sm ++ rest)).head? = some c → digit_value c = none := by
    intro c h
    simp only [List.head?_cons, Option.some.injEq] at h
    subst h
    decide
  have hnc : ¬ rest.head? = some ',' := fun h => (hrest _ h).2 rfl
  have hi0 : ¬ (i = 0 ∨ i > 4) := by omega
  have hd0 : ¬ d > 255 := by omega
  have hv0 : ¬ v > 255 := by omega
  have hm0 : ¬ m > 255 := by omega
  have e1 := fun r => parse_ul_element_field si r i hsi (by omega)
  have e2 := fun r => parse_ul_element_field sd r d hsd (by omega)
  have e3 := parse_ul_element_last sv rest v hsv (by omega) hr1
  have e3m := parse_ul_element_last sv (',' :: (sm ++ rest)) v hsv (by omega) hcomma
  have e4 := parse_ul_element_last sm rest m hsm (by omega) hr1
  have hi32 : i % 2 ^ 32 = i := Nat.mod_eq_of_lt (by omega)
  have hd256 : d % 256 = d := Nat.mod_eq_of_lt (by omega)
  have hv256 : v % 256 = v := Nat.mod_eq_of_lt (by omega)
  have hm256 : m % 256 = m := Nat.mod_eq_of_lt (by omega)
  constructor
  · simp only [parse_buffer_gpio, e1, e2, e3, hi0, hd0, hv0, hnc, if_false, hi32, hd256,
      hv256]
  · simp only [parse_buffer_gpio, e1, e2, e3m, e4, hi0, hd0, hv0, hm0, if_false, hi32, hd256,
      hv256, hm256, List.head?_cons, List.tail_cons, if_true]

theorem parse_buffer_gpio_numerals_witness :
    parse_buffer_gpio "1,0xff,0xaa\n".toList ⟨0, 0, 0⟩ 0 = ⟨0, ⟨0xaa, 0xff, 0xff⟩, 1⟩ ∧
    parse_buffer_gpio "1,0xff,0xaa,017\n".toList ⟨0, 0, 0⟩ 0 = ⟨0, ⟨0xaa, 0xff, 15⟩, 1⟩ :=
  parse_buffer_gpio_numerals "1".toList "0xff".toList "0xaa".toList "017".toList "\n".toList
    1 0xff 0xaa 15 ⟨0, 0, 0⟩ 0 (by rfl) (by rfl) (by rfl) (by rfl)
    (by decide) (by decide) (by decide) (by decide) (by decide)
    (by intro c h; cases h; exact ⟨by decide, by decide⟩)

theorem parse_ul_element_comma (buf : List Char) :
    parse_ul_element buf (some ',')
      = ((strtoul0 buf).1,
          if (strtoul0 buf).2.head? = some ',' then some (strtoul0 buf).2.tail else none) := by
  unfold parse_ul_element
  dsimp only
  by_cases h : (strtoul0 buf).2.head? = some ','
  · simp [h]
  · simp [h]

theorem parse_ul_element_none (buf : List Char) :
    parse_ul_element buf none = ((strtoul0 buf).1, some (strtoul0 buf).2) :=
  rfl

/-- What `parse_buffer_gpio` checks: it returns 0 exactly for the accepted requests.  A
field without digits converts to 0 and is not rejected for it, and nothing is checked
behind the last number converted. -/
theorem parse_buffer_gpio_accepts_iff (buf : List Char) (gpio : gpio_s) (interface_num : Nat) :
    (parse_buffer_gpio buf gpio interface_num).rv = 0 ↔ gpio_request_accepted buf := by
  unfold gpio_request_accepted
  simp only [parse_buffer_gpio, parse_ul_element_comma, parse_ul_element_none]
  by_cases h1 : (strtoul0 buf).2.head? = some ','
  · simp only [h1, if_true, true_and]
    by_cases h2 : (strtoul0 buf).1 = 0 ∨ (strtoul0 buf).1 > 4
    · simp [h2]
    · simp only [h2, if_false, not_false_eq_true, true_and]
      by_cases h3 : (strtoul0 (strtoul0 buf).2.tail).2.head? = some ','
      · simp only [h3, if_true, true_and]
        by_cases h4 : (strtoul0 (strtoul0 buf).2.tail).1 > 0xff
        · simp [h4]
        · simp only [h4, if_false, not_false_eq_true, true_and]
          by_cases h5 : (strtoul0 (strtoul0 (strtoul0 buf).2.tail).2.tail).1 > 0xff
          · simp [h5]
          · simp only [h5, if_false, not_false_eq_true, true_and]
            by_cases h6 : (strtoul0 (strtoul0 (strtoul0 buf).2.tail).2.tail).2.head? = some ','
            · simp only [h6, if_true, true_implies]
              by_cases h7 : (strtoul0 (strtoul0 (strtoul0 (strtoul0 buf).2.tail).2.tail).2.tail).1
                  > 0xff
              · simp [h7]
              · simp [h7]
            · simp [h6]
      · simp [h3]
  · simp [h1]

/-- A request that `parse_buffer_gpio` rejects is answered with the parse error reply, and
nothing is looked up or sent. -/
theorem process_client_gpio_parse_error (tr : Transport) (interfaces : List ftdi_itype)
    (int_cnt : Nat) (st : servod_state) (buf : List Char) (new_gpio : gpio_s)
    (interface_num rd_val : Nat)
    (h : (parse_buffer_gpio buf new_gpio interface_num).rv ≠ 0) :
    process_client_gpio tr interfaces int_cnt st buf new_gpio interface_num rd_val
      = Except.ok
          ("E:parsing client request.  Should be\n\t<interface>,<dir>,<val>[,<mask>]\n", st) := by
  unfold process_client_gpio
  simp only [h, ne_eq, not_false_eq_true, if_true]

/-- C30: not every malformed request is rejected.  `abc` (the line `g,abc`) is rejected, and
so are an interface of 0 or 5, a missing comma, and a direction, value or mask above
`0xff`.  But a value field without digits (`1,0xff,zz`) is accepted as value 0, characters
behind the value (`1,0xff,0xaajunk`) are ignored, and a mask field without digits
(`1,0xff,0xaa,`) is accepted as mask 0; the server answers `g,1,0xff,zz` with `I:0x5a` and
`A:` after writing direction `0xff` and value 0 to the pins. -/
theorem parse_buffer_gpio_accepts_malformed :
    (parse_buffer_gpio "abc".toList ⟨0, 0, 0⟩ 0).rv = 1 ∧
    (parse_buffer_gpio "0,0xff,0xaa\n".toList ⟨0, 0, 0⟩ 0).rv = 1 ∧
    (parse_buffer_gpio "5,0xff,0xaa\n".toList ⟨0, 0, 0⟩ 0).rv = 1 ∧
    (parse_buffer_gpio "1;0xff,0xaa\n".toList ⟨0, 0, 0⟩ 0).rv = 1 ∧
    (parse_buffer_gpio "1,0xff;0xaa\n".toList ⟨0, 0, 0⟩ 0).rv = 1 ∧
    (parse_buffer_gpio "1,0x100,0xaa\n".toList ⟨0, 0, 0⟩ 0).rv = 1 ∧
    (parse_buffer_gpio "1,0xff,0x100\n".toList ⟨0, 0, 0⟩ 0).rv = 1 ∧
    (parse_buffer_gpio "1,0xff,0xaa,0x100\n".toList ⟨0, 0, 0⟩ 0).rv = 1 ∧
    parse_buffer_gpio "1,0xff,zz\n".toList ⟨0, 0, 0⟩ 0 = ⟨0, ⟨0, 0xff, 0xff⟩, 1⟩ ∧
    parse_buffer_gpio "1,0xff,0xaajunk\n".toList ⟨0, 0, 0⟩ 0 = ⟨0, ⟨0xaa, 0xff, 0xff⟩, 1⟩ ∧
    parse_buffer_gpio "1,0xff,0xaa,\n".toList ⟨0, 0, 0⟩ 0 = ⟨0, ⟨0xaa, 0xff, 0⟩, 1⟩ ∧
    (process_client_gpio gpio_transport servod_interfaces 4 servod_start
        "1,0xff,zz\n".toList ⟨0, 0, 0⟩ 0 0).map (fun r => (r.1, r.2.trace))
      = Except.ok ("I:0x5a\nA:\n",
          [FtdiCall.set_bitmode 0xff BITMODE_BITBANG, FtdiCall.set_bitmode 0xff BITMODE_BITBANG,
           FtdiCall.write_data [0x00], FtdiCall.read_pins, FtdiCall.read_pins]) :=
  ⟨by rfl, by rfl, by rfl, by rfl, by rfl, by rfl, by rfl, by rfl, by rfl, by rfl, by rfl,
   by rfl⟩

/-! ## Transport failures in the I2C functions -/

/-- Whatever the device answers, `fi2c_reset` returns 0 and leaves no error stored. -/
theorem fi2c_reset_returns_zero (tr : Transport) (w : fi2c_world) :
    returns (fi2c_reset tr w) (fun r => r.1 = 0 ∧ r.2.fic.error = 0) := by
  unfold fi2c_reset
  refine returns_bind (returns_true _) (fun s _ => ?_)
  refine returns_bind (returns_true _) (fun c _ => ?_)
  exact returns_pure _ ⟨rfl, rfl⟩

/-- C21: `fi2c_wr_rd` can return with three bytes pending, and the assertion of
`fi2c_start_bit_cmds` then fails in the next call.  On a fresh channel, when the bulk write
of start sequence and address comes back short and the acknowledge read delivers an
acknowledge, a read of one byte returns 1 with `FI2C_ERR_WRITE` stored and `bufcnt = 3`;
a following write transaction or `fi2c_reset`, even against a responsive device, fails the
assertion `bufcnt == 0`. -/
theorem fi2c_start_bit_assert_fails :
    (fi2c_wr_rd short_write_transport 1 3 0 ⟨fi2c_init, [], some [0]⟩ none 0 1).map
        (fun r => (r.rv, r.w.fic.error, r.w.fic.bufcnt, r.w.trace))
      = Except.ok (1, FI2C_ERR_WRITE, 3,
          [FtdiCall.write_data (start_bytes 0 0 ++ send_bytes 0x01 0 0),
           FtdiCall.read_data 1]) ∧
    ((fi2c_wr_rd short_write_transport 1 3 0 ⟨fi2c_init, [], some [0]⟩ none 0 1) >>=
        fun r => fi2c_wr_rd ack_transport 1 3 r.tot_retry_count r.w (some [0x55]) 1 0)
      = Except.error Fault.assert_failed ∧
    ((fi2c_wr_rd short_write_transport 1 3 0 ⟨fi2c_init, [], some [0]⟩ none 0 1) >>=
        fun r => fi2c_reset ack_transport r.w)
      = Except.error Fault.assert_failed :=
  ⟨by rfl, by rfl, by rfl⟩

/-- C22: transport failures are not always reported.  `fi2c_reset` returns 0 with no error
stored although its bulk write failed (`-1`); a write transaction whose data byte went out
in a short bulk write (0 of 12 bytes accepted) returns 0 with no error stored, because the
code of the write is overwritten by the code of the acknowledge check; and when the
acknowledge read fails (`-1`) the call returns 1 but the stored error is 0. -/
theorem fi2c_transport_failure_lost :
    (failed_write_transport [FtdiCall.write_data (start_bytes 0 0)]).rv = -1 ∧
    (fi2c_reset failed_write_transport ⟨fi2c_init, [], none⟩).map
        (fun r => (r.1, r.2.fic.error, r.2.trace))
      = Except.ok (0, 0, [FtdiCall.write_data (start_bytes 0 0)]) ∧
    (fi2c_wr_rd short_data_write_transport 1 3 0 ⟨fi2c_init, [], none⟩ (some [0x55]) 1 0).map
        (fun r => (r.rv, r.w.fic.error, r.w.trace))
      = Except.ok (0, 0,
          [FtdiCall.write_data (start_bytes 0 0 ++ send_bytes 0x00 0 0), FtdiCall.read_data 1,
           FtdiCall.write_data ([0x80, 0x02, 0x03] ++ send_bytes 0x55 0 0), FtdiCall.read_data 1,
           FtdiCall.write_data ([0x80, 0x02, 0x03] ++ stop_bytes 0 0)]) ∧
    (short_data_write_transport
        [FtdiCall.write_data (start_bytes 0 0 ++ send_bytes 0x00 0 0), FtdiCall.read_data 1,
         FtdiCall.write_data ([0x80, 0x02, 0x03] ++ send_bytes 0x55 0 0)]).rv = 0 ∧
    (fi2c_wr_rd failed_read_transport 1 3 0 ⟨fi2c_init, [], some [0]⟩ none 0 1).map
        (fun r => (r.rv, r.w.fic.error, r.w.trace))
      = Except.ok (1, 0,
          [FtdiCall.write_data (start_bytes 0 0 ++ send_bytes 0x01 0 0),
           FtdiCall.read_data 1]) :=
  ⟨by rfl, by rfl, by rfl, by rfl, by rfl⟩

/-! ## The command buffer on return from `fi2c_wr_rd` -/

theorem exit_state_ready {L : Nat} {fic : fi2c_context} (err : Int)
    (h : exit_state L fic) : fic.buf.length = L ∧ (fic.error = 0 → err = 0 → fic.bufcnt = 0) := by
  rcases h with h | h
  · exact ⟨h.1, fun _ _ => h.2⟩
  · exact ⟨h.1.1, fun he _ => absurd he h.2⟩

/-- The write phase ends with an empty command buffer, or with three bytes pending and an
error stored (after a failed bulk write of the address that was acknowledged). -/
theorem fi2c_wr_phase_exit {L : Nat} (tr : Transport) (FI2C_READ_ATTEMPTS : Nat)
    (wbuf : Option (List Nat)) (wcnt : Nat) (w : fi2c_world) (err : Int)
    (h : pending L 0 w.fic) (h36 : 36 ≤ L) (hL : L ≤ FI2C_BUF_SIZE)
    (hw : ∀ wb, wbuf = some wb → wcnt ≤ wb.length) :
    succeeds (fi2c_wr_phase tr FI2C_READ_ATTEMPTS wbuf wcnt w err)
      (fun o => match o with
        | fi2c_attempt.retry w1 _ => pending L 0 w1.fic
        | fi2c_attempt.done w1 _ => exit_state L w1.fic) := by
  unfold fi2c_wr_phase
  split
  · exact succeeds_ok _ (Or.inl h)
  · rename_i wb
    split
    · exact succeeds_ok _ (Or.inl h)
    · refine succeeds_bind (fi2c_start_bit_cmds_ok h (by omega)) (fun s hs => ?_)
      have hs1 : pending L 27 (CHECK_FI2C { w with fic := s.2 } s.1).fic := hs
      refine succeeds_bind
        (fi2c_send_slave_ok tr FI2C_READ_ATTEMPTS 0 hs1 (by omega) hL) (fun r hr => ?_)
      dsimp only
      split
      · rename_i hc
        refine succeeds_pure _ (hr.2 ?_)
        rcases hc with hc | hc <;> rw [hc] <;> decide
      · refine succeeds_bind succeeds_unit (fun _ _ => ?_)
        split
        · rename_i hz
          have hwr : succeeds (fi2c_wr tr FI2C_READ_ATTEMPTS r.2 wb wcnt)
              (fun x => (x.1 = 0 → pending L 3 x.2.fic) ∧ (x.1 ≠ 0 → pending L 0 x.2.fic)) :=
            fi2c_wr_loop_ok tr FI2C_READ_ATTEMPTS wb (by omega) hL wcnt 0 r.2
              (by have := hw wb rfl; omega) (hr.1 hz.2)
          refine succeeds_bind hwr (fun x hx => ?_)
          split
          · rename_i hc
            refine succeeds_pure _ (hx.2 ?_)
            rw [hc]; decide
          · refine succeeds_bind succeeds_unit (fun _ _ => ?_)
            have hx3 : ∃ m, m ≤ 3 ∧ pending L m x.2.fic := by
              by_cases hx0 : x.1 = 0
              · exact ⟨3, le_refl _, hx.1 hx0⟩
              · exact ⟨0, Nat.zero_le _, hx.2 hx0⟩
            obtain ⟨m, hm, hpm⟩ := hx3
            refine succeeds_bind (fi2c_stop_bit_cmds_ok hpm (by omega)) (fun p hp => ?_)
            have hp1 : pending L (m + 27) (CHECK_FI2C { x.2 with fic := p.2 } p.1).fic := hp
            refine succeeds_bind (fi2c_write_cmds_ok tr hp1 (by omega)) (fun c hc => ?_)
            exact succeeds_pure _ (Or.inl hc)
        · rename_i hnz
          refine succeeds_bind succeeds_unit (fun _ _ => ?_)
          refine succeeds_pure _ ?_
          by_cases hr0 : r.1 = 0
          · refine Or.inr ⟨hr.1 hr0, fun he => hnz ⟨he, hr0⟩⟩
          · exact Or.inl (hr.2 hr0)

/-- The read phase ends with an empty command buffer, or with three bytes pending and an
error stored. -/
theorem fi2c_rd_phase_exit {L : Nat} (tr : Transport) (FI2C_READ_ATTEMPTS rcnt : Nat)
    (w : fi2c_world) (err : Int)
    (hx : exit_state L w.fic)
    (h36 : 36 ≤ L) (hL : L ≤ FI2C_BUF_SIZE) (hr : 12 * rcnt + 4 ≤ L)
    (hrb : ∀ rb, w.rbuf = some rb → rcnt ≤ rb.length) :
    succeeds (fi2c_rd_phase tr FI2C_READ_ATTEMPTS rcnt w err)
      (fun o => match o with
        | fi2c_attempt.retry w1 _ => pending L 0 w1.fic
        | fi2c_attempt.done w1 _ => exit_state L w1.fic) := by
  obtain ⟨hlen, h0⟩ := exit_state_ready err hx
  unfold fi2c_rd_phase
  split
  · exact succeeds_ok _ hx
  · rename_i rb0 hsome
    split
    · rename_i hgate
      have hp : pending L 0 w.fic := ⟨hlen, h0 hgate.2.1 hgate.2.2⟩
      refine succeeds_bind (fi2c_start_bit_cmds_ok hp (by omega)) (fun s hs => ?_)
      have hs1 : pending L 27 (CHECK_FI2C { w with fic := s.2 } s.1).fic := hs
      refine succeeds_bind
        (fi2c_send_slave_ok tr FI2C_READ_ATTEMPTS 1 hs1 (by omega) hL) (fun r hr1 => ?_)
      dsimp only
      split
      · rename_i hc
        refine succeeds_pure _ (hr1.2 ?_)
        rcases hc with hc | hc <;> rw [hc] <;> decide
      · refine succeeds_bind succeeds_unit (fun _ _ => ?_)
        split
        · rename_i hz
          refine succeeds_bind
            (fi2c_rd_ok tr FI2C_READ_ATTEMPTS rb0 rcnt (hr1.1 hz.2) (by omega) hL
              (hrb rb0 hsome)) (fun x hx2 => ?_)
          have hx1 : pending L 0 (CHECK_FI2C x.2 x.1).fic := hx2
          split
          · exact succeeds_pure _ hx1
          · refine succeeds_bind succeeds_unit (fun _ _ => ?_)
            exact succeeds_pure _ (Or.inl hx1)
        · rename_i hnz
          refine succeeds_bind succeeds_unit (fun _ _ => ?_)
          refine succeeds_pure _ ?_
          by_cases hr0 : r.1 = 0
          · refine Or.inr ⟨hr1.1 hr0, fun he => hnz ⟨he, hr0⟩⟩
          · exact Or.inl (hr1.2 hr0)
    · exact succeeds_ok _ hx

theorem fi2c_wr_rd_attempt_exit {L : Nat} (tr : Transport) (FI2C_READ_ATTEMPTS : Nat)
    (wbuf : Option (List Nat)) (wcnt rcnt retry_count : Nat) (w : fi2c_world) (err : Int)
    (h : pending L 0 w.fic) (h36 : 36 ≤ L) (hL : L ≤ FI2C_BUF_SIZE) (hr : 12 * rcnt + 4 ≤ L)
    (hw : ∀ wb, wbuf = some wb → wcnt ≤ wb.length)
    (hrb : ∀ rb, w.rbuf = some rb → rcnt ≤ rb.length) :
    succeeds (fi2c_wr_rd_attempt tr FI2C_READ_ATTEMPTS wbuf wcnt rcnt retry_count w err)
      (fun o => match o with
        | fi2c_attempt.retry w1 _ => pending L 0 w1.fic
        | fi2c_attempt.done w1 _ => exit_state L w1.fic) := by
  unfold fi2c_wr_rd_attempt
  dsimp only
  have hp0 : pending L 0 (if retry_count ≠ 0 then
      ({ CHECK_FI2C w 0 with
        trace := (CHECK_FTDI tr w.trace FtdiCall.usb_purge_buffers).2 } : fi2c_world)
      else w).fic := by
    split
    · exact h
    · exact h
  have hrb0 : (if retry_count ≠ 0 then
      ({ CHECK_FI2C w 0 with
        trace := (CHECK_FTDI tr w.trace FtdiCall.usb_purge_buffers).2 } : fi2c_world)
      else w).rbuf = w.rbuf := by
    split
    · rfl
    · rfl
  refine succeeds_bind
    (succeeds_and (fi2c_wr_phase_exit tr FI2C_READ_ATTEMPTS wbuf wcnt _ _ hp0 h36 hL hw)
      (fi2c_wr_phase_post tr FI2C_READ_ATTEMPTS rcnt wbuf wcnt _ _)) (fun o ho => ?_)
  cases o with
  | retry w1 err1 => exact succeeds_pure _ ho.1
  | done w1 err1 =>
    obtain ⟨hx, hstep⟩ := ho
    have hs : fi2c_step rcnt _ w1 := hstep
    have hf := hs.2
    rw [hrb0] at hf
    exact fi2c_rd_phase_exit tr FI2C_READ_ATTEMPTS rcnt w1 err1 hx h36 hL hr
      (rbuf_frame_room hf hrb)

theorem fi2c_wr_rd_loop_exit {L : Nat} (tr : Transport) (FI2C_READ_ATTEMPTS : Nat)
    (wbuf : Option (List Nat)) (wcnt rcnt : Nat)
    (h36 : 36 ≤ L) (hL : L ≤ FI2C_BUF_SIZE) (hr : 12 * rcnt + 4 ≤ L)
    (hw : ∀ wb, wbuf = some wb → wcnt ≤ wb.length) :
    ∀ (n rc : Nat) (w : fi2c_world) (err : Int), pending L 0 w.fic →
      (∀ rb, w.rbuf = some rb → rcnt ≤ rb.length) →
      succeeds (fi2c_wr_rd_loop tr FI2C_READ_ATTEMPTS wbuf wcnt rcnt n rc w err)
        (fun a => exit_state L a.1.fic) := by
  intro n
  induction n with
  | zero =>
    intro rc w err h _
    exact succeeds_ok _ (Or.inl h)
  | succ n ih =>
    intro rc w err h hrb
    unfold fi2c_wr_rd_loop
    refine succeeds_bind
      (succeeds_and
        (fi2c_wr_rd_attempt_exit tr FI2C_READ_ATTEMPTS wbuf wcnt rcnt rc w err h h36 hL hr hw
          hrb)
        (fi2c_wr_rd_attempt_post tr FI2C_READ_ATTEMPTS wbuf wcnt rcnt rc w err))
      (fun o ho => ?_)
    cases o with
    | retry w1 err1 =>
      obtain ⟨hp, _, hf, _⟩ := ho
      exact ih (rc + 1) w1 err1 hp (rbuf_frame_room hf hrb)
    | done w1 err1 => exact succeeds_ok _ ho.1

/-- Entered with an empty command buffer (and `rcnt <= 21`), `fi2c_wr_rd` returns with
`bufcnt == 0`, except that it returns with `bufcnt == 3` and an error stored when the
address byte was acknowledged although its bulk write had failed or was short.  In
particular it returns with `bufcnt == 0` whenever no error is stored. -/
theorem fi2c_wr_rd_exit (tr : Transport) (FI2C_READ_ATTEMPTS FI2C_ACK_RETRY_MAX : Nat)
    (tot_retry_count : Nat) (w : fi2c_world) (wbuf : Option (List Nat)) (wcnt rcnt : Nat)
    (hlen : w.fic.buf.length = FI2C_BUF_SIZE) (hcnt : w.fic.bufcnt = 0)
    (hw : ∀ wb, wbuf = some wb → wcnt ≤ wb.length)
    (hrb : ∀ rb, w.rbuf = some rb → rcnt ≤ rb.length) (hr : rcnt ≤ 21) :
    ∃ r, fi2c_wr_rd tr FI2C_READ_ATTEMPTS FI2C_ACK_RETRY_MAX tot_retry_count w wbuf wcnt rcnt
        = Except.ok r ∧
      (r.w.fic.bufcnt = 0 ∨ (r.w.fic.bufcnt = 3 ∧ r.w.fic.error ≠ 0)) := by
  have h256 : FI2C_BUF_SIZE = 256 := rfl
  obtain ⟨a, ha, hx⟩ := fi2c_wr_rd_loop_exit tr FI2C_READ_ATTEMPTS wbuf wcnt rcnt
    (by rw [h256]; omega) (le_refl _) (by rw [h256]; omega) hw FI2C_ACK_RETRY_MAX 0 w 0
    ⟨hlen, hcnt⟩ hrb
  refine ⟨⟨if a.1.fic.error ≠ 0 ∨ a.2.1 ≠ 0 then 1 else 0, a.1, a.2.2,
    tot_retry_count + a.2.2⟩, ?_, ?_⟩
  · unfold fi2c_wr_rd
    rw [ha]
    rfl
  · rcases hx with hx | hx
    · exact Or.inl hx.2
    · exact Or.inr ⟨hx.1.2, hx.2⟩

/-! ## Parsing of I2C requests -/

/-- With room for every field, the loop of `parse_buffer_i2c` counts the fields and stores
their values modulo 256 in order, leaving the rest of `argv` as it was. -/
theorem parse_i2c_loop_ok : ∀ (fields : List (List Char)) (argcnt : Nat) (argv : List Nat),
    argcnt + fields.length ≤ argv.length →
    ∃ argv1, parse_i2c_loop fields argcnt argv = Except.ok (argcnt + fields.length, argv1) ∧
      argv1.length = argv.length ∧
      (∀ k, k < argcnt → argv1[k]? = argv[k]?) ∧
      (∀ j, j < fields.length →
        argv1[argcnt + j]? = (fields.map (fun t => (strtoul0 t).1 % 256))[j]?) := by
  intro fields
  induction fields with
  | nil =>
    intro argcnt argv _
    exact ⟨argv, rfl, rfl, fun _ _ => rfl, fun j hj => absurd hj (by simp)⟩
  | cons f fs ih =>
    intro argcnt argv h
    simp only [List.length_cons] at h
    have hc : argcnt < argv.length := by omega
    obtain ⟨argv1, h1, h2, h3, h4⟩ :=
      ih (argcnt + 1) (argv.set argcnt ((strtoul0 f).1 % 256))
        (by simp only [List.length_set]; omega)
    refine ⟨argv1, ?_, ?_, ?_, ?_⟩
    · unfold parse_i2c_loop
      simp only [hc, if_true, h1, List.length_cons]
      congr 2
      omega
    · rw [h2, List.length_set]
    · intro k hk
      rw [h3 k (by omega), List.getElem?_set_ne (by omega)]
    · intro j hj
      cases j with
      | zero =>
        rw [Nat.add_zero, h3 argcnt (by omega), List.getElem?_set_self hc]
        simp
      | succ j =>
        simp only [List.length_cons] at hj
        have e : argcnt + (j + 1) = argcnt + 1 + j := by omega
        rw [e, h4 j (by omega)]
        simp

/-- What `parse_buffer_i2c` returns for a request whose fields fit into `args`, in terms of
the field values. -/
theorem parse_buffer_i2c_eq (buf : List Char) (argc : Nat) (args : List Nat)
    (hn : (i2c_field_values buf).length ≤ args.length) :
    ∃ argv, argv.length = args.length ∧
      (∀ j, j < (i2c_field_values buf).length → argv[j]? = (i2c_field_values buf)[j]?) ∧
      parse_buffer_i2c buf argc args
        = Except.ok (if spec_i2c_rejects (i2c_field_values buf) then ⟨-1, argc, argv⟩
            else ⟨0, (i2c_field_values buf).length, argv⟩) := by
  have hlen : (i2c_field_values buf).length = (strtok_fields buf).length := by
    simp [i2c_field_values]
  obtain ⟨argv, h1, h2, _, h4⟩ := parse_i2c_loop_ok (strtok_fields buf) 0 args
    (by rw [hlen] at hn; omega)
  simp only [Nat.zero_add] at h1 h4
  refine ⟨argv, h2, ?_, ?_⟩
  · intro j hj
    rw [hlen] at hj
    exact h4 j hj
  · unfold parse_buffer_i2c
    rw [h1]
    dsimp only
    by_cases h3 : (strtok_fields buf).length > 2
    · have e1 : argv[1]? = some ((i2c_field_values buf).getD 1 0) := by
        rw [h4 1 (by omega)]
        have hl : 1 < (i2c_field_values buf).length := by omega
        rw [List.getD_eq_getElem _ _ hl]
        exact List.getElem?_eq_getElem hl
      simp only [h3, if_true, e1]
      by_cases hr : (strtok_fields buf).length < (i2c_field_values buf).getD 1 0 + 2
      · have hrej : spec_i2c_rejects (i2c_field_values buf) := by
          right
          rw [hlen]
          exact ⟨h3, hr⟩
        simp only [hr, if_true, hrej]
      · have hrej : ¬ spec_i2c_rejects (i2c_field_values buf) := by
          intro h
          rcases h with h | h
          · rw [hlen] at h; omega
          · rw [hlen] at h; exact hr h.2
        simp only [hr, if_false, hrej, hlen]
    · simp only [h3, if_false]
      by_cases h2' : (strtok_fields buf).length < 2
      · have hrej : spec_i2c_rejects (i2c_field_values buf) := by
          left
          rw [hlen]
          exact h2'
        simp only [h2', if_true, hrej]
      · have hrej : ¬ spec_i2c_rejects (i2c_field_values buf) := by
          intro h
          rcases h with h | h
          · rw [hlen] at h; exact h2' h
          · rw [hlen] at h; exact h3 h.1
        simp only [h2', if_false, hrej, hlen]

/-- C31: for an I2C command whose fields `f0 .. f(n-1)` (each reduced modulo 256) fit into
`args`, `parse_buffer_i2c` returns: it rejects the command exactly when `n < 2`, or `n > 2`
and `n < f1 + 2`.  For an accepted command `process_client` computes the slave address `f0`;
for `n = 2` a NULL `wbuf`, `wcnt = 0` and `rcnt = f1`; otherwise `wcnt = f1`, the write
bytes `f2 .. f(1+wcnt)`, and `rcnt = f(n-1)` if `n = wcnt + 3` and 0 if not; in every
case `wcnt <= n - 2`. -/
theorem parse_buffer_i2c_request (buf : List Char) (args : List Nat)
    (hn : (i2c_field_values buf).length ≤ args.length) :
    ∃ p, parse_buffer_i2c buf 0 args = Except.ok p ∧
      (p.rv ≠ 0 ↔ spec_i2c_rejects (i2c_field_values buf)) ∧
      (p.rv = 0 → ∃ q, process_client_i2c_args p.argc p.argv = Except.ok q ∧
        (q.slv, q.wcnt, (q.wbuf.getD []).take q.wcnt, q.rcnt)
          = spec_i2c_request (i2c_field_values buf) ∧
        ((i2c_field_values buf).length = 2 → q.wbuf = none) ∧
        q.wcnt ≤ (i2c_field_values buf).length - 2) := by
  obtain ⟨argv, hlen, hget, hp⟩ := parse_buffer_i2c_eq buf 0 args hn
  by_cases hrej : spec_i2c_rejects (i2c_field_values buf)
  · simp only [hrej, if_true] at hp
    exact ⟨⟨-1, 0, argv⟩, hp, by simp [hrej], fun h => absurd h (by simp)⟩
  · simp only [hrej, if_false] at hp
    refine ⟨⟨0, (i2c_field_values buf).length, argv⟩, hp, by simp [hrej], fun _ => ?_⟩
    dsimp only
    have hn2 : 2 ≤ (i2c_field_values buf).length := by
      by_contra h
      exact hrej (Or.inl (by omega))
    have hgetD : ∀ j, j < (i2c_field_values buf).length →
        argv[j]? = some ((i2c_field_values buf).getD j 0) := by
      intro j hj
      rw [hget j hj, List.getD_eq_getElem _ _ hj]
      exact List.getElem?_eq_getElem hj
    have h0 := hgetD 0 (by omega)
    have h1 := hgetD 1 (by omega)
    have hl := hgetD ((i2c_field_values buf).length - 1) (by omega)
    have hne : (i2c_field_values buf).length ≠ 0 := by omega
    by_cases h2 : (i2c_field_values buf).length = 2
    · have hng : ¬ (i2c_field_values buf).length > 2 := by omega
      have hl1 : argv[2 - 1]? = some ((i2c_field_values buf).getD 1 0) := h1
      refine ⟨⟨(i2c_field_values buf).getD 0 0, none, 0, (i2c_field_values buf).getD 1 0⟩,
        ?_, ?_, fun _ => rfl, Nat.zero_le _⟩
      · simp only [process_client_i2c_args, h2, hl1, h0]
        rfl
      · simp [spec_i2c_request, h2]
    · have hg : (i2c_field_values buf).length > 2 := by omega
      have hw : (i2c_field_values buf).getD 1 0 + 2 ≤ (i2c_field_values buf).length := by
        by_contra h
        exact hrej (Or.inr ⟨hg, by omega⟩)
      refine ⟨⟨(i2c_field_values buf).getD 0 0, some (argv.drop 2),
        (i2c_field_values buf).getD 1 0,
        if (i2c_field_values buf).length ≠ (i2c_field_values buf).getD 1 0 + 3 then 0
        else (i2c_field_values buf).getD ((i2c_field_values buf).length - 1) 0⟩,
        ?_, ?_, fun h => absurd h h2,
        show (i2c_field_values buf).getD 1 0 ≤ (i2c_field_values buf).length - 2 by omega⟩
      · simp only [process_client_i2c_args, hne, if_false, hl, h0, hg, if_true, h1]
      · have hwb : (argv.drop 2).take ((i2c_field_values buf).getD 1 0)
            = ((i2c_field_values buf).drop 2).take ((i2c_field_values buf).getD 1 0) := by
          apply List.ext_getElem?
          intro k
          rw [List.getElem?_take, List.getElem?_take]
          split
          · rw [List.getElem?_drop, List.getElem?_drop]
            exact hget _ (by omega)
          · rfl
        simp only [spec_i2c_request, h2, if_false, Option.getD_some, hwb]
        by_cases h3 : (i2c_field_values buf).length = (i2c_field_values buf).getD 1 0 + 3
        · simp [h3]
        · simp [h3]

theorem parse_buffer_i2c_request_witness :
    (i2c_field_values "0x50,1,0x00,2".toList).length ≤ (List.replicate 128 0).length ∧
    spec_i2c_request (i2c_field_values "0x50,1,0x00,2".toList) = (0x50, 1, [0x00], 2) ∧
    ∃ p, parse_buffer_i2c "0x50,1,0x00,2".toList 0 (List.replicate 128 0) = Except.ok p ∧
      (p.rv ≠ 0 ↔ spec_i2c_rejects (i2c_field_values "0x50,1,0x00,2".toList)) ∧
      (p.rv = 0 → ∃ q, process_client_i2c_args p.argc p.argv = Except.ok q ∧
        (q.slv, q.wcnt, (q.wbuf.getD []).take q.wcnt, q.rcnt)
          = spec_i2c_request (i2c_field_values "0x50,1,0x00,2".toList) ∧
        ((i2c_field_values "0x50,1,0x00,2".toList).length = 2 → q.wbuf = none) ∧
        q.wcnt ≤ (i2c_field_values "0x50,1,0x00,2".toList).length - 2) :=
  ⟨by decide, by rfl,
   parse_buffer_i2c_request "0x50,1,0x00,2".toList (List.replicate 128 0) (by decide)⟩

/-! ## The reply to an I2C request -/

theorem hex02_length (b : Nat) : (hex02 b).length = 2 := rfl

/-- A conversion that fits into what remains of `buf` is appended to the reply. -/
theorem snprintf_rsp_fits (t0 : String) (size : Int) (t : String)
    (h : (t.length : Int) < size) :
    snprintf_rsp ⟨t0, false⟩ size t = Except.ok ⟨t0 ++ t, false⟩ := by
  have h0 : ¬ size < 0 := by omega
  have h1 : ¬ size = 0 := by omega
  simp [snprintf_rsp, h0, h1, h]

theorem rsp_remaining_ge (i : Nat) (hi : i ≤ 128) : 97 ≤ rsp_remaining i := by
  unfold rsp_remaining
  omega

theorem rsp_remaining_succ (i : Nat) :
    rsp_remaining (i + 1)
      = (if i ≠ 0 ∧ i % 4 = 0 then rsp_remaining i - 5 else rsp_remaining i) - 2 := by
  unfold rsp_remaining
  split <;> (simp only [Nat.add_sub_cancel]; omega)

/-- One iteration of the reply loop within the first 128 bytes: the separator, if one is
due, and the two digits are appended, and the loop goes on. -/
theorem i2c_rsp_loop_step (rbuf : List Nat) (n i : Nat) (t : String) (b : Nat)
    (hb : rbuf[i]? = some b) (hi : i < 128) :
    i2c_rsp_loop rbuf (n + 1) i ⟨t, false⟩ (rsp_remaining i)
      = i2c_rsp_loop rbuf n (i + 1)
          ⟨t ++ ((if i ≠ 0 ∧ i % 4 = 0 then "\nI:0x" else "") ++ hex02 b), false⟩
          (rsp_remaining (i + 1)) := by
  have hge := rsp_remaining_ge i (by omega)
  have hge1 := rsp_remaining_ge (i + 1) (by omega)
  have hs := rsp_remaining_succ i
  have h5 : ("\nI:0x".length : Int) = 5 := by decide
  by_cases hc : i ≠ 0 ∧ i % 4 = 0
  · simp only [hc, and_self, if_true, ne_eq, not_false_eq_true] at hs ⊢
    have e1 := snprintf_rsp_fits t (rsp_remaining i) "\nI:0x" (by omega)
    have e2 := snprintf_rsp_fits (t ++ "\nI:0x") (rsp_remaining i - 5) (hex02 b)
      (by rw [hex02_length]; omega)
    have hn : ¬ rsp_remaining i - 5 - 2 < 5 := by omega
    rw [i2c_rsp_loop]
    simp only [hc, and_self, if_true, ne_eq, not_false_eq_true, e1, Except.map, bind,
      Except.bind, hb, e2, hn, if_false, hs, String.append_assoc]
  · simp only [hc, if_false] at hs ⊢
    have e2 := snprintf_rsp_fits t (rsp_remaining i) (hex02 b)
      (by rw [hex02_length]; omega)
    have hn : ¬ rsp_remaining i - 2 < 5 := by omega
    rw [i2c_rsp_loop]
    simp only [hc, if_false, bind, Except.bind, hb, e2, hn, hs, String.empty_append]

/-- The reply loop over bytes that are all inside `rbuf` and within the first 128: it ends
without the jump to the error reply, with the text of the bytes appended. -/
theorem i2c_rsp_loop_ok (rbuf : List Nat) : ∀ (n i : Nat) (t : String),
    i + n ≤ rbuf.length → i + n ≤ 128 →
    i2c_rsp_loop rbuf n i ⟨t, false⟩ (rsp_remaining i)
      = Except.ok (some (⟨t ++ i2c_reply_bytes ((rbuf.drop i).take n) i, false⟩,
          rsp_remaining (i + n))) := by
  intro n
  induction n with
  | zero =>
    intro i t _ _
    simp [i2c_rsp_loop, i2c_reply_bytes]
  | succ n ih =>
    intro i t h1 h2
    have hi : i < rbuf.length := by omega
    have hb : rbuf[i]? = some rbuf[i] := List.getElem?_eq_getElem hi
    rw [i2c_rsp_loop_step rbuf n i t _ hb (by omega), ih (i + 1) _ (by omega) (by omega)]
    have hd : (rbuf.drop i).take (n + 1) = rbuf[i] :: (rbuf.drop (i + 1)).take n := by
      rw [List.drop_eq_getElem_cons hi, List.take_succ_cons]
    rw [hd, i2c_reply_bytes, String.append_assoc]
    congr 4
    omega

/-- The reply loop asked for more bytes than `rbuf` holds, for an array of at most 128
bytes: it ends in a load outside the array. -/
theorem i2c_rsp_loop_fault (rbuf : List Nat) (hlen : rbuf.length ≤ 128) :
    ∀ (n i : Nat) (t : String), i ≤ rbuf.length → rbuf.length < i + n →
    i2c_rsp_loop rbuf n i ⟨t, false⟩ (rsp_remaining i) = Except.error Fault.out_of_bounds := by
  intro n
  induction n with
  | zero =>
    intro i t h1 h2
    omega
  | succ n ih =>
    intro i t h1 h2
    by_cases hi : i < rbuf.length
    · have hb : rbuf[i]? = some rbuf[i] := List.getElem?_eq_getElem hi
      rw [i2c_rsp_loop_step rbuf n i t _ hb (by omega)]
      exact ih (i + 1) _ (by omega) (by omega)
    · have hb : rbuf[i]? = none := List.getElem?_eq_none (by omega)
      have hge := rsp_remaining_ge i (by omega)
      have h5 : ("\nI:0x".length : Int) = 5 := by decide
      rw [i2c_rsp_loop]
      by_cases hc : i ≠ 0 ∧ i % 4 = 0
      · have e1 := snprintf_rsp_fits t (rsp_remaining i) "\nI:0x" (by omega)
        simp only [hc, and_self, if_true, ne_eq, not_false_eq_true, e1, Except.map, bind,
          Except.bind, hb]
      · simp only [hc, if_false, bind, Except.bind, hb]

/-- The reply built for `rcnt` bytes of an array `rbuf` of at most 128 bytes: after a
transaction that read nothing it is an empty line and `A:`; for `rcnt` bytes inside `rbuf`
it is the reply of the interface description; the branch `E: i2c request too large` is
never taken. -/
theorem process_client_i2c_rsp_eq (rbuf : List Nat) (rcnt : Nat) (hlen : rbuf.length ≤ 128) :
    process_client_i2c_rsp rbuf rcnt
      = if rcnt = 0 then Except.ok "\nA:\n"
        else if rcnt ≤ rbuf.length then Except.ok (spec_i2c_reply (rbuf.take rcnt))
        else Except.error Fault.out_of_bounds := by
  have h4 : ("I:0x".length : Int) = 4 := by decide
  have h4a : ("\nA:\n".length : Int) = 4 := by decide
  have hm : (MAX_BUF : Int) = 512 := by decide
  have hr0 : (MAX_BUF : Int) - 4 = rsp_remaining 0 := by decide
  unfold process_client_i2c_rsp
  by_cases h0 : rcnt = 0
  · have e := snprintf_rsp_fits "" MAX_BUF "\nA:\n" (by omega)
    simp only [h0, ne_eq, not_true_eq_false, if_false, if_true, bind, Except.bind, e]
    rfl
  · have e := snprintf_rsp_fits "" MAX_BUF "I:0x" (by omega)
    simp only [h0, ne_eq, not_false_eq_true, if_true, if_false, bind, Except.bind, e, hr0]
    by_cases hle : rcnt ≤ rbuf.length
    · have hge := rsp_remaining_ge (0 + rcnt) (by omega)
      rw [i2c_rsp_loop_ok rbuf rcnt 0 _ (by omega) (by omega)]
      have e2 := snprintf_rsp_fits ("" ++ "I:0x" ++ i2c_reply_bytes ((rbuf.drop 0).take rcnt) 0)
        (rsp_remaining (0 + rcnt)) "\nA:\n" (by omega)
      simp only [e2, hle, if_true]
      simp [spec_i2c_reply]
    · rw [i2c_rsp_loop_fault rbuf hlen rcnt 0 _ (by omega) (by omega)]
      simp only [hle, if_false]

/-- Four bytes of the reply text at once, from an index that is a multiple of 4: the
separator in front of them unless they are the first, their digits, and the rest. -/
theorem i2c_reply_bytes_chunk (b : Nat) (rest : List Nat) (i : Nat) (hi : i % 4 = 0) :
    i2c_reply_bytes (b :: rest) i
      = (if i ≠ 0 then "\nI:0x" else "") ++ hex_text ((b :: rest).take 4) ++
          i2c_reply_bytes ((b :: rest).drop 4) (i + 4) := by
  have h1 : ¬ ((i + 1) % 4 = 0) := by omega
  have h2 : ¬ ((i + 1 + 1) % 4 = 0) := by omega
  have h3 : ¬ ((i + 1 + 1 + 1) % 4 = 0) := by omega
  have e : i + 1 + 1 + 1 + 1 = i + 4 := by omega
  rcases rest with _ | ⟨c, _ | ⟨d, _ | ⟨e4, rest⟩⟩⟩ <;>
    simp [i2c_reply_bytes, hex_text, hi, h1, h2, h3, e, String.append_assoc]

theorem chunks4_length : ∀ (n : Nat) (bs : List Nat), bs.length ≤ n →
    (chunks4 n bs).length = (bs.length + 3) / 4 := by
  intro n
  induction n with
  | zero =>
    intro bs h
    have : bs = [] := List.length_eq_zero.mp (by omega)
    subst this
    rfl
  | succ n ih =>
    intro bs h
    cases bs with
    | nil => rfl
    | cons b rest =>
      simp only [List.length_cons] at h
      simp only [chunks4, List.length_cons]
      rw [ih _ (by simp only [List.length_drop, List.length_cons]; omega)]
      simp only [List.length_drop, List.length_cons]
      omega

theorem chunks4_le : ∀ (n : Nat) (bs : List Nat), ∀ c ∈ chunks4 n bs,
    1 ≤ c.length ∧ c.length ≤ 4 := by
  intro n
  induction n with
  | zero =>
    intro bs c hc
    simp [chunks4] at hc
  | succ n ih =>
    intro bs c hc
    cases bs with
    | nil => simp [chunks4] at hc
    | cons b rest =>
      simp only [chunks4, List.mem_cons] at hc
      rcases hc with hc | hc
      · subst hc
        simp only [List.length_take, List.length_cons]
        omega
      · exact ih _ c hc

/-- The reply text from a positive index that is a multiple of 4, with the closing `A:`
line: a newline and then the lines of the remaining groups of four and the line `A:`. -/
theorem i2c_reply_bytes_lines : ∀ (n : Nat) (bs : List Nat) (i : Nat), bs.length ≤ n →
    i % 4 = 0 → i ≠ 0 →
    i2c_reply_bytes bs i ++ "\nA:\n"
      = "\n" ++ lines_text ((chunks4 n bs).map hex_line ++ ["A:"]) := by
  intro n
  induction n with
  | zero =>
    intro bs i h _ _
    have : bs = [] := List.length_eq_zero.mp (by omega)
    subst this
    rfl
  | succ n ih =>
    intro bs i h hi h0
    cases bs with
    | nil => rfl
    | cons b rest =>
      rw [i2c_reply_bytes_chunk b rest i hi]
      simp only [h0, ne_eq, not_false_eq_true, if_true, chunks4, List.map_cons,
        List.cons_append, lines_text, hex_line, String.append_assoc]
      rw [ih ((b :: rest).drop 4) (i + 4)
        (by simp only [List.length_drop, List.length_cons] at h ⊢; omega) (by omega) (by omega)]
      have e : ("\nI:0x" : String) = "\n" ++ "I:0x" := rfl
      rw [e, String.append_assoc]
      rfl

/-- The reply of the interface description, line by line: one line `I:0x..` per group of
four bytes, then the line `A:`. -/
theorem spec_i2c_reply_lines (bs : List Nat) (h : bs ≠ []) :
    spec_i2c_reply bs = lines_text ((chunks4 bs.length bs).map hex_line ++ ["A:"]) := by
  cases bs with
  | nil => exact absurd rfl h
  | cons b rest =>
    unfold spec_i2c_reply
    rw [i2c_reply_bytes_chunk b rest 0 rfl]
    have hl : (b :: rest).length = rest.length + 1 := rfl
    rw [hl]
    simp only [ne_eq, not_true_eq_false, if_false, String.empty_append, chunks4,
      List.map_cons, List.cons_append, lines_text, hex_line, String.append_assoc, Nat.zero_add]
    rw [i2c_reply_bytes_lines rest.length ((b :: rest).drop 4) 4
      (by simp only [List.length_drop, List.length_cons]; omega) rfl (by decide)]
    rfl

/-- C32: for a transaction that read `rcnt` bytes into `rbuf`, with `1 <= rcnt <= 128`, the
reply is `I:0x`, the bytes in order as two lower-case hexadecimal digits each, with `\nI:0x`
in front of byte `i` for every `i > 0` with `i mod 4 = 0`, and `\nA:\n`; the branch
`E: i2c request too large` is not taken.  Line by line the reply is one line `I:0x..` per
group of four bytes and the line `A:`: `ceil(rcnt/4)` lines `I:` of one to four bytes. -/
theorem process_client_i2c_rsp_format (rbuf : List Nat) (rcnt : Nat) (h1 : 1 ≤ rcnt)
    (h128 : rcnt ≤ 128) (hlen : rcnt ≤ rbuf.length) :
    process_client_i2c_rsp rbuf rcnt = Except.ok (spec_i2c_reply (rbuf.take rcnt)) ∧
    spec_i2c_reply (rbuf.take rcnt)
      = lines_text ((chunks4 rcnt (rbuf.take rcnt)).map hex_line ++ ["A:"]) ∧
    (chunks4 rcnt (rbuf.take rcnt)).length = (rcnt + 3) / 4 ∧
    ∀ c ∈ chunks4 rcnt (rbuf.take rcnt), 1 ≤ c.length ∧ c.length ≤ 4 := by
  have htl : (rbuf.take rcnt).length = rcnt := by
    rw [List.length_take]
    omega
  refine ⟨?_, ?_, ?_, chunks4_le _ _⟩
  · have h4 : ("I:0x".length : Int) = 4 := by decide
    have h4a : ("\nA:\n".length : Int) = 4 := by decide
    have hm : (MAX_BUF : Int) = 512 := by decide
    have hr0 : (MAX_BUF : Int) - 4 = rsp_remaining 0 := by decide
    have h0 : rcnt ≠ 0 := by omega
    have hge := rsp_remaining_ge (0 + rcnt) (by omega)
    have e := snprintf_rsp_fits "" MAX_BUF "I:0x" (by omega)
    have e2 := snprintf_rsp_fits ("" ++ "I:0x" ++ i2c_reply_bytes ((rbuf.drop 0).take rcnt) 0)
      (rsp_remaining (0 + rcnt)) "\nA:\n" (by omega)
    unfold process_client_i2c_rsp
    simp only [h0, ne_eq, not_false_eq_true, if_true, bind, Except.bind, e, hr0]
    rw [i2c_rsp_loop_ok rbuf rcnt 0 _ (by omega) (by omega)]
    simp only [e2]
    simp [spec_i2c_reply]
  · have hne : rbuf.take rcnt ≠ [] := by
      intro h
      rw [h] at htl
      simp at htl
      omega
    have e := spec_i2c_reply_lines (rbuf.take rcnt) hne
    rw [htl] at e
    exact e
  · rw [chunks4_length rcnt _ (by omega), htl]

theorem process_client_i2c_rsp_format_witness :
    1 ≤ 2 ∧ 2 ≤ 128 ∧ 2 ≤ (0xa5 :: 0x0f :: List.replicate 126 0).length ∧
    spec_i2c_reply [0xa5, 0x0f] = "I:0xa50f\nA:\n" ∧
    process_client_i2c_rsp (0xa5 :: 0x0f :: List.replicate 126 0) 2
      = Except.ok (spec_i2c_reply ((0xa5 :: 0x0f :: List.replicate 126 0).take 2)) :=
  ⟨by decide, by decide, by decide, by decide,
   (process_client_i2c_rsp_format (0xa5 :: 0x0f :: List.replicate 126 0) 2 (by decide)
      (by decide) (by decide)).1⟩

/-! ## The shape of the replies -/

theorem hex_digit_ne_E : ∀ k, k < 16 → hex_digit k ≠ 'E' := by decide

theorem hex02_no_E (n : Nat) : 'E' ∉ (hex02 n).data := by
  have h1 := hex_digit_ne_E (n / 16 % 16) (Nat.mod_lt _ (by norm_num))
  have h2 := hex_digit_ne_E (n % 16) (Nat.mod_lt _ (by norm_num))
  simp only [hex02, List.mem_cons, List.mem_nil_iff, or_false, not_or]
  exact ⟨fun h => h1 h.symm, fun h => h2 h.symm⟩

theorem i2c_reply_bytes_no_E : ∀ (bs : List Nat) (i : Nat), 'E' ∉ (i2c_reply_bytes bs i).data := by
  intro bs
  induction bs with
  | nil => intro i; simp [i2c_reply_bytes]
  | cons b rest ih =>
    intro i
    simp only [i2c_reply_bytes, String.data_append, List.mem_append, not_or]
    refine ⟨⟨?_, hex02_no_E b⟩, ih (i + 1)⟩
    split <;> decide

theorem spec_i2c_reply_no_E (bs : List Nat) : 'E' ∉ (spec_i2c_reply bs).data := by
  simp only [spec_i2c_reply, String.data_append, List.mem_append, not_or]
  exact ⟨⟨by decide, i2c_reply_bytes_no_E bs 0⟩, by decide⟩

theorem spec_i2c_reply_ends (bs : List Nat) : ∃ t, spec_i2c_reply bs = t ++ "A:\n" := by
  refine ⟨"I:0x" ++ i2c_reply_bytes bs 0 ++ "\n", ?_⟩
  have e : ("\nA:\n" : String) = "\n" ++ "A:\n" := rfl
  rw [spec_i2c_reply, e, String.append_assoc, String.append_assoc, String.append_assoc]

/-- The lookup with the type `ANY` never fails: it finds nothing above `cnt` and the entry
`interface_num - 1` (modulo `2^32`) otherwise. -/
theorem fcom_lookup_interface_any_eq (interfaces : List ftdi_itype) (cnt n : Nat) :
    fcom_lookup_interface interfaces cnt n ftdi_interface_type.ANY
      = if n > cnt then Except.ok ⟨none, []⟩
        else Except.ok ⟨some ((n + 2 ^ 32 - 1) % 2 ^ 32), []⟩ := by
  simp [fcom_lookup_interface]

/-- The replies to a GPIO request: an error reply when the request fails, and otherwise the
pins and the line `A:`, without any `E`. -/
theorem process_client_gpio_shape (tr : Transport) (interfaces : List ftdi_itype)
    (int_cnt : Nat) (st : servod_state) (buf : List Char) (new_gpio : gpio_s)
    (interface_num rd_val : Nat) (rsp : String) (st1 : servod_state)
    (h : process_client_gpio tr interfaces int_cnt st buf new_gpio interface_num rd_val
      = Except.ok (rsp, st1)) :
    (client_gpio_fails tr interfaces int_cnt st buf new_gpio interface_num rd_val ∧
      ∃ t, rsp = "E:" ++ t) ∨
    (¬ client_gpio_fails tr interfaces int_cnt st buf new_gpio interface_num rd_val ∧
      (∃ t, rsp = t ++ "A:\n") ∧ 'E' ∉ rsp.data) := by
  unfold process_client_gpio at h
  by_cases hp : (parse_buffer_gpio buf new_gpio interface_num).rv ≠ 0
  · simp only [hp, ne_eq, not_false_eq_true, if_true, Except.ok.injEq, Prod.mk.injEq] at h
    left
    refine ⟨Or.inl hp, "parsing client request.  Should be\n\t<interface>,<dir>,<val>[,<mask>]\n", ?_⟩
    rw [← h.1]
    rfl
  · have hl := fcom_lookup_interface_any_eq interfaces int_cnt
      (parse_buffer_gpio buf new_gpio interface_num).interface_num
    by_cases hn : (parse_buffer_gpio buf new_gpio interface_num).interface_num > int_cnt
    · simp only [hn, if_true] at hl
      simp only [hp, if_false, hl, bind, Except.bind, Except.ok.injEq, Prod.mk.injEq] at h
      left
      refine ⟨Or.inr ⟨_, hl, Or.inl rfl⟩, ?_⟩
      rw [← h.1]
      have e : ("E:No gpio at interface " : String) = "E:" ++ "No gpio at interface " := rfl
      rw [e, String.append_assoc, String.append_assoc]
      exact ⟨_, rfl⟩
    · simp only [hn, if_false] at hl
      simp only [hp, if_false, hl, bind, Except.bind] at h
      rcases Option.eq_none_or_eq_some (interfaces[((parse_buffer_gpio buf new_gpio
          interface_num).interface_num + 2 ^ 32 - 1) % 2 ^ 32]?) with he | ⟨e, he⟩
      · rw [he] at h
        cases h
      · rw [he] at h
        dsimp only at h
        by_cases hc : e.context = 0
        · simp only [hc, if_true] at h
          cases h
        · simp only [hc, if_false] at h
          by_cases hrv : (fgpio_wr_rd tr st.trace (st.heap e.context)
              (some (parse_buffer_gpio buf new_gpio interface_num).gpio) (some rd_val)
              e.type).rv ≠ 0
          · left
            refine ⟨Or.inr ⟨_, hl, Or.inr ⟨_, e, rfl, he, hrv⟩⟩, ?_⟩
            simp only [hrv, ne_eq, not_false_eq_true, if_true] at h
            split at h
            · simp only [Except.ok.injEq, Prod.mk.injEq] at h
              rw [← h.1]
              have e1 : ("E:Illegal gpio mask.  Bits avail are 0x" : String)
                  = "E:" ++ "Illegal gpio mask.  Bits avail are 0x" := rfl
              rw [e1, String.append_assoc, String.append_assoc]
              exact ⟨_, rfl⟩
            · simp only [Except.ok.injEq, Prod.mk.injEq] at h
              refine ⟨"writing/reading gpio\n", ?_⟩
              rw [← h.1]
              rfl
          · right
            simp only [hrv, if_false, Except.ok.injEq, Prod.mk.injEq] at h
            refine ⟨?_, ?_, ?_⟩
            · intro hf
              rcases hf with h1 | ⟨l, hl1, h2 | ⟨idx, e2, hi, he2, hrv2⟩⟩
              · exact hp h1
              · rw [hl] at hl1
                have hl2 := Except.ok.inj hl1
                rw [← hl2] at h2
                exact absurd h2 (by simp)
              · rw [hl] at hl1
                have hl2 := Except.ok.inj hl1
                rw [← hl2] at hi
                have hi2 : _ = idx := Option.some.inj hi
                rw [← hi2, he] at he2
                have he3 : e = e2 := Option.some.inj he2
                rw [← he3] at hrv2
                exact hrv hrv2
            · rw [← h.1]
              have e1 : ("\nA:\n" : String) = "\n" ++ "A:\n" := rfl
              rw [e1, ← String.append_assoc]
              exact ⟨_, rfl⟩
            · rw [← h.1]
              simp only [String.data_append, List.mem_append, not_or]
              exact ⟨⟨by decide, hex02_no_E _⟩, by decide⟩

/-- The read buffer `fi2c_wr_rd` leaves behind is the caller's array, with its length. -/
theorem fi2c_wr_rd_rbuf_length {tr : Transport} {FI2C_READ_ATTEMPTS FI2C_ACK_RETRY_MAX : Nat}
    {tot_retry_count : Nat} {fic : fi2c_context} {trace : List FtdiCall} {rbuf : List Nat}
    {wbuf : Option (List Nat)} {wcnt rcnt : Nat} {r : fi2c_wr_rd_result}
    (h : fi2c_wr_rd tr FI2C_READ_ATTEMPTS FI2C_ACK_RETRY_MAX tot_retry_count
      ⟨fic, trace, some rbuf⟩ wbuf wcnt rcnt = Except.ok r) :
    (r.w.rbuf.getD rbuf).length = rbuf.length := by
  obtain ⟨err, hloop, _, _⟩ := fi2c_wr_rd_ok h
  have hpost := fi2c_wr_rd_loop_post tr FI2C_READ_ATTEMPTS wbuf wcnt rcnt FI2C_ACK_RETRY_MAX 0
    ⟨fic, trace, some rbuf⟩ 0 _ hloop
  obtain ⟨rb1, h1, h2, _⟩ := rbuf_frame_some hpost.2.2.1
  have h1' : r.w.rbuf = some rb1 := h1
  rw [h1']
  exact h2

/-- The replies to an I2C request, for an array `rbuf` of at most 128 bytes: an error reply
when the request fails, and otherwise the lines `I:` and the line `A:`, without any `E`. -/
theorem process_client_i2c_shape (tr : Transport) (FI2C_READ_ATTEMPTS FI2C_ACK_RETRY_MAX : Nat)
    (interfaces : List ftdi_itype) (int_cnt : Nat) (w : servod_world) (buf : List Char)
    (args rbuf : List Nat) (rsp : String) (w1 : servod_world) (hrbuf : rbuf.length ≤ 128)
    (h : process_client_i2c tr FI2C_READ_ATTEMPTS FI2C_ACK_RETRY_MAX interfaces int_cnt w buf
      args rbuf = Except.ok (rsp, w1)) :
    (client_i2c_fails tr FI2C_READ_ATTEMPTS FI2C_ACK_RETRY_MAX interfaces int_cnt w buf args
        rbuf ∧ ∃ t, rsp = "E:" ++ t) ∨
    (¬ client_i2c_fails tr FI2C_READ_ATTEMPTS FI2C_ACK_RETRY_MAX interfaces int_cnt w buf args
        rbuf ∧ (∃ t, rsp = t ++ "A:\n") ∧ 'E' ∉ rsp.data) := by
  unfold process_client_i2c at h
  simp only [bind, Except.bind] at h
  cases hp : parse_buffer_i2c buf 0 args with
  | error e =>
    rw [hp] at h
    cases h
  | ok p =>
    rw [hp] at h
    dsimp only at h
    by_cases hrv : p.rv ≠ 0
    · simp only [hrv, ne_eq, not_false_eq_true, if_true, Except.ok.injEq, Prod.mk.injEq] at h
      left
      refine ⟨⟨p, hp, Or.inl hrv⟩, ?_⟩
      rw [← h.1]
      exact ⟨"parsing client request.  Should be\n\t<slv>,[<bytes to Wr>,<Wr0>,<Wr1>,<WrN>],[<bytes to Rd>]\n", rfl⟩
    · simp only [hrv, if_false] at h
      cases hl : fcom_lookup_interface interfaces int_cnt 2 ftdi_interface_type.I2C with
      | error e =>
        rw [hl] at h
        cases h
      | ok l =>
        rw [hl] at h
        dsimp only at h
        cases hent : l.entry with
        | none =>
          rw [hent] at h
          simp only [Except.ok.injEq, Prod.mk.injEq] at h
          left
          refine ⟨⟨p, hp, Or.inr ⟨l, hl, Or.inl hent⟩⟩, ?_⟩
          rw [← h.1]
          exact ⟨"No i2c at interface 2\n", rfl⟩
        | some idx =>
          rw [hent] at h
          dsimp only at h
          rcases Option.eq_none_or_eq_some (interfaces[idx]?) with he | ⟨e, he⟩
          · rw [he] at h
            cases h
          · rw [he] at h
            dsimp only at h
            by_cases hc : e.context = 0
            · simp only [hc, if_true] at h
              cases h
            · simp only [hc, if_false] at h
              cases hq : process_client_i2c_args p.argc p.argv with
              | error err =>
                rw [hq] at h
                cases h
              | ok q =>
                rw [hq] at h
                dsimp only at h
                cases hr : fi2c_wr_rd tr FI2C_READ_ATTEMPTS FI2C_ACK_RETRY_MAX w.tot_retry_count
                    ⟨{ (w.i2c e.context) with gpio := (w.st.heap e.context).gpio, slv := q.slv },
                      w.st.trace, some rbuf⟩ q.wbuf q.wcnt q.rcnt with
                | error err =>
                  rw [hr] at h
                  cases h
                | ok r =>
                  rw [hr] at h
                  dsimp only at h
                  by_cases hrr : r.rv ≠ 0
                  · simp only [hrr, ne_eq, not_false_eq_true, if_true, Except.ok.injEq,
                      Prod.mk.injEq] at h
                    left
                    refine ⟨⟨p, hp, Or.inr ⟨l, hl, Or.inr ⟨idx, e, q, r, hent, he, hq, hr, hrr⟩⟩⟩,
                      ?_⟩
                    rw [← h.1]
                    exact ⟨"writing/reading i2c\n", rfl⟩
                  · simp only [hrr, if_false] at h
                    have hlen := fi2c_wr_rd_rbuf_length hr
                    rw [process_client_i2c_rsp_eq _ _ (by rw [hlen]; exact hrbuf)] at h
                    right
                    refine ⟨?_, ?_⟩
                    · rintro ⟨p2, hp2, hf⟩
                      rw [hp] at hp2
                      have hp3 : p = p2 := Except.ok.inj hp2
                      rw [← hp3] at hf
                      rcases hf with h1 | ⟨l2, hl2, h2 | ⟨idx2, e2, q2, r2, hi2, he2, hq2, hr2, hrr2⟩⟩
                      · exact hrv h1
                      · rw [hl] at hl2
                        have hl3 : l = l2 := Except.ok.inj hl2
                        rw [← hl3, hent] at h2
                        exact absurd h2 (by simp)
                      · rw [hl] at hl2
                        have hl3 : l = l2 := Except.ok.inj hl2
                        rw [← hl3, hent] at hi2
                        have hi3 : idx = idx2 := Option.some.inj hi2
                        rw [← hi3, he] at he2
                        have he3 : e = e2 := Option.some.inj he2
                        rw [hq] at hq2
                        have hq3 : q = q2 := Except.ok.inj hq2
                        rw [← he3, ← hq3, hr] at hr2
                        have hr3 : r = r2 := Except.ok.inj hr2
                        rw [← hr3] at hrr2
                        exact hrr hrr2
                    · by_cases h0 : q.rcnt = 0
                      · simp only [h0, if_true, Except.ok.injEq, Prod.mk.injEq] at h
                        rw [← h.1]
                        exact ⟨⟨"\n", rfl⟩, by decide⟩
                      · simp only [h0, if_false] at h
                        by_cases hle : q.rcnt ≤ (r.w.rbuf.getD rbuf).length
                        · simp only [hle, if_true, Except.ok.injEq, Prod.mk.injEq] at h
                          rw [← h.1]
                          exact ⟨spec_i2c_reply_ends _, spec_i2c_reply_no_E _⟩
                        · simp only [hle, if_false] at h
                          cases h

/-- The form of a reply once it is produced (with the 128-byte array `rbuf`): it begins with
`E:` when the request fails, and otherwise ends with `A:\n` and contains no letter `E`. -/
theorem process_client_rsp_shape (tr : Transport) (FI2C_READ_ATTEMPTS FI2C_ACK_RETRY_MAX : Nat)
    (interfaces : List ftdi_itype) (int_cnt : Nat) (w : servod_world) (buf : List Char)
    (l : client_locals) (rsp : String) (w1 : servod_world) (hrbuf : l.rbuf.length = 128)
    (h : process_client_rsp tr FI2C_READ_ATTEMPTS FI2C_ACK_RETRY_MAX interfaces int_cnt w buf l
      = Except.ok (rsp, w1)) :
    (client_request_fails tr FI2C_READ_ATTEMPTS FI2C_ACK_RETRY_MAX interfaces int_cnt w buf l →
      ∃ t, rsp = "E:" ++ t) ∧
    (¬ client_request_fails tr FI2C_READ_ATTEMPTS FI2C_ACK_RETRY_MAX interfaces int_cnt w buf l →
      (∃ t, rsp = t ++ "A:\n") ∧ 'E' ∉ rsp.data) := by
  unfold process_client_rsp at h
  unfold client_request_fails
  by_cases hg : buf[0]? = some 'g' ∧ buf[1]? = some ','
  · simp only [hg, and_self, if_true] at h ⊢
    cases hx : process_client_gpio tr interfaces int_cnt w.st (buf.drop 2) l.new_gpio
        l.interface_num l.rd_val with
    | error e =>
      rw [hx] at h
      cases h
    | ok r =>
      rw [hx] at h
      simp only [Except.map, Except.ok.injEq, Prod.mk.injEq] at h
      rw [← h.1]
      rcases process_client_gpio_shape tr interfaces int_cnt w.st (buf.drop 2) l.new_gpio
        l.interface_num l.rd_val r.1 r.2 hx with ⟨h1, h2⟩ | ⟨h1, h2⟩
      · exact ⟨fun _ => h2, fun hn => absurd h1 hn⟩
      · exact ⟨fun hf => absurd hf h1, fun _ => h2⟩
  · simp only [hg, if_false] at h ⊢
    by_cases hi : buf[0]? = some 'i' ∧ buf[1]? = some ','
    · simp only [hi, and_self, if_true] at h ⊢
      rcases process_client_i2c_shape tr FI2C_READ_ATTEMPTS FI2C_ACK_RETRY_MAX interfaces
        int_cnt w (buf.drop 2) l.args l.rbuf rsp w1 (by omega) h with ⟨h1, h2⟩ | ⟨h1, h2⟩
      · exact ⟨fun _ => h2, fun hn => absurd h1 hn⟩
      · exact ⟨fun hf => absurd hf h1, fun _ => h2⟩
    · simp only [hi, if_false, Except.ok.injEq, Prod.mk.injEq] at h ⊢
      rw [← h.1]
      exact ⟨fun _ => ⟨_, rfl⟩, fun hn => absurd trivial hn⟩

/-! ## Every request is answered -/

/-- In a registry of at least `int_cnt` entries without NULL contexts every GPIO request is
answered. -/
theorem process_client_gpio_replies (tr : Transport) (interfaces : List ftdi_itype)
    (int_cnt : Nat) (st : servod_state) (buf : List Char) (new_gpio : gpio_s)
    (interface_num rd_val : Nat)
    (hreg : int_cnt ≤ interfaces.length) (hctx : ∀ e ∈ interfaces, e.context ≠ 0) :
    ∃ r, process_client_gpio tr interfaces int_cnt st buf new_gpio interface_num rd_val
      = Except.ok r := by
  unfold process_client_gpio
  by_cases hp : (parse_buffer_gpio buf new_gpio interface_num).rv ≠ 0
  · simp only [hp, ne_eq, not_false_eq_true, if_true]
    exact ⟨_, rfl⟩
  · have hp0 : (parse_buffer_gpio buf new_gpio interface_num).rv = 0 := by
      by_contra h
      exact hp h
    obtain ⟨h1, h4⟩ := parse_buffer_gpio_interface buf new_gpio interface_num hp0
    by_cases hn : (parse_buffer_gpio buf new_gpio interface_num).interface_num > int_cnt
    · have hl := fcom_lookup_interface_any_eq interfaces int_cnt
        (parse_buffer_gpio buf new_gpio interface_num).interface_num
      simp only [hn, if_true] at hl
      simp only [hp, if_false, hl, bind, Except.bind]
      exact ⟨_, rfl⟩
    · have hl := fcom_lookup_interface_any interfaces int_cnt _ h1 h4 (by omega)
      have hlt : (parse_buffer_gpio buf new_gpio interface_num).interface_num - 1
          < interfaces.length := by omega
      have he : interfaces[(parse_buffer_gpio buf new_gpio interface_num).interface_num - 1]?
          = some interfaces[(parse_buffer_gpio buf new_gpio interface_num).interface_num - 1] :=
        List.getElem?_eq_getElem hlt
      have hc := hctx _ (List.getElem_mem hlt)
      simp only [hp, if_false, hl, bind, Except.bind, he, hc]
      split
      · split <;> exact ⟨_, rfl⟩
      · exact ⟨_, rfl⟩

/-- The lookup of interface 2 with the type `I2C`, as `process_client` makes it. -/
theorem fcom_lookup_interface_i2c (interfaces : List ftdi_itype) (cnt : Nat) :
    fcom_lookup_interface interfaces cnt 2 ftdi_interface_type.I2C
      = if 2 > cnt then Except.ok ⟨none, []⟩
        else
          match interfaces[1]? with
          | none => Except.error Fault.out_of_bounds
          | some e =>
            if e.type ≠ ftdi_interface_type.I2C then Except.ok ⟨none, [1]⟩
            else Except.ok ⟨some 1, [1]⟩ := by
  simp [fcom_lookup_interface]

/-- For an accepted request whose fields are in `argv`, lines 193-205 of `process_client`
compute the read count of the interface description and a write count within `wbuf`. -/
theorem process_client_i2c_args_ok (argv f : List Nat) (hlen : argv.length = 128)
    (hn : f.length ≤ 128) (hget : ∀ j, j < f.length → argv[j]? = f[j]?)
    (hacc : ¬ spec_i2c_rejects f) :
    ∃ q, process_client_i2c_args f.length argv = Except.ok q ∧
      q.rcnt = (spec_i2c_request f).2.2.2 ∧
      ∀ wb, q.wbuf = some wb → q.wcnt ≤ wb.length := by
  have hn2 : 2 ≤ f.length := by
    by_contra h
    exact hacc (Or.inl (by omega))
  have hgetD : ∀ j, j < f.length → argv[j]? = some (f.getD j 0) := by
    intro j hj
    rw [hget j hj, List.getD_eq_getElem _ _ hj]
    exact List.getElem?_eq_getElem hj
  have h0 := hgetD 0 (by omega)
  have h1 := hgetD 1 (by omega)
  have hl := hgetD (f.length - 1) (by omega)
  have hne : f.length ≠ 0 := by omega
  by_cases h2 : f.length = 2
  · have hl1 : argv[2 - 1]? = some (f.getD 1 0) := h1
    refine ⟨⟨f.getD 0 0, none, 0, f.getD 1 0⟩, ?_, ?_, ?_⟩
    · simp only [process_client_i2c_args, h2, hl1, h0]
      rfl
    · simp [spec_i2c_request, h2]
    · intro wb hwb
      exact Nat.zero_le _
  · have hg : f.length > 2 := by omega
    have hw : f.getD 1 0 + 2 ≤ f.length := by
      by_contra h
      exact hacc (Or.inr ⟨hg, by omega⟩)
    refine ⟨⟨f.getD 0 0, some (argv.drop 2), f.getD 1 0,
      if f.length ≠ f.getD 1 0 + 3 then 0 else f.getD (f.length - 1) 0⟩, ?_, ?_, ?_⟩
    · simp only [process_client_i2c_args, hne, if_false, hl, h0, hg, if_true, h1]
    · by_cases h3 : f.length = f.getD 1 0 + 3
      · simp [spec_i2c_request, h2, h3]
      · simp [spec_i2c_request, h2, h3]
    · intro wb hwb
      have e : wb = argv.drop 2 := (Option.some.inj hwb).symm
      rw [e, List.length_drop, hlen]
      show f.getD 1 0 ≤ 128 - 2
      omega

/-- Every I2C request is answered when the registry has at least `int_cnt` entries without
NULL contexts, the fields fit into `args`, the command array of the channel is empty, and
an accepted request asks for at most 21 bytes. -/
theorem process_client_i2c_replies (tr : Transport)
    (FI2C_READ_ATTEMPTS FI2C_ACK_RETRY_MAX : Nat) (interfaces : List ftdi_itype)
    (int_cnt : Nat) (w : servod_world) (buf : List Char) (args rbuf : List Nat)
    (hreg : int_cnt ≤ interfaces.length) (hctx : ∀ e ∈ interfaces, e.context ≠ 0)
    (hargs : args.length = 128) (hrbuf : rbuf.length = 128)
    (hfields : (i2c_field_values buf).length ≤ 128)
    (hrcnt : ¬ spec_i2c_rejects (i2c_field_values buf) →
      (spec_i2c_request (i2c_field_values buf)).2.2.2 ≤ 21)
    (hchan : ∀ e, interfaces[1]? = some e →
      (w.i2c e.context).buf.length = FI2C_BUF_SIZE ∧ (w.i2c e.context).bufcnt = 0) :
    ∃ r, process_client_i2c tr FI2C_READ_ATTEMPTS FI2C_ACK_RETRY_MAX interfaces int_cnt w buf
      args rbuf = Except.ok r := by
  obtain ⟨argv, hlen, hget, hp⟩ := parse_buffer_i2c_eq buf 0 args (by omega)
  unfold process_client_i2c
  simp only [bind, Except.bind, hp]
  by_cases hrej : spec_i2c_rejects (i2c_field_values buf)
  · simp only [hrej, if_true]
    exact ⟨_, rfl⟩
  · simp only [hrej, if_false, ne_eq, not_true_eq_false]
    rw [fcom_lookup_interface_i2c]
    by_cases h2 : 2 > int_cnt
    · simp only [h2, if_true]
      exact ⟨_, rfl⟩
    · have hlt : 1 < interfaces.length := by omega
      have he : interfaces[1]? = some interfaces[1] := List.getElem?_eq_getElem hlt
      have hc := hctx _ (List.getElem_mem hlt)
      obtain ⟨hbl, hbc⟩ := hchan _ he
      simp only [h2, if_false, he]
      by_cases ht : interfaces[1].type ≠ ftdi_interface_type.I2C
      · simp only [ht, ne_eq, not_false_eq_true, if_true]
        exact ⟨_, rfl⟩
      · simp only [ht, if_false, he, hc]
        obtain ⟨q, hq, hqr, hqw⟩ := process_client_i2c_args_ok argv (i2c_field_values buf)
          (by rw [hlen, hargs]) hfields hget hrej
        rw [hq]
        dsimp only
        have hr21 : q.rcnt ≤ 21 := by
          rw [hqr]
          exact hrcnt hrej
        obtain ⟨r, hr, _⟩ := fi2c_wr_rd_exit tr FI2C_READ_ATTEMPTS FI2C_ACK_RETRY_MAX
          w.tot_retry_count
          ⟨{ (w.i2c interfaces[1].context) with
              gpio := (w.st.heap interfaces[1].context).gpio, slv := q.slv },
            w.st.trace, some rbuf⟩ q.wbuf q.wcnt q.rcnt hbl hbc hqw
          (by
            intro rb hrb
            have e : rb = rbuf := (Option.some.inj hrb).symm
            rw [e, hrbuf]
            omega) hr21
        rw [hr]
        dsimp only
        by_cases hrv : r.rv ≠ 0
        · simp only [hrv, ne_eq, not_false_eq_true, if_true]
          exact ⟨_, rfl⟩
        · have hl2 := fi2c_wr_rd_rbuf_length hr
          simp only [hrv, if_false]
          rw [process_client_i2c_rsp_eq _ _ (by rw [hl2, hrbuf])]
          by_cases h0 : q.rcnt = 0
          · simp only [h0, if_true]
            exact ⟨_, rfl⟩
          · have hle : q.rcnt ≤ (r.w.rbuf.getD rbuf).length := by
              rw [hl2, hrbuf]
              omega
            simp only [h0, if_false, hle, if_true]
            exact ⟨_, rfl⟩

/-- C33: every line gets its reply, and the reply has the form the outcome calls for.  In a
registry of at least `int_cnt` entries without NULL contexts, with the two 128-byte arrays,
and for a line `i,...` with at most 128 fields, an empty command array of the I2C channel
and, if the request is accepted, at most 21 bytes to read, `process_client` produces a
reply.  The reply begins with `E:` whenever the line starts with neither `g,` nor `i,`, the
request fails to parse, the registry lookup finds no interface, or the channel operation
(`fgpio_wr_rd`, `fi2c_wr_rd`) returns non-zero; in every other case it ends with `A:\n` and
contains no letter `E` at all, hence no `E:` line. -/
theorem process_client_rsp_replies (tr : Transport)
    (FI2C_READ_ATTEMPTS FI2C_ACK_RETRY_MAX : Nat) (interfaces : List ftdi_itype)
    (int_cnt : Nat) (w : servod_world) (buf : List Char) (l : client_locals)
    (hreg : int_cnt ≤ interfaces.length) (hctx : ∀ e ∈ interfaces, e.context ≠ 0)
    (hargs : l.args.length = 128) (hrbuf : l.rbuf.length = 128)
    (hi2c : buf[0]? = some 'i' ∧ buf[1]? = some ',' →
      (i2c_field_values (buf.drop 2)).length ≤ 128 ∧
      (¬ spec_i2c_rejects (i2c_field_values (buf.drop 2)) →
        (spec_i2c_request (i2c_field_values (buf.drop 2))).2.2.2 ≤ 21) ∧
      ∀ e, interfaces[1]? = some e →
        (w.i2c e.context).buf.length = FI2C_BUF_SIZE ∧ (w.i2c e.context).bufcnt = 0) :
    ∃ rsp w1,
      process_client_rsp tr FI2C_READ_ATTEMPTS FI2C_ACK_RETRY_MAX interfaces int_cnt w buf l
        = Except.ok (rsp, w1) ∧
      (client_request_fails tr FI2C_READ_ATTEMPTS FI2C_ACK_RETRY_MAX interfaces int_cnt w buf l →
        ∃ t, rsp = "E:" ++ t) ∧
      (¬ client_request_fails tr FI2C_READ_ATTEMPTS FI2C_ACK_RETRY_MAX interfaces int_cnt w buf
          l →
        (∃ t, rsp = t ++ "A:\n") ∧ 'E' ∉ rsp.data) := by
  have hex : ∃ r, process_client_rsp tr FI2C_READ_ATTEMPTS FI2C_ACK_RETRY_MAX interfaces
      int_cnt w buf l = Except.ok r := by
    unfold process_client_rsp
    by_cases hg : buf[0]? = some 'g' ∧ buf[1]? = some ','
    · obtain ⟨r, hr⟩ := process_client_gpio_replies tr interfaces int_cnt w.st (buf.drop 2)
        l.new_gpio l.interface_num l.rd_val hreg hctx
      simp only [hg, and_self, if_true, hr]
      exact ⟨_, rfl⟩
    · simp only [hg, if_false]
      by_cases hi : buf[0]? = some 'i' ∧ buf[1]? = some ','
      · obtain ⟨h1, h2, h3⟩ := hi2c hi
        simp only [hi, and_self, if_true]
        exact process_client_i2c_replies tr FI2C_READ_ATTEMPTS FI2C_ACK_RETRY_MAX interfaces
          int_cnt w (buf.drop 2) l.args l.rbuf hreg hctx hargs hrbuf h1 h2 h3
      · simp only [hi, if_false]
        exact ⟨_, rfl⟩
  obtain ⟨r, hr⟩ := hex
  exact ⟨r.1, r.2, hr,
    process_client_rsp_shape tr FI2C_READ_ATTEMPTS FI2C_ACK_RETRY_MAX interfaces int_cnt w buf
      l r.1 r.2 hrbuf hr⟩

theorem process_client_rsp_replies_witness :
    4 ≤ servod_interfaces.length ∧ (∀ e ∈ servod_interfaces, e.context ≠ 0) ∧
    zero_locals.args.length = 128 ∧ zero_locals.rbuf.length = 128 ∧
    (i2c_field_values "0x50,1,0x00,2\n".toList).length ≤ 128 ∧
    (spec_i2c_request (i2c_field_values "0x50,1,0x00,2\n".toList)).2.2.2 ≤ 21 ∧
    (process_client_rsp ack_transport 1 3 servod_interfaces 4 servod_world_start
        "i,0x50,1,0x00,2\n".toList zero_locals).map (fun r => r.1)
      = Except.ok "I:0xa5a5\nA:\n" ∧
    (∃ rsp w1,
      process_client_rsp ack_transport 1 3 servod_interfaces 4 servod_world_start
          "i,0x50,1,0x00,2\n".toList zero_locals = Except.ok (rsp, w1) ∧
      (client_request_fails ack_transport 1 3 servod_interfaces 4 servod_world_start
          "i,0x50,1,0x00,2\n".toList zero_locals → ∃ t, rsp = "E:" ++ t) ∧
      (¬ client_request_fails ack_transport 1 3 servod_interfaces 4 servod_world_start
          "i,0x50,1,0x00,2\n".toList zero_locals →
        (∃ t, rsp = t ++ "A:\n") ∧ 'E' ∉ rsp.data)) ∧
    (process_client_rsp nack_transport 1 3 servod_interfaces 4 servod_world_start
        "i,0x50,2\n".toList zero_locals).map (fun r => r.1)
      = Except.ok "E:writing/reading i2c\n" ∧
    (∃ rsp w1,
      process_client_rsp nack_transport 1 3 servod_interfaces 4 servod_world_start
          "i,0x50,2\n".toList zero_locals = Except.ok (rsp, w1) ∧
      (client_request_fails nack_transport 1 3 servod_interfaces 4 servod_world_start
          "i,0x50,2\n".toList zero_locals → ∃ t, rsp = "E:" ++ t) ∧
      (¬ client_request_fails nack_transport 1 3 servod_interfaces 4 servod_world_start
          "i,0x50,2\n".toList zero_locals →
        (∃ t, rsp = t ++ "A:\n") ∧ 'E' ∉ rsp.data)) ∧
    (process_client_rsp gpio_transport 1 3 servod_interfaces 4 servod_world_start
        "g,3,0xff,0xaa\n".toList zero_locals).map (fun r => r.1)
      = Except.ok "E:Illegal gpio mask.  Bits avail are 0xfc\n" ∧
    (∃ rsp w1,
      process_client_rsp gpio_transport 1 3 servod_interfaces 4 servod_world_start
          "g,3,0xff,0xaa\n".toList zero_locals = Except.ok (rsp, w1) ∧
      (client_request_fails gpio_transport 1 3 servod_interfaces 4 servod_world_start
          "g,3,0xff,0xaa\n".toList zero_locals → ∃ t, rsp = "E:" ++ t) ∧
      (¬ client_request_fails gpio_transport 1 3 servod_interfaces 4 servod_world_start
          "g,3,0xff,0xaa\n".toList zero_locals →
        (∃ t, rsp = t ++ "A:\n") ∧ 'E' ∉ rsp.data)) ∧
    (process_client_rsp gpio_transport 1 3 servod_interfaces 4 servod_world_start
        "g,1,0xff,0x01\n".toList zero_locals).map (fun r => r.1)
      = Except.ok "I:0x5a\nA:\n" ∧
    (process_client_rsp gpio_transport 1 3 servod_interfaces 4 servod_world_start
        "x\n".toList zero_locals).map (fun r => r.1)
      = Except.ok "E:parsing client request.  Should be\n\tg,<interface>,<dir>,<val>\n\ti,<slv>,<bytes to write(4max)>,<write word>,<bytes to read>\n" :=
  ⟨by decide, by decide, rfl, rfl, by decide, by decide, by rfl,
   process_client_rsp_replies ack_transport 1 3 servod_interfaces 4 servod_world_start
     "i,0x50,1,0x00,2\n".toList zero_locals (by decide) (by decide) rfl rfl
     (fun _ => ⟨by decide, fun _ => by decide, fun _ _ => ⟨rfl, rfl⟩⟩),
   by rfl,
   process_client_rsp_replies nack_transport 1 3 servod_interfaces 4 servod_world_start
     "i,0x50,2\n".toList zero_locals (by decide) (by decide) rfl rfl
     (fun _ => ⟨by decide, fun _ => by decide, fun _ _ => ⟨rfl, rfl⟩⟩),
   by rfl,
   process_client_rsp_replies gpio_transport 1 3 servod_interfaces 4 servod_world_start
     "g,3,0xff,0xaa\n".toList zero_locals (by decide) (by decide) rfl rfl
     (fun h => absurd h (by decide)),
   by rfl, by rfl⟩

/-! ## The client connection -/

/-- The function `process_client` returns 1 when `read` delivered nothing or failed and 0
in every other case, whatever `write` returns for the reply. -/
theorem process_client_rv (tr : Transport) (FI2C_READ_ATTEMPTS FI2C_ACK_RETRY_MAX : Nat)
    (interfaces : List ftdi_itype) (int_cnt : Nat) (w : servod_world) (blen : Int)
    (buf : List Char) (l : client_locals) (bcnt : Int) :
    returns (process_client tr FI2C_READ_ATTEMPTS FI2C_ACK_RETRY_MAX interfaces int_cnt w
        blen buf l bcnt)
      (fun r => r.rv = if blen ≤ 0 then 1 else 0) := by
  unfold process_client
  by_cases hb : blen ≤ 0
  · simp only [hb, if_true]
    exact returns_ok _ rfl
  · simp only [hb, if_false]
    split
    · exact returns_error _
    · exact returns_ok _ rfl

/-- C34: a reply that cannot be written does not close the connection.  For the request
`g,1,0xff,0x01` the reply is `I:0x5a`, `A:`; when `write` fails (returns -1) or is short
(returns 3 of the 10 bytes) `process_client` logs the failure and returns 0, so `run_server`
keeps the client connected.  Only a `read` that returns 0 or -1 makes it return 1. -/
theorem process_client_write_failure_stays_connected :
    (process_client gpio_transport 1 3 servod_interfaces 4 servod_world_start 14
        "g,1,0xff,0x01\n".toList zero_locals (-1)).map
        (fun r => (r.rv, r.rsp, r.write_error_logged, run_server_client r.rv))
      = Except.ok (0, some "I:0x5a\nA:\n", true, connection.Connected) ∧
    (process_client gpio_transport 1 3 servod_interfaces 4 servod_world_start 14
        "g,1,0xff,0x01\n".toList zero_locals 3).map
        (fun r => (r.rv, r.rsp, r.write_error_logged, run_server_client r.rv))
      = Except.ok (0, some "I:0x5a\nA:\n", true, connection.Connected) ∧
    (process_client gpio_transport 1 3 servod_interfaces 4 servod_world_start 0
        [] zero_locals 0).map
        (fun r => (r.rv, r.rsp, r.write_error_logged, run_server_client r.rv))
      = Except.ok (1, none, false, connection.Closed) ∧
    (process_client gpio_transport 1 3 servod_interfaces 4 servod_world_start (-1)
        [] zero_locals 0).map
        (fun r => (r.rv, r.rsp, r.write_error_logged, run_server_client r.rv))
      = Except.ok (1, none, false, connection.Closed) := by
  refine ⟨?_, ?_, ?_, ?_⟩ <;> rfl

/-! ## UART pass-through -/

/-- The value `fuart_wr_rd_locked` returns is `FUART_ERR_NONE` or `FUART_ERR_RD`, whatever
the bulk write did; it is `FUART_ERR_RD` only when the bulk read returned a negative value
with `errno` other than `EBUSY`. -/
theorem fuart_wr_rd_locked_rv (tr : Transport) (trace : List FtdiCall) (env : fuart_env) :
    (fuart_wr_rd_locked tr trace env).1 = FUART_ERR_NONE ∨
    ((fuart_wr_rd_locked tr trace env).1 = FUART_ERR_RD ∧ env.errno ≠ EBUSY) := by
  simp only [fuart_wr_rd_locked]
  split_ifs with h1 h2
  · exact Or.inl rfl
  · exact Or.inr ⟨rfl, h2.2⟩
  · exact Or.inl rfl

/-- C35: the code `FUART_ERR_WR` is never returned.  When the pty delivers three bytes and
the bulk write takes none of them, `fuart_wr_rd` returns `FUART_ERR_NONE` after the bulk
write and the bulk read, and the loop of `_fuart_run` goes on: with two such passes it makes
both and is not left by `break`. -/
theorem fuart_wr_rd_short_write_lost :
    fuart_wr_rd uart_short_write_transport [] ⟨(3, [0x61, 0x62, 0x63]), 0, []⟩
      = (FUART_ERR_NONE,
         [FtdiCall.write_data [0x61, 0x62, 0x63], FtdiCall.read_data FUART_BUF_SIZE], 0) ∧
    _fuart_run uart_short_write_transport
        [⟨(3, [0x61, 0x62, 0x63]), 0, []⟩, ⟨(3, [0x64, 0x65, 0x66]), 0, []⟩] []
      = (2, false,
         [FtdiCall.write_data [0x61, 0x62, 0x63], FtdiCall.read_data FUART_BUF_SIZE,
          FtdiCall.write_data [0x64, 0x65, 0x66], FtdiCall.read_data FUART_BUF_SIZE]) := by
  constructor <;> rfl

/-! ## Shadow and physical write -/

/-- A request that is not rejected for its mask leaves the merged shadow behind, whatever
code is returned. -/
theorem fgpio_wr_rd_error_merged (tr : Transport) (trace : List FtdiCall) (fgc : fgpio_context)
    (ng : gpio_s) (rd_val : Option Nat) (itype : ftdi_interface_type)
    (h : (fgpio_wr_rd tr trace fgc (some ng) rd_val itype).rv ≠ FGPIO_ERR_MASK) :
    (fgpio_wr_rd tr trace fgc (some ng) rd_val itype).fgc.gpio
      = (fgpio_merge fgc.gpio ng).2.2 := by
  by_cases hm : (fgc.gpio.mask ||| ng.mask) = fgc.gpio.mask
  · rw [fgpio_wr_rd_fgc tr trace fgc ng rd_val itype hm]
  · exact absurd (by simp [fgpio_wr_rd, hm]) h

/-- C36: the shadow is updated before the physical write is issued.  On an FT4232H with
shadow value 0 and direction 0, the request value 1, direction 1, mask 1 on a UART channel
returns `FGPIO_ERR_NOIMP` without any transport call, and on a GPIO channel whose bulk
writes fail it returns `FGPIO_ERR_WR`; in both cases the shadow holds value 1 and
direction 1 afterwards.  The same request made again after the failed write finds nothing
to change, issues no write and returns 0. -/
theorem fgpio_wr_rd_error_updates_shadow :
    ((fgpio_wr_rd gpio_transport [] ⟨ftdi_chip_type.TYPE_4232H, ⟨0, 0, 0xff⟩, 0⟩
        (some ⟨1, 1, 1⟩) none ftdi_interface_type.UART).rv,
     (fgpio_wr_rd gpio_transport [] ⟨ftdi_chip_type.TYPE_4232H, ⟨0, 0, 0xff⟩, 0⟩
        (some ⟨1, 1, 1⟩) none ftdi_interface_type.UART).fgc.gpio,
     (fgpio_wr_rd gpio_transport [] ⟨ftdi_chip_type.TYPE_4232H, ⟨0, 0, 0xff⟩, 0⟩
        (some ⟨1, 1, 1⟩) none ftdi_interface_type.UART).trace)
      = (FGPIO_ERR_NOIMP, ⟨1, 1, 0xff⟩, []) ∧
    ((fgpio_wr_rd failed_write_transport [] ⟨ftdi_chip_type.TYPE_4232H, ⟨0, 0, 0xff⟩, 0⟩
        (some ⟨1, 1, 1⟩) none ftdi_interface_type.GPIO).rv,
     (fgpio_wr_rd failed_write_transport [] ⟨ftdi_chip_type.TYPE_4232H, ⟨0, 0, 0xff⟩, 0⟩
        (some ⟨1, 1, 1⟩) none ftdi_interface_type.GPIO).fgc.gpio)
      = (FGPIO_ERR_WR, ⟨1, 1, 0xff⟩) ∧
    ((fgpio_wr_rd failed_write_transport [] ⟨ftdi_chip_type.TYPE_4232H, ⟨1, 1, 0xff⟩, 0⟩
        (some ⟨1, 1, 1⟩) none ftdi_interface_type.GPIO).rv,
     (fgpio_wr_rd failed_write_transport [] ⟨ftdi_chip_type.TYPE_4232H, ⟨1, 1, 0xff⟩, 0⟩
        (some ⟨1, 1, 1⟩) none ftdi_interface_type.GPIO).trace)
      = (FGPIO_ERR_NONE, []) := by
  refine ⟨?_, ?_, ?_⟩ <;> rfl

/-! ## GPIO requests on an I2C channel -/

theorem testBit_7 (i : Nat) : (7 : Nat).testBit i = decide (i < 3) := by
  have h : (7 : Nat) = 2 ^ 3 - 1 := by norm_num
  rw [h, Nat.testBit_two_pow_sub_one]

theorem testBit_0xf8 (i : Nat) : (0xf8 : Nat).testBit i = decide (3 ≤ i ∧ i < 8) := by
  have h : (0xf8 : Nat) = 0xff ^^^ 7 := by decide
  rw [h, Nat.testBit_xor, testBit_0xff, testBit_7]
  by_cases h3 : i < 3 <;> by_cases h8 : i < 8 <;> simp [h3, h8] <;> omega

theorem and_7_eq_zero_iff (x : Nat) : x &&& 7 = 0 ↔ ∀ i, i < 3 → x.testBit i = false := by
  constructor
  · intro h i hi
    have e := congrArg (fun y => y.testBit i) h
    simpa [Nat.testBit_and, testBit_7, hi] using e
  · intro h
    apply Nat.eq_of_testBit_eq
    intro i
    simp only [Nat.testBit_and, testBit_7, Nat.zero_testBit]
    by_cases hi : i < 3
    · simp [h i hi]
    · simp [hi]

/-- Merging a request whose mask lies within `0xf8` into a byte with bits 0..2 clear gives
a byte with bits 0..2 clear. -/
theorem merge_low_clear (m d nd : Nat) (hm : (0xf8 ||| m) = 0xf8) (hd : d &&& 7 = 0) :
    ((m &&& nd) ||| ((0xff ^^^ m) &&& d)) &&& 7 = 0 := by
  rw [and_7_eq_zero_iff] at hd ⊢
  intro i hi
  have hmi : m.testBit i = false :=
    mask_subset_testBit 0xf8 m i hm (by rw [testBit_0xf8]; simp; omega)
  simp [Nat.testBit_or, Nat.testBit_and, hmi, hd i hi]

/-- Every call of `fgpio_wr_rd` keeps the shadow of an I2C channel in the form `i2c_shadow`. -/
theorem fgpio_wr_rd_i2c_shadow (tr : Transport) (trace : List FtdiCall) (fgc : fgpio_context)
    (new_gpio : Option gpio_s) (rd_val : Option Nat) (itype : ftdi_interface_type)
    (h : i2c_shadow fgc.gpio) :
    i2c_shadow (fgpio_wr_rd tr trace fgc new_gpio rd_val itype).fgc.gpio := by
  cases new_gpio with
  | none => simpa [fgpio_wr_rd] using h
  | some ng =>
    by_cases hm : (fgc.gpio.mask ||| ng.mask) = fgc.gpio.mask
    · rw [fgpio_wr_rd_fgc tr trace fgc ng rd_val itype hm]
      obtain ⟨h1, h2, h3, h4, h5⟩ := h
      have hle := mask_subset_le _ _ hm
      have hng : ng.mask < 256 := by rw [h1] at hle; omega
      have hm8 : (0xf8 ||| ng.mask) = 0xf8 := by rw [h1] at hm; exact hm
      refine ⟨?_, ?_, ?_, ?_, ?_⟩
      · show (fgpio_merge fgc.gpio ng).2.2.mask = 0xf8
        rw [fgpio_merge_mask, h1]
      · show (fgpio_merge fgc.gpio ng).2.2.value < 256
        rw [fgpio_merge_value _ _ hng h2]
        exact merge_lt _ _ _ hng h2
      · show (fgpio_merge fgc.gpio ng).2.2.direction < 256
        rw [fgpio_merge_direction _ _ hng h3]
        exact merge_lt _ _ _ hng h3
      · show (fgpio_merge fgc.gpio ng).2.2.value &&& 7 = 0
        rw [fgpio_merge_value _ _ hng h2]
        exact merge_low_clear _ _ _ hm8 h4
      · show (fgpio_merge fgc.gpio ng).2.2.direction &&& 7 = 0
        rw [fgpio_merge_direction _ _ hng h3]
        exact merge_low_clear _ _ _ hm8 h5
    · rw [fgpio_wr_rd_mask_unchanged tr trace fgc ng rd_val itype hm]
      exact h

theorem fgpio_wr_rd_seq_i2c_shadow (tr : Transport) :
    ∀ (reqs : List fgpio_request) (trace : List FtdiCall) (fgc : fgpio_context),
      i2c_shadow fgc.gpio → i2c_shadow (fgpio_wr_rd_seq tr reqs trace fgc).1.gpio := by
  intro reqs
  induction reqs with
  | nil => intro trace fgc h; exact h
  | cons q qs ih =>
    intro trace fgc h
    unfold fgpio_wr_rd_seq
    exact ih _ _ (fgpio_wr_rd_i2c_shadow tr trace fgc q.new_gpio q.rd_val q.itype h)

/-- A byte `val | shadow` of a set-low-bits command: with `val` within bits 0..2 and the
shadow within bits 3..7, the low three bits are those of `val` and the upper five those of
the shadow. -/
theorem cfg_byte (val g : Nat) (hval : val < 8) (hg : g < 256) (hlow : g &&& 7 = 0) :
    ((val ||| g) % 256) &&& 7 = val ∧ ((val ||| g) % 256) &&& 0xf8 = g := by
  have hv8 : val < 2 ^ 8 := by omega
  have hg8 : g < 2 ^ 8 := by simpa using hg
  have hlt : val ||| g < 256 := by simpa using Nat.or_lt_two_pow hv8 hg8
  rw [Nat.mod_eq_of_lt hlt]
  rw [and_7_eq_zero_iff] at hlow
  have hvhigh : ∀ i, 3 ≤ i → val.testBit i = false := by
    intro i hi
    apply Nat.testBit_lt_two_pow
    calc val < 2 ^ 3 := by simpa using hval
      _ ≤ 2 ^ i := Nat.pow_le_pow_right (by norm_num) hi
  constructor
  · apply Nat.eq_of_testBit_eq
    intro i
    simp only [Nat.testBit_and, Nat.testBit_or, testBit_7]
    by_cases hi : i < 3
    · simp [hi, hlow i hi]
    · simp [hi, hvhigh i (by omega)]
  · apply Nat.eq_of_testBit_eq
    intro i
    simp only [Nat.testBit_and, Nat.testBit_or, testBit_0xf8]
    by_cases hi : i < 3
    · simp [hlow i hi]
      omega
    · by_cases h8 : i < 8
      · simp [hvhigh i (by omega), h8]
        omega
      · simp [hvhigh i (by omega), testBit_byte_high g i hg (by omega)]

/-- C37: on a channel initialised by `fi2c_init` (mask `0xf8`, value 0, direction 0), after
any sequence of `fgpio_wr_rd` requests on its shadow the mask is still `0xf8` and bits 0..2
of the shadow value and direction are 0; so a command `FI2C_CFG_IO(val, dir)` with `val` and
`dir` within bits 0..2 stores `0x80` and two bytes whose low three bits are those of `val`
and `dir` and whose upper five bits are the shadow's. -/
theorem fgpio_wr_rd_seq_keeps_i2c_lines (tr : Transport) (reqs : List fgpio_request)
    (trace : List FtdiCall) (fc_type : ftdi_chip_type) (err : Int) (fic : fi2c_context)
    (val dir : Nat)
    (hg : fic.gpio = (fgpio_wr_rd_seq tr reqs trace ⟨fc_type, fi2c_init.gpio, err⟩).1.gpio)
    (hval : val < 8) (hdir : dir < 8) (hcap : fic.bufcnt + 3 ≤ fic.buf.length) :
    fic.gpio.mask = 0xf8 ∧ fic.gpio.value &&& 7 = 0 ∧ fic.gpio.direction &&& 7 = 0 ∧
    ∃ b1 b2, FI2C_CFG_IO fic val dir = Except.ok (fic.append_cmds [0x80, b1, b2]) ∧
      b1 &&& 7 = val ∧ b1 &&& 0xf8 = fic.gpio.value ∧
      b2 &&& 7 = dir ∧ b2 &&& 0xf8 = fic.gpio.direction := by
  have h0 : i2c_shadow fi2c_init.gpio := ⟨rfl, by decide, by decide, by decide, by decide⟩
  have hs := fgpio_wr_rd_seq_i2c_shadow tr reqs trace ⟨fc_type, fi2c_init.gpio, err⟩ h0
  rw [← hg] at hs
  obtain ⟨h1, h2, h3, h4, h5⟩ := hs
  refine ⟨h1, h4, h5, (val ||| fic.gpio.value) % 256, (dir ||| fic.gpio.direction) % 256,
    ?_, (cfg_byte val _ hval h2 h4).1, (cfg_byte val _ hval h2 h4).2,
    (cfg_byte dir _ hdir h3 h5).1, (cfg_byte dir _ hdir h3 h5).2⟩
  have e := FI2C_CFG_IO_append fic [] val dir (by simpa using hcap)
  rw [append_cmds_nil fic (by omega)] at e
  simpa using e

theorem fgpio_wr_rd_seq_keeps_i2c_lines_witness :
    ({ fi2c_init with gpio := ⟨0xf0, 0x50, 0xf8⟩ } : fi2c_context).gpio
      = (fgpio_wr_rd_seq gpio_transport [⟨some ⟨0xff, 0x57, 0xf0⟩, none, ftdi_interface_type.I2C⟩]
          [] ⟨ftdi_chip_type.TYPE_4232H, fi2c_init.gpio, 0⟩).1.gpio ∧
    (2 : Nat) < 8 ∧ (3 : Nat) < 8 ∧
    ∃ b1 b2, FI2C_CFG_IO { fi2c_init with gpio := ⟨0xf0, 0x50, 0xf8⟩ } 2 3
        = Except.ok (({ fi2c_init with gpio := ⟨0xf0, 0x50, 0xf8⟩ } : fi2c_context).append_cmds
            [0x80, b1, b2]) ∧
      b1 &&& 7 = 2 ∧ b1 &&& 0xf8 = 0xf0 ∧ b2 &&& 7 = 3 ∧ b2 &&& 0xf8 = 0x50 :=
  ⟨by decide, by decide, by decide,
   (fgpio_wr_rd_seq_keeps_i2c_lines gpio_transport
      [⟨some ⟨0xff, 0x57, 0xf0⟩, none, ftdi_interface_type.I2C⟩] []
      ftdi_chip_type.TYPE_4232H 0 { fi2c_init with gpio := ⟨0xf0, 0x50, 0xf8⟩ } 2 3
      (by decide) (by decide) (by decide) (by decide)).2.2.2⟩

/-! ## A stored error and the next transaction -/

/-- On a channel with a stored error a call of `fi2c_wr_rd` that has nothing to write makes
no transport call, leaves the state as it is and returns 1, whatever is to be read. -/
theorem fi2c_wr_rd_read_only_stale (tr : Transport)
    (FI2C_READ_ATTEMPTS FI2C_ACK_RETRY_MAX : Nat) (tot_retry_count : Nat) (w : fi2c_world)
    (wbuf : Option (List Nat)) (rcnt : Nat) (herr : w.fic.error ≠ 0) :
    fi2c_wr_rd tr FI2C_READ_ATTEMPTS FI2C_ACK_RETRY_MAX tot_retry_count w wbuf 0 rcnt
      = Except.ok ⟨1, w, 0, tot_retry_count⟩ := by
  have hwr : ∀ err, fi2c_wr_phase tr FI2C_READ_ATTEMPTS wbuf 0 w err
      = Except.ok (fi2c_attempt.done w err) := by
    intro err
    cases wbuf <;> simp [fi2c_wr_phase]
  have hrd : ∀ err, fi2c_rd_phase tr FI2C_READ_ATTEMPTS rcnt w err
      = Except.ok (fi2c_attempt.done w err) := by
    intro err
    unfold fi2c_rd_phase
    cases w.rbuf <;> simp [herr]
  cases FI2C_ACK_RETRY_MAX with
  | zero => simp [fi2c_wr_rd, fi2c_wr_rd_loop, bind, Except.bind, pure, Except.pure, herr]
  | succ n =>
    simp [fi2c_wr_rd, fi2c_wr_rd_loop, fi2c_wr_rd_attempt, hwr, hrd, bind, Except.bind,
      pure, Except.pure, herr]

/-- C38: the stored error of a failed transaction decides what the next one does.  After a
two-byte read from a device that delivers no payload has exhausted its three attempts
(16 transport calls), the same read from a device that acknowledges and delivers makes no
transport call at all, stores nothing in `rbuf` and returns 1; from the state that differs
only in the stored error (0 instead of `FI2C_ERR_READ`) it sends the start and the address,
reads the two bytes and returns 0. -/
theorem fi2c_wr_rd_depends_on_stored_error :
    ((fi2c_wr_rd short_read_transport 1 3 0 ⟨fi2c_init, [], some [0, 0]⟩ none 0 2).bind
        (fun r => fi2c_wr_rd ack_transport 1 3 r.tot_retry_count r.w none 0 2)).map
        (fun r => (r.rv, r.w.trace.length, r.w.rbuf))
      = Except.ok (1, 16, some [0, 0]) ∧
    ((fi2c_wr_rd short_read_transport 1 3 0 ⟨fi2c_init, [], some [0, 0]⟩ none 0 2).bind
        (fun r => fi2c_wr_rd ack_transport 1 3 r.tot_retry_count
          { r.w with fic := { r.w.fic with error := 0 } } none 0 2)).map
        (fun r => (r.rv, r.w.trace.length, r.w.rbuf))
      = Except.ok (0, 20, some [0xa5, 0xa5]) := by
  constructor <;> rfl

/-! ## Interface number 0 -/

/-- For interface number 0 the test `interface_num > cnt` is false and the index
`interface_num-1` wraps to `2^32 - 1`: with the type `ANY` the address of that element is
returned without a read, with any other type the element is read, outside every registry
of fewer than `2^32` entries. -/
theorem fcom_lookup_interface_zero (interfaces : List ftdi_itype) (cnt : Nat)
    (itype : ftdi_interface_type) (hlen : interfaces.length ≤ 4294967295) :
    fcom_lookup_interface interfaces cnt 0 itype
      = if itype = ftdi_interface_type.ANY then Except.ok ⟨some 4294967295, []⟩
        else Except.error Fault.out_of_bounds := by
  have hn : interfaces[4294967295]? = none := List.getElem?_eq_none hlen
  by_cases ht : itype = ftdi_interface_type.ANY
  · simp [fcom_lookup_interface, ht]
  · simp [fcom_lookup_interface, ht, hn]

/-- C39: for interface number 0 the lookup does not return no-match.  In the registry of
the server (four entries) the lookup of interface 0 with the type `GPIO` reads the element
at index `2^32 - 1`, outside the registry, and with the type `ANY` it returns the address
of that element. -/
theorem fcom_lookup_interface_zero_out_of_range :
    fcom_lookup_interface servod_interfaces 4 0 ftdi_interface_type.GPIO
      = Except.error Fault.out_of_bounds ∧
    fcom_lookup_interface servod_interfaces 4 0 ftdi_interface_type.ANY
      = Except.ok ⟨some 4294967295, []⟩ := by
  constructor <;> rfl

/-! ## Array bounds of the I2C requests -/

/-- With more fields than `argv` has room for, the loop of `parse_buffer_i2c` stores behind
the end of the array. -/
theorem parse_i2c_loop_overflow : ∀ (fields : List (List Char)) (argcnt : Nat)
    (argv : List Nat), argv.length < argcnt + fields.length → argcnt ≤ argv.length →
    parse_i2c_loop fields argcnt argv = Except.error Fault.out_of_bounds := by
  intro fields
  induction fields with
  | nil =>
    intro argcnt argv h1 h2
    simp at h1
    omega
  | cons f fs ih =>
    intro argcnt argv h1 h2
    unfold parse_i2c_loop
    by_cases hc : argcnt < argv.length
    · simp only [hc, if_true]
      apply ih
      · simp only [List.length_set, List.length_cons] at h1 ⊢
        omega
      · simp only [List.length_set]
        omega
    · simp only [hc, if_false]

/-- C40: the stores into `args` and the read count are not bounded.  A request text of 258
bytes with 129 fields makes `parse_buffer_i2c` store behind the end of the 128-byte array `args`;
the request `0x50,200` is accepted and gives `rcnt = 200` for the 128-byte array `rbuf`, and
serving it with a device that acknowledges ends in a store outside an array. -/
theorem process_client_i2c_out_of_bounds :
    ((List.replicate 128 "1,".toList).flatten ++ "1\n".toList).length = 258 ∧
    parse_buffer_i2c ((List.replicate 128 "1,".toList).flatten ++ "1\n".toList) 0
        (List.replicate 128 0) = Except.error Fault.out_of_bounds ∧
    ((parse_buffer_i2c "0x50,200\n".toList 0 (List.replicate 128 0)).bind
        (fun p => process_client_i2c_args p.argc p.argv)).map (fun q => (q.slv, q.wcnt, q.rcnt))
      = Except.ok (0x50, 0, 200) ∧
    (process_client_rsp ack_transport 1 3 servod_interfaces 4 servod_world_start
        "i,0x50,200\n".toList zero_locals).map (fun r => r.1)
      = Except.error Fault.out_of_bounds := by
  refine ⟨?_, ?_, ?_, ?_⟩ <;> rfl

end Servo
